import Mathlib

/-!
# Instance poller (worker/instancepoller/worker.go)

A shallow embedding of the instance-poller worker and a verification of its
scheduling invariants and group-transition rules.

Modelling conventions
* `*pollGroupEntry` pointers are indices into an explicit heap (`updaterWorker.heap`);
  the three Go maps hold such pointers, so aliasing between the poll groups and the
  reverse index is kept.  A map is an association list with unique keys; `range`
  visits it in list order, and since Go picks that order at every `range`, the poll
  groups may be listed in any order before each event (`Reachable.reorder`).
* Every call on a collaborator (clock, facade, machine handle, environ, instance) is
  appended to `State.trace`; what the collaborator answers is an arbitrary function of
  the calls made so far (`Collaborators`), so stateful collaborators are covered.
* A handler yields `Outcome.ok`, `Outcome.error` (the Go `error` return, with the state
  reached) or `Outcome.panic` (nil dereference / index out of range).
* `time.Duration` is an `Int` number of nanoseconds; `time.Time` is an `Int` instant,
  `Time.Add` is addition.  Logger calls are not modelled.
-/

namespace instancepoller

/-! ## Plain data -/

abbrev MachineTag := String
abbrev InstanceId := String
/-- Value of the `Machine` interface held by an entry. -/
abbrev Handle := Nat
/-- Non-nil value of the `instances.Instance` interface. -/
abbrev InstHandle := Nat
/-- Address of a heap-allocated `pollGroupEntry`. -/
abbrev Ptr := Nat
abbrev Duration := Int
abbrev Time := Int

/-- Modelled from the spec: the status vocabulary of `core/status` that the worker
examines; every other code is `other`. -/
inductive Status where
  | Allocating
  | Pending
  | Running
  | Started
  | Unknown
  | other (code : String)
deriving DecidableEq, Repr

/-- Modelled from the spec: `params.Life`. -/
inductive Life where
  | Alive
  | Dying
  | Dead
deriving DecidableEq, Repr

/-- Modelled from the spec: the two fields of `params.StatusResult` the worker reads. -/
structure StatusResult where
  Status : Status
  Info : String
deriving DecidableEq, Repr

/-- Modelled from the spec: `instance.Status`, a status code and a message. -/
structure InstanceStatus where
  Status : Status
  Message : String
deriving DecidableEq, Repr

/-- Modelled from the spec: the attribute tuple of `network.ProviderAddress`; Go
compares two of them with `==` on the whole tuple. -/
structure ProviderAddress where
  Value : String
  AddrType : String
  Scope : String
  SpaceName : String
  ProviderSpaceID : String
deriving DecidableEq, Repr

/-- Error values as far as the worker tells them apart: `errors.NotValidf`,
`params.IsCodeNotProvisioned`, the sentinel `environs.ErrPartialInstances`, anything
else.  `errors.Trace` and `errors.Annotate` keep the cause and are the identity here. -/
inductive Error where
  | NotValid (what : String)
  | NotProvisioned
  | ErrPartialInstances
  | other (msg : String)
deriving DecidableEq, Repr

/-! ## Polling constants and the `float64` product of `bumpShortPollInterval` -/

/-- The package variables `ShortPoll`, `ShortPollBackoff`, `LongPoll`.
`ShortPollBackoff` is a finite `float64`, given as `backoffMant * 2 ^ backoffExp`.
`convOutOfRange` is what the platform yields for `time.Duration(f)` when the truncated
`f` is no `int64` (implementation-dependent in Go). -/
structure PollConsts where
  ShortPoll : Duration
  LongPoll : Duration
  backoffMant : Int
  backoffExp : Int
  convOutOfRange : Int → Int

/-- The value of `ShortPollBackoff` as a rational number. -/
def PollConsts.ShortPollBackoff (k : PollConsts) : ℚ :=
  (k.backoffMant : ℚ) * (2 : ℚ) ^ k.backoffExp

/-- Number of low bits of `n` that a 53-bit significand cannot hold; the first argument
bounds the number of halvings and `n` itself is always enough. -/
def excessBits : Nat → Nat → Nat
  | 0, _ => 0
  | fuel + 1, n => if n < 2 ^ 53 then 0 else excessBits fuel (n / 2) + 1

/-- Nearest `float64` to a natural number: 53 significant bits, ties to even. -/
def roundFloat64 (n : Nat) : Nat :=
  let drop := excessBits n n
  if drop = 0 then n
  else
    let q := n / 2 ^ drop
    let r := n % 2 ^ drop
    let half := 2 ^ (drop - 1)
    if r < half then q * 2 ^ drop
    else if r = half ∧ q % 2 = 0 then q * 2 ^ drop
    else (q + 1) * 2 ^ drop

/-- Magnitude of `float64(d) * ShortPollBackoff` truncated toward zero: both the
conversion of `d` and the product are rounded to `float64`. -/
def scaledMagnitude (k : PollConsts) (d : Duration) : Nat :=
  let r := roundFloat64 (roundFloat64 d.natAbs * k.backoffMant.natAbs)
  if 0 ≤ k.backoffExp then r * 2 ^ k.backoffExp.toNat
  else r / 2 ^ (-k.backoffExp).toNat

/-- The Go expression `time.Duration(float64(d) * ShortPollBackoff)`. -/
def scaleDuration (k : PollConsts) (d : Duration) : Duration :=
  let v : Int :=
    if (decide (d < 0)) = (decide (k.backoffMant < 0)) then (scaledMagnitude k d : Int)
    else -(scaledMagnitude k d : Int)
  if -(2 : Int) ^ 63 ≤ v ∧ v < (2 : Int) ^ 63 then v else k.convOutOfRange v

/-- The values the package variables are initialised with: 1 s, 2.0, 15 min; the
out-of-range conversion is that of amd64. -/
def defaultConsts : PollConsts where
  ShortPoll := 1000000000
  LongPoll := 900000000000
  backoffMant := 1
  backoffExp := 1
  convOutOfRange := fun _ => -(2 : Int) ^ 63

/-! ## Entries -/

inductive pollGroupType where
  | shortPollGroup
  | longPollGroup
deriving DecidableEq, Repr

structure pollGroupEntry where
  m : Handle
  tag : MachineTag
  instanceID : InstanceId
  shortPollInterval : Duration
  shortPollAt : Time
deriving DecidableEq, Repr

/-- Field updates of `resetShortPollInterval`, `now` being the value of `clk.Now()`. -/
def pollGroupEntry.resetShortPollInterval (k : PollConsts) (now : Time)
    (e : pollGroupEntry) : pollGroupEntry :=
  { e with shortPollInterval := k.ShortPoll, shortPollAt := now + k.ShortPoll }

/-- Field updates of `bumpShortPollInterval`, `now` being the value of `clk.Now()`. -/
def pollGroupEntry.bumpShortPollInterval (k : PollConsts) (now : Time)
    (e : pollGroupEntry) : pollGroupEntry :=
  let d := scaleDuration k e.shortPollInterval
  let d := if d > k.LongPoll then k.LongPoll else d
  { e with shortPollInterval := d, shortPollAt := now + d }

/-! ## Collaborators -/

/-- A call made by the worker on one of its collaborators. -/
inductive Call where
  | clockNow
  | facadeMachine (tag : MachineTag)
  | refresh (m : Handle)
  | life (m : Handle)
  | isManual (m : Handle)
  | instanceId (m : Handle)
  | instanceStatus (m : Handle)
  | setInstanceStatus (m : Handle) (st : Status) (info : String)
  | providerAddresses (m : Handle)
  | setProviderAddresses (m : Handle) (addrs : List ProviderAddress)
  | status (m : Handle)
  | environInstances (ids : List InstanceId)
  | instStatus (i : InstHandle)
  | instAddresses (i : InstHandle)
deriving DecidableEq, Repr

/-- Behaviour of the collaborators of `Config` (`Clock`, `Facade`, `Environ`) and of the
`Machine` and `instances.Instance` values they hand out.  The first argument of every
field is the list of calls made before this one, oldest first.  A fallible getter
yields its value or its error; `Environ.Instances` yields its slice together with its
error, a nil slot being `none`.  `Machine.ProviderAddresses` returns a list together
with its error as well: `providerAddresses` is the list, or the error when there is
one, and `providerAddressesOnError` is the list that comes with an error. -/
structure Collaborators where
  clockNow : List Call → Time
  facadeMachine : List Call → MachineTag → Except Error Handle
  refresh : List Call → Handle → Option Error
  life : List Call → Handle → Life
  isManual : List Call → Handle → Except Error Bool
  instanceId : List Call → Handle → Except Error InstanceId
  instanceStatus : List Call → Handle → Except Error StatusResult
  setInstanceStatus : List Call → Handle → Status → String → Option Error
  providerAddresses : List Call → Handle → Except Error (List ProviderAddress)
  providerAddressesOnError : List Call → Handle → List ProviderAddress
  setProviderAddresses : List Call → Handle → List ProviderAddress → Option Error
  status : List Call → Handle → Except Error StatusResult
  environInstances : List Call → List InstanceId → List (Option InstHandle) × Option Error
  instStatus : List Call → InstHandle → InstanceStatus
  instAddresses : List Call → InstHandle → Except Error (List ProviderAddress)

/-! ## Worker state -/

/-- Lookup in a Go map held as an association list. -/
def mapLookup {κ : Type} [DecidableEq κ] : List (κ × Ptr) → κ → Option Ptr
  | [], _ => none
  | (k0, v) :: rest, k => if k0 = k then some v else mapLookup rest k

/-- The Go builtin `delete(m, k)`. -/
def mapDelete {κ : Type} [DecidableEq κ] (m : List (κ × Ptr)) (k : κ) : List (κ × Ptr) :=
  m.filter (fun kv => decide (kv.1 ≠ k))

/-- The Go assignment `m[k] = v`. -/
def mapInsert {κ : Type} [DecidableEq κ] (m : List (κ × Ptr)) (k : κ) (v : Ptr) :
    List (κ × Ptr) :=
  (k, v) :: mapDelete m k

/-- The keys of a map. -/
def mapKeys {κ : Type} (m : List (κ × Ptr)) : List κ :=
  m.map Prod.fst

/-- The fields of `updaterWorker` that make up the scheduling state: the heap of
entries, `pollGroup[shortPollGroup]`, `pollGroup[longPollGroup]` and
`instanceIDToGroupEntry`. -/
structure updaterWorker where
  heap : List pollGroupEntry
  shortGroup : List (MachineTag × Ptr)
  longGroup : List (MachineTag × Ptr)
  instanceIDToGroupEntry : List (InstanceId × Ptr)
deriving DecidableEq, Repr

/-- The expression `u.pollGroup[groupType]`. -/
def updaterWorker.pollGroup (u : updaterWorker) : pollGroupType → List (MachineTag × Ptr)
  | .shortPollGroup => u.shortGroup
  | .longPollGroup => u.longGroup

/-- The statement `delete(u.pollGroup[g], tag)`. -/
def updaterWorker.deleteFromGroup (u : updaterWorker) (g : pollGroupType)
    (tag : MachineTag) : updaterWorker :=
  match g with
  | .shortPollGroup => { u with shortGroup := mapDelete u.shortGroup tag }
  | .longPollGroup => { u with longGroup := mapDelete u.longGroup tag }

/-- The statement `u.pollGroup[g][tag] = entry`. -/
def updaterWorker.insertIntoGroup (u : updaterWorker) (g : pollGroupType)
    (tag : MachineTag) (p : Ptr) : updaterWorker :=
  match g with
  | .shortPollGroup => { u with shortGroup := mapInsert u.shortGroup tag p }
  | .longPollGroup => { u with longGroup := mapInsert u.longGroup tag p }

/-- The statement `delete(u.instanceIDToGroupEntry, id)`. -/
def updaterWorker.deleteInstanceID (u : updaterWorker) (id : InstanceId) : updaterWorker :=
  { u with instanceIDToGroupEntry := mapDelete u.instanceIDToGroupEntry id }

/-- The statement `u.instanceIDToGroupEntry[id] = entry`. -/
def updaterWorker.insertInstanceID (u : updaterWorker) (id : InstanceId) (p : Ptr) :
    updaterWorker :=
  { u with instanceIDToGroupEntry := mapInsert u.instanceIDToGroupEntry id p }

/-- The worker with its two poll groups listed in another order. -/
def updaterWorker.reorder (u : updaterWorker) (short long : List (MachineTag × Ptr)) :
    updaterWorker :=
  { u with shortGroup := short, longGroup := long }

/-- The state of a run: the worker and the calls made so far. -/
structure State where
  u : updaterWorker
  trace : List Call
deriving DecidableEq, Repr

/-- The worker as `NewWorker` builds it: three empty maps. -/
def State.init : State where
  u := { heap := [], shortGroup := [], longGroup := [], instanceIDToGroupEntry := [] }
  trace := []

/-- How a handler ends. -/
inductive Outcome (α : Type) where
  | ok (a : α) (s : State)
  | error (e : Error) (s : State)
  | panic
deriving DecidableEq, Repr

/-- A handler: a function of the state. -/
def M (α : Type) : Type := State → Outcome α

/-- Sequencing; an error or a panic ends the handler. -/
def M.bind {α β : Type} (x : M α) (f : α → M β) : M β := fun s =>
  match x s with
  | .ok a s1 => f a s1
  | .error e s1 => .error e s1
  | .panic => .panic

instance : Monad M where
  pure a := fun s => .ok a s
  bind := M.bind

/-- Read the worker. -/
def getU : M updaterWorker := fun s => .ok s.u s

/-- Update the worker. -/
def modifyU (f : updaterWorker → updaterWorker) : M Unit := fun s =>
  .ok () { s with u := f s.u }

/-- The Go statement `return err`. -/
def throwErr {α : Type} (e : Error) : M α := fun s => .error e s

/-- A run-time panic. -/
def panicNow {α : Type} : M α := fun _ => .panic

/-- Call a collaborator: the call is recorded and answered from the calls so far. -/
def invoke {ρ : Type} (ev : Call) (answer : List Call → ρ) : M ρ := fun s =>
  .ok (answer s.trace) { s with trace := s.trace ++ [ev] }

/-- Call a collaborator and return its error to the caller of the handler. -/
def invokeOrReturn {ρ : Type} (ev : Call) (answer : List Call → Except Error ρ) : M ρ :=
  fun s =>
    match answer s.trace with
    | .ok a => .ok a { s with trace := s.trace ++ [ev] }
    | .error e => .error e { s with trace := s.trace ++ [ev] }

/-- Call a collaborator whose only result is an error, returned to the caller. -/
def invokeCheck (ev : Call) (answer : List Call → Option Error) : M Unit := fun s =>
  match answer s.trace with
  | none => .ok () { s with trace := s.trace ++ [ev] }
  | some e => .error e { s with trace := s.trace ++ [ev] }

/-- Dereference an entry pointer; a pointer that addresses no entry panics. -/
def deref (p : Ptr) : M pollGroupEntry := fun s =>
  match s.u.heap[p]? with
  | some e => .ok e s
  | none => .panic

/-- Write through an entry pointer. -/
def store (p : Ptr) (e : pollGroupEntry) : M Unit :=
  modifyU (fun u => { u with heap := u.heap.set p e })

/-! ## The worker's methods -/

def resetShortPollInterval (c : Collaborators) (k : PollConsts) (p : Ptr) : M Unit := do
  let e ← deref p
  let now ← invoke Call.clockNow c.clockNow
  store p (e.resetShortPollInterval k now)

def bumpShortPollInterval (c : Collaborators) (k : PollConsts) (p : Ptr) : M Unit := do
  let e ← deref p
  let now ← invoke Call.clockNow c.clockNow
  store p (e.bumpShortPollInterval k now)

/-- The array `u.pollGroup` is visited short group first; `none` is the Go result
`(nil, invalidPollGroup)`. -/
def lookupPolledMachine (u : updaterWorker) (tag : MachineTag) :
    Option (Ptr × pollGroupType) :=
  match mapLookup u.shortGroup tag with
  | some p => some (p, pollGroupType.shortPollGroup)
  | none =>
    match mapLookup u.longGroup tag with
    | some p => some (p, pollGroupType.longPollGroup)
    | none => none

def appendToShortPollGroup (c : Collaborators) (k : PollConsts) (tag : MachineTag)
    (m : Handle) : M Unit := do
  let u ← getU
  let p : Ptr := u.heap.length
  modifyU (fun u => { u with heap := u.heap ++
    [{ m := m, tag := tag, instanceID := "", shortPollInterval := 0, shortPollAt := 0 }] })
  resetShortPollInterval c k p
  modifyU (fun u => u.insertIntoGroup pollGroupType.shortPollGroup tag p)

def queueMachineForPolling (c : Collaborators) (k : PollConsts) (tag : MachineTag) :
    M Unit := do
  let u ← getU
  match lookupPolledMachine u tag with
  | some (p, groupType) =>
    let entry ← deref p
    invokeCheck (Call.refresh entry.m) (fun tr => c.refresh tr entry.m)
    let life ← invoke (Call.life entry.m) (fun tr => c.life tr entry.m)
    if life = Life.Dead then
      modifyU (fun u => u.deleteFromGroup groupType tag)
      modifyU (fun u => u.deleteInstanceID entry.instanceID)
    else
      resetShortPollInterval c k p
      if groupType = pollGroupType.longPollGroup then
        modifyU (fun u => u.deleteFromGroup pollGroupType.longPollGroup tag)
        modifyU (fun u => u.insertIntoGroup pollGroupType.shortPollGroup tag p)
      else
        pure ()
  | none =>
    let m ← invokeOrReturn (Call.facadeMachine tag) (fun tr => c.facadeMachine tr tag)
    let isManual ← invokeOrReturn (Call.isManual m) (fun tr => c.isManual tr m)
    if isManual then
      let machineStatus ← invokeOrReturn (Call.instanceStatus m)
        (fun tr => c.instanceStatus tr m)
      if machineStatus.Status ≠ Status.Running then
        invokeCheck (Call.setInstanceStatus m Status.Running "Manually provisioned machine")
          (fun tr => c.setInstanceStatus tr m Status.Running "Manually provisioned machine")
      else
        pure ()
    else
      appendToShortPollGroup c k tag m

/-- The result is the Go `error` return value; it is inspected by the caller. -/
def resolveInstanceID (c : Collaborators) (p : Ptr) : M (Option Error) := do
  let entry ← deref p
  if entry.instanceID ≠ "" then
    pure none
  else
    let r ← invoke (Call.instanceId entry.m) (fun tr => c.instanceId tr entry.m)
    match r with
    | .error err => pure (some err)
    | .ok instID =>
      store p { entry with instanceID := instID }
      modifyU (fun u => u.insertInstanceID instID p)
      pure none

/-- The Go function `addressesEqual`. -/
def addressesEqual (addrs0 addrs1 : List ProviderAddress) : Bool :=
  if addrs0.length ≠ addrs1.length then false
  else addrs0.all (fun a0 => addrs1.any (fun a1 => decide (a0 = a1)))

def processProviderInfo (c : Collaborators) (k : PollConsts) (p : Ptr) (info : InstHandle) :
    M Status := do
  let entry ← deref p
  let r ← invoke (Call.instanceStatus entry.m) (fun tr => c.instanceStatus tr entry.m)
  match r with
  | .error _ => pure Status.Unknown
  | .ok curStatus =>
    let providerStatus ← invoke (Call.instStatus info) (fun tr => c.instStatus tr info)
    let curInstStatus : InstanceStatus :=
      { Status := curStatus.Status, Message := curStatus.Info }
    (if providerStatus ≠ curInstStatus then do
        invokeCheck
          (Call.setInstanceStatus entry.m providerStatus.Status providerStatus.Message)
          (fun tr => c.setInstanceStatus tr entry.m providerStatus.Status
            providerStatus.Message)
        if providerStatus.Status = Status.Running then
          resetShortPollInterval c k p
        else
          pure ()
      else
        pure () : M Unit)
    let life ← invoke (Call.life entry.m) (fun tr => c.life tr entry.m)
    if life = Life.Dead then
      pure Status.Unknown
    else
      let curAddresses ← invokeOrReturn (Call.providerAddresses entry.m)
        (fun tr => c.providerAddresses tr entry.m)
      let providerAddresses ← invokeOrReturn (Call.instAddresses info)
        (fun tr => c.instAddresses tr info)
      (if addressesEqual curAddresses providerAddresses = false then
          invokeCheck (Call.setProviderAddresses entry.m providerAddresses)
            (fun tr => c.setProviderAddresses tr entry.m providerAddresses)
        else
          pure () : M Unit)
      pure providerStatus.Status

/-- The list kept by `machAddrs, _ := entry.m.ProviderAddresses()`: the error is
discarded, and the list is the one the call returns, with or without an error. -/
def Collaborators.addressesReturned (c : Collaborators) (tr : List Call) (m : Handle) :
    List ProviderAddress :=
  match c.providerAddresses tr m with
  | .ok addrs => addrs
  | .error _ => c.providerAddressesOnError tr m

def maybeSwitchPollGroup (c : Collaborators) (k : PollConsts) (curGroup : pollGroupType)
    (p : Ptr) (curProviderStatus curMachineStatus : Status) : M Unit := do
  if curProviderStatus = Status.Allocating ∨ curProviderStatus = Status.Pending then
    bumpShortPollInterval c k p
  else
    let entry ← deref p
    let machAddrs ← invoke (Call.providerAddresses entry.m)
      (fun tr => c.addressesReturned tr entry.m)
    if curGroup = pollGroupType.longPollGroup ∧
        (curProviderStatus = Status.Unknown ∨ machAddrs.length = 0) then
      modifyU (fun u => u.deleteFromGroup pollGroupType.longPollGroup entry.tag)
      modifyU (fun u => u.insertIntoGroup pollGroupType.shortPollGroup entry.tag p)
      resetShortPollInterval c k p
    else if machAddrs.length > 0 ∧ curMachineStatus = Status.Started then
      if curGroup = pollGroupType.longPollGroup then
        pure ()
      else
        modifyU (fun u => u.deleteFromGroup pollGroupType.shortPollGroup entry.tag)
        modifyU (fun u => u.insertIntoGroup pollGroupType.longPollGroup entry.tag p)
    else if curGroup = pollGroupType.shortPollGroup then
      bumpShortPollInterval c k p
    else
      pure ()

/-- First loop of `pollGroupMembers`: the members still to visit, and `instList`. -/
def collectInstanceIDs (c : Collaborators) (k : PollConsts) (groupType : pollGroupType)
    (now : Time) : List (MachineTag × Ptr) → List InstanceId → M (List InstanceId)
  | [], instList => pure instList
  | (_, p) :: rest, instList => do
    let entry ← deref p
    if groupType = pollGroupType.shortPollGroup ∧ now < entry.shortPollAt then
      collectInstanceIDs c k groupType now rest instList
    else
      let err ← resolveInstanceID c p
      match err with
      | some e =>
        if e = Error.NotProvisioned then
          bumpShortPollInterval c k p
          collectInstanceIDs c k groupType now rest instList
        else
          throwErr e
      | none =>
        let entry ← deref p
        collectInstanceIDs c k groupType now rest (instList ++ [entry.instanceID])

/-- Second loop of `pollGroupMembers`, from slot `idx` on.  `instList[idx]` is evaluated
for a nil slot too (for the warning), and panics when out of range; an id that the
reverse index does not hold gives a nil entry, dereferenced by `processProviderInfo`. -/
def processInfoList (c : Collaborators) (k : PollConsts) (groupType : pollGroupType)
    (instList : List InstanceId) : Nat → List (Option InstHandle) → M Unit
  | _, [] => pure ()
  | idx, slot :: rest => do
    match instList[idx]? with
    | none => panicNow
    | some instID =>
      match slot with
      | none => processInfoList c k groupType instList (idx + 1) rest
      | some info =>
        let u ← getU
        match mapLookup u.instanceIDToGroupEntry instID with
        | none => panicNow
        | some p =>
          let providerStatus ← processProviderInfo c k p info
          let entry ← deref p
          let machineStatus ← invokeOrReturn (Call.status entry.m)
            (fun tr => c.status tr entry.m)
          maybeSwitchPollGroup c k groupType p providerStatus machineStatus.Status
          processInfoList c k groupType instList (idx + 1) rest

def pollGroupMembers (c : Collaborators) (k : PollConsts) (groupType : pollGroupType) :
    M Unit := do
  let now ← invoke Call.clockNow c.clockNow
  let u ← getU
  let instList ← collectInstanceIDs c k groupType now (u.pollGroup groupType) []
  if instList.length = 0 then
    pure ()
  else
    let res ← invoke (Call.environInstances instList)
      (fun tr => c.environInstances tr instList)
    match res.2 with
    | some e =>
      if e ≠ Error.ErrPartialInstances then
        throwErr e
      else
        processInfoList c k groupType instList 0 res.1
    | none => processInfoList c k groupType instList 0 res.1

/-! ## Specification vocabulary -/

/-- The states the loop can be in between two events: the state `NewWorker` builds,
followed by any number of handled events that returned no error.  The order in which
`range` visits a Go map is picked at every loop; the handlers visit a poll group in
list order, and `reorder` lists the poll groups in any other order before an event. -/
inductive Reachable (c : Collaborators) (k : PollConsts) : State → Prop where
  | init : Reachable c k State.init
  | queue (s s1 : State) (tag : MachineTag) :
      Reachable c k s → queueMachineForPolling c k tag s = Outcome.ok () s1 →
      Reachable c k s1
  | poll (s s1 : State) (g : pollGroupType) :
      Reachable c k s → pollGroupMembers c k g s = Outcome.ok () s1 →
      Reachable c k s1
  | reorder (s : State) (short long : List (MachineTag × Ptr)) :
      Reachable c k s → short.Perm s.u.shortGroup → long.Perm s.u.longGroup →
      Reachable c k { u := s.u.reorder short long, trace := s.trace }

/-- Partial correctness: from a state satisfying `P`, if the handler returns normally
then `Q` holds of its result and final state. -/
def Triple {α : Type} (P : State → Prop) (x : M α) (Q : α → State → Prop) : Prop :=
  ∀ s, P s →
    match x s with
    | .ok a s1 => Q a s1
    | .error _ _ => True
    | .panic => True

/-- No machine tag is a key of both poll groups. -/
def GroupsExclusive (u : updaterWorker) : Prop :=
  ∀ tag : MachineTag, ¬ (tag ∈ mapKeys u.shortGroup ∧ tag ∈ mapKeys u.longGroup)

/-- The two poll groups are the maps `a` and `b`. -/
def SameGroups (a b : List (MachineTag × Ptr)) (s : State) : Prop :=
  s.u.shortGroup = a ∧ s.u.longGroup = b

/-- The entry that `appendToShortPollGroup` stores for `tag` and `m` when the clock
reads `now`: the composite literal `&pollGroupEntry{tag: tag, m: m}` after
`resetShortPollInterval`. -/
def freshEntry (k : PollConsts) (tag : MachineTag) (m : Handle) (now : Time) : pollGroupEntry :=
  pollGroupEntry.resetShortPollInterval k now
    { m := m, tag := tag, instanceID := "", shortPollInterval := 0, shortPollAt := 0 }

/-- The reverse index is the map `i`. -/
def SameIndex (i : List (InstanceId × Ptr)) (s : State) : Prop :=
  s.u.instanceIDToGroupEntry = i

/-- One mutation of the worker state, with what the code has established when it makes
it.  Every handler that returns normally is a sequence of these
(`queueMachineForPolling_steps`, `pollGroupMembers_steps`), so a property kept by each
of them is an invariant of the loop (`reachable_of_steps_invariant`). -/
inductive Step (c : Collaborators) (k : PollConsts) : updaterWorker → updaterWorker → Prop where
  | reset (u : updaterWorker) (p : Ptr) (e : pollGroupEntry) (now : Time) :
      u.heap[p]? = some e →
      Step c k u { u with heap := u.heap.set p (e.resetShortPollInterval k now) }
  | bump (u : updaterWorker) (p : Ptr) (e : pollGroupEntry) (now : Time) :
      u.heap[p]? = some e →
      Step c k u { u with heap := u.heap.set p (e.bumpShortPollInterval k now) }
  | resolve (u : updaterWorker) (g : pollGroupType) (tag : MachineTag) (p : Ptr)
      (e : pollGroupEntry) (tr : List Call) (id : InstanceId) :
      (tag, p) ∈ u.pollGroup g → u.heap[p]? = some e → e.instanceID = "" →
      c.instanceId tr e.m = Except.ok id →
      Step c k u
        (updaterWorker.insertInstanceID
          { u with heap := u.heap.set p { e with instanceID := id } } id p)
  | demote (u : updaterWorker) (id : InstanceId) (p : Ptr) (e : pollGroupEntry) :
      mapLookup u.instanceIDToGroupEntry id = some p → u.heap[p]? = some e →
      Step c k u
        ((u.deleteFromGroup pollGroupType.longPollGroup e.tag).insertIntoGroup
          pollGroupType.shortPollGroup e.tag p)
  | promote (u : updaterWorker) (id : InstanceId) (p : Ptr) (e : pollGroupEntry) :
      mapLookup u.instanceIDToGroupEntry id = some p → u.heap[p]? = some e →
      Step c k u
        ((u.deleteFromGroup pollGroupType.shortPollGroup e.tag).insertIntoGroup
          pollGroupType.longPollGroup e.tag p)
  | requeue (u : updaterWorker) (tag : MachineTag) (p : Ptr) :
      lookupPolledMachine u tag = some (p, pollGroupType.longPollGroup) →
      Step c k u
        ((u.deleteFromGroup pollGroupType.longPollGroup tag).insertIntoGroup
          pollGroupType.shortPollGroup tag p)
  | remove (u : updaterWorker) (tag : MachineTag) (p : Ptr) (g : pollGroupType)
      (e : pollGroupEntry) :
      lookupPolledMachine u tag = some (p, g) → u.heap[p]? = some e →
      Step c k u ((u.deleteFromGroup g tag).deleteInstanceID e.instanceID)
  | append (u : updaterWorker) (tag : MachineTag) (tr : List Call) (m : Handle) (now : Time) :
      lookupPolledMachine u tag = none → c.facadeMachine tr tag = Except.ok m →
      Step c k u
        { heap := u.heap ++ [freshEntry k tag m now],
          shortGroup := mapInsert u.shortGroup tag u.heap.length,
          longGroup := u.longGroup,
          instanceIDToGroupEntry := u.instanceIDToGroupEntry }

/-- A sequence of mutations. -/
def Steps (c : Collaborators) (k : PollConsts) : updaterWorker → updaterWorker → Prop :=
  Relation.ReflTransGen (Step c k)

/-- Shape of the worker state: each poll group is a map (no key twice), no tag is in
both groups, every pointer held by a map addresses an entry, and an entry filed in a
poll group under `tag` is an entry for `tag`. -/
structure WellFormed (u : updaterWorker) : Prop where
  nodupShort : (mapKeys u.shortGroup).Nodup
  nodupLong : (mapKeys u.longGroup).Nodup
  exclusive : GroupsExclusive u
  groupEntry : ∀ (g : pollGroupType) (tag : MachineTag) (p : Ptr),
    mapLookup (u.pollGroup g) tag = some p → ∃ e, u.heap[p]? = some e ∧ e.tag = tag
  indexEntry : ∀ (id : InstanceId) (p : Ptr),
    mapLookup u.instanceIDToGroupEntry id = some p → ∃ e, u.heap[p]? = some e

/-! ## A concrete run

Collaborators and states on which the theorems below are exercised. -/

/-- The address `10.0.0.1`. -/
def demoAddress : ProviderAddress :=
  { Value := "10.0.0.1", AddrType := "ipv4", Scope := "local-cloud", SpaceName := "",
    ProviderSpaceID := "" }

/-- Collaborators of the concrete run.  The clock advances by one second at every
call.  Machine "0" (handle 0) is not provisioned; machine "1" (handle 1) is instance
"i-1" and machine "2" (handle 2) is instance "i-2", both running with the address
`10.0.0.1` in the model and at the provider; machine "2" is Dead from its first
`Refresh` on; every other tag is a manual machine (handle 3) whose instance status is
Pending.  Every machine has the status Started. -/
def demoWorld : Collaborators where
  clockNow := fun tr => 1000000000 * (tr.length : Int)
  facadeMachine := fun _ tag =>
    Except.ok (if tag = "0" then 0 else if tag = "1" then 1 else if tag = "2" then 2 else 3)
  refresh := fun _ _ => none
  life := fun tr m =>
    if m = 2 ∧ tr.any (fun ev =>
        match ev with
        | Call.refresh 2 => true
        | _ => false)
    then Life.Dead else Life.Alive
  isManual := fun _ m => Except.ok (decide (m = 3))
  instanceId := fun _ m =>
    if m = 1 then Except.ok "i-1" else if m = 2 then Except.ok "i-2"
    else Except.error Error.NotProvisioned
  instanceStatus := fun _ m =>
    Except.ok { Status := if m = 3 then Status.Pending else Status.Running, Info := "" }
  setInstanceStatus := fun _ _ _ _ => none
  providerAddresses := fun _ _ => Except.ok [demoAddress]
  providerAddressesOnError := fun _ _ => []
  setProviderAddresses := fun _ _ _ => none
  status := fun _ _ => Except.ok { Status := Status.Started, Info := "" }
  environInstances := fun _ ids =>
    (ids.map (fun id => if id = "i-1" then some 1 else if id = "i-2" then some 2 else none),
      if ids.all (fun id => decide (id = "i-1" ∨ id = "i-2")) then none
      else some Error.ErrPartialInstances)
  instStatus := fun _ _ => { Status := Status.Running, Message := "" }
  instAddresses := fun _ _ => Except.ok [demoAddress]

/-- The concrete run after the watcher has reported machine "1". -/
def demoQueued : State :=
  { u := { heap := [{ m := 1, tag := "1", instanceID := "", shortPollInterval := 1000000000,
                      shortPollAt := 3000000000 }],
           shortGroup := [("1", 0)], longGroup := [], instanceIDToGroupEntry := [] },
    trace := [Call.facadeMachine "1", Call.isManual 1, Call.clockNow] }

/-- The concrete run after the short poll that follows: machine "1" is in the long
group. -/
def demoPromoted : State :=
  { u := { heap := [{ m := 1, tag := "1", instanceID := "i-1", shortPollInterval := 1000000000,
                      shortPollAt := 3000000000 }],
           shortGroup := [], longGroup := [("1", 0)], instanceIDToGroupEntry := [("i-1", 0)] },
    trace := [Call.facadeMachine "1", Call.isManual 1, Call.clockNow, Call.clockNow,
      Call.instanceId 1, Call.environInstances ["i-1"], Call.instanceStatus 1, Call.instStatus 1,
      Call.life 1, Call.providerAddresses 1, Call.instAddresses 1, Call.status 1,
      Call.providerAddresses 1] }

/-- The concrete run after the watcher has then reported machine "2". -/
def demoTwo : State :=
  { u := { heap := [{ m := 1, tag := "1", instanceID := "i-1", shortPollInterval := 1000000000,
                      shortPollAt := 3000000000 },
                    { m := 2, tag := "2", instanceID := "", shortPollInterval := 1000000000,
                      shortPollAt := 16000000000 }],
           shortGroup := [("2", 1)], longGroup := [("1", 0)],
           instanceIDToGroupEntry := [("i-1", 0)] },
    trace := demoPromoted.trace ++ [Call.facadeMachine "2", Call.isManual 2, Call.clockNow] }

/-- The concrete run after the watcher has then reported machine "0". -/
def demoThree : State :=
  { u := { heap := [{ m := 1, tag := "1", instanceID := "i-1", shortPollInterval := 1000000000,
                      shortPollAt := 3000000000 },
                    { m := 2, tag := "2", instanceID := "", shortPollInterval := 1000000000,
                      shortPollAt := 16000000000 },
                    { m := 0, tag := "0", instanceID := "", shortPollInterval := 1000000000,
                      shortPollAt := 19000000000 }],
           shortGroup := [("0", 2), ("2", 1)], longGroup := [("1", 0)],
           instanceIDToGroupEntry := [("i-1", 0)] },
    trace := demoTwo.trace ++ [Call.facadeMachine "0", Call.isManual 0, Call.clockNow] }

/-- The machine a call is made on, for the calls on a `Machine`. -/
def Call.machine? : Call → Option Handle
  | .refresh m => some m
  | .life m => some m
  | .isManual m => some m
  | .instanceId m => some m
  | .instanceStatus m => some m
  | .setInstanceStatus m _ _ => some m
  | .providerAddresses m => some m
  | .setProviderAddresses m _ => some m
  | .status m => some m
  | _ => none

/-- Partial correctness with the error exit: from a state satisfying `P`, a normal
return satisfies `Q` and an error return leaves a state satisfying `E`. -/
def TripleAll {α : Type} (P : State → Prop) (x : M α) (Q : α → State → Prop)
    (E : State → Prop) : Prop :=
  ∀ s, P s →
    match x s with
    | .ok a s1 => Q a s1
    | .error _ s1 => E s1
    | .panic => True

/-- The calls made since the trace was `tr0` are, as far as they are calls on machines,
calls on machines satisfying `H`; and every entry on the heap holds such a machine. -/
def TouchesOnly (H : Handle → Prop) (tr0 : List Call) (s : State) : Prop :=
  (∃ new : List Call, s.trace = tr0 ++ new ∧
      ∀ ev ∈ new, ∀ m : Handle, ev.machine? = some m → H m) ∧
    ∀ e ∈ s.u.heap, H e.m

/-- Reverse-index consistency, as the specification states it: an entry of a poll
group with a non-empty `instanceID` is the value of `instanceIDToGroupEntry` at that id;
a key of `instanceIDToGroupEntry` is non-empty, is the `instanceID` of the entry it maps
to, and that entry is in exactly one of the two poll groups. -/
structure IndexConsistent (u : updaterWorker) : Prop where
  entryIndexed : ∀ (g : pollGroupType) (tag : MachineTag) (p : Ptr) (e : pollGroupEntry),
    mapLookup (u.pollGroup g) tag = some p → u.heap[p]? = some e → e.instanceID ≠ "" →
    mapLookup u.instanceIDToGroupEntry e.instanceID = some p
  keyOfEntry : ∀ (id : InstanceId) (p : Ptr),
    mapLookup u.instanceIDToGroupEntry id = some p →
    id ≠ "" ∧ ∃ e, u.heap[p]? = some e ∧ e.instanceID = id ∧
      ((mapLookup u.shortGroup e.tag = some p ∧ mapLookup u.longGroup e.tag = none) ∨
        (mapLookup u.longGroup e.tag = some p ∧ mapLookup u.shortGroup e.tag = none))

/-- Collaborators whose instance ids identify machines: `InstanceId()` never returns
the empty id without an error, and handles the facade gave out for two different tags
never return the same id. -/
structure DistinctInstanceIds (c : Collaborators) : Prop where
  nonEmpty : ∀ (tr : List Call) (m : Handle) (id : InstanceId),
    c.instanceId tr m = Except.ok id → id ≠ ""
  distinct : ∀ (tr1 tr2 tr3 tr4 : List Call) (tag1 tag2 : MachineTag) (m1 m2 : Handle)
    (id : InstanceId),
    c.facadeMachine tr1 tag1 = Except.ok m1 → c.facadeMachine tr2 tag2 = Except.ok m2 →
    c.instanceId tr3 m1 = Except.ok id → c.instanceId tr4 m2 = Except.ok id → tag1 = tag2

/-- What the proof of reverse-index consistency maintains: where the handle and the
instance id of an entry in a poll group come from, and the consistency of the index. -/
structure IndexInv (c : Collaborators) (u : updaterWorker) : Prop where
  origin : ∀ (g : pollGroupType) (tag : MachineTag) (p : Ptr) (e : pollGroupEntry),
    mapLookup (u.pollGroup g) tag = some p → u.heap[p]? = some e →
    (∃ tr, c.facadeMachine tr tag = Except.ok e.m) ∧
      (e.instanceID ≠ "" → ∃ tr, c.instanceId tr e.m = Except.ok e.instanceID)
  entryIndexed : ∀ (g : pollGroupType) (tag : MachineTag) (p : Ptr) (e : pollGroupEntry),
    mapLookup (u.pollGroup g) tag = some p → u.heap[p]? = some e → e.instanceID ≠ "" →
    mapLookup u.instanceIDToGroupEntry e.instanceID = some p
  keyOfEntry : ∀ (id : InstanceId) (p : Ptr),
    mapLookup u.instanceIDToGroupEntry id = some p →
    id ≠ "" ∧ ∃ e, u.heap[p]? = some e ∧ e.instanceID = id ∧
      ∃ g, mapLookup (u.pollGroup g) e.tag = some p

/-- Collaborators for which two machines have the same instance id: `InstanceId()`
returns "i-0" for every machine, and the provider knows no instance. -/
def dupWorld : Collaborators where
  clockNow := fun tr => 1000000000 * (tr.length : Int)
  facadeMachine := fun _ tag => Except.ok (if tag = "0" then 0 else 1)
  refresh := fun _ _ => none
  life := fun _ _ => Life.Alive
  isManual := fun _ _ => Except.ok false
  instanceId := fun _ _ => Except.ok "i-0"
  instanceStatus := fun _ _ => Except.ok { Status := Status.Pending, Info := "" }
  setInstanceStatus := fun _ _ _ _ => none
  providerAddresses := fun _ _ => Except.ok []
  providerAddressesOnError := fun _ _ => []
  setProviderAddresses := fun _ _ _ => none
  status := fun _ _ => Except.ok { Status := Status.Started, Info := "" }
  environInstances := fun _ ids => (ids.map (fun _ => none), some Error.ErrPartialInstances)
  instStatus := fun _ _ => { Status := Status.Running, Message := "" }
  instAddresses := fun _ _ => Except.ok []

/-- With `dupWorld`: after the watcher has reported machine "0". -/
def dupOne : State :=
  { u := { heap := [{ m := 0, tag := "0", instanceID := "", shortPollInterval := 1000000000,
                      shortPollAt := 3000000000 }],
           shortGroup := [("0", 0)], longGroup := [], instanceIDToGroupEntry := [] },
    trace := [Call.facadeMachine "0", Call.isManual 0, Call.clockNow] }

/-- With `dupWorld`: after the watcher has then reported machine "1". -/
def dupTwo : State :=
  { u := { heap := [{ m := 0, tag := "0", instanceID := "", shortPollInterval := 1000000000,
                      shortPollAt := 3000000000 },
                    { m := 1, tag := "1", instanceID := "", shortPollInterval := 1000000000,
                      shortPollAt := 6000000000 }],
           shortGroup := [("1", 1), ("0", 0)], longGroup := [], instanceIDToGroupEntry := [] },
    trace := dupOne.trace ++ [Call.facadeMachine "1", Call.isManual 1, Call.clockNow] }

/-- With `dupWorld`: after the short poll that follows.  Both entries are resolved to
"i-0"; the index maps "i-0" to the entry of machine "0" only. -/
def dupPolled : State :=
  { u := { heap := [{ m := 0, tag := "0", instanceID := "i-0", shortPollInterval := 1000000000,
                      shortPollAt := 3000000000 },
                    { m := 1, tag := "1", instanceID := "i-0", shortPollInterval := 1000000000,
                      shortPollAt := 6000000000 }],
           shortGroup := [("1", 1), ("0", 0)], longGroup := [],
           instanceIDToGroupEntry := [("i-0", 0)] },
    trace := dupTwo.trace ++ [Call.clockNow, Call.instanceId 1, Call.instanceId 0,
      Call.environInstances ["i-0", "i-0"]] }

/-- Collaborators for which every machine is Dead, none is manual and none is
provisioned. -/
def deadWorld : Collaborators where
  clockNow := fun tr => 1000000000 * (tr.length : Int)
  facadeMachine := fun _ _ => Except.ok 7
  refresh := fun _ _ => none
  life := fun _ _ => Life.Dead
  isManual := fun _ _ => Except.ok false
  instanceId := fun _ _ => Except.error Error.NotProvisioned
  instanceStatus := fun _ _ => Except.ok { Status := Status.Pending, Info := "" }
  setInstanceStatus := fun _ _ _ _ => none
  providerAddresses := fun _ _ => Except.ok []
  providerAddressesOnError := fun _ _ => []
  setProviderAddresses := fun _ _ _ => none
  status := fun _ _ => Except.ok { Status := Status.Started, Info := "" }
  environInstances := fun _ ids => (ids.map (fun _ => none), some Error.ErrPartialInstances)
  instStatus := fun _ _ => { Status := Status.Running, Message := "" }
  instAddresses := fun _ _ => Except.ok []

/-- With `deadWorld`: after the watcher has reported the untracked machine "2". -/
def deadQueued : State :=
  { u := { heap := [{ m := 7, tag := "2", instanceID := "", shortPollInterval := 1000000000,
                      shortPollAt := 3000000000 }],
           shortGroup := [("2", 0)], longGroup := [], instanceIDToGroupEntry := [] },
    trace := [Call.facadeMachine "2", Call.isManual 7, Call.clockNow] }

/-- The interval of an entry lies between `ShortPoll` and `LongPoll`. -/
def InRange (k : PollConsts) (e : pollGroupEntry) : Prop :=
  k.ShortPoll ≤ e.shortPollInterval ∧ e.shortPollInterval ≤ k.LongPoll

/-- Interval range, as the specification states it: every entry of either poll group
has its interval between `ShortPoll` and `LongPoll`. -/
def IntervalsInRange (k : PollConsts) (u : updaterWorker) : Prop :=
  ∀ (g : pollGroupType) (tag : MachineTag) (p : Ptr),
    mapLookup (u.pollGroup g) tag = some p → ∃ e, u.heap[p]? = some e ∧ InRange k e

/-- Every entry on the heap has its interval in range. -/
def HeapInRange (k : PollConsts) (u : updaterWorker) : Prop :=
  ∀ e ∈ u.heap, InRange k e

/-- Polling constants with `ShortPoll = LongPoll = 2 ^ 53 + 1` ns (about 104 days) and
`ShortPollBackoff = 1.0`. -/
def bigConsts : PollConsts where
  ShortPoll := 9007199254740993
  LongPoll := 9007199254740993
  backoffMant := 1
  backoffExp := 0
  convOutOfRange := fun _ => -(2 : Int) ^ 63

/-- Collaborators with a slow clock (`10 ^ 16` ns per call) and machines that are not
provisioned. -/
def slowWorld : Collaborators where
  clockNow := fun tr => 10000000000000000 * (tr.length : Int)
  facadeMachine := fun _ _ => Except.ok 7
  refresh := fun _ _ => none
  life := fun _ _ => Life.Alive
  isManual := fun _ _ => Except.ok false
  instanceId := fun _ _ => Except.error Error.NotProvisioned
  instanceStatus := fun _ _ => Except.ok { Status := Status.Pending, Info := "" }
  setInstanceStatus := fun _ _ _ _ => none
  providerAddresses := fun _ _ => Except.ok []
  providerAddressesOnError := fun _ _ => []
  setProviderAddresses := fun _ _ _ => none
  status := fun _ _ => Except.ok { Status := Status.Started, Info := "" }
  environInstances := fun _ ids => (ids.map (fun _ => none), some Error.ErrPartialInstances)
  instStatus := fun _ _ => { Status := Status.Running, Message := "" }
  instAddresses := fun _ _ => Except.ok []

/-- With `slowWorld` and `bigConsts`: after the watcher has reported machine "0". -/
def slowQueued : State :=
  { u := { heap := [{ m := 7, tag := "0", instanceID := "",
                      shortPollInterval := 9007199254740993,
                      shortPollAt := 29007199254740993 }],
           shortGroup := [("0", 0)], longGroup := [], instanceIDToGroupEntry := [] },
    trace := [Call.facadeMachine "0", Call.isManual 7, Call.clockNow] }

/-- With `slowWorld` and `bigConsts`: after the short poll that follows.  The entry has
been bumped once; `float64(2 ^ 53 + 1)` is `2 ^ 53`. -/
def slowPolled : State :=
  { u := { heap := [{ m := 7, tag := "0", instanceID := "",
                      shortPollInterval := 9007199254740992,
                      shortPollAt := 59007199254740992 }],
           shortGroup := [("0", 0)], longGroup := [], instanceIDToGroupEntry := [] },
    trace := slowQueued.trace ++ [Call.clockNow, Call.instanceId 7, Call.clockNow] }

/-- The address `10.0.0.2`. -/
def otherAddress : ProviderAddress :=
  { Value := "10.0.0.2", AddrType := "ipv4", Scope := "local-cloud", SpaceName := "",
    ProviderSpaceID := "" }

/-- The second half of `processProviderInfo`, from the `Life()` check to the return, for
the entry value `entry` and the provider status `providerStatus` of the first half. -/
def processProviderInfoAddresses (c : Collaborators) (entry : pollGroupEntry)
    (info : InstHandle) (providerStatus : InstanceStatus) : M Status := do
  let life ← invoke (Call.life entry.m) (fun tr => c.life tr entry.m)
  if life = Life.Dead then
    pure Status.Unknown
  else
    let curAddresses ← invokeOrReturn (Call.providerAddresses entry.m)
      (fun tr => c.providerAddresses tr entry.m)
    let providerAddresses ← invokeOrReturn (Call.instAddresses info)
      (fun tr => c.instAddresses tr info)
    (if addressesEqual curAddresses providerAddresses = false then
        invokeCheck (Call.setProviderAddresses entry.m providerAddresses)
          (fun tr => c.setProviderAddresses tr entry.m providerAddresses)
      else
        pure () : M Unit)
    pure providerStatus.Status

/-- The state a handler ends in, by return or by error; none after a panic. -/
def Outcome.state? {α : Type} : Outcome α → Option State
  | .ok _ s => some s
  | .error _ s => some s
  | .panic => none

/-- The calls that handling one slot of the provider result can make, for the handle `m`
of the slot's entry and the instance `i` in the slot: the clock, the reads and writes on
that machine used by `processProviderInfo`, `pollGroupMembers` and
`maybeSwitchPollGroup`, and the two reads on that instance. -/
def Call.ofSlot (m : Handle) (i : InstHandle) : Call → Bool
  | .clockNow => true
  | .instanceStatus m1 => decide (m1 = m)
  | .setInstanceStatus m1 _ _ => decide (m1 = m)
  | .life m1 => decide (m1 = m)
  | .providerAddresses m1 => decide (m1 = m)
  | .setProviderAddresses m1 _ => decide (m1 = m)
  | .status m1 => decide (m1 = m)
  | .instStatus i1 => decide (i1 = i)
  | .instAddresses i1 => decide (i1 = i)
  | _ => false

/-- Collaborators whose model is behind the provider: the model records the instance
status Pending, and no address until `SetProviderAddresses` has been called; the
provider reports Running and the address `10.0.0.1`.  Otherwise as `demoWorld`. -/
def staleWorld : Collaborators :=
  { demoWorld with
    instanceStatus := fun _ _ => Except.ok { Status := Status.Pending, Info := "" }
    providerAddresses := fun tr _ =>
      if tr.any (fun ev =>
          match ev with
          | Call.setProviderAddresses _ _ => true
          | _ => false)
      then Except.ok [demoAddress] else Except.ok [] }

/-- The entry is polled at `now`: it is not an entry of the short group whose
`shortPollAt` lies after `now`. -/
def Candidate (g : pollGroupType) (now : Time) (e : pollGroupEntry) : Prop :=
  ¬ (g = pollGroupType.shortPollGroup ∧ now < e.shortPollAt)

/-- What the first loop of `pollGroupMembers` does with one member.  `e` is the member's
entry when the loop starts and `e1` when it ends, `tr0` and `tr1` are the calls made by
then; the last argument is the id the member adds to the batch, if any.  A member that
is not due is left alone; a candidate with a known id adds it; a candidate without one
has `InstanceId()` called once, at some point `tr` of the loop, and either is resolved
to the id returned, which it adds, or is not provisioned and is bumped. -/
inductive MemberFate (c : Collaborators) (k : PollConsts) (g : pollGroupType) (now : Time)
    (tr0 tr1 : List Call) (e e1 : pollGroupEntry) : Option InstanceId → Prop where
  | notDue : ¬ Candidate g now e → e1 = e → MemberFate c k g now tr0 tr1 e e1 none
  | resolved : Candidate g now e → e.instanceID ≠ "" → e1 = e →
      MemberFate c k g now tr0 tr1 e e1 (some e.instanceID)
  | resolves (tr : List Call) (id : InstanceId) : Candidate g now e → e.instanceID = "" →
      tr0 <+: tr → (tr ++ [Call.instanceId e.m]) <+: tr1 →
      c.instanceId tr e.m = Except.ok id → e1 = { e with instanceID := id } →
      MemberFate c k g now tr0 tr1 e e1 (some id)
  | unprovisioned (tr : List Call) : Candidate g now e → e.instanceID = "" →
      tr0 <+: tr → (tr ++ [Call.instanceId e.m, Call.clockNow]) <+: tr1 →
      c.instanceId tr e.m = Except.error Error.NotProvisioned →
      e1 = e.bumpShortPollInterval k (c.clockNow (tr ++ [Call.instanceId e.m])) →
      MemberFate c k g now tr0 tr1 e e1 none

/-- What the first loop of `pollGroupMembers` over `members` leaves alone between `s`
and `s1`: the two poll groups, every entry that is not a member's, and the collaborators
but for clock readings and `InstanceId()` calls on candidates without an id. -/
structure SelectionFrame (g : pollGroupType) (now : Time) (members : List (MachineTag × Ptr))
    (s s1 : State) : Prop where
  short : s1.u.shortGroup = s.u.shortGroup
  long : s1.u.longGroup = s.u.longGroup
  others : ∀ q : Ptr, q ∉ members.map Prod.snd → s1.u.heap[q]? = s.u.heap[q]?
  calls : ∃ new, s1.trace = s.trace ++ new ∧
    ∀ ev ∈ new, ev = Call.clockNow ∨
      ∃ tp e, tp ∈ members ∧ s.u.heap[tp.2]? = some e ∧ Candidate g now e ∧
        e.instanceID = "" ∧ ev = Call.instanceId e.m

/-- The outcome of the first loop of `pollGroupMembers` over `members`, from state `s` to
state `s1`, with `fates` listing, member by member, the id added to the batch: every
member has met its fate, a value of `instanceIDToGroupEntry` is an old one or a member
that added the id it is filed under, and the rest is left alone. -/
structure Selection (c : Collaborators) (k : PollConsts) (g : pollGroupType) (now : Time)
    (members : List (MachineTag × Ptr)) (fates : List (Option InstanceId))
    (s s1 : State) : Prop where
  fate : List.Forall₂
    (fun tp f => ∃ e e1, s.u.heap[tp.2]? = some e ∧ s1.u.heap[tp.2]? = some e1 ∧
      MemberFate c k g now s.trace s1.trace e e1 f) members fates
  index : ∀ (id : InstanceId) (q : Ptr),
    mapLookup s1.u.instanceIDToGroupEntry id = some q →
    mapLookup s.u.instanceIDToGroupEntry id = some q ∨
      ∃ tp, (tp, some id) ∈ members.zip fates ∧ tp.2 = q
  frame : SelectionFrame g now members s s1

/-- The first loop of `pollGroupMembers` over `members` ends in `s1` with the error
`err`: some candidate without an id had `InstanceId()` fail with `err`, which is not
NotProvisioned, as the last call made; the rest is left alone. -/
structure SelectionError (c : Collaborators) (g : pollGroupType) (now : Time)
    (members : List (MachineTag × Ptr)) (s : State) (err : Error) (s1 : State) : Prop where
  cause : ∃ tp e tr, tp ∈ members ∧ s.u.heap[tp.2]? = some e ∧ Candidate g now e ∧
    e.instanceID = "" ∧ s.trace <+: tr ∧ c.instanceId tr e.m = Except.error err ∧
    s1.trace = tr ++ [Call.instanceId e.m]
  other : err ≠ Error.NotProvisioned
  frame : SelectionFrame g now members s s1

/-- What handling one slot of the provider result, for the entry at `p` (value `e`) and
the instance `info`, leaves alone between `s` and `s1`: the reverse index, every other
entry, the machine, tag and instance id of the entry itself, the group membership of
every other tag, and the collaborators but for the calls of that slot. -/
structure SlotFrame (p : Ptr) (e : pollGroupEntry) (info : InstHandle) (s s1 : State) :
    Prop where
  index : s1.u.instanceIDToGroupEntry = s.u.instanceIDToGroupEntry
  others : ∀ q : Ptr, q ≠ p → s1.u.heap[q]? = s.u.heap[q]?
  entry : ∃ e1, s1.u.heap[p]? = some e1 ∧ e1.m = e.m ∧ e1.tag = e.tag ∧
    e1.instanceID = e.instanceID
  groups : ∀ t : MachineTag, t ≠ e.tag →
    mapLookup s1.u.shortGroup t = mapLookup s.u.shortGroup t ∧
      mapLookup s1.u.longGroup t = mapLookup s.u.longGroup t
  calls : ∃ new, s1.trace = s.trace ++ new ∧ ∀ ev ∈ new, Call.ofSlot e.m info ev = true

/-- The body of the second loop of `pollGroupMembers` for a slot that holds the instance
`info` and whose id `instanceIDToGroupEntry` maps to the entry at `p`. -/
def pollGroupMembersSlot (c : Collaborators) (k : PollConsts) (groupType : pollGroupType)
    (p : Ptr) (info : InstHandle) : M Unit := do
  let providerStatus ← processProviderInfo c k p info
  let entry ← deref p
  let machineStatus ← invokeOrReturn (Call.status entry.m) (fun tr => c.status tr entry.m)
  maybeSwitchPollGroup c k groupType p providerStatus machineStatus.Status

/-- The entry at `p` is the one the second loop of `pollGroupMembers` handles for a slot
holding `info`: counted from position `idx` of the batch, some slot of `infoList` holds
`info`, and `instanceIDToGroupEntry` maps the id at that position of the batch to `p`. -/
def SlotTarget (u : updaterWorker) (instList : List InstanceId) (idx : Nat)
    (infoList : List (Option InstHandle)) (p : Ptr) (info : InstHandle) : Prop :=
  ∃ i id, infoList[i]? = some (some info) ∧ instList[idx + i]? = some id ∧
    mapLookup u.instanceIDToGroupEntry id = some p

/-- What the second loop of `pollGroupMembers` over `infoList`, from position `idx` of
the batch, leaves alone between `s` and `s1`: the reverse index; every entry that is not
handled for a slot holding an instance; the machine, tag and instance id of every entry;
the group membership of every tag that is not the tag of an entry handled; and the
collaborators but for the calls of the slots holding an instance. -/
structure SlotsFrame (instList : List InstanceId) (idx : Nat)
    (infoList : List (Option InstHandle)) (s s1 : State) : Prop where
  index : s1.u.instanceIDToGroupEntry = s.u.instanceIDToGroupEntry
  others : ∀ q : Ptr, (∀ info, ¬ SlotTarget s.u instList idx infoList q info) →
    s1.u.heap[q]? = s.u.heap[q]?
  entries : ∀ (q : Ptr) (e1 : pollGroupEntry), s1.u.heap[q]? = some e1 →
    ∃ e, s.u.heap[q]? = some e ∧ e1.m = e.m ∧ e1.tag = e.tag ∧ e1.instanceID = e.instanceID
  groups : ∀ t : MachineTag,
    (∀ q info e, SlotTarget s.u instList idx infoList q info → s.u.heap[q]? = some e →
      e.tag ≠ t) →
    mapLookup s1.u.shortGroup t = mapLookup s.u.shortGroup t ∧
      mapLookup s1.u.longGroup t = mapLookup s.u.longGroup t
  calls : ∃ new, s1.trace = s.trace ++ new ∧
    ∀ ev ∈ new, ∃ q info e, SlotTarget s.u instList idx infoList q info ∧
      s.u.heap[q]? = some e ∧ Call.ofSlot e.m info ev = true

/-- Collaborators for which the provider knows the instance "i-1" only: as `demoWorld`,
but no machine is Dead and `Environ.Instances` answers with a nil slot for every other
id, together with `ErrPartialInstances`. -/
def partialWorld : Collaborators :=
  { demoWorld with
    life := fun _ _ => Life.Alive
    environInstances := fun _ ids =>
      (ids.map (fun id => if id = "i-1" then some 1 else none),
        some Error.ErrPartialInstances) }

/-- With `partialWorld`: after the watcher has reported the machines "1" and "2". -/
def pairQueued : State :=
  { u := { heap := [{ m := 1, tag := "1", instanceID := "", shortPollInterval := 1000000000,
                      shortPollAt := 3000000000 },
                    { m := 2, tag := "2", instanceID := "", shortPollInterval := 1000000000,
                      shortPollAt := 6000000000 }],
           shortGroup := [("2", 1), ("1", 0)], longGroup := [], instanceIDToGroupEntry := [] },
    trace := [Call.facadeMachine "1", Call.isManual 1, Call.clockNow, Call.facadeMachine "2",
      Call.isManual 2, Call.clockNow] }

/-- With `partialWorld`: when the short poll that follows has made its batch, both
machines being due. -/
def pairSelected : State :=
  { u := { heap := [{ m := 1, tag := "1", instanceID := "i-1",
                      shortPollInterval := 1000000000, shortPollAt := 3000000000 },
                    { m := 2, tag := "2", instanceID := "i-2",
                      shortPollInterval := 1000000000, shortPollAt := 6000000000 }],
           shortGroup := [("2", 1), ("1", 0)], longGroup := [],
           instanceIDToGroupEntry := [("i-1", 0), ("i-2", 1)] },
    trace := pairQueued.trace ++ [Call.clockNow, Call.instanceId 2, Call.instanceId 1] }

/-- With `partialWorld`: after that short poll.  The slot of "i-2" was nil; machine "1"
is in the long group. -/
def pairPolled : State :=
  { u := { heap := [{ m := 1, tag := "1", instanceID := "i-1",
                      shortPollInterval := 1000000000, shortPollAt := 3000000000 },
                    { m := 2, tag := "2", instanceID := "i-2",
                      shortPollInterval := 1000000000, shortPollAt := 6000000000 }],
           shortGroup := [("2", 1)], longGroup := [("1", 0)],
           instanceIDToGroupEntry := [("i-1", 0), ("i-2", 1)] },
    trace := pairSelected.trace ++ [Call.environInstances ["i-2", "i-1"],
      Call.instanceStatus 1, Call.instStatus 1, Call.life 1, Call.providerAddresses 1,
      Call.instAddresses 1, Call.status 1, Call.providerAddresses 1] }

/-- The concrete run when the short poll that follows has made its batch: machine "0"
is not provisioned and has been bumped, machine "2" is resolved. -/
def demoThreeSelected : State :=
  { u := { heap := [{ m := 1, tag := "1", instanceID := "i-1", shortPollInterval := 1000000000,
                      shortPollAt := 3000000000 },
                    { m := 2, tag := "2", instanceID := "i-2", shortPollInterval := 1000000000,
                      shortPollAt := 16000000000 },
                    { m := 0, tag := "0", instanceID := "", shortPollInterval := 2000000000,
                      shortPollAt := 23000000000 }],
           shortGroup := [("0", 2), ("2", 1)], longGroup := [("1", 0)],
           instanceIDToGroupEntry := [("i-2", 1), ("i-1", 0)] },
    trace := demoThree.trace ++ [Call.clockNow, Call.instanceId 0, Call.clockNow,
      Call.instanceId 2] }

/-- The concrete run after that short poll: machine "2" is in the long group, machine
"0" is in the short group still. -/
def demoThreePolled : State :=
  { u := { heap := [{ m := 1, tag := "1", instanceID := "i-1", shortPollInterval := 1000000000,
                      shortPollAt := 3000000000 },
                    { m := 2, tag := "2", instanceID := "i-2", shortPollInterval := 1000000000,
                      shortPollAt := 16000000000 },
                    { m := 0, tag := "0", instanceID := "", shortPollInterval := 2000000000,
                      shortPollAt := 23000000000 }],
           shortGroup := [("0", 2)], longGroup := [("2", 1), ("1", 0)],
           instanceIDToGroupEntry := [("i-2", 1), ("i-1", 0)] },
    trace := demoThreeSelected.trace ++ [Call.environInstances ["i-2"], Call.instanceStatus 2,
      Call.instStatus 2, Call.life 2, Call.providerAddresses 2, Call.instAddresses 2,
      Call.status 2, Call.providerAddresses 2] }

/-! ## Construction -/

/-- A field of `Config`: an interface value, `none` being nil; a value that is not nil is
told from another by the number it carries. -/
abbrev Iface := Option Nat

/-- The struct `Config`. -/
structure Config where
  Clock : Iface
  Facade : Iface
  Environ : Iface
  Logger : Iface
  CredentialAPI : Iface
deriving DecidableEq, Repr

/-- The method `Config.Validate`; `errors.NotValidf(s)` is `Error.NotValid s`. -/
def Config.Validate (config : Config) : Option Error :=
  if config.Clock = none then some (Error.NotValid "nil clock.Clock")
  else if config.Facade = none then some (Error.NotValid "nil Facade")
  else if config.Environ = none then some (Error.NotValid "nil Environ")
  else if config.Logger = none then some (Error.NotValid "nil Logger")
  else if config.CredentialAPI = none then some (Error.NotValid "nil CredentialAPI")
  else none

/-- What `NewWorker` returns, and whether it has called `catacomb.Invoke`, the one place
where `u.loop` is handed over to be run. -/
structure NewWorkerResult where
  worker : Option updaterWorker
  err : Option Error
  invoked : Bool
deriving DecidableEq, Repr

/-- The function `NewWorker`.  `catacomb.Invoke` is a library call; `catacombInvoke` is
the error it returns, if any. -/
def NewWorker (catacombInvoke : Option Error) (config : Config) : NewWorkerResult :=
  match config.Validate with
  | some err => { worker := none, err := some err, invoked := false }
  | none =>
    match catacombInvoke with
    | some err => { worker := none, err := some err, invoked := true }
    | none => { worker := some State.init.u, err := none, invoked := true }

/-- Polling constants with the intervals of the defaults (1 s, 15 min) and the backoff
factor `2 ^ 40`; the out-of-range conversion is that of amd64. -/
def steepConsts : PollConsts where
  ShortPoll := 1000000000
  LongPoll := 900000000000
  backoffMant := 1
  backoffExp := 40
  convOutOfRange := fun _ => -(2 : Int) ^ 63

/-- Collaborators for which the instance status of the model cannot be read: machine "1"
(handle 1) is instance "i-1", `InstanceStatus()` fails, the model records the address
`10.0.0.1` and the machine status Started. -/
def unreadableWorld : Collaborators where
  clockNow := fun tr => 1000000000 * (tr.length : Int)
  facadeMachine := fun _ _ => Except.ok 1
  refresh := fun _ _ => none
  life := fun _ _ => Life.Alive
  isManual := fun _ _ => Except.ok false
  instanceId := fun _ _ => Except.ok "i-1"
  instanceStatus := fun _ _ => Except.error (Error.other "no instance status")
  setInstanceStatus := fun _ _ _ _ => none
  providerAddresses := fun _ _ => Except.ok [demoAddress]
  providerAddressesOnError := fun _ _ => []
  setProviderAddresses := fun _ _ _ => none
  status := fun _ _ => Except.ok { Status := Status.Started, Info := "" }
  environInstances := fun _ ids => (ids.map (fun _ => some 1), none)
  instStatus := fun _ _ => { Status := Status.Running, Message := "" }
  instAddresses := fun _ _ => Except.ok [demoAddress]

/-- With `unreadableWorld`: when the short poll that follows the report of machine "1"
has made its batch. -/
def unreadableSelected : State :=
  { u := { heap := [{ m := 1, tag := "1", instanceID := "i-1", shortPollInterval := 1000000000,
                      shortPollAt := 3000000000 }],
           shortGroup := [("1", 0)], longGroup := [],
           instanceIDToGroupEntry := [("i-1", 0)] },
    trace := demoQueued.trace ++ [Call.clockNow, Call.instanceId 1] }

/-- With `unreadableWorld`: after that short poll.  Machine "1" is in the long group. -/
def unreadablePolled : State :=
  { u := { heap := [{ m := 1, tag := "1", instanceID := "i-1", shortPollInterval := 1000000000,
                      shortPollAt := 3000000000 }],
           shortGroup := [], longGroup := [("1", 0)],
           instanceIDToGroupEntry := [("i-1", 0)] },
    trace := unreadableSelected.trace ++ [Call.environInstances ["i-1"],
      Call.instanceStatus 1, Call.status 1, Call.providerAddresses 1] }

/-- Modelled from the spec (scenario 1): the fire of the short ticker that is being
handled when `n` calls have been made since the worker was built.  The watcher event
makes three calls; the first and the third fire, at which the machine is due, make three
calls each; the other fires make one. -/
def scenarioFire : Nat → Int
  | 0 => 0
  | 1 => 0
  | 2 => 0
  | 3 => 1
  | 4 => 1
  | 5 => 1
  | 6 => 2
  | 7 => 3
  | 8 => 3
  | 9 => 3
  | 10 => 4
  | _ => 5

/-- Collaborators of scenario 1: the watcher event is handled at `t0` and the short
ticker fires at `t0 + 1 s`, `t0 + 2 s`, ...; every machine has the handle 0, is not
manual and is not provisioned. -/
def scenarioWorld (t0 : Time) : Collaborators where
  clockNow := fun tr => t0 + 1000000000 * scenarioFire tr.length
  facadeMachine := fun _ _ => Except.ok 0
  refresh := fun _ _ => none
  life := fun _ _ => Life.Alive
  isManual := fun _ _ => Except.ok false
  instanceId := fun _ _ => Except.error Error.NotProvisioned
  instanceStatus := fun _ _ => Except.ok { Status := Status.Pending, Info := "" }
  setInstanceStatus := fun _ _ _ _ => none
  providerAddresses := fun _ _ => Except.ok []
  providerAddressesOnError := fun _ _ => []
  setProviderAddresses := fun _ _ _ => none
  status := fun _ _ => Except.ok { Status := Status.Pending, Info := "" }
  environInstances := fun _ ids => (ids.map (fun _ => none), none)
  instStatus := fun _ _ => { Status := Status.Pending, Message := "" }
  instAddresses := fun _ _ => Except.ok []

/-- The worker that tracks machine "0" alone, in the short group and unresolved, with
the interval `d` and due at `due`, after the calls `tr`. -/
def scenarioState (m : Handle) (d : Duration) (due : Time) (tr : List Call) : State :=
  { u := { heap := [{ m := m, tag := "0", instanceID := "", shortPollInterval := d,
                      shortPollAt := due }],
           shortGroup := [("0", 0)], longGroup := [], instanceIDToGroupEntry := [] },
    trace := tr }

/-! ## Vocabulary for the order in which a poll visits its group -/

/-- The calls made on machine `m`, in order. -/
def callsOn (m : Handle) (tr : List Call) : List Call :=
  tr.filter (fun ev => decide (ev.machine? = some m))

/-- Collaborators that, from the calls `tr0` on, behave the same whatever the order of
the calls: the clock reads the same time; what a machine answers depends on the calls
made on that machine only; what an instance answers does not depend on the calls made;
`Environ.Instances` answers position by position, the instance at a position being a
function of the id at that position, and its error is the same for a batch in any
order. -/
structure PollLocal (c : Collaborators) (tr0 : List Call) : Prop where
  clock : ∀ tr, tr0 <+: tr → c.clockNow tr = c.clockNow tr0
  instanceId : ∀ tr tr1 m, tr0 <+: tr → tr0 <+: tr1 → callsOn m tr1 = callsOn m tr →
    c.instanceId tr1 m = c.instanceId tr m
  instanceStatus : ∀ tr tr1 m, tr0 <+: tr → tr0 <+: tr1 → callsOn m tr1 = callsOn m tr →
    c.instanceStatus tr1 m = c.instanceStatus tr m
  setInstanceStatus : ∀ tr tr1 m st info, tr0 <+: tr → tr0 <+: tr1 →
    callsOn m tr1 = callsOn m tr →
    c.setInstanceStatus tr1 m st info = c.setInstanceStatus tr m st info
  life : ∀ tr tr1 m, tr0 <+: tr → tr0 <+: tr1 → callsOn m tr1 = callsOn m tr →
    c.life tr1 m = c.life tr m
  providerAddresses : ∀ tr tr1 m, tr0 <+: tr → tr0 <+: tr1 → callsOn m tr1 = callsOn m tr →
    c.providerAddresses tr1 m = c.providerAddresses tr m
  providerAddressesOnError : ∀ tr tr1 m, tr0 <+: tr → tr0 <+: tr1 →
    callsOn m tr1 = callsOn m tr →
    c.providerAddressesOnError tr1 m = c.providerAddressesOnError tr m
  setProviderAddresses : ∀ tr tr1 m addrs, tr0 <+: tr → tr0 <+: tr1 →
    callsOn m tr1 = callsOn m tr →
    c.setProviderAddresses tr1 m addrs = c.setProviderAddresses tr m addrs
  status : ∀ tr tr1 m, tr0 <+: tr → tr0 <+: tr1 → callsOn m tr1 = callsOn m tr →
    c.status tr1 m = c.status tr m
  instStatus : ∀ tr tr1 i, tr0 <+: tr → tr0 <+: tr1 → c.instStatus tr1 i = c.instStatus tr i
  instAddresses : ∀ tr tr1 i, tr0 <+: tr → tr0 <+: tr1 →
    c.instAddresses tr1 i = c.instAddresses tr i
  instances : ∃ f : InstanceId → Option InstHandle,
    ∀ tr ids, tr0 <+: tr → (c.environInstances tr ids).1 = ids.map f
  instancesError : ∀ tr tr1 ids ids1, tr0 <+: tr → tr0 <+: tr1 → ids1.Perm ids →
    (c.environInstances tr1 ids1).2 = (c.environInstances tr ids).2

/-- Collaborators whose facade hands out a machine handle for one tag only. -/
def FreshHandles (c : Collaborators) : Prop :=
  ∀ (tr tr1 : List Call) (tag tag1 : MachineTag) (m : Handle),
    c.facadeMachine tr tag = Except.ok m → c.facadeMachine tr1 tag1 = Except.ok m →
    tag = tag1

/-- Two states of a poll started after the calls `tr0` that hold the same worker as far
as a Go program can tell (the same entries, the same maps) and in which every machine
has seen the same calls. -/
structure PollEquiv (tr0 : List Call) (s s1 : State) : Prop where
  pre : tr0 <+: s.trace
  pre1 : tr0 <+: s1.trace
  heap : ∀ p : Ptr, s1.u.heap[p]? = s.u.heap[p]?
  short : ∀ t : MachineTag, mapLookup s1.u.shortGroup t = mapLookup s.u.shortGroup t
  long : ∀ t : MachineTag, mapLookup s1.u.longGroup t = mapLookup s.u.longGroup t
  index : ∀ id : InstanceId,
    mapLookup s1.u.instanceIDToGroupEntry id = mapLookup s.u.instanceIDToGroupEntry id
  calls : ∀ m : Handle, callsOn m s1.trace = callsOn m s.trace

/-- Two states of a poll started after the calls `tr0` that agree on the entry at `p`,
an entry for machine `m` and tag `t`, on the groups `t` is in, and on the calls made on
`m`. -/
structure AgreeAt (tr0 : List Call) (p : Ptr) (m : Handle) (t : MachineTag) (s s1 : State) :
    Prop where
  pre : tr0 <+: s.trace
  pre1 : tr0 <+: s1.trace
  valid : ∃ e, s.u.heap[p]? = some e ∧ e.m = m ∧ e.tag = t
  entry : s1.u.heap[p]? = s.u.heap[p]?
  short : mapLookup s1.u.shortGroup t = mapLookup s.u.shortGroup t
  long : mapLookup s1.u.longGroup t = mapLookup s.u.longGroup t
  calls : callsOn m s1.trace = callsOn m s.trace

/-- From two states related by `R` the handler ends the same way: it returns the same
value, which satisfies `Q`, or the same error, in states related by `R`; it does not
panic. -/
def Det2 {α : Type} (R : State → State → Prop) (x : M α) (Q : α → Prop) : Prop :=
  ∀ s s1, R s s1 →
    match x s, x s1 with
    | .ok a s2, .ok a1 s3 => a1 = a ∧ Q a ∧ R s2 s3
    | .error e s2, .error e1 s3 => e1 = e ∧ R s2 s3
    | _, _ => False

/-- A loop: `step` is run for the elements of a list in turn, a value being passed
on. -/
def runSteps {ι β : Type} (step : ι → β → M β) : List ι → β → M β
  | [], b => pure b
  | x :: rest, b => step x b >>= runSteps step rest

/-- Two outcomes are both a return, with values and states related by `E`, or both an
error. -/
def OutcomeRel {β : Type} (E : β → State → β → State → Prop) (o o1 : Outcome β) : Prop :=
  match o, o1 with
  | .ok b s, .ok b1 s1 => E b s b1 s1
  | .error _ _, .error _ _ => True
  | _, _ => False

/-- The body of the second loop of `pollGroupMembers` for the id `id`, when the slot for
an id is `f id`. -/
def slotStep (c : Collaborators) (k : PollConsts) (groupType : pollGroupType)
    (f : InstanceId → Option InstHandle) (id : InstanceId) (_ : Unit) : M Unit :=
  match f id with
  | none => pure ()
  | some info => do
    let u ← getU
    match mapLookup u.instanceIDToGroupEntry id with
    | none => panicNow
    | some p => pollGroupMembersSlot c k groupType p info

/-- The ids of a batch can be handled in any order: no id comes twice, each is filed in
the reverse index under an entry, and the entries of two ids are different entries, for
different machines and tags. -/
structure BatchInv (tr0 : List Call) (ids : List InstanceId) (s : State) : Prop where
  pre : tr0 <+: s.trace
  nodup : ids.Nodup
  owner : ∀ id ∈ ids, ∃ p e,
    mapLookup s.u.instanceIDToGroupEntry id = some p ∧ s.u.heap[p]? = some e
  apart : ∀ (id id1 : InstanceId) (p p1 : Ptr) (e e1 : pollGroupEntry),
    id ∈ ids → id1 ∈ ids → id ≠ id1 →
    mapLookup s.u.instanceIDToGroupEntry id = some p →
    mapLookup s.u.instanceIDToGroupEntry id1 = some p1 →
    s.u.heap[p]? = some e → s.u.heap[p1]? = some e1 →
    p ≠ p1 ∧ e.m ≠ e1.m ∧ e.tag ≠ e1.tag

/-- What the first loop of `pollGroupMembers` does for one member: the value it leaves in
the member's entry, the id it files the entry under in the reverse index, the ids it adds
to the batch, the calls it makes, and the error it returns. -/
structure MemberEffect where
  entry : pollGroupEntry
  index : Option InstanceId
  batch : List InstanceId
  calls : List Call
  err : Option Error

/-- The effect of the first loop of `pollGroupMembers` for a member whose entry is `e`,
when `InstanceId()` answers `r` and the clock then reads `clk`: a member not due is
skipped; a member with an id adds it to the batch; otherwise `InstanceId()` is called
and the member is resolved, or bumped if not provisioned, or the error is returned. -/
def memberEffect (k : PollConsts) (g : pollGroupType) (now : Time) (e : pollGroupEntry)
    (r : Except Error InstanceId) (clk : Time) : MemberEffect :=
  if g = pollGroupType.shortPollGroup ∧ now < e.shortPollAt then
    { entry := e, index := none, batch := [], calls := [], err := none }
  else if e.instanceID ≠ "" then
    { entry := e, index := none, batch := [e.instanceID], calls := [], err := none }
  else
    match r with
    | .ok id =>
      { entry := { e with instanceID := id }, index := some id, batch := [id],
        calls := [Call.instanceId e.m], err := none }
    | .error err =>
      if err = Error.NotProvisioned then
        { entry := e.bumpShortPollInterval k clk, index := none, batch := [],
          calls := [Call.instanceId e.m, Call.clockNow], err := none }
      else
        { entry := e, index := none, batch := [], calls := [Call.instanceId e.m],
          err := some err }

/-- The effect of the first loop for a member whose entry is `e`, after the calls
`tr`. -/
def memberEffectAt (c : Collaborators) (k : PollConsts) (g : pollGroupType) (now : Time)
    (e : pollGroupEntry) (tr : List Call) : MemberEffect :=
  memberEffect k g now e (c.instanceId tr e.m) (c.clockNow (tr ++ [Call.instanceId e.m]))

/-- The state an effect on the entry at `p` leaves. -/
def MemberEffect.state (eff : MemberEffect) (p : Ptr) (s : State) : State :=
  { u :=
      match eff.index with
      | none => { s.u with heap := s.u.heap.set p eff.entry }
      | some id =>
        updaterWorker.insertInstanceID { s.u with heap := s.u.heap.set p eff.entry } id p,
    trace := s.trace ++ eff.calls }

/-- The outcome of an effect on the entry at `p`, the batch so far being `acc`. -/
def MemberEffect.apply (eff : MemberEffect) (p : Ptr) (acc : List InstanceId) (s : State) :
    Outcome (List InstanceId) :=
  match eff.err with
  | none => .ok (acc ++ eff.batch) (eff.state p s)
  | some err => .error err (eff.state p s)

/-- The members of a group can be visited in any order: no tag comes twice, and each
member is an entry of its tag for a machine the facade gave out for that tag. -/
structure MembersInv (c : Collaborators) (tr0 : List Call) (L : List (MachineTag × Ptr))
    (s : State) : Prop where
  pre : tr0 <+: s.trace
  nodup : (L.map Prod.fst).Nodup
  entry : ∀ tp ∈ L, ∃ e, s.u.heap[tp.2]? = some e ∧ e.tag = tp.1 ∧
    ∃ tr, c.facadeMachine tr tp.1 = Except.ok e.m

/-! ## Two machines, for a poll in either order -/

/-- A clock that advances by one second at every call. -/
def tickClock (tr : List Call) : Time :=
  1000000000 * (tr.length : Int)

/-- A clock that advances by one second at each of the first six calls and then stands
still. -/
def stoppedClock (tr : List Call) : Time :=
  1000000000 * ((min tr.length 6 : Nat) : Int)

/-- Collaborators that know two machines: the facade gives handle 1 for the tag "1" and
handle 2 for the tag "2", and an error for every other tag; machine 1 is instance "i-1"
and machine 2 is instance "i-2".  The clock is `clock`.  The model records the instance
status Pending for every machine and the provider reports Running, so that a poll writes
the status; `SetInstanceStatus` fails on the machines that `failing` holds for.  Nothing
but the clock depends on the calls made before. -/
def orderWorld (clock : List Call → Time) (failing : Handle → Bool) : Collaborators where
  clockNow := clock
  facadeMachine := fun _ tag =>
    if tag = "1" then Except.ok 1 else if tag = "2" then Except.ok 2
    else Except.error (Error.other "machine not found")
  refresh := fun _ _ => none
  life := fun _ _ => Life.Alive
  isManual := fun _ _ => Except.ok false
  instanceId := fun _ m =>
    if m = 1 then Except.ok "i-1" else if m = 2 then Except.ok "i-2"
    else Except.error Error.NotProvisioned
  instanceStatus := fun _ _ => Except.ok { Status := Status.Pending, Info := "" }
  setInstanceStatus := fun _ m _ _ =>
    if failing m then some (Error.other "cannot set instance status") else none
  providerAddresses := fun _ _ => Except.ok [demoAddress]
  providerAddressesOnError := fun _ _ => []
  setProviderAddresses := fun _ _ _ => none
  status := fun _ _ => Except.ok { Status := Status.Started, Info := "" }
  environInstances := fun _ ids =>
    (ids.map (fun id => if id = "i-1" then some 1 else if id = "i-2" then some 2 else none),
      none)
  instStatus := fun _ _ => { Status := Status.Running, Message := "" }
  instAddresses := fun _ _ => Except.ok [demoAddress]

/-- The state `pairQueued` with its short poll group listed in the other order. -/
def pairSwapped : State :=
  { u := pairQueued.u.reorder [("1", 0), ("2", 1)] [], trace := pairQueued.trace }

/-- With `orderWorld`: when a short poll from `pairSwapped` has made its batch. -/
def pairSelectedSwapped : State :=
  { u := { heap := [{ m := 1, tag := "1", instanceID := "i-1",
                      shortPollInterval := 1000000000, shortPollAt := 3000000000 },
                    { m := 2, tag := "2", instanceID := "i-2",
                      shortPollInterval := 1000000000, shortPollAt := 6000000000 }],
           shortGroup := [("1", 0), ("2", 1)], longGroup := [],
           instanceIDToGroupEntry := [("i-2", 1), ("i-1", 0)] },
    trace := pairQueued.trace ++ [Call.clockNow, Call.instanceId 1, Call.instanceId 2] }

/-- With the clock that advances at every call: in the short poll from `pairQueued`,
when the slot of machine "2" has been handled. -/
def tickHalf : State :=
  { u := { heap := [{ m := 1, tag := "1", instanceID := "i-1",
                      shortPollInterval := 1000000000, shortPollAt := 3000000000 },
                    { m := 2, tag := "2", instanceID := "i-2",
                      shortPollInterval := 1000000000, shortPollAt := 14000000000 }],
           shortGroup := [("1", 0)], longGroup := [("2", 1)],
           instanceIDToGroupEntry := [("i-1", 0), ("i-2", 1)] },
    trace := pairSelected.trace ++ [Call.environInstances ["i-2", "i-1"],
      Call.instanceStatus 2, Call.instStatus 2, Call.setInstanceStatus 2 Status.Running "",
      Call.clockNow, Call.life 2, Call.providerAddresses 2, Call.instAddresses 2,
      Call.status 2, Call.providerAddresses 2] }

/-- With the clock that advances at every call: in the short poll from `pairSwapped`,
when the slot of machine "1" has been handled. -/
def tickHalfSwapped : State :=
  { u := { heap := [{ m := 1, tag := "1", instanceID := "i-1",
                      shortPollInterval := 1000000000, shortPollAt := 14000000000 },
                    { m := 2, tag := "2", instanceID := "i-2",
                      shortPollInterval := 1000000000, shortPollAt := 6000000000 }],
           shortGroup := [("2", 1)], longGroup := [("1", 0)],
           instanceIDToGroupEntry := [("i-2", 1), ("i-1", 0)] },
    trace := pairSelectedSwapped.trace ++ [Call.environInstances ["i-1", "i-2"],
      Call.instanceStatus 1, Call.instStatus 1, Call.setInstanceStatus 1 Status.Running "",
      Call.clockNow, Call.life 1, Call.providerAddresses 1, Call.instAddresses 1,
      Call.status 1, Call.providerAddresses 1] }

/-- With the clock that stands still: in the short poll from `pairQueued`, when the slot
of machine "2" has been handled. -/
def stoppedHalf : State :=
  { u := { heap := [{ m := 1, tag := "1", instanceID := "i-1",
                      shortPollInterval := 1000000000, shortPollAt := 3000000000 },
                    { m := 2, tag := "2", instanceID := "i-2",
                      shortPollInterval := 1000000000, shortPollAt := 7000000000 }],
           shortGroup := [("1", 0)], longGroup := [("2", 1)],
           instanceIDToGroupEntry := [("i-1", 0), ("i-2", 1)] },
    trace := pairSelected.trace ++ [Call.environInstances ["i-2", "i-1"],
      Call.instanceStatus 2, Call.instStatus 2, Call.setInstanceStatus 2 Status.Running "",
      Call.clockNow, Call.life 2, Call.providerAddresses 2, Call.instAddresses 2,
      Call.status 2, Call.providerAddresses 2] }

/-- With the clock that advances at every call: after the short poll from
`pairQueued`, which handles machine "2" first. -/
def tickPolled : State :=
  { u := { heap := [{ m := 1, tag := "1", instanceID := "i-1",
                      shortPollInterval := 1000000000, shortPollAt := 23000000000 },
                    { m := 2, tag := "2", instanceID := "i-2",
                      shortPollInterval := 1000000000, shortPollAt := 14000000000 }],
           shortGroup := [], longGroup := [("1", 0), ("2", 1)],
           instanceIDToGroupEntry := [("i-1", 0), ("i-2", 1)] },
    trace := tickHalf.trace ++ [Call.instanceStatus 1, Call.instStatus 1,
      Call.setInstanceStatus 1 Status.Running "", Call.clockNow, Call.life 1,
      Call.providerAddresses 1, Call.instAddresses 1, Call.status 1,
      Call.providerAddresses 1] }

/-- With the clock that advances at every call: after the short poll from
`pairSwapped`, which handles machine "1" first. -/
def tickPolledSwapped : State :=
  { u := { heap := [{ m := 1, tag := "1", instanceID := "i-1",
                      shortPollInterval := 1000000000, shortPollAt := 14000000000 },
                    { m := 2, tag := "2", instanceID := "i-2",
                      shortPollInterval := 1000000000, shortPollAt := 23000000000 }],
           shortGroup := [], longGroup := [("2", 1), ("1", 0)],
           instanceIDToGroupEntry := [("i-2", 1), ("i-1", 0)] },
    trace := tickHalfSwapped.trace ++ [Call.instanceStatus 2, Call.instStatus 2,
      Call.setInstanceStatus 2 Status.Running "", Call.clockNow, Call.life 2,
      Call.providerAddresses 2, Call.instAddresses 2, Call.status 2,
      Call.providerAddresses 2] }

/-- With the clock that stands still and `SetInstanceStatus` failing on machine "1":
where the short poll from `pairQueued` returns the error.  Machine "2" has been handled:
its status is written and it is in the long group. -/
def failedPolled : State :=
  { u := { heap := [{ m := 1, tag := "1", instanceID := "i-1",
                      shortPollInterval := 1000000000, shortPollAt := 3000000000 },
                    { m := 2, tag := "2", instanceID := "i-2",
                      shortPollInterval := 1000000000, shortPollAt := 7000000000 }],
           shortGroup := [("1", 0)], longGroup := [("2", 1)],
           instanceIDToGroupEntry := [("i-1", 0), ("i-2", 1)] },
    trace := stoppedHalf.trace ++ [Call.instanceStatus 1, Call.instStatus 1,
      Call.setInstanceStatus 1 Status.Running ""] }

/-- With the clock that stands still and `SetInstanceStatus` failing on machine "1":
where the short poll from `pairSwapped` returns the error.  Machine "2" has not been
handled. -/
def failedPolledSwapped : State :=
  { u := { heap := [{ m := 1, tag := "1", instanceID := "i-1",
                      shortPollInterval := 1000000000, shortPollAt := 3000000000 },
                    { m := 2, tag := "2", instanceID := "i-2",
                      shortPollInterval := 1000000000, shortPollAt := 6000000000 }],
           shortGroup := [("1", 0), ("2", 1)], longGroup := [],
           instanceIDToGroupEntry := [("i-2", 1), ("i-1", 0)] },
    trace := pairSelectedSwapped.trace ++ [Call.environInstances ["i-1", "i-2"],
      Call.instanceStatus 1, Call.instStatus 1,
      Call.setInstanceStatus 1 Status.Running ""] }

/-- With the clock that stands still and no failing call: after the short poll from
`pairQueued`. -/
def stoppedPolled : State :=
  { u := { heap := [{ m := 1, tag := "1", instanceID := "i-1",
                      shortPollInterval := 1000000000, shortPollAt := 7000000000 },
                    { m := 2, tag := "2", instanceID := "i-2",
                      shortPollInterval := 1000000000, shortPollAt := 7000000000 }],
           shortGroup := [], longGroup := [("1", 0), ("2", 1)],
           instanceIDToGroupEntry := [("i-1", 0), ("i-2", 1)] },
    trace := stoppedHalf.trace ++ [Call.instanceStatus 1, Call.instStatus 1,
      Call.setInstanceStatus 1 Status.Running "", Call.clockNow, Call.life 1,
      Call.providerAddresses 1, Call.instAddresses 1, Call.status 1,
      Call.providerAddresses 1] }

/-! ## Machines that share an instance id, and an empty instance id -/

/-- Collaborators for which two machines report the same instance id: the facade gives
handle 1 for the tag "1" and handle 2 for the tag "2", and an error for every other tag;
`InstanceId()` returns "i-x" for every machine.  The clock advances by one second at
every call.  Model and provider agree on status Running and the address `10.0.0.1`, so a
poll writes nothing; the machine status is Pending, so an entry handled in the short
group is backed off.  `Environ.Instances` answers `instances ids`. -/
def sharedWorld (instances : List InstanceId → List (Option InstHandle) × Option Error) :
    Collaborators where
  clockNow := tickClock
  facadeMachine := fun _ tag =>
    if tag = "1" then Except.ok 1 else if tag = "2" then Except.ok 2
    else Except.error (Error.other "machine not found")
  refresh := fun _ _ => none
  life := fun _ _ => Life.Alive
  isManual := fun _ _ => Except.ok false
  instanceId := fun _ _ => Except.ok "i-x"
  instanceStatus := fun _ _ => Except.ok { Status := Status.Running, Info := "" }
  setInstanceStatus := fun _ _ _ _ => none
  providerAddresses := fun _ _ => Except.ok [demoAddress]
  providerAddressesOnError := fun _ _ => []
  setProviderAddresses := fun _ _ _ => none
  status := fun _ _ => Except.ok { Status := Status.Pending, Info := "" }
  environInstances := fun _ ids => instances ids
  instStatus := fun _ _ => { Status := Status.Running, Message := "" }
  instAddresses := fun _ _ => Except.ok [demoAddress]

/-- A provider that knows every id: the instance 7 at every position. -/
def knownEverywhere (ids : List InstanceId) : List (Option InstHandle) × Option Error :=
  (ids.map (fun _ => some 7), none)

/-- Collaborators for which `InstanceId()` returns the empty id without an error at its
first call and the NotProvisioned error afterwards; the provider knows no instance.
Otherwise as `demoWorld`. -/
def blankIdWorld : Collaborators :=
  { demoWorld with
    instanceId := fun tr _ =>
      if tr.any (fun ev =>
          match ev with
          | Call.instanceId _ => true
          | _ => false)
      then Except.error Error.NotProvisioned else Except.ok ""
    environInstances := fun _ ids =>
      (ids.map (fun _ => none), some Error.ErrPartialInstances) }

/-- With `sharedWorld`: when the short poll from `pairQueued` has made its batch.  Both
machines have the id "i-x"; the reverse index files it under the entry of machine "1",
visited last. -/
def sharedSelected : State :=
  { u := { heap := [{ m := 1, tag := "1", instanceID := "i-x",
                      shortPollInterval := 1000000000, shortPollAt := 3000000000 },
                    { m := 2, tag := "2", instanceID := "i-x",
                      shortPollInterval := 1000000000, shortPollAt := 6000000000 }],
           shortGroup := [("2", 1), ("1", 0)], longGroup := [],
           instanceIDToGroupEntry := [("i-x", 0)] },
    trace := pairQueued.trace ++ [Call.clockNow, Call.instanceId 2, Call.instanceId 1] }

/-- With `sharedWorld`: in that short poll, when the first slot has been handled; it was
handled for the entry of machine "1". -/
def sharedHalf : State :=
  { u := { heap := [{ m := 1, tag := "1", instanceID := "i-x",
                      shortPollInterval := 2000000000, shortPollAt := 19000000000 },
                    { m := 2, tag := "2", instanceID := "i-x",
                      shortPollInterval := 1000000000, shortPollAt := 6000000000 }],
           shortGroup := [("2", 1), ("1", 0)], longGroup := [],
           instanceIDToGroupEntry := [("i-x", 0)] },
    trace := sharedSelected.trace ++ [Call.environInstances ["i-x", "i-x"],
      Call.instanceStatus 1, Call.instStatus 7, Call.life 1, Call.providerAddresses 1,
      Call.instAddresses 7, Call.status 1, Call.providerAddresses 1, Call.clockNow] }

/-- With `sharedWorld knownEverywhere`: after that short poll; the second slot was
handled for the entry of machine "1" as well. -/
def sharedPolled : State :=
  { u := { heap := [{ m := 1, tag := "1", instanceID := "i-x",
                      shortPollInterval := 4000000000, shortPollAt := 29000000000 },
                    { m := 2, tag := "2", instanceID := "i-x",
                      shortPollInterval := 1000000000, shortPollAt := 6000000000 }],
           shortGroup := [("2", 1), ("1", 0)], longGroup := [],
           instanceIDToGroupEntry := [("i-x", 0)] },
    trace := sharedHalf.trace ++ [Call.instanceStatus 1, Call.instStatus 7, Call.life 1,
      Call.providerAddresses 1, Call.instAddresses 7, Call.status 1,
      Call.providerAddresses 1, Call.clockNow] }

/-- With `sharedWorld knownEverywhere`: after the short poll that follows, at 26 s, for
which machine "1" is not due. -/
def sharedPolledAgain : State :=
  { u := { heap := [{ m := 1, tag := "1", instanceID := "i-x",
                      shortPollInterval := 8000000000, shortPollAt := 43000000000 },
                    { m := 2, tag := "2", instanceID := "i-x",
                      shortPollInterval := 1000000000, shortPollAt := 6000000000 }],
           shortGroup := [("2", 1), ("1", 0)], longGroup := [],
           instanceIDToGroupEntry := [("i-x", 0)] },
    trace := sharedPolled.trace ++ [Call.clockNow, Call.environInstances ["i-x"],
      Call.instanceStatus 1, Call.instStatus 7, Call.life 1, Call.providerAddresses 1,
      Call.instAddresses 7, Call.status 1, Call.providerAddresses 1, Call.clockNow] }

/-- With `blankIdWorld`: after the short poll that follows the report of machine "1".
`InstanceId()` has returned the empty id, and the entry is filed under it. -/
def blankPolled : State :=
  { u := { heap := [{ m := 1, tag := "1", instanceID := "", shortPollInterval := 1000000000,
                      shortPollAt := 3000000000 }],
           shortGroup := [("1", 0)], longGroup := [], instanceIDToGroupEntry := [("", 0)] },
    trace := demoQueued.trace ++ [Call.clockNow, Call.instanceId 1,
      Call.environInstances [""]] }

/-- With `blankIdWorld`: after the next short poll, at which `InstanceId()` has returned
the NotProvisioned error. -/
def blankBumped : State :=
  { u := { heap := [{ m := 1, tag := "1", instanceID := "", shortPollInterval := 2000000000,
                      shortPollAt := 10000000000 }],
           shortGroup := [("1", 0)], longGroup := [], instanceIDToGroupEntry := [("", 0)] },
    trace := blankPolled.trace ++ [Call.clockNow, Call.instanceId 1, Call.clockNow] }

/-- Collaborators whose `ProviderAddresses()` fails, and returns the address `10.0.0.1`
together with the error.  Otherwise as `demoWorld`. -/
def leakyWorld : Collaborators :=
  { demoWorld with
    providerAddresses := fun _ _ => Except.error (Error.other "cannot read addresses")
    providerAddressesOnError := fun _ _ => [demoAddress] }

/-! ## Reasoning rules -/

theorem M.bind_apply {α β : Type} (x : M α) (f : α → M β) (s : State) :
    (x >>= f) s =
      match x s with
      | .ok a s1 => f a s1
      | .error e s1 => .error e s1
      | .panic => .panic := rfl

theorem M.pure_apply {α : Type} (a : α) (s : State) :
    (pure a : M α) s = Outcome.ok a s := rfl

theorem triple_pure {α : Type} {P : State → Prop} {Q : α → State → Prop} (a : α)
    (h : ∀ s, P s → Q a s) : Triple P (pure a : M α) Q := by
  intro s hs
  exact h s hs

theorem triple_bind {α β : Type} {P : State → Prop} {x : M α} {Q : α → State → Prop}
    {f : α → M β} {R : β → State → Prop}
    (hx : Triple P x Q) (hf : ∀ a, Triple (Q a) (f a) R) : Triple P (x >>= f) R := by
  intro s hs
  have h1 := hx s hs
  rw [M.bind_apply]
  cases hxs : x s with
  | ok a s1 =>
    rw [hxs] at h1
    exact hf a s1 h1
  | error e s1 => trivial
  | panic => trivial

theorem triple_weaken {α : Type} {P P0 : State → Prop} {x : M α} {Q Q0 : α → State → Prop}
    (h : Triple P0 x Q0) (hpre : ∀ s, P s → P0 s) (hpost : ∀ a s, Q0 a s → Q a s) :
    Triple P x Q := by
  intro s hs
  have h1 := h s (hpre s hs)
  cases hxs : x s with
  | ok a s1 =>
    rw [hxs] at h1
    exact hpost a s1 h1
  | error e s1 => trivial
  | panic => trivial

theorem triple_throwErr {α : Type} {P : State → Prop} {Q : α → State → Prop} (e : Error) :
    Triple P (throwErr e : M α) Q := by
  intro s _
  trivial

theorem triple_panicNow {α : Type} {P : State → Prop} {Q : α → State → Prop} :
    Triple P (panicNow : M α) Q := by
  intro s _
  trivial

theorem triple_getU {P : State → Prop} :
    Triple P getU (fun u s => P s ∧ u = s.u) := by
  intro s hs
  exact ⟨hs, rfl⟩

theorem triple_modifyU {P : State → Prop} {Q : Unit → State → Prop}
    (f : updaterWorker → updaterWorker)
    (h : ∀ s, P s → Q () { s with u := f s.u }) : Triple P (modifyU f) Q := by
  intro s hs
  exact h s hs

theorem triple_invoke {ρ : Type} {P : State → Prop} {Q : ρ → State → Prop} (ev : Call)
    (answer : List Call → ρ)
    (h : ∀ s, P s → Q (answer s.trace) { s with trace := s.trace ++ [ev] }) :
    Triple P (invoke ev answer) Q := by
  intro s hs
  exact h s hs

theorem triple_invokeOrReturn {ρ : Type} {P : State → Prop} {Q : ρ → State → Prop}
    (ev : Call) (answer : List Call → Except Error ρ)
    (h : ∀ s a, P s → answer s.trace = .ok a → Q a { s with trace := s.trace ++ [ev] }) :
    Triple P (invokeOrReturn ev answer) Q := by
  intro s hs
  unfold invokeOrReturn
  cases ha : answer s.trace with
  | ok a => exact h s a hs ha
  | error e => trivial

theorem triple_invokeCheck {P : State → Prop} {Q : Unit → State → Prop}
    (ev : Call) (answer : List Call → Option Error)
    (h : ∀ s, P s → answer s.trace = none → Q () { s with trace := s.trace ++ [ev] }) :
    Triple P (invokeCheck ev answer) Q := by
  intro s hs
  unfold invokeCheck
  cases ha : answer s.trace with
  | none => exact h s hs ha
  | some e => trivial

theorem triple_deref {P : State → Prop} (p : Ptr) :
    Triple P (deref p) (fun e s => P s ∧ s.u.heap[p]? = some e) := by
  intro s hs
  unfold deref
  cases hp : s.u.heap[p]? with
  | none => trivial
  | some e => exact ⟨hs, hp⟩

/-! ## Maps -/

theorem mem_mapKeys_mapDelete {κ : Type} [DecidableEq κ] (m : List (κ × Ptr)) (k k0 : κ) :
    k0 ∈ mapKeys (mapDelete m k) ↔ k0 ∈ mapKeys m ∧ k0 ≠ k := by
  simp only [mapKeys, mapDelete, List.mem_map, List.mem_filter, decide_eq_true_eq]
  constructor
  · rintro ⟨kv, ⟨hmem, hne⟩, rfl⟩
    exact ⟨⟨kv, hmem, rfl⟩, hne⟩
  · rintro ⟨⟨kv, hmem, rfl⟩, hne⟩
    exact ⟨kv, ⟨hmem, hne⟩, rfl⟩

theorem mem_mapKeys_mapInsert {κ : Type} [DecidableEq κ] (m : List (κ × Ptr)) (k k0 : κ)
    (v : Ptr) : k0 ∈ mapKeys (mapInsert m k v) ↔ k0 = k ∨ k0 ∈ mapKeys m := by
  unfold mapInsert
  have h := mem_mapKeys_mapDelete m k k0
  simp only [mapKeys] at h ⊢
  rw [List.map_cons, List.mem_cons, h]
  by_cases hk : k0 = k
  · simp [hk]
  · simp [hk]

theorem mapLookup_eq_none_iff {κ : Type} [DecidableEq κ] (m : List (κ × Ptr)) (k : κ) :
    mapLookup m k = none ↔ k ∉ mapKeys m := by
  induction m with
  | nil => simp [mapLookup, mapKeys]
  | cons kv rest ih =>
    obtain ⟨k0, v⟩ := kv
    unfold mapLookup
    by_cases hk : k0 = k
    · simp [hk, mapKeys]
    · simp only [hk, if_false, ih, mapKeys, List.map_cons, List.mem_cons]
      constructor
      · intro h1 h2
        rcases h2 with h2 | h2
        · exact hk h2.symm
        · exact h1 h2
      · intro h1 h2
        exact h1 (Or.inr h2)

theorem resetShortPollInterval_groups (c : Collaborators) (k : PollConsts) (p : Ptr)
    (a b : List (MachineTag × Ptr)) :
    Triple (SameGroups a b) (resetShortPollInterval c k p) (fun _ => SameGroups a b) := by
  unfold resetShortPollInterval
  apply triple_bind (triple_deref p)
  intro e
  apply triple_bind (Q := fun _ => SameGroups a b)
  · apply triple_invoke
    intro s hs
    exact hs.1
  · intro now
    apply triple_modifyU
    intro s hs
    exact hs


/-! ## Group exclusivity -/

theorem bumpShortPollInterval_groups (c : Collaborators) (k : PollConsts) (p : Ptr)
    (a b : List (MachineTag × Ptr)) :
    Triple (SameGroups a b) (bumpShortPollInterval c k p) (fun _ => SameGroups a b) := by
  unfold bumpShortPollInterval
  apply triple_bind (triple_deref p)
  intro e
  apply triple_bind (Q := fun _ => SameGroups a b)
  · apply triple_invoke
    intro s hs
    exact hs.1
  · intro now
    apply triple_modifyU
    intro s hs
    exact hs

theorem resolveInstanceID_groups (c : Collaborators) (p : Ptr)
    (a b : List (MachineTag × Ptr)) :
    Triple (SameGroups a b) (resolveInstanceID c p) (fun _ => SameGroups a b) := by
  unfold resolveInstanceID
  apply triple_bind (triple_deref p)
  intro entry
  split
  · exact triple_pure _ (fun s hs => hs.1)
  · apply triple_bind (Q := fun _ => SameGroups a b)
    · apply triple_invoke
      intro s hs
      exact hs.1
    · intro r
      split
      · exact triple_pure _ (fun s hs => hs)
      · apply triple_bind (Q := fun _ => SameGroups a b)
        · apply triple_modifyU
          intro s hs
          exact hs
        · intro _
          apply triple_bind (Q := fun _ => SameGroups a b)
          · apply triple_modifyU
            intro s hs
            exact hs
          · intro _
            exact triple_pure _ (fun s hs => hs)

theorem processProviderInfo_groups (c : Collaborators) (k : PollConsts) (p : Ptr)
    (info : InstHandle) (a b : List (MachineTag × Ptr)) :
    Triple (SameGroups a b) (processProviderInfo c k p info) (fun _ => SameGroups a b) := by
  unfold processProviderInfo
  apply triple_bind (triple_deref p)
  intro entry
  apply triple_bind (Q := fun _ => SameGroups a b)
  · exact triple_invoke _ _ (fun s hs => hs.1)
  · intro r
    split
    · exact triple_pure _ (fun s hs => hs)
    · apply triple_bind (Q := fun _ => SameGroups a b)
      · exact triple_invoke _ _ (fun s hs => hs)
      · intro providerStatus
        apply triple_bind (Q := fun _ => SameGroups a b)
        · split
          · apply triple_bind (Q := fun _ => SameGroups a b)
            · exact triple_invokeCheck _ _ (fun s hs _ => hs)
            · intro _
              split
              · exact resetShortPollInterval_groups c k p a b
              · exact triple_pure _ (fun s hs => hs)
          · exact triple_pure _ (fun s hs => hs)
        · intro _
          apply triple_bind (Q := fun _ => SameGroups a b)
          · exact triple_invoke _ _ (fun s hs => hs)
          · intro life
            split
            · exact triple_pure _ (fun s hs => hs)
            · apply triple_bind (Q := fun _ => SameGroups a b)
              · exact triple_invokeOrReturn _ _ (fun s _ hs _ => hs)
              · intro curAddresses
                apply triple_bind (Q := fun _ => SameGroups a b)
                · exact triple_invokeOrReturn _ _ (fun s _ hs _ => hs)
                · intro providerAddresses
                  apply triple_bind (Q := fun _ => SameGroups a b)
                  · split
                    · exact triple_invokeCheck _ _ (fun s hs _ => hs)
                    · exact triple_pure _ (fun s hs => hs)
                  · intro _
                    exact triple_pure _ (fun s hs => hs)

theorem collectInstanceIDs_groups (c : Collaborators) (k : PollConsts) (g : pollGroupType)
    (now : Time) (a b : List (MachineTag × Ptr)) (members : List (MachineTag × Ptr)) :
    ∀ instList : List InstanceId,
      Triple (SameGroups a b) (collectInstanceIDs c k g now members instList)
        (fun _ => SameGroups a b) := by
  induction members with
  | nil =>
    intro instList
    unfold collectInstanceIDs
    exact triple_pure _ (fun s hs => hs)
  | cons kv rest ih =>
    intro instList
    obtain ⟨t, p⟩ := kv
    unfold collectInstanceIDs
    apply triple_bind (Q := fun _ => SameGroups a b)
    · exact triple_weaken (triple_deref p) (fun s hs => hs) (fun _ s hs => hs.1)
    · intro entry
      split
      · exact ih instList
      · apply triple_bind (resolveInstanceID_groups c p a b)
        intro err
        split
        · split
          · apply triple_bind (bumpShortPollInterval_groups c k p a b)
            intro _
            exact ih instList
          · exact triple_throwErr _
        · apply triple_bind (Q := fun _ => SameGroups a b)
          · exact triple_weaken (triple_deref p) (fun s hs => hs) (fun _ s hs => hs.1)
          · intro entry2
            exact ih _

theorem triple_of_sameGroups {α : Type} {x : M α}
    (h : ∀ a b, Triple (SameGroups a b) x (fun _ => SameGroups a b))
    (G : List (MachineTag × Ptr) → List (MachineTag × Ptr) → Prop) :
    Triple (fun s => G s.u.shortGroup s.u.longGroup) x
      (fun _ s => G s.u.shortGroup s.u.longGroup) := by
  intro s hs
  have h1 := h s.u.shortGroup s.u.longGroup s ⟨rfl, rfl⟩
  cases hx : x s with
  | ok r s1 =>
    rw [hx] at h1
    show G s1.u.shortGroup s1.u.longGroup
    rw [h1.1, h1.2]
    exact hs
  | error e s1 => trivial
  | panic => trivial

theorem exclusive_move_to_short (u : updaterWorker) (tag : MachineTag) (p : Ptr)
    (h : GroupsExclusive u) :
    GroupsExclusive ((u.deleteFromGroup pollGroupType.longPollGroup tag).insertIntoGroup
      pollGroupType.shortPollGroup tag p) := by
  intro t ht
  obtain ⟨hs, hl⟩ := ht
  simp only [updaterWorker.deleteFromGroup, updaterWorker.insertIntoGroup] at hs hl
  rw [mem_mapKeys_mapInsert] at hs
  rw [mem_mapKeys_mapDelete] at hl
  rcases hs with hs | hs
  · exact hl.2 hs
  · exact h t ⟨hs, hl.1⟩

theorem exclusive_move_to_long (u : updaterWorker) (tag : MachineTag) (p : Ptr)
    (h : GroupsExclusive u) :
    GroupsExclusive ((u.deleteFromGroup pollGroupType.shortPollGroup tag).insertIntoGroup
      pollGroupType.longPollGroup tag p) := by
  intro t ht
  obtain ⟨hs, hl⟩ := ht
  simp only [updaterWorker.deleteFromGroup, updaterWorker.insertIntoGroup] at hs hl
  rw [mem_mapKeys_mapInsert] at hl
  rw [mem_mapKeys_mapDelete] at hs
  rcases hl with hl | hl
  · exact hs.2 hl
  · exact h t ⟨hs.1, hl⟩

theorem exclusive_delete (u : updaterWorker) (g : pollGroupType) (tag : MachineTag)
    (h : GroupsExclusive u) : GroupsExclusive (u.deleteFromGroup g tag) := by
  intro t ht
  obtain ⟨hs, hl⟩ := ht
  cases g with
  | shortPollGroup =>
    simp only [updaterWorker.deleteFromGroup] at hs hl
    rw [mem_mapKeys_mapDelete] at hs
    exact h t ⟨hs.1, hl⟩
  | longPollGroup =>
    simp only [updaterWorker.deleteFromGroup] at hs hl
    rw [mem_mapKeys_mapDelete] at hl
    exact h t ⟨hs, hl.1⟩

theorem triple_exclusive_of_groups {α : Type} {x : M α}
    (h : ∀ a b, Triple (SameGroups a b) x (fun _ => SameGroups a b)) :
    Triple (fun s => GroupsExclusive s.u) x (fun _ s => GroupsExclusive s.u) :=
  triple_of_sameGroups h
    (fun a b => ∀ tag : MachineTag, ¬ (tag ∈ mapKeys a ∧ tag ∈ mapKeys b))

theorem maybeSwitchPollGroup_exclusive (c : Collaborators) (k : PollConsts)
    (g : pollGroupType) (p : Ptr) (ps ms : Status) :
    Triple (fun s => GroupsExclusive s.u) (maybeSwitchPollGroup c k g p ps ms)
      (fun _ s => GroupsExclusive s.u) := by
  unfold maybeSwitchPollGroup
  split
  · exact triple_exclusive_of_groups (bumpShortPollInterval_groups c k p)
  · apply triple_bind (triple_deref p)
    intro entry
    apply triple_bind (Q := fun _ s => GroupsExclusive s.u)
    · exact triple_invoke _ _ (fun s hs => hs.1)
    · intro r
      dsimp only
      split
      · apply triple_bind
          (Q := fun _ s => ∃ u0, GroupsExclusive u0 ∧
            s.u = u0.deleteFromGroup pollGroupType.longPollGroup entry.tag)
        · exact triple_modifyU _ (fun s hs => ⟨s.u, hs, rfl⟩)
        · intro _
          apply triple_bind (Q := fun _ s => GroupsExclusive s.u)
          · apply triple_modifyU
            rintro s ⟨u0, h0, hu⟩
            show GroupsExclusive (s.u.insertIntoGroup pollGroupType.shortPollGroup entry.tag p)
            rw [hu]
            exact exclusive_move_to_short u0 entry.tag p h0
          · intro _
            exact triple_exclusive_of_groups (resetShortPollInterval_groups c k p)
      · split
        · split
          · exact triple_pure _ (fun s hs => hs)
          · apply triple_bind
              (Q := fun _ s => ∃ u0, GroupsExclusive u0 ∧
                s.u = u0.deleteFromGroup pollGroupType.shortPollGroup entry.tag)
            · exact triple_modifyU _ (fun s hs => ⟨s.u, hs, rfl⟩)
            · intro _
              apply triple_modifyU
              rintro s ⟨u0, h0, hu⟩
              show GroupsExclusive (s.u.insertIntoGroup pollGroupType.longPollGroup entry.tag p)
              rw [hu]
              exact exclusive_move_to_long u0 entry.tag p h0
        · split
          · exact triple_exclusive_of_groups (bumpShortPollInterval_groups c k p)
          · exact triple_pure _ (fun s hs => hs)

theorem processInfoList_exclusive (c : Collaborators) (k : PollConsts) (g : pollGroupType)
    (instList : List InstanceId) (infoList : List (Option InstHandle)) :
    ∀ idx : Nat,
      Triple (fun s => GroupsExclusive s.u) (processInfoList c k g instList idx infoList)
        (fun _ s => GroupsExclusive s.u) := by
  induction infoList with
  | nil =>
    intro idx
    unfold processInfoList
    exact triple_pure _ (fun s hs => hs)
  | cons slot rest ih =>
    intro idx
    unfold processInfoList
    split
    · exact triple_panicNow
    · split
      · exact ih (idx + 1)
      · apply triple_bind (Q := fun _ s => GroupsExclusive s.u)
        · exact triple_weaken triple_getU (fun s hs => hs) (fun _ s hs => hs.1)
        · intro u
          split
          · exact triple_panicNow
          · rename_i p _
            apply triple_bind
              (triple_exclusive_of_groups (processProviderInfo_groups c k p _))
            intro providerStatus
            apply triple_bind (Q := fun _ s => GroupsExclusive s.u)
            · exact triple_weaken (triple_deref p) (fun s hs => hs) (fun _ s hs => hs.1)
            · intro entry
              apply triple_bind (Q := fun _ s => GroupsExclusive s.u)
              · exact triple_invokeOrReturn _ _ (fun s _ hs _ => hs)
              · intro machineStatus
                apply triple_bind (maybeSwitchPollGroup_exclusive c k g p _ _)
                intro _
                exact ih (idx + 1)

theorem pollGroupMembers_exclusive (c : Collaborators) (k : PollConsts) (g : pollGroupType) :
    Triple (fun s => GroupsExclusive s.u) (pollGroupMembers c k g)
      (fun _ s => GroupsExclusive s.u) := by
  unfold pollGroupMembers
  apply triple_bind (Q := fun _ s => GroupsExclusive s.u)
  · exact triple_invoke _ _ (fun s hs => hs)
  · intro now
    apply triple_bind (Q := fun _ s => GroupsExclusive s.u)
    · exact triple_weaken triple_getU (fun s hs => hs) (fun _ s hs => hs.1)
    · intro u
      apply triple_bind
        (triple_exclusive_of_groups (fun a b => collectInstanceIDs_groups c k g now a b _ _))
      intro instList
      split
      · exact triple_pure _ (fun s hs => hs)
      · apply triple_bind (Q := fun _ s => GroupsExclusive s.u)
        · exact triple_invoke _ _ (fun s hs => hs)
        · intro res
          split
          · split
            · exact triple_throwErr _
            · exact processInfoList_exclusive c k g instList res.1 0
          · exact processInfoList_exclusive c k g instList res.1 0

theorem appendToShortPollGroup_exclusive (c : Collaborators) (k : PollConsts)
    (tag : MachineTag) (m : Handle) :
    Triple (fun s => GroupsExclusive s.u ∧ tag ∉ mapKeys s.u.longGroup)
      (appendToShortPollGroup c k tag m) (fun _ s => GroupsExclusive s.u) := by
  unfold appendToShortPollGroup
  apply triple_bind
    (Q := fun _ s => GroupsExclusive s.u ∧ tag ∉ mapKeys s.u.longGroup)
  · exact triple_weaken triple_getU (fun s hs => hs) (fun _ s hs => hs.1)
  · intro u
    apply triple_bind
      (Q := fun _ s => GroupsExclusive s.u ∧ tag ∉ mapKeys s.u.longGroup)
    · exact triple_modifyU _ (fun s hs => hs)
    · intro _
      apply triple_bind
        (Q := fun _ s => GroupsExclusive s.u ∧ tag ∉ mapKeys s.u.longGroup)
      · exact triple_of_sameGroups (resetShortPollInterval_groups c k _)
          (fun a b => (∀ t : MachineTag, ¬ (t ∈ mapKeys a ∧ t ∈ mapKeys b)) ∧
            tag ∉ mapKeys b)
      · intro _
        apply triple_modifyU
        rintro s ⟨hex, hl⟩ t ⟨hs, hl2⟩
        simp only [updaterWorker.insertIntoGroup] at hs hl2
        rw [mem_mapKeys_mapInsert] at hs
        rcases hs with hs | hs
        · exact hl (hs ▸ hl2)
        · exact hex t ⟨hs, hl2⟩

theorem lookupPolledMachine_none (u : updaterWorker) (tag : MachineTag)
    (h : lookupPolledMachine u tag = none) :
    tag ∉ mapKeys u.shortGroup ∧ tag ∉ mapKeys u.longGroup := by
  unfold lookupPolledMachine at h
  cases hs : mapLookup u.shortGroup tag with
  | some p => simp [hs] at h
  | none =>
    cases hl : mapLookup u.longGroup tag with
    | some p => simp [hs, hl] at h
    | none =>
      exact ⟨(mapLookup_eq_none_iff _ _).1 hs, (mapLookup_eq_none_iff _ _).1 hl⟩

theorem queueMachineForPolling_exclusive (c : Collaborators) (k : PollConsts)
    (tag : MachineTag) :
    Triple (fun s => GroupsExclusive s.u) (queueMachineForPolling c k tag)
      (fun _ s => GroupsExclusive s.u) := by
  unfold queueMachineForPolling
  apply triple_bind triple_getU
  intro u
  split
  · rename_i p groupType hlook
    apply triple_bind (Q := fun _ s => GroupsExclusive s.u)
    · exact triple_weaken (triple_deref p) (fun s hs => hs.1) (fun _ s hs => hs.1)
    · intro entry
      apply triple_bind (Q := fun _ s => GroupsExclusive s.u)
      · exact triple_invokeCheck _ _ (fun s hs _ => hs)
      · intro _
        apply triple_bind (Q := fun _ s => GroupsExclusive s.u)
        · exact triple_invoke _ _ (fun s hs => hs)
        · intro life
          split
          · apply triple_bind (Q := fun _ s => GroupsExclusive s.u)
            · exact triple_modifyU _ (fun s hs => exclusive_delete s.u groupType tag hs)
            · intro _
              exact triple_modifyU _ (fun s hs => hs)
          · apply triple_bind
              (triple_exclusive_of_groups (resetShortPollInterval_groups c k p))
            intro _
            split
            · apply triple_bind
                (Q := fun _ s => ∃ u0, GroupsExclusive u0 ∧
                  s.u = u0.deleteFromGroup pollGroupType.longPollGroup tag)
              · exact triple_modifyU _ (fun s hs => ⟨s.u, hs, rfl⟩)
              · intro _
                apply triple_modifyU
                rintro s ⟨u0, h0, hu⟩
                show GroupsExclusive (s.u.insertIntoGroup pollGroupType.shortPollGroup tag p)
                rw [hu]
                exact exclusive_move_to_short u0 tag p h0
            · exact triple_pure _ (fun s hs => hs)
  · rename_i hlook
    apply triple_bind
      (Q := fun _ s => GroupsExclusive s.u ∧ tag ∉ mapKeys s.u.longGroup)
    · apply triple_invokeOrReturn
      rintro s a ⟨hs, hu⟩ _
      subst hu
      exact ⟨hs, (lookupPolledMachine_none s.u tag hlook).2⟩
    · intro m
      apply triple_bind
        (Q := fun _ s => GroupsExclusive s.u ∧ tag ∉ mapKeys s.u.longGroup)
      · exact triple_invokeOrReturn _ _ (fun s _ hs _ => hs)
      · intro isManual
        split
        · apply triple_bind (Q := fun _ s => GroupsExclusive s.u)
          · exact triple_invokeOrReturn _ _ (fun s _ hs _ => hs.1)
          · intro machineStatus
            split
            · exact triple_invokeCheck _ _ (fun s hs _ => hs)
            · exact triple_pure _ (fun s hs => hs)
        · exact appendToShortPollGroup_exclusive c k tag m

/-- Group exclusivity holds in every reachable state. -/
theorem reachable_exclusive (c : Collaborators) (k : PollConsts) (s : State)
    (h : Reachable c k s) : GroupsExclusive s.u := by
  induction h with
  | init =>
    intro t ht
    simp [State.init, mapKeys] at ht
  | queue s s1 tag _ hstep ih =>
    have h1 := queueMachineForPolling_exclusive c k tag s ih
    rw [hstep] at h1
    exact h1
  | poll s s1 g _ hstep ih =>
    have h1 := pollGroupMembers_exclusive c k g s ih
    rw [hstep] at h1
    exact h1
  | reorder s short long _ hs hl ih =>
    intro t ht
    exact ih t ⟨(hs.map Prod.fst).mem_iff.1 ht.1, (hl.map Prod.fst).mem_iff.1 ht.2⟩

/-! ## What the methods compute -/

theorem deref_apply (p : Ptr) (s : State) (e : pollGroupEntry) (h : s.u.heap[p]? = some e) :
    deref p s = Outcome.ok e s := by
  unfold deref
  rw [h]

theorem resetShortPollInterval_apply (c : Collaborators) (k : PollConsts) (p : Ptr)
    (s : State) (e : pollGroupEntry) (h : s.u.heap[p]? = some e) :
    resetShortPollInterval c k p s =
      Outcome.ok ()
        { u := { s.u with
                   heap := s.u.heap.set p (e.resetShortPollInterval k (c.clockNow s.trace)) },
          trace := s.trace ++ [Call.clockNow] } := by
  unfold resetShortPollInterval
  rw [M.bind_apply, deref_apply p s e h]
  rfl

theorem bumpShortPollInterval_apply (c : Collaborators) (k : PollConsts) (p : Ptr)
    (s : State) (e : pollGroupEntry) (h : s.u.heap[p]? = some e) :
    bumpShortPollInterval c k p s =
      Outcome.ok ()
        { u := { s.u with
                   heap := s.u.heap.set p (e.bumpShortPollInterval k (c.clockNow s.trace)) },
          trace := s.trace ++ [Call.clockNow] } := by
  unfold bumpShortPollInterval
  rw [M.bind_apply, deref_apply p s e h]
  rfl

theorem mapLookup_cons {κ : Type} [DecidableEq κ] (m : List (κ × Ptr)) (k k0 : κ) (v : Ptr) :
    mapLookup ((k, v) :: m) k0 = if k = k0 then some v else mapLookup m k0 := rfl

theorem mapLookup_mapDelete {κ : Type} [DecidableEq κ] (m : List (κ × Ptr)) (k k0 : κ) :
    mapLookup (mapDelete m k) k0 = if k = k0 then none else mapLookup m k0 := by
  induction m with
  | nil =>
    simp [mapDelete, mapLookup]
  | cons kv rest ih =>
    obtain ⟨k1, v⟩ := kv
    unfold mapDelete at ih ⊢
    by_cases h1 : k1 = k
    · subst h1
      rw [List.filter_cons_of_neg (by simp), ih]
      by_cases h2 : k1 = k0
      · simp [h2]
      · simp [h2, mapLookup]
    · rw [List.filter_cons_of_pos (by simpa using h1)]
      unfold mapLookup
      by_cases h2 : k1 = k0
      · subst h2
        have h3 : ¬ k = k1 := fun h => h1 h.symm
        simp [h3]
      · simp only [h2, if_false]
        exact ih

theorem mapLookup_mapInsert {κ : Type} [DecidableEq κ] (m : List (κ × Ptr)) (k k0 : κ)
    (v : Ptr) : mapLookup (mapInsert m k v) k0 = if k = k0 then some v else mapLookup m k0 := by
  show mapLookup ((k, v) :: mapDelete m k) k0 = _
  rw [mapLookup_cons, mapLookup_mapDelete]
  by_cases h : k = k0
  · simp [h]
  · simp [h]

/-- Branch of `maybeSwitchPollGroup` for a provider status Allocating or Pending. -/
theorem maybeSwitchPollGroup_unsettled (c : Collaborators) (k : PollConsts)
    (g : pollGroupType) (p : Ptr) (ps ms : Status) (s : State)
    (h1 : ps = Status.Allocating ∨ ps = Status.Pending) :
    maybeSwitchPollGroup c k g p ps ms s = bumpShortPollInterval c k p s := by
  unfold maybeSwitchPollGroup
  rw [if_pos h1]

/-- Branch of `maybeSwitchPollGroup` that moves a long-group entry back to the short
group. -/
theorem maybeSwitchPollGroup_demote (c : Collaborators) (k : PollConsts) (p : Ptr)
    (ps ms : Status) (s : State) (e : pollGroupEntry) (hheap : s.u.heap[p]? = some e)
    (h1 : ¬ (ps = Status.Allocating ∨ ps = Status.Pending))
    (h2 : ps = Status.Unknown ∨ c.addressesReturned s.trace e.m = []) :
    maybeSwitchPollGroup c k pollGroupType.longPollGroup p ps ms s =
      Outcome.ok ()
        { u := { heap := s.u.heap.set p (e.resetShortPollInterval k
                   (c.clockNow (s.trace ++ [Call.providerAddresses e.m]))),
                 shortGroup := mapInsert s.u.shortGroup e.tag p,
                 longGroup := mapDelete s.u.longGroup e.tag,
                 instanceIDToGroupEntry := s.u.instanceIDToGroupEntry },
          trace := s.trace ++ [Call.providerAddresses e.m] ++ [Call.clockNow] } := by
  have h2b : ps = Status.Unknown ∨
      (c.addressesReturned s.trace e.m).length = 0 := by
    rcases h2 with h2 | h2
    · exact Or.inl h2
    · exact Or.inr (by rw [h2]; rfl)
  unfold maybeSwitchPollGroup
  rw [if_neg h1, M.bind_apply, deref_apply p s e hheap]
  simp only [M.bind_apply, invoke, true_and]
  rw [if_pos h2b]
  simp only [M.bind_apply, modifyU]
  rw [resetShortPollInterval_apply c k p _ e (by exact hheap)]
  rfl

/-- Branch of `maybeSwitchPollGroup` that moves a short-group entry to the long group. -/
theorem maybeSwitchPollGroup_promote (c : Collaborators) (k : PollConsts) (p : Ptr)
    (ps ms : Status) (s : State) (e : pollGroupEntry) (hheap : s.u.heap[p]? = some e)
    (h1 : ¬ (ps = Status.Allocating ∨ ps = Status.Pending))
    (h2 : c.addressesReturned s.trace e.m ≠ []) (h3 : ms = Status.Started) :
    maybeSwitchPollGroup c k pollGroupType.shortPollGroup p ps ms s =
      Outcome.ok ()
        { u := { heap := s.u.heap,
                 shortGroup := mapDelete s.u.shortGroup e.tag,
                 longGroup := mapInsert s.u.longGroup e.tag p,
                 instanceIDToGroupEntry := s.u.instanceIDToGroupEntry },
          trace := s.trace ++ [Call.providerAddresses e.m] } := by
  have h2b : (c.addressesReturned s.trace e.m).length > 0 :=
    List.length_pos.2 h2
  unfold maybeSwitchPollGroup
  rw [if_neg h1, M.bind_apply, deref_apply p s e hheap]
  simp only [M.bind_apply, invoke]
  rw [if_neg (by simp), if_pos ⟨h2b, h3⟩, if_neg (by simp)]
  rfl

/-- Branch of `maybeSwitchPollGroup` that leaves a long-group entry where it is. -/
theorem maybeSwitchPollGroup_stay_long (c : Collaborators) (k : PollConsts) (p : Ptr)
    (ps ms : Status) (s : State) (e : pollGroupEntry) (hheap : s.u.heap[p]? = some e)
    (h1 : ¬ (ps = Status.Allocating ∨ ps = Status.Pending))
    (h2 : ¬ (ps = Status.Unknown ∨ c.addressesReturned s.trace e.m = [])) :
    maybeSwitchPollGroup c k pollGroupType.longPollGroup p ps ms s =
      Outcome.ok () { u := s.u, trace := s.trace ++ [Call.providerAddresses e.m] } := by
  have h2b : ¬ (ps = Status.Unknown ∨
      (c.addressesReturned s.trace e.m).length = 0) := by
    intro h
    apply h2
    rcases h with h | h
    · exact Or.inl h
    · exact Or.inr (List.length_eq_zero.1 h)
  unfold maybeSwitchPollGroup
  rw [if_neg h1, M.bind_apply, deref_apply p s e hheap]
  simp only [M.bind_apply, invoke, true_and]
  rw [if_neg h2b]
  by_cases h3 : (c.addressesReturned s.trace e.m).length > 0 ∧ ms = Status.Started
  · rw [if_pos h3]
    rfl
  · rw [if_neg h3, if_neg (by simp)]
    rfl

/-- Branch of `maybeSwitchPollGroup` that backs a short-group entry off. -/
theorem maybeSwitchPollGroup_backoff (c : Collaborators) (k : PollConsts) (p : Ptr)
    (ps ms : Status) (s : State) (e : pollGroupEntry) (hheap : s.u.heap[p]? = some e)
    (h1 : ¬ (ps = Status.Allocating ∨ ps = Status.Pending))
    (h2 : c.addressesReturned s.trace e.m = [] ∨ ms ≠ Status.Started) :
    maybeSwitchPollGroup c k pollGroupType.shortPollGroup p ps ms s =
      Outcome.ok ()
        { u := { s.u with
                   heap := s.u.heap.set p (e.bumpShortPollInterval k
                     (c.clockNow (s.trace ++ [Call.providerAddresses e.m]))) },
          trace := s.trace ++ [Call.providerAddresses e.m] ++ [Call.clockNow] } := by
  have h2b : ¬ ((c.addressesReturned s.trace e.m).length > 0 ∧
      ms = Status.Started) := by
    rintro ⟨ha, hm⟩
    rcases h2 with h2 | h2
    · rw [h2] at ha
      exact absurd ha (by simp)
    · exact h2 hm
  unfold maybeSwitchPollGroup
  rw [if_neg h1, M.bind_apply, deref_apply p s e hheap]
  simp only [M.bind_apply, invoke]
  rw [if_neg (by simp), if_neg h2b, if_pos trivial]
  rw [bumpShortPollInterval_apply c k p _ e (by exact hheap)]

theorem invokeCheck_apply_none (ev : Call) (answer : List Call → Option Error) (s : State)
    (h : answer s.trace = none) :
    invokeCheck ev answer s = Outcome.ok () { s with trace := s.trace ++ [ev] } := by
  unfold invokeCheck
  rw [h]

theorem invokeCheck_apply_some (ev : Call) (answer : List Call → Option Error) (s : State)
    (e : Error) (h : answer s.trace = some e) :
    invokeCheck ev answer s = Outcome.error e { s with trace := s.trace ++ [ev] } := by
  unfold invokeCheck
  rw [h]

theorem invokeOrReturn_apply_ok {ρ : Type} (ev : Call) (answer : List Call → Except Error ρ)
    (s : State) (a : ρ) (h : answer s.trace = Except.ok a) :
    invokeOrReturn ev answer s = Outcome.ok a { s with trace := s.trace ++ [ev] } := by
  unfold invokeOrReturn
  rw [h]

theorem invokeOrReturn_apply_error {ρ : Type} (ev : Call)
    (answer : List Call → Except Error ρ) (s : State) (e : Error)
    (h : answer s.trace = Except.error e) :
    invokeOrReturn ev answer s = Outcome.error e { s with trace := s.trace ++ [ev] } := by
  unfold invokeOrReturn
  rw [h]

/-- The entry `appendToShortPollGroup` allocates, after its reset at time `now`. -/
theorem appendToShortPollGroup_apply (c : Collaborators) (k : PollConsts) (tag : MachineTag)
    (m : Handle) (s : State) :
    appendToShortPollGroup c k tag m s =
      Outcome.ok ()
        { u := { heap := s.u.heap ++ [freshEntry k tag m (c.clockNow s.trace)],
                 shortGroup := mapInsert s.u.shortGroup tag s.u.heap.length,
                 longGroup := s.u.longGroup,
                 instanceIDToGroupEntry := s.u.instanceIDToGroupEntry },
          trace := s.trace ++ [Call.clockNow] } := by
  unfold appendToShortPollGroup
  simp only [M.bind_apply, getU, modifyU]
  rw [resetShortPollInterval_apply c k _ _ _ (List.getElem?_concat_length _ _)]
  simp only [List.set_append_right _ _ (le_refl _), Nat.sub_self, List.set_cons_zero]
  rfl

/-- A watcher event for a tracked machine that turns out Dead. -/
theorem queueMachineForPolling_dead (c : Collaborators) (k : PollConsts) (tag : MachineTag)
    (s : State) (p : Ptr) (g : pollGroupType) (e : pollGroupEntry)
    (hlook : lookupPolledMachine s.u tag = some (p, g)) (hheap : s.u.heap[p]? = some e)
    (href : c.refresh s.trace e.m = none)
    (hlife : c.life (s.trace ++ [Call.refresh e.m]) e.m = Life.Dead) :
    queueMachineForPolling c k tag s =
      Outcome.ok ()
        { u := (s.u.deleteFromGroup g tag).deleteInstanceID e.instanceID,
          trace := s.trace ++ [Call.refresh e.m] ++ [Call.life e.m] } := by
  unfold queueMachineForPolling
  simp only [M.bind_apply, getU, hlook, deref_apply p s e hheap]
  rw [invokeCheck_apply_none _ _ s href]
  simp only [invoke, hlife, if_true, M.bind_apply, modifyU]

/-- A watcher event for a tracked machine that is not Dead. -/
theorem queueMachineForPolling_alive (c : Collaborators) (k : PollConsts) (tag : MachineTag)
    (s : State) (p : Ptr) (g : pollGroupType) (e : pollGroupEntry)
    (hlook : lookupPolledMachine s.u tag = some (p, g)) (hheap : s.u.heap[p]? = some e)
    (href : c.refresh s.trace e.m = none)
    (hlife : c.life (s.trace ++ [Call.refresh e.m]) e.m ≠ Life.Dead) :
    queueMachineForPolling c k tag s =
      Outcome.ok ()
        { u := { heap := s.u.heap.set p (e.resetShortPollInterval k
                   (c.clockNow (s.trace ++ [Call.refresh e.m] ++ [Call.life e.m]))),
                 shortGroup :=
                   match g with
                   | .shortPollGroup => s.u.shortGroup
                   | .longPollGroup => mapInsert s.u.shortGroup tag p,
                 longGroup :=
                   match g with
                   | .shortPollGroup => s.u.longGroup
                   | .longPollGroup => mapDelete s.u.longGroup tag,
                 instanceIDToGroupEntry := s.u.instanceIDToGroupEntry },
          trace := s.trace ++ [Call.refresh e.m] ++ [Call.life e.m] ++ [Call.clockNow] } := by
  unfold queueMachineForPolling
  simp only [M.bind_apply, getU, hlook, deref_apply p s e hheap]
  rw [invokeCheck_apply_none _ _ s href]
  simp only [invoke, hlife, if_false, M.bind_apply]
  rw [resetShortPollInterval_apply c k p _ e (by exact hheap)]
  cases g with
  | shortPollGroup => simp [M.pure_apply]
  | longPollGroup =>
    simp only [if_true, M.bind_apply, modifyU]
    rfl

theorem triple_and {α : Type} {P1 P2 : State → Prop} {x : M α} {Q1 Q2 : α → State → Prop}
    (h1 : Triple P1 x Q1) (h2 : Triple P2 x Q2) :
    Triple (fun s => P1 s ∧ P2 s) x (fun a s => Q1 a s ∧ Q2 a s) := by
  intro s hs
  have a1 := h1 s hs.1
  have a2 := h2 s hs.2
  cases hx : x s with
  | ok a s1 =>
    rw [hx] at a1 a2
    exact ⟨a1, a2⟩
  | error e s1 => trivial
  | panic => trivial

theorem triple_exists {α ι : Type} {P : ι → State → Prop} {x : M α} {Q : α → State → Prop}
    (h : ∀ i, Triple (P i) x Q) : Triple (fun s => ∃ i, P i s) x Q := by
  intro s hs
  obtain ⟨i, hi⟩ := hs
  exact h i s hi

theorem triple_of_apply {α : Type} {P : State → Prop} {x : M α} {Q : α → State → Prop}
    (h : ∀ s, P s → ∀ a s1, x s = Outcome.ok a s1 → Q a s1) : Triple P x Q := by
  intro s hs
  cases hx : x s with
  | ok a s1 => exact h s hs a s1 hx
  | error e s1 => trivial
  | panic => trivial

theorem triple_apply {α : Type} {P : State → Prop} {x : M α} {Q : α → State → Prop}
    (h : Triple P x Q) (s : State) (hs : P s) (a : α) (s1 : State)
    (hx : x s = Outcome.ok a s1) : Q a s1 := by
  have h1 := h s hs
  rw [hx] at h1
  exact h1

theorem resetShortPollInterval_index (c : Collaborators) (k : PollConsts) (p : Ptr)
    (i : List (InstanceId × Ptr)) :
    Triple (SameIndex i) (resetShortPollInterval c k p) (fun _ => SameIndex i) := by
  unfold resetShortPollInterval
  apply triple_bind (triple_deref p)
  intro e
  apply triple_bind (Q := fun _ => SameIndex i)
  · exact triple_invoke _ _ (fun s hs => hs.1)
  · intro now
    exact triple_modifyU _ (fun s hs => hs)

theorem processProviderInfo_index (c : Collaborators) (k : PollConsts) (p : Ptr)
    (info : InstHandle) (i : List (InstanceId × Ptr)) :
    Triple (SameIndex i) (processProviderInfo c k p info) (fun _ => SameIndex i) := by
  unfold processProviderInfo
  apply triple_bind (triple_deref p)
  intro entry
  apply triple_bind (Q := fun _ => SameIndex i)
  · exact triple_invoke _ _ (fun s hs => hs.1)
  · intro r
    split
    · exact triple_pure _ (fun s hs => hs)
    · apply triple_bind (Q := fun _ => SameIndex i)
      · exact triple_invoke _ _ (fun s hs => hs)
      · intro providerStatus
        apply triple_bind (Q := fun _ => SameIndex i)
        · split
          · apply triple_bind (Q := fun _ => SameIndex i)
            · exact triple_invokeCheck _ _ (fun s hs _ => hs)
            · intro _
              split
              · exact resetShortPollInterval_index c k p i
              · exact triple_pure _ (fun s hs => hs)
          · exact triple_pure _ (fun s hs => hs)
        · intro _
          apply triple_bind (Q := fun _ => SameIndex i)
          · exact triple_invoke _ _ (fun s hs => hs)
          · intro life
            split
            · exact triple_pure _ (fun s hs => hs)
            · apply triple_bind (Q := fun _ => SameIndex i)
              · exact triple_invokeOrReturn _ _ (fun s _ hs _ => hs)
              · intro curAddresses
                apply triple_bind (Q := fun _ => SameIndex i)
                · exact triple_invokeOrReturn _ _ (fun s _ hs _ => hs)
                · intro providerAddresses
                  apply triple_bind (Q := fun _ => SameIndex i)
                  · split
                    · exact triple_invokeCheck _ _ (fun s hs _ => hs)
                    · exact triple_pure _ (fun s hs => hs)
                  · intro _
                    exact triple_pure _ (fun s hs => hs)

/-! ## Every handler is a sequence of mutations -/

theorem resetShortPollInterval_steps (c : Collaborators) (k : PollConsts) (p : Ptr)
    (u0 : updaterWorker) :
    Triple (fun s => Steps c k u0 s.u) (resetShortPollInterval c k p)
      (fun _ s => Steps c k u0 s.u) := by
  apply triple_of_apply
  intro s hs a s1 hx
  cases hp : s.u.heap[p]? with
  | none =>
    unfold resetShortPollInterval at hx
    rw [M.bind_apply] at hx
    unfold deref at hx
    rw [hp] at hx
    exact absurd hx (by simp)
  | some e =>
    rw [resetShortPollInterval_apply c k p s e hp] at hx
    injection hx with _ hx
    subst hx
    exact Relation.ReflTransGen.tail hs (Step.reset s.u p e _ hp)

theorem bumpShortPollInterval_steps (c : Collaborators) (k : PollConsts) (p : Ptr)
    (u0 : updaterWorker) :
    Triple (fun s => Steps c k u0 s.u) (bumpShortPollInterval c k p)
      (fun _ s => Steps c k u0 s.u) := by
  apply triple_of_apply
  intro s hs a s1 hx
  cases hp : s.u.heap[p]? with
  | none =>
    unfold bumpShortPollInterval at hx
    rw [M.bind_apply] at hx
    unfold deref at hx
    rw [hp] at hx
    exact absurd hx (by simp)
  | some e =>
    rw [bumpShortPollInterval_apply c k p s e hp] at hx
    injection hx with _ hx
    subst hx
    exact Relation.ReflTransGen.tail hs (Step.bump s.u p e _ hp)

theorem resolveInstanceID_steps (c : Collaborators) (k : PollConsts) (g : pollGroupType)
    (tag : MachineTag) (p : Ptr) (u0 : updaterWorker) :
    Triple (fun s => Steps c k u0 s.u ∧ (tag, p) ∈ s.u.pollGroup g) (resolveInstanceID c p)
      (fun _ s => Steps c k u0 s.u) := by
  unfold resolveInstanceID
  apply triple_bind (triple_deref p)
  intro entry
  split
  · exact triple_pure _ (fun s hs => hs.1.1)
  · rename_i hid
    apply triple_bind
      (Q := fun r s => (Steps c k u0 s.u ∧ (tag, p) ∈ s.u.pollGroup g) ∧
        s.u.heap[p]? = some entry ∧ ∃ tr, r = c.instanceId tr entry.m)
    · exact triple_invoke _ _ (fun s hs => ⟨hs.1, hs.2, s.trace, rfl⟩)
    · intro r
      split
      · exact triple_pure _ (fun s hs => hs.1.1)
      · rename_i instID
        apply triple_bind
          (Q := fun _ s => ∃ u1, (Steps c k u0 u1 ∧ (tag, p) ∈ u1.pollGroup g) ∧
            u1.heap[p]? = some entry ∧ (∃ tr, Except.ok instID = c.instanceId tr entry.m) ∧
            s.u = { u1 with heap := u1.heap.set p { entry with instanceID := instID } })
        · exact triple_modifyU _ (fun s hs => ⟨s.u, hs.1, hs.2.1, hs.2.2, rfl⟩)
        · intro _
          apply triple_bind (Q := fun _ s => Steps c k u0 s.u)
          · apply triple_modifyU
            rintro s ⟨u1, ⟨hst, hmem⟩, hheap, ⟨tr, htr⟩, hu⟩
            show Steps c k u0 (s.u.insertInstanceID instID p)
            rw [hu]
            exact Relation.ReflTransGen.tail hst
              (Step.resolve u1 g tag p entry tr instID hmem hheap (by simpa using hid) htr.symm)
          · intro _
            exact triple_pure _ (fun s hs => hs)


/-- Whatever `resetShortPollInterval` and the recording of calls keep,
`processProviderInfo` keeps. -/
theorem processProviderInfo_keeps (c : Collaborators) (k : PollConsts) (p : Ptr)
    (info : InstHandle) (I : State → Prop)
    (hcall : ∀ s ev, I s → I { s with trace := s.trace ++ [ev] })
    (hreset : Triple I (resetShortPollInterval c k p) (fun _ => I)) :
    Triple I (processProviderInfo c k p info) (fun _ => I) := by
  unfold processProviderInfo
  apply triple_bind (triple_deref p)
  intro entry
  apply triple_bind (Q := fun _ => I)
  · exact triple_invoke _ _ (fun s hs => hcall s _ hs.1)
  · intro r
    split
    · exact triple_pure _ (fun s hs => hs)
    · apply triple_bind (Q := fun _ => I)
      · exact triple_invoke _ _ (fun s hs => hcall s _ hs)
      · intro providerStatus
        apply triple_bind (Q := fun _ => I)
        · split
          · apply triple_bind (Q := fun _ => I)
            · exact triple_invokeCheck _ _ (fun s hs _ => hcall s _ hs)
            · intro _
              split
              · exact hreset
              · exact triple_pure _ (fun s hs => hs)
          · exact triple_pure _ (fun s hs => hs)
        · intro _
          apply triple_bind (Q := fun _ => I)
          · exact triple_invoke _ _ (fun s hs => hcall s _ hs)
          · intro life
            split
            · exact triple_pure _ (fun s hs => hs)
            · apply triple_bind (Q := fun _ => I)
              · exact triple_invokeOrReturn _ _ (fun s _ hs _ => hcall s _ hs)
              · intro curAddresses
                apply triple_bind (Q := fun _ => I)
                · exact triple_invokeOrReturn _ _ (fun s _ hs _ => hcall s _ hs)
                · intro providerAddresses
                  apply triple_bind (Q := fun _ => I)
                  · split
                    · exact triple_invokeCheck _ _ (fun s hs _ => hcall s _ hs)
                    · exact triple_pure _ (fun s hs => hs)
                  · intro _
                    exact triple_pure _ (fun s hs => hs)

theorem processProviderInfo_steps (c : Collaborators) (k : PollConsts) (p : Ptr)
    (info : InstHandle) (u0 : updaterWorker) (i : List (InstanceId × Ptr)) :
    Triple (fun s => Steps c k u0 s.u ∧ SameIndex i s) (processProviderInfo c k p info)
      (fun _ s => Steps c k u0 s.u ∧ SameIndex i s) :=
  processProviderInfo_keeps c k p info (fun s => Steps c k u0 s.u ∧ SameIndex i s)
    (fun _ _ hs => hs)
    (triple_and (resetShortPollInterval_steps c k p u0) (resetShortPollInterval_index c k p i))

theorem maybeSwitchPollGroup_steps (c : Collaborators) (k : PollConsts) (g : pollGroupType)
    (p : Ptr) (ps ms : Status) (id : InstanceId) (u0 : updaterWorker) :
    Triple (fun s => Steps c k u0 s.u ∧ mapLookup s.u.instanceIDToGroupEntry id = some p)
      (maybeSwitchPollGroup c k g p ps ms) (fun _ s => Steps c k u0 s.u) := by
  apply triple_of_apply
  rintro s ⟨hs, hidx⟩ a s1 hx
  by_cases h1 : ps = Status.Allocating ∨ ps = Status.Pending
  · rw [maybeSwitchPollGroup_unsettled c k g p ps ms s h1] at hx
    exact triple_apply (bumpShortPollInterval_steps c k p u0) s hs a s1 hx
  · cases hp : s.u.heap[p]? with
    | none =>
      unfold maybeSwitchPollGroup at hx
      rw [if_neg h1, M.bind_apply] at hx
      unfold deref at hx
      rw [hp] at hx
      exact absurd hx (by simp)
    | some e =>
      cases g with
      | longPollGroup =>
        by_cases h2 : ps = Status.Unknown ∨ c.addressesReturned s.trace e.m = []
        · rw [maybeSwitchPollGroup_demote c k p ps ms s e hp h1 h2] at hx
          injection hx with _ hx
          subst hx
          exact Relation.ReflTransGen.tail
            (Relation.ReflTransGen.tail hs (Step.demote s.u id p e hidx hp))
            (Step.reset _ p e _ hp)
        · rw [maybeSwitchPollGroup_stay_long c k p ps ms s e hp h1 h2] at hx
          injection hx with _ hx
          subst hx
          exact hs
      | shortPollGroup =>
        by_cases h2 : c.addressesReturned s.trace e.m ≠ [] ∧ ms = Status.Started
        · rw [maybeSwitchPollGroup_promote c k p ps ms s e hp h1 h2.1 h2.2] at hx
          injection hx with _ hx
          subst hx
          exact Relation.ReflTransGen.tail hs (Step.promote s.u id p e hidx hp)
        · have h2c : c.addressesReturned s.trace e.m = [] ∨
              ms ≠ Status.Started := by
            by_cases h3 : c.addressesReturned s.trace e.m = []
            · exact Or.inl h3
            · exact Or.inr (fun h4 => h2 ⟨h3, h4⟩)
          rw [maybeSwitchPollGroup_backoff c k p ps ms s e hp h1 h2c] at hx
          injection hx with _ hx
          subst hx
          exact Relation.ReflTransGen.tail hs (Step.bump s.u p e _ hp)

theorem pollGroup_of_sameGroups (a b : List (MachineTag × Ptr)) (s : State)
    (g : pollGroupType) (h : SameGroups a b s) :
    s.u.pollGroup g = (match g with
      | .shortPollGroup => a
      | .longPollGroup => b) := by
  cases g with
  | shortPollGroup => exact h.1
  | longPollGroup => exact h.2

theorem collectInstanceIDs_steps (c : Collaborators) (k : PollConsts) (g : pollGroupType)
    (now : Time) (a b : List (MachineTag × Ptr)) (u0 : updaterWorker)
    (members : List (MachineTag × Ptr)) :
    (∀ x ∈ members, x ∈ (match g with
      | .shortPollGroup => a
      | .longPollGroup => b)) →
    ∀ instList : List InstanceId,
      Triple (fun s => Steps c k u0 s.u ∧ SameGroups a b s)
        (collectInstanceIDs c k g now members instList)
        (fun _ s => Steps c k u0 s.u ∧ SameGroups a b s) := by
  induction members with
  | nil =>
    intro _ instList
    unfold collectInstanceIDs
    exact triple_pure _ (fun s hs => hs)
  | cons kv rest ih =>
    intro hsub instList
    obtain ⟨t, p⟩ := kv
    have hrest := ih (fun x hx => hsub x (List.mem_cons_of_mem _ hx))
    unfold collectInstanceIDs
    apply triple_bind (Q := fun _ s => Steps c k u0 s.u ∧ SameGroups a b s)
    · exact triple_weaken (triple_deref p) (fun s hs => hs) (fun _ s hs => hs.1)
    · intro entry
      split
      · exact hrest instList
      · apply triple_bind (Q := fun _ s => Steps c k u0 s.u ∧ SameGroups a b s)
        · apply triple_weaken
            (triple_and (resolveInstanceID_steps c k g t p u0) (resolveInstanceID_groups c p a b))
          · rintro s ⟨hs, hg⟩
            refine ⟨⟨hs, ?_⟩, hg⟩
            rw [pollGroup_of_sameGroups a b s g hg]
            exact hsub (t, p) (List.mem_cons_self _ _)
          · exact fun _ s hs => hs
        · intro err
          split
          · split
            · apply triple_bind
                (triple_and (bumpShortPollInterval_steps c k p u0)
                  (bumpShortPollInterval_groups c k p a b))
              intro _
              exact hrest instList
            · exact triple_throwErr _
          · apply triple_bind (Q := fun _ s => Steps c k u0 s.u ∧ SameGroups a b s)
            · exact triple_weaken (triple_deref p) (fun s hs => hs) (fun _ s hs => hs.1)
            · intro entry2
              exact hrest _

theorem processInfoList_steps (c : Collaborators) (k : PollConsts) (g : pollGroupType)
    (instList : List InstanceId) (u0 : updaterWorker) (infoList : List (Option InstHandle)) :
    ∀ idx : Nat,
      Triple (fun s => Steps c k u0 s.u) (processInfoList c k g instList idx infoList)
        (fun _ s => Steps c k u0 s.u) := by
  induction infoList with
  | nil =>
    intro idx
    unfold processInfoList
    exact triple_pure _ (fun s hs => hs)
  | cons slot rest ih =>
    intro idx
    unfold processInfoList
    split
    · exact triple_panicNow
    · rename_i instID _
      split
      · exact ih (idx + 1)
      · apply triple_bind triple_getU
        intro u
        split
        · exact triple_panicNow
        · rename_i _ p hp
          apply triple_bind
            (Q := fun _ s => Steps c k u0 s.u ∧ SameIndex u.instanceIDToGroupEntry s)
          · exact triple_weaken (processProviderInfo_steps c k p _ u0 u.instanceIDToGroupEntry)
              (fun s hs => ⟨hs.1, by rw [hs.2]; rfl⟩) (fun _ s hs => hs)
          · intro providerStatus
            apply triple_bind
              (Q := fun _ s => Steps c k u0 s.u ∧ SameIndex u.instanceIDToGroupEntry s)
            · exact triple_weaken (triple_deref p) (fun s hs => hs) (fun _ s hs => hs.1)
            · intro entry
              apply triple_bind
                (Q := fun _ s => Steps c k u0 s.u ∧ SameIndex u.instanceIDToGroupEntry s)
              · exact triple_invokeOrReturn _ _ (fun s _ hs _ => hs)
              · intro machineStatus
                apply triple_bind (Q := fun _ s => Steps c k u0 s.u)
                · exact triple_weaken (maybeSwitchPollGroup_steps c k g p _ _ instID u0)
                    (fun s hs => ⟨hs.1, by rw [hs.2]; exact hp⟩) (fun _ s hs => hs)
                · intro _
                  exact ih (idx + 1)

theorem pollGroupMembers_steps (c : Collaborators) (k : PollConsts) (g : pollGroupType)
    (u0 : updaterWorker) :
    Triple (fun s => Steps c k u0 s.u) (pollGroupMembers c k g)
      (fun _ s => Steps c k u0 s.u) := by
  unfold pollGroupMembers
  apply triple_bind (Q := fun _ s => Steps c k u0 s.u)
  · exact triple_invoke _ _ (fun s hs => hs)
  · intro now
    apply triple_bind triple_getU
    intro u
    apply triple_bind (Q := fun _ s => Steps c k u0 s.u)
    · apply triple_weaken
        (collectInstanceIDs_steps c k g now u.shortGroup u.longGroup u0 (u.pollGroup g)
          (by
            intro x hx
            cases g with
            | shortPollGroup => exact hx
            | longPollGroup => exact hx) [])
      · rintro s ⟨hs, hu⟩
        subst hu
        exact ⟨hs, rfl, rfl⟩
      · exact fun _ s hs => hs.1
    · intro instList
      split
      · exact triple_pure _ (fun s hs => hs)
      · apply triple_bind (Q := fun _ s => Steps c k u0 s.u)
        · exact triple_invoke _ _ (fun s hs => hs)
        · intro res
          split
          · split
            · exact triple_throwErr _
            · exact processInfoList_steps c k g instList u0 res.1 0
          · exact processInfoList_steps c k g instList u0 res.1 0

theorem lookupPolledMachine_congr (u u1 : updaterWorker) (tag : MachineTag)
    (hs : u1.shortGroup = u.shortGroup) (hl : u1.longGroup = u.longGroup) :
    lookupPolledMachine u1 tag = lookupPolledMachine u tag := by
  unfold lookupPolledMachine
  rw [hs, hl]

theorem queueMachineForPolling_steps (c : Collaborators) (k : PollConsts) (tag : MachineTag)
    (u0 : updaterWorker) :
    Triple (fun s => Steps c k u0 s.u) (queueMachineForPolling c k tag)
      (fun _ s => Steps c k u0 s.u) := by
  unfold queueMachineForPolling
  apply triple_bind triple_getU
  intro u
  split
  · rename_i p groupType hlook
    apply triple_bind
      (Q := fun e s => Steps c k u0 s.u ∧ lookupPolledMachine s.u tag = some (p, groupType) ∧
        s.u.heap[p]? = some e)
    · apply triple_weaken (triple_deref p) (fun s hs => hs)
      rintro e s ⟨⟨hs, hu⟩, he⟩
      subst hu
      exact ⟨hs, hlook, he⟩
    · intro entry
      apply triple_bind
        (Q := fun _ s => Steps c k u0 s.u ∧
          lookupPolledMachine s.u tag = some (p, groupType) ∧ s.u.heap[p]? = some entry)
      · exact triple_invokeCheck _ _ (fun s hs _ => hs)
      · intro _
        apply triple_bind
          (Q := fun _ s => Steps c k u0 s.u ∧
            lookupPolledMachine s.u tag = some (p, groupType) ∧ s.u.heap[p]? = some entry)
        · exact triple_invoke _ _ (fun s hs => hs)
        · intro life
          split
          · apply triple_bind
              (Q := fun _ s => ∃ u1, Steps c k u0 u1 ∧
                lookupPolledMachine u1 tag = some (p, groupType) ∧
                u1.heap[p]? = some entry ∧ s.u = u1.deleteFromGroup groupType tag)
            · exact triple_modifyU _ (fun s hs => ⟨s.u, hs.1, hs.2.1, hs.2.2, rfl⟩)
            · intro _
              apply triple_modifyU
              rintro s ⟨u1, hst, hl, hh, hu⟩
              show Steps c k u0 (s.u.deleteInstanceID entry.instanceID)
              rw [hu]
              exact Relation.ReflTransGen.tail hst (Step.remove u1 tag p groupType entry hl hh)
          · apply triple_bind
              (Q := fun _ s => Steps c k u0 s.u ∧
                lookupPolledMachine s.u tag = some (p, groupType))
            · apply triple_of_apply
              rintro s ⟨hs, hl, hh⟩ a s1 hx
              rw [resetShortPollInterval_apply c k p s entry hh] at hx
              injection hx with _ hx
              subst hx
              exact ⟨Relation.ReflTransGen.tail hs (Step.reset s.u p entry _ hh), hl⟩
            · intro _
              split
              · rename_i hg
                subst hg
                apply triple_bind
                  (Q := fun _ s => ∃ u1, Steps c k u0 u1 ∧
                    lookupPolledMachine u1 tag = some (p, pollGroupType.longPollGroup) ∧
                    s.u = u1.deleteFromGroup pollGroupType.longPollGroup tag)
                · exact triple_modifyU _ (fun s hs => ⟨s.u, hs.1, hs.2, rfl⟩)
                · intro _
                  apply triple_modifyU
                  rintro s ⟨u1, hst, hl, hu⟩
                  show Steps c k u0 (s.u.insertIntoGroup pollGroupType.shortPollGroup tag p)
                  rw [hu]
                  exact Relation.ReflTransGen.tail hst (Step.requeue u1 tag p hl)
              · exact triple_pure _ (fun s hs => hs.1)
  · rename_i hlook
    apply triple_bind
      (Q := fun m s => Steps c k u0 s.u ∧ lookupPolledMachine s.u tag = none ∧
        ∃ tr, c.facadeMachine tr tag = Except.ok m)
    · apply triple_invokeOrReturn
      rintro s a ⟨hs, hu⟩ ha
      subst hu
      exact ⟨hs, hlook, s.trace, ha⟩
    · intro m
      apply triple_bind
        (Q := fun _ s => Steps c k u0 s.u ∧ lookupPolledMachine s.u tag = none ∧
          ∃ tr, c.facadeMachine tr tag = Except.ok m)
      · exact triple_invokeOrReturn _ _ (fun s _ hs _ => hs)
      · intro isManual
        split
        · apply triple_bind (Q := fun _ s => Steps c k u0 s.u)
          · exact triple_invokeOrReturn _ _ (fun s _ hs _ => hs.1)
          · intro machineStatus
            split
            · exact triple_invokeCheck _ _ (fun s hs _ => hs)
            · exact triple_pure _ (fun s hs => hs)
        · apply triple_of_apply
          rintro s ⟨hs, hl, tr, htr⟩ a s1 hx
          rw [appendToShortPollGroup_apply] at hx
          injection hx with _ hx
          subst hx
          exact Relation.ReflTransGen.tail hs (Step.append s.u tag tr m _ hl htr)

/-- A property of the worker kept by every mutation, and by listing the poll groups in
another order, holds in every reachable state. -/
theorem reachable_of_steps_invariant (c : Collaborators) (k : PollConsts)
    (I : updaterWorker → Prop) (hinit : I State.init.u)
    (hstep : ∀ u u1, I u → Step c k u u1 → I u1)
    (hperm : ∀ (u : updaterWorker) (short long : List (MachineTag × Ptr)), I u →
      short.Perm u.shortGroup → long.Perm u.longGroup → I (u.reorder short long))
    (s : State) (h : Reachable c k s) :
    I s.u := by
  have hsteps : ∀ u u1, Steps c k u u1 → I u → I u1 := by
    intro u u1 h1
    induction h1 with
    | refl => exact fun h => h
    | tail _ hlast ih => exact fun h => hstep _ _ (ih h) hlast
  induction h with
  | init => exact hinit
  | queue s s1 tag _ hq ih =>
    exact hsteps s.u s1.u
      (triple_apply (queueMachineForPolling_steps c k tag s.u) s Relation.ReflTransGen.refl
        () s1 hq) ih
  | poll s s1 g _ hq ih =>
    exact hsteps s.u s1.u
      (triple_apply (pollGroupMembers_steps c k g s.u) s Relation.ReflTransGen.refl
        () s1 hq) ih
  | reorder s short long _ hs hl ih => exact hperm s.u short long ih hs hl

/-! ## Shape of the worker state -/

theorem mem_of_mapLookup {κ : Type} [DecidableEq κ] (m : List (κ × Ptr)) (k : κ) (v : Ptr)
    (h : mapLookup m k = some v) : (k, v) ∈ m := by
  induction m with
  | nil => simp [mapLookup] at h
  | cons kv rest ih =>
    obtain ⟨k1, v1⟩ := kv
    rw [mapLookup_cons] at h
    by_cases hk : k1 = k
    · rw [if_pos hk] at h
      injection h with h
      subst hk
      subst h
      exact List.mem_cons_self _ _
    · rw [if_neg hk] at h
      exact List.mem_cons_of_mem _ (ih h)

theorem mapLookup_of_mem {κ : Type} [DecidableEq κ] (m : List (κ × Ptr)) (k : κ) (v : Ptr)
    (hnd : (mapKeys m).Nodup) (h : (k, v) ∈ m) : mapLookup m k = some v := by
  induction m with
  | nil => simp at h
  | cons kv rest ih =>
    obtain ⟨k1, v1⟩ := kv
    rw [mapLookup_cons]
    simp only [mapKeys, List.map_cons, List.nodup_cons] at hnd
    rcases List.mem_cons.1 h with h1 | h1
    · injection h1 with h2 h3
      subst h2
      subst h3
      rw [if_pos rfl]
    · have hk : k1 ≠ k := by
        intro hk
        subst hk
        exact hnd.1 (List.mem_map.2 ⟨(k1, v), h1, rfl⟩)
      rw [if_neg hk]
      exact ih hnd.2 h1

theorem mem_mapKeys_of_mapLookup {κ : Type} [DecidableEq κ] (m : List (κ × Ptr)) (k : κ)
    (v : Ptr) (h : mapLookup m k = some v) : k ∈ mapKeys m :=
  List.mem_map.2 ⟨(k, v), mem_of_mapLookup m k v h, rfl⟩

/-- Two listings of the same map answer every lookup alike. -/
theorem mapLookup_perm {κ : Type} [DecidableEq κ] (l1 l2 : List (κ × Ptr))
    (hnd : (mapKeys l2).Nodup) (hp : l1.Perm l2) (k : κ) :
    mapLookup l1 k = mapLookup l2 k := by
  have hnd1 : (mapKeys l1).Nodup := (hp.map Prod.fst).nodup_iff.2 hnd
  cases h : mapLookup l2 k with
  | none =>
    rw [mapLookup_eq_none_iff] at h ⊢
    intro hmem
    exact h ((hp.map Prod.fst).mem_iff.1 hmem)
  | some v =>
    exact mapLookup_of_mem l1 k v hnd1 (hp.mem_iff.2 (mem_of_mapLookup l2 k v h))

theorem nodup_mapKeys_mapDelete {κ : Type} [DecidableEq κ] (m : List (κ × Ptr)) (k : κ)
    (h : (mapKeys m).Nodup) : (mapKeys (mapDelete m k)).Nodup := by
  unfold mapKeys mapDelete
  exact List.Nodup.sublist (List.Sublist.map _ (List.filter_sublist m)) h

theorem nodup_mapKeys_mapInsert {κ : Type} [DecidableEq κ] (m : List (κ × Ptr)) (k : κ)
    (v : Ptr) (h : (mapKeys m).Nodup) : (mapKeys (mapInsert m k v)).Nodup := by
  show (mapKeys ((k, v) :: mapDelete m k)).Nodup
  simp only [mapKeys, List.map_cons, List.nodup_cons]
  refine ⟨?_, nodup_mapKeys_mapDelete m k h⟩
  intro hk
  have h1 := (mem_mapKeys_mapDelete m k k).1 hk
  exact h1.2 rfl

theorem getElem?_set_of_some {α : Type} (l : List α) (p q : Nat) (a b : α)
    (h : l[p]? = some a) : (l.set p b)[q]? = if p = q then some b else l[q]? := by
  have hlt : p < l.length := (List.getElem?_eq_some_iff.1 h).1
  rw [List.getElem?_set]
  by_cases hpq : p = q
  · rw [if_pos hpq, if_pos hpq, if_pos hlt]
  · rw [if_neg hpq, if_neg hpq]

/-- A change of the heap that keeps every entry's tag keeps the shape. -/
theorem wellFormed_heap (u : updaterWorker) (heap1 : List pollGroupEntry) (h : WellFormed u)
    (hk : ∀ (q : Ptr) (e : pollGroupEntry), u.heap[q]? = some e →
      ∃ e1 : pollGroupEntry, heap1[q]? = some e1 ∧ e1.tag = e.tag) :
    WellFormed { u with heap := heap1 } := by
  refine ⟨h.nodupShort, h.nodupLong, h.exclusive, ?_, ?_⟩
  · intro g tag p hl
    have hl1 : mapLookup (u.pollGroup g) tag = some p := by
      cases g with
      | shortPollGroup => exact hl
      | longPollGroup => exact hl
    obtain ⟨e, he, ht⟩ := h.groupEntry g tag p hl1
    obtain ⟨e1, he1, ht1⟩ := hk p e he
    exact ⟨e1, he1, ht1.trans ht⟩
  · intro id p hl
    obtain ⟨e, he⟩ := h.indexEntry id p hl
    obtain ⟨e1, he1, _⟩ := hk p e he
    exact ⟨e1, he1⟩

theorem wellFormed_set (u : updaterWorker) (p : Ptr) (e e1 : pollGroupEntry)
    (h : WellFormed u) (hp : u.heap[p]? = some e) (ht : e1.tag = e.tag) :
    WellFormed { u with heap := u.heap.set p e1 } := by
  apply wellFormed_heap u _ h
  intro q e2 hq
  rw [getElem?_set_of_some u.heap p q e e1 hp]
  by_cases hpq : p = q
  · subst hpq
    rw [if_pos rfl]
    rw [hp] at hq
    injection hq with hq
    subst hq
    exact ⟨e1, rfl, ht⟩
  · rw [if_neg hpq]
    exact ⟨e2, hq, rfl⟩

theorem wellFormed_insertInstanceID (u : updaterWorker) (id : InstanceId) (p : Ptr)
    (e : pollGroupEntry) (h : WellFormed u) (hp : u.heap[p]? = some e) :
    WellFormed (u.insertInstanceID id p) := by
  refine ⟨h.nodupShort, h.nodupLong, h.exclusive, ?_, ?_⟩
  · intro g tag q hl
    have hl1 : mapLookup (u.pollGroup g) tag = some q := by
      cases g with
      | shortPollGroup => exact hl
      | longPollGroup => exact hl
    exact h.groupEntry g tag q hl1
  · intro id1 q hl
    have hl1 : mapLookup (mapInsert u.instanceIDToGroupEntry id p) id1 = some q := hl
    rw [mapLookup_mapInsert] at hl1
    by_cases hid : id = id1
    · rw [if_pos hid] at hl1
      injection hl1 with hl1
      subst hl1
      exact ⟨e, hp⟩
    · rw [if_neg hid] at hl1
      exact h.indexEntry id1 q hl1

theorem wellFormed_deleteInstanceID (u : updaterWorker) (id : InstanceId)
    (h : WellFormed u) : WellFormed (u.deleteInstanceID id) := by
  refine ⟨h.nodupShort, h.nodupLong, h.exclusive, ?_, ?_⟩
  · intro g tag q hl
    have hl1 : mapLookup (u.pollGroup g) tag = some q := by
      cases g with
      | shortPollGroup => exact hl
      | longPollGroup => exact hl
    exact h.groupEntry g tag q hl1
  · intro id1 q hl
    have hl1 : mapLookup (mapDelete u.instanceIDToGroupEntry id) id1 = some q := hl
    rw [mapLookup_mapDelete] at hl1
    by_cases hid : id = id1
    · rw [if_pos hid] at hl1
      exact absurd hl1 (by simp)
    · rw [if_neg hid] at hl1
      exact h.indexEntry id1 q hl1

theorem wellFormed_deleteFromGroup (u : updaterWorker) (g : pollGroupType) (tag : MachineTag)
    (h : WellFormed u) : WellFormed (u.deleteFromGroup g tag) := by
  cases g with
  | shortPollGroup =>
    refine ⟨nodup_mapKeys_mapDelete _ _ h.nodupShort, h.nodupLong,
      exclusive_delete u pollGroupType.shortPollGroup tag h.exclusive, ?_, h.indexEntry⟩
    intro g1 t q hl
    cases g1 with
    | shortPollGroup =>
      have hl1 : mapLookup (mapDelete u.shortGroup tag) t = some q := hl
      rw [mapLookup_mapDelete] at hl1
      by_cases ht : tag = t
      · rw [if_pos ht] at hl1
        exact absurd hl1 (by simp)
      · rw [if_neg ht] at hl1
        exact h.groupEntry pollGroupType.shortPollGroup t q hl1
    | longPollGroup => exact h.groupEntry pollGroupType.longPollGroup t q hl
  | longPollGroup =>
    refine ⟨h.nodupShort, nodup_mapKeys_mapDelete _ _ h.nodupLong,
      exclusive_delete u pollGroupType.longPollGroup tag h.exclusive, ?_, h.indexEntry⟩
    intro g1 t q hl
    cases g1 with
    | shortPollGroup => exact h.groupEntry pollGroupType.shortPollGroup t q hl
    | longPollGroup =>
      have hl1 : mapLookup (mapDelete u.longGroup tag) t = some q := hl
      rw [mapLookup_mapDelete] at hl1
      by_cases ht : tag = t
      · rw [if_pos ht] at hl1
        exact absurd hl1 (by simp)
      · rw [if_neg ht] at hl1
        exact h.groupEntry pollGroupType.longPollGroup t q hl1

/-- Filing a valid entry under its own tag in the short group, the tag not being in the
long group, keeps the shape. -/
theorem wellFormed_insert_short (u : updaterWorker) (tag : MachineTag) (p : Ptr)
    (e : pollGroupEntry) (h : WellFormed u) (hp : u.heap[p]? = some e) (ht : e.tag = tag)
    (hl : tag ∉ mapKeys u.longGroup) :
    WellFormed (u.insertIntoGroup pollGroupType.shortPollGroup tag p) := by
  refine ⟨nodup_mapKeys_mapInsert _ _ _ h.nodupShort, h.nodupLong, ?_, ?_, h.indexEntry⟩
  · rintro t ⟨hs1, hl1⟩
    have hs2 : t ∈ mapKeys (mapInsert u.shortGroup tag p) := hs1
    rw [mem_mapKeys_mapInsert] at hs2
    rcases hs2 with hs2 | hs2
    · subst hs2
      exact hl hl1
    · exact h.exclusive t ⟨hs2, hl1⟩
  · intro g1 t q hq
    cases g1 with
    | shortPollGroup =>
      have hq1 : mapLookup (mapInsert u.shortGroup tag p) t = some q := hq
      rw [mapLookup_mapInsert] at hq1
      by_cases htt : tag = t
      · rw [if_pos htt] at hq1
        injection hq1 with hq1
        subst hq1
        exact ⟨e, hp, ht.trans htt⟩
      · rw [if_neg htt] at hq1
        exact h.groupEntry pollGroupType.shortPollGroup t q hq1
    | longPollGroup => exact h.groupEntry pollGroupType.longPollGroup t q hq

theorem wellFormed_insert_long (u : updaterWorker) (tag : MachineTag) (p : Ptr)
    (e : pollGroupEntry) (h : WellFormed u) (hp : u.heap[p]? = some e) (ht : e.tag = tag)
    (hl : tag ∉ mapKeys u.shortGroup) :
    WellFormed (u.insertIntoGroup pollGroupType.longPollGroup tag p) := by
  refine ⟨h.nodupShort, nodup_mapKeys_mapInsert _ _ _ h.nodupLong, ?_, ?_, h.indexEntry⟩
  · rintro t ⟨hs1, hl1⟩
    have hl2 : t ∈ mapKeys (mapInsert u.longGroup tag p) := hl1
    rw [mem_mapKeys_mapInsert] at hl2
    rcases hl2 with hl2 | hl2
    · subst hl2
      exact hl hs1
    · exact h.exclusive t ⟨hs1, hl2⟩
  · intro g1 t q hq
    cases g1 with
    | shortPollGroup => exact h.groupEntry pollGroupType.shortPollGroup t q hq
    | longPollGroup =>
      have hq1 : mapLookup (mapInsert u.longGroup tag p) t = some q := hq
      rw [mapLookup_mapInsert] at hq1
      by_cases htt : tag = t
      · rw [if_pos htt] at hq1
        injection hq1 with hq1
        subst hq1
        exact ⟨e, hp, ht.trans htt⟩
      · rw [if_neg htt] at hq1
        exact h.groupEntry pollGroupType.longPollGroup t q hq1

theorem not_mem_mapKeys_mapDelete {κ : Type} [DecidableEq κ] (m : List (κ × Ptr)) (k : κ) :
    k ∉ mapKeys (mapDelete m k) := by
  intro h
  exact ((mem_mapKeys_mapDelete m k k).1 h).2 rfl

theorem lookupPolledMachine_some (u : updaterWorker) (tag : MachineTag) (p : Ptr)
    (g : pollGroupType) (h : lookupPolledMachine u tag = some (p, g)) :
    mapLookup (u.pollGroup g) tag = some p ∧
      (g = pollGroupType.longPollGroup → mapLookup u.shortGroup tag = none) := by
  unfold lookupPolledMachine at h
  cases hs : mapLookup u.shortGroup tag with
  | some q =>
    rw [hs] at h
    injection h with h
    injection h with h1 h2
    subst h1
    subst h2
    exact ⟨hs, fun hg => absurd hg (by simp)⟩
  | none =>
    rw [hs] at h
    cases hl : mapLookup u.longGroup tag with
    | some q =>
      rw [hl] at h
      injection h with h
      injection h with h1 h2
      subst h1
      subst h2
      exact ⟨hl, fun _ => rfl⟩
    | none =>
      rw [hl] at h
      exact absurd h (by simp)

theorem wellFormed_step (c : Collaborators) (k : PollConsts) (u u1 : updaterWorker)
    (h : WellFormed u) (hstep : Step c k u u1) : WellFormed u1 := by
  cases hstep with
  | reset p e now hp => exact wellFormed_set u p e _ h hp rfl
  | bump p e now hp => exact wellFormed_set u p e _ h hp rfl
  | resolve g tag p e tr id hmem hp hid hans =>
    have h1 := wellFormed_set u p e { e with instanceID := id } h hp rfl
    have hlt : p < u.heap.length := (List.getElem?_eq_some_iff.1 hp).1
    exact wellFormed_insertInstanceID _ id p { e with instanceID := id } h1
      (List.getElem?_set_self hlt)
  | demote id p e hidx hp =>
    have h1 := wellFormed_deleteFromGroup u pollGroupType.longPollGroup e.tag h
    exact wellFormed_insert_short _ e.tag p e h1 hp rfl (not_mem_mapKeys_mapDelete _ _)
  | promote id p e hidx hp =>
    have h1 := wellFormed_deleteFromGroup u pollGroupType.shortPollGroup e.tag h
    exact wellFormed_insert_long _ e.tag p e h1 hp rfl (not_mem_mapKeys_mapDelete _ _)
  | requeue tag p hl =>
    obtain ⟨e, hp, ht⟩ := h.groupEntry _ tag p (lookupPolledMachine_some u tag p _ hl).1
    have h1 := wellFormed_deleteFromGroup u pollGroupType.longPollGroup tag h
    exact wellFormed_insert_short _ tag p e h1 hp ht (not_mem_mapKeys_mapDelete _ _)
  | remove tag p g e hl hp =>
    exact wellFormed_deleteInstanceID _ _ (wellFormed_deleteFromGroup u g tag h)
  | append tag tr m now hl hans =>
    have h1 : WellFormed { u with heap := u.heap ++ [freshEntry k tag m now] } := by
      apply wellFormed_heap u _ h
      intro q e hq
      have hlt : q < u.heap.length := (List.getElem?_eq_some_iff.1 hq).1
      exact ⟨e, by rw [List.getElem?_append_left hlt]; exact hq, rfl⟩
    exact wellFormed_insert_short _ tag u.heap.length (freshEntry k tag m now) h1
      (List.getElem?_concat_length _ _) rfl (lookupPolledMachine_none u tag hl).2

theorem wellFormed_init : WellFormed State.init.u := by
  refine ⟨List.nodup_nil, List.nodup_nil, ?_, ?_, ?_⟩
  · intro t ht
    simp [State.init, mapKeys] at ht
  · intro g tag p hl
    cases g with
    | shortPollGroup => simp [State.init, updaterWorker.pollGroup, mapLookup] at hl
    | longPollGroup => simp [State.init, updaterWorker.pollGroup, mapLookup] at hl
  · intro id p hl
    simp [State.init, mapLookup] at hl

/-- Lookups in the poll groups do not depend on the order they are listed in. -/
theorem pollGroup_reorder (u : updaterWorker) (hwf : WellFormed u)
    (short long : List (MachineTag × Ptr)) (hs : short.Perm u.shortGroup)
    (hl : long.Perm u.longGroup) (g : pollGroupType) (tag : MachineTag) :
    mapLookup ((u.reorder short long).pollGroup g) tag = mapLookup (u.pollGroup g) tag := by
  cases g with
  | shortPollGroup => exact mapLookup_perm short u.shortGroup hwf.nodupShort hs tag
  | longPollGroup => exact mapLookup_perm long u.longGroup hwf.nodupLong hl tag

theorem wellFormed_reorder (u : updaterWorker) (short long : List (MachineTag × Ptr))
    (hwf : WellFormed u) (hs : short.Perm u.shortGroup) (hl : long.Perm u.longGroup) :
    WellFormed (u.reorder short long) := by
  refine ⟨(hs.map Prod.fst).nodup_iff.2 hwf.nodupShort,
    (hl.map Prod.fst).nodup_iff.2 hwf.nodupLong, ?_, ?_, hwf.indexEntry⟩
  · intro t ht
    exact hwf.exclusive t ⟨(hs.map Prod.fst).mem_iff.1 ht.1, (hl.map Prod.fst).mem_iff.1 ht.2⟩
  · intro g tag p hlk
    rw [pollGroup_reorder u hwf short long hs hl] at hlk
    exact hwf.groupEntry g tag p hlk

/-- Every reachable state is well formed. -/
theorem reachable_wellFormed (c : Collaborators) (k : PollConsts) (s : State)
    (h : Reachable c k s) : WellFormed s.u :=
  reachable_of_steps_invariant c k WellFormed wellFormed_init
    (fun u u1 hu hstep => wellFormed_step c k u u1 hu hstep) wellFormed_reorder s h

/-! ## The concrete run is a run -/

theorem demoQueued_reachable : Reachable demoWorld defaultConsts demoQueued :=
  Reachable.queue State.init demoQueued "1" Reachable.init (by rfl)

theorem demoPromoted_reachable : Reachable demoWorld defaultConsts demoPromoted :=
  Reachable.poll demoQueued demoPromoted pollGroupType.shortPollGroup demoQueued_reachable
    (by rfl)

theorem demoTwo_reachable : Reachable demoWorld defaultConsts demoTwo :=
  Reachable.queue demoPromoted demoTwo "2" demoPromoted_reachable (by rfl)

theorem demoThree_reachable : Reachable demoWorld defaultConsts demoThree :=
  Reachable.queue demoTwo demoThree "0" demoTwo_reachable (by rfl)

/-! ## The `float64` product -/

theorem excessBits_of_lt (fuel n : Nat) (h : n < 2 ^ 53) : excessBits fuel n = 0 := by
  cases fuel with
  | zero => rfl
  | succ f =>
    unfold excessBits
    rw [if_pos h]

theorem excessBits_spec (fuel : Nat) :
    ∀ n : Nat, n < 2 ^ 53 * 2 ^ fuel →
      n / 2 ^ excessBits fuel n < 2 ^ 53 ∧
        (0 < excessBits fuel n → 2 ^ 52 ≤ n / 2 ^ excessBits fuel n) := by
  induction fuel with
  | zero =>
    intro n hn
    have h0 : excessBits 0 n = 0 := rfl
    rw [h0]
    simp only [pow_zero, Nat.div_one, Nat.mul_one] at hn ⊢
    exact ⟨hn, fun h => absurd h (by simp)⟩
  | succ f ih =>
    intro n hn
    by_cases hlt : n < 2 ^ 53
    · rw [excessBits_of_lt (f + 1) n hlt]
      simp only [pow_zero, Nat.div_one]
      exact ⟨hlt, fun h => absurd h (by simp)⟩
    · have hk : excessBits (f + 1) n = excessBits f (n / 2) + 1 := by
        conv_lhs => unfold excessBits
        rw [if_neg hlt]
      have hhalf : n / 2 < 2 ^ 53 * 2 ^ f := by
        rw [pow_succ] at hn
        omega
      obtain ⟨h1, h2⟩ := ih (n / 2) hhalf
      have hdiv : n / 2 ^ (excessBits f (n / 2) + 1) = n / 2 / 2 ^ excessBits f (n / 2) := by
        rw [pow_succ, Nat.mul_comm, Nat.div_div_eq_div_mul]
      rw [hk, hdiv]
      refine ⟨h1, fun _ => ?_⟩
      by_cases hk0 : 0 < excessBits f (n / 2)
      · exact h2 hk0
      · have hz : excessBits f (n / 2) = 0 := by omega
        rw [hz]
        simp only [pow_zero, Nat.div_one]
        omega

theorem excessBits_self (n : Nat) :
    n / 2 ^ excessBits n n < 2 ^ 53 ∧
      (0 < excessBits n n → 2 ^ 52 ≤ n / 2 ^ excessBits n n) := by
  apply excessBits_spec
  have h1 : n < 2 ^ n := Nat.lt_two_pow n
  have h2 : 2 ^ n ≤ 2 ^ 53 * 2 ^ n := Nat.le_mul_of_pos_left _ (by positivity)
  omega

/-- The three facts about rounding used below: nothing is rounded when no bit is in
excess; otherwise the result lies between the truncated value and the next multiple,
and is the truncated value when the dropped bits are zero. -/
theorem roundFloat64_bounds (n : Nat) :
    (excessBits n n = 0 → roundFloat64 n = n) ∧
      (0 < excessBits n n →
        n / 2 ^ excessBits n n * 2 ^ excessBits n n ≤ roundFloat64 n ∧
        roundFloat64 n ≤ (n / 2 ^ excessBits n n + 1) * 2 ^ excessBits n n ∧
        (n % 2 ^ excessBits n n = 0 →
          roundFloat64 n = n / 2 ^ excessBits n n * 2 ^ excessBits n n)) := by
  constructor
  · intro h0
    unfold roundFloat64
    simp only [h0, if_true]
  · intro hpos
    have hne : ¬ excessBits n n = 0 := by omega
    have hle : n / 2 ^ excessBits n n * 2 ^ excessBits n n ≤
        (n / 2 ^ excessBits n n + 1) * 2 ^ excessBits n n :=
      Nat.mul_le_mul_right _ (Nat.le_succ _)
    have hhalf : 0 < 2 ^ (excessBits n n - 1) := by positivity
    unfold roundFloat64
    simp only [hne, if_false]
    refine ⟨?_, ?_, ?_⟩
    · split
      · exact le_refl _
      · split
        · exact le_refl _
        · exact hle
    · split
      · exact hle
      · split
        · exact hle
        · exact le_refl _
    · intro hr
      rw [hr, if_pos hhalf]

/-- A number with at most 53 significant bits below `N` is below the rounding of `N`. -/
theorem le_roundFloat64 (N c i : Nat) (hc : c ≤ 2 ^ 53) (h : c * 2 ^ i ≤ N) :
    c * 2 ^ i ≤ roundFloat64 N := by
  obtain ⟨hzero, hposb⟩ := roundFloat64_bounds N
  obtain ⟨_, hq52⟩ := excessBits_self N
  by_cases hk : excessBits N N = 0
  · rw [hzero hk]
    exact h
  · have hpos : 0 < excessBits N N := by omega
    obtain ⟨hlow, _, _⟩ := hposb hpos
    refine le_trans ?_ hlow
    have hq := hq52 hpos
    generalize excessBits N N = k at hpos hq ⊢
    by_cases hik : k ≤ i
    · obtain ⟨j, rfl⟩ := Nat.exists_eq_add_of_le hik
      have h1 : c * 2 ^ j * 2 ^ k ≤ N := by
        rw [Nat.mul_assoc, ← pow_add, Nat.add_comm j k]
        exact h
      have h2 : c * 2 ^ j ≤ N / 2 ^ k := (Nat.le_div_iff_mul_le (by positivity)).2 h1
      calc c * 2 ^ (k + j) = c * 2 ^ j * 2 ^ k := by
            rw [Nat.mul_assoc, ← pow_add, Nat.add_comm j k]
        _ ≤ N / 2 ^ k * 2 ^ k := Nat.mul_le_mul_right _ h2
    · have hik1 : i + 1 ≤ k := by omega
      calc c * 2 ^ i ≤ 2 ^ 53 * 2 ^ i := Nat.mul_le_mul_right _ hc
        _ = 2 ^ 52 * 2 ^ (i + 1) := by rw [pow_succ]; ring
        _ ≤ 2 ^ 52 * 2 ^ k := Nat.mul_le_mul_left _ (Nat.pow_le_pow_right (by norm_num) hik1)
        _ ≤ N / 2 ^ k * 2 ^ k := Nat.mul_le_mul_right _ hq

/-- The rounding of `N` is below every number with at most 53 significant bits above
`N`. -/
theorem roundFloat64_le (N c i : Nat) (hc : c ≤ 2 ^ 53) (h : N ≤ c * 2 ^ i) :
    roundFloat64 N ≤ c * 2 ^ i := by
  obtain ⟨hzero, hposb⟩ := roundFloat64_bounds N
  obtain ⟨_, hq52⟩ := excessBits_self N
  by_cases hk : excessBits N N = 0
  · rw [hzero hk]
    exact h
  · have hpos : 0 < excessBits N N := by omega
    obtain ⟨_, hup, hexact⟩ := hposb hpos
    have hq := hq52 hpos
    have hdm : 2 ^ excessBits N N * (N / 2 ^ excessBits N N) + N % 2 ^ excessBits N N = N :=
      Nat.div_add_mod N _
    generalize excessBits N N = k at hpos hq hup hexact hdm ⊢
    have hmul : N / 2 ^ k * 2 ^ k ≤ N := Nat.div_mul_le_self N _
    by_cases hik : k ≤ i
    · obtain ⟨j, rfl⟩ := Nat.exists_eq_add_of_le hik
      have hm : c * 2 ^ (k + j) = c * 2 ^ j * 2 ^ k := by
        rw [Nat.mul_assoc, ← pow_add, Nat.add_comm j k]
      rw [hm] at h ⊢
      have h2 : N / 2 ^ k ≤ c * 2 ^ j := by
        calc N / 2 ^ k ≤ c * 2 ^ j * 2 ^ k / 2 ^ k := Nat.div_le_div_right h
          _ = c * 2 ^ j := Nat.mul_div_cancel _ (by positivity)
      by_cases h3 : N / 2 ^ k < c * 2 ^ j
      · exact le_trans hup (Nat.mul_le_mul_right _ h3)
      · have h4 : N / 2 ^ k = c * 2 ^ j := by omega
        have h5 : N = N / 2 ^ k * 2 ^ k := by
          rw [h4] at hmul ⊢
          omega
        have h6 : N % 2 ^ k = 0 := by
          rw [Nat.mul_comm] at h5
          omega
        rw [hexact h6, h4]
    · have hik1 : i + 1 ≤ k := by omega
      have h1 : c * 2 ^ i ≤ N / 2 ^ k * 2 ^ k := by
        calc c * 2 ^ i ≤ 2 ^ 53 * 2 ^ i := Nat.mul_le_mul_right _ hc
          _ = 2 ^ 52 * 2 ^ (i + 1) := by rw [pow_succ]; ring
          _ ≤ 2 ^ 52 * 2 ^ k :=
            Nat.mul_le_mul_left _ (Nat.pow_le_pow_right (by norm_num) hik1)
          _ ≤ N / 2 ^ k * 2 ^ k := Nat.mul_le_mul_right _ hq
      have h5 : N = N / 2 ^ k * 2 ^ k := by omega
      have h6 : N % 2 ^ k = 0 := by
        rw [Nat.mul_comm] at h5
        omega
      rw [hexact h6]
      omega

/-- A number with at most 53 significant bits is its own rounding. -/
theorem roundFloat64_exact (n : Nat) (h : n ≤ 2 ^ 53) : roundFloat64 n = n := by
  have h1 := le_roundFloat64 n n 0 h (by simp)
  have h2 := roundFloat64_le n n 0 h (by simp)
  simp only [pow_zero, Nat.mul_one] at h1 h2
  omega

/-- The value `time.Duration(float64(d) * ShortPollBackoff)` for non-negative `d` and
positive factor, when the magnitude is an `int64`. -/
theorem scaleDuration_of_nonneg (k : PollConsts) (n a : Nat) (hmant : k.backoffMant = a)
    (hrange : scaledMagnitude k (n : Int) < 2 ^ 63) :
    scaleDuration k (n : Int) = (scaledMagnitude k (n : Int) : Int) := by
  unfold scaleDuration
  have h1 : decide ((n : Int) < 0) = decide (k.backoffMant < 0) := by
    rw [hmant, decide_eq_false (not_lt.2 (Int.ofNat_nonneg n)),
      decide_eq_false (not_lt.2 (Int.ofNat_nonneg a))]
  simp only [h1, if_true]
  have h2 : -(2 : Int) ^ 63 ≤ (scaledMagnitude k (n : Int) : Int) := by
    have : (0 : Int) ≤ (scaledMagnitude k (n : Int) : Int) := Int.ofNat_nonneg _
    omega
  have h3 : ((scaledMagnitude k (n : Int) : Nat) : Int) < (2 : Int) ^ 63 := by
    exact_mod_cast hrange
  rw [if_pos ⟨h2, h3⟩]

theorem scaledMagnitude_bounds (k : PollConsts) (n a : Nat) (hmant : k.backoffMant = a)
    (hn : n ≤ 2 ^ 53) (hb : 1 ≤ k.ShortPollBackoff)
    (hprod : (n : ℚ) * k.ShortPollBackoff ≤ 2 ^ 62) :
    n ≤ scaledMagnitude k (n : Int) ∧ scaledMagnitude k (n : Int) ≤ 2 ^ 62 := by
  have hmag : scaledMagnitude k (n : Int) =
      if 0 ≤ k.backoffExp then roundFloat64 (n * a) * 2 ^ k.backoffExp.toNat
      else roundFloat64 (n * a) / 2 ^ (-k.backoffExp).toNat := by
    unfold scaledMagnitude
    simp only [hmant, Int.natAbs_ofNat, roundFloat64_exact n hn]
  rw [hmag]
  unfold PollConsts.ShortPollBackoff at hb hprod
  rw [hmant] at hb hprod
  simp only [Int.cast_natCast] at hb hprod
  by_cases hexp : 0 ≤ k.backoffExp
  · rw [if_pos hexp]
    obtain ⟨e, he⟩ := Int.eq_ofNat_of_zero_le hexp
    rw [he] at hb hprod ⊢
    simp only [Int.toNat_ofNat]
    rw [zpow_natCast] at hb hprod
    have ha : 1 ≤ a := by
      by_contra hcon
      have ha0 : a = 0 := by omega
      rw [ha0] at hb
      norm_num at hb
    have hp : n * a * 2 ^ e ≤ 2 ^ 62 := by
      have h1 : ((n * a * 2 ^ e : Nat) : ℚ) ≤ ((2 ^ 62 : Nat) : ℚ) := by
        push_cast
        rw [mul_assoc]
        exact hprod
      exact_mod_cast h1
    constructor
    · have h1 : n * 2 ^ 0 ≤ n * a := by
        simp only [pow_zero, Nat.mul_one]
        exact Nat.le_mul_of_pos_right n ha
      have h2 := le_roundFloat64 (n * a) n 0 hn h1
      simp only [pow_zero, Nat.mul_one] at h2
      exact le_trans h2 (Nat.le_mul_of_pos_right _ (by positivity))
    · by_cases hna : n * a = 0
      · rw [hna]
        have h0 : roundFloat64 0 = 0 := roundFloat64_exact 0 (by norm_num)
        rw [h0]
        simp
      · have hna1 : 1 ≤ n * a := by omega
        have he62 : e ≤ 62 := by
          by_contra hcon
          have h63 : (2 : Nat) ^ 63 ≤ 2 ^ e := Nat.pow_le_pow_right (by norm_num) (by omega)
          have h1 : 2 ^ e ≤ n * a * 2 ^ e := Nat.le_mul_of_pos_left _ hna1
          have h2 : (2 : Nat) ^ 62 < 2 ^ 63 := by norm_num
          omega
        obtain ⟨f, hf⟩ := Nat.exists_eq_add_of_le he62
        have hN : n * a ≤ 1 * 2 ^ f := by
          rw [Nat.one_mul]
          have h1 : n * a * 2 ^ e ≤ 2 ^ f * 2 ^ e := by
            rw [← pow_add, Nat.add_comm f e, ← hf]
            exact hp
          exact Nat.le_of_mul_le_mul_right h1 (by positivity)
        have hR := roundFloat64_le (n * a) 1 f (by norm_num) hN
        rw [Nat.one_mul] at hR
        calc roundFloat64 (n * a) * 2 ^ e ≤ 2 ^ f * 2 ^ e := Nat.mul_le_mul_right _ hR
          _ = 2 ^ 62 := by rw [← pow_add, Nat.add_comm f e, ← hf]
  · rw [if_neg hexp]
    have hneg : 0 ≤ -k.backoffExp := by omega
    obtain ⟨j, hj⟩ := Int.eq_ofNat_of_zero_le hneg
    have hexpj : k.backoffExp = -(j : Int) := by omega
    rw [hj]
    rw [hexpj] at hb hprod
    simp only [Int.toNat_ofNat]
    rw [zpow_neg, zpow_natCast] at hb hprod
    have hpow : (0 : ℚ) < 2 ^ j := by positivity
    have ha : 2 ^ j ≤ a := by
      have h1 : ((2 ^ j : Nat) : ℚ) ≤ (a : ℚ) := by
        push_cast
        have h2 : (1 : ℚ) * 2 ^ j ≤ (a : ℚ) * (2 ^ j)⁻¹ * 2 ^ j :=
          mul_le_mul_of_nonneg_right hb (le_of_lt hpow)
        rw [mul_assoc, inv_mul_cancel₀ (ne_of_gt hpow), mul_one, one_mul] at h2
        exact_mod_cast h2
      exact_mod_cast h1
    have hp : n * a ≤ 1 * 2 ^ (62 + j) := by
      have h1 : ((n * a : Nat) : ℚ) ≤ ((1 * 2 ^ (62 + j) : Nat) : ℚ) := by
        push_cast
        have h2 : (n : ℚ) * ((a : ℚ) * (2 ^ j)⁻¹) * 2 ^ j ≤ 2 ^ 62 * 2 ^ j :=
          mul_le_mul_of_nonneg_right hprod (le_of_lt hpow)
        have h3 : (n : ℚ) * ((a : ℚ) * (2 ^ j)⁻¹) * 2 ^ j = (n : ℚ) * (a : ℚ) := by
          field_simp
        rw [h3] at h2
        rw [one_mul, pow_add]
        exact h2
      exact_mod_cast h1
    constructor
    · have h1 : n * 2 ^ j ≤ n * a := Nat.mul_le_mul_left _ ha
      have h2 := le_roundFloat64 (n * a) n j hn h1
      exact (Nat.le_div_iff_mul_le (by positivity)).2 h2
    · have hR := roundFloat64_le (n * a) 1 (62 + j) (by norm_num) hp
      rw [Nat.one_mul, pow_add] at hR
      exact Nat.div_le_of_le_mul (by rw [Nat.mul_comm (2 ^ j)]; exact hR)

/-- For a positive interval of at most 53 bits and a factor of at least one whose
product with it stays below `2 ^ 62`, the scaled interval is not smaller. -/
theorem scaleDuration_ge (k : PollConsts) (d : Duration) (hd0 : 0 < d)
    (hd : d ≤ 2 ^ 53) (hb : 1 ≤ k.ShortPollBackoff)
    (hprod : (d : ℚ) * k.ShortPollBackoff ≤ 2 ^ 62) : d ≤ scaleDuration k d := by
  obtain ⟨n, hn⟩ := Int.eq_ofNat_of_zero_le (le_of_lt hd0)
  subst hn
  have hmant0 : 0 < k.backoffMant := by
    by_contra hcon
    have h1 : (k.backoffMant : ℚ) ≤ 0 := by exact_mod_cast (not_lt.1 hcon)
    have h2 : (0 : ℚ) < (2 : ℚ) ^ k.backoffExp := by positivity
    unfold PollConsts.ShortPollBackoff at hb
    have h3 : (k.backoffMant : ℚ) * (2 : ℚ) ^ k.backoffExp ≤ 0 :=
      mul_nonpos_of_nonpos_of_nonneg h1 (le_of_lt h2)
    linarith
  obtain ⟨a, ha⟩ := Int.eq_ofNat_of_zero_le (le_of_lt hmant0)
  have hn53 : n ≤ 2 ^ 53 := by exact_mod_cast hd
  have hprod1 : (n : ℚ) * k.ShortPollBackoff ≤ 2 ^ 62 := by
    have h1 : (((n : Int) : Duration) : ℚ) = (n : ℚ) := by
      show (((n : Int)) : ℚ) = (n : ℚ)
      exact Int.cast_natCast n
    rw [← h1]
    exact hprod
  obtain ⟨hlo, hhi⟩ := scaledMagnitude_bounds k n a ha hn53 hb hprod1
  have hrange : scaledMagnitude k (n : Int) < 2 ^ 63 := by
    have : (2 : Nat) ^ 62 < 2 ^ 63 := by norm_num
    omega
  rw [scaleDuration_of_nonneg k n a ha hrange]
  exact_mod_cast hlo

/-- Where the product is exact (the interval times the mantissa of the factor has at
most 53 bits) and the result is an `int64`, the scaled interval is the rational product
rounded down. -/
theorem scaleDuration_exact (k : PollConsts) (d : Duration) (hd0 : 0 ≤ d)
    (hmant0 : 0 ≤ k.backoffMant) (hda : d * k.backoffMant ≤ 2 ^ 53)
    (hrange : ⌊(d : ℚ) * k.ShortPollBackoff⌋ < 2 ^ 63) :
    scaleDuration k d = ⌊(d : ℚ) * k.ShortPollBackoff⌋ := by
  obtain ⟨n, hn⟩ := Int.eq_ofNat_of_zero_le hd0
  obtain ⟨a, ha⟩ := Int.eq_ofNat_of_zero_le hmant0
  subst hn
  have hna : n * a ≤ 2 ^ 53 := by
    rw [ha] at hda
    exact_mod_cast hda
  have hround : roundFloat64 (roundFloat64 n * a) = n * a := by
    by_cases ha0 : a = 0
    · subst ha0
      simp only [Nat.mul_zero]
      exact roundFloat64_exact 0 (by norm_num)
    · have hn53 : n ≤ 2 ^ 53 :=
        le_trans (Nat.le_mul_of_pos_right n (Nat.pos_of_ne_zero ha0)) hna
      rw [roundFloat64_exact n hn53, roundFloat64_exact _ hna]
  have hmag : scaledMagnitude k (n : Int) =
      if 0 ≤ k.backoffExp then n * a * 2 ^ k.backoffExp.toNat
      else n * a / 2 ^ (-k.backoffExp).toNat := by
    unfold scaledMagnitude
    simp only [ha, Int.natAbs_ofNat, hround]
  have hfloor : ((scaledMagnitude k (n : Int) : Nat) : Int) =
      ⌊((n : Int) : ℚ) * k.ShortPollBackoff⌋ := by
    rw [hmag]
    unfold PollConsts.ShortPollBackoff
    rw [ha]
    simp only [Int.cast_natCast]
    by_cases hexp : 0 ≤ k.backoffExp
    · rw [if_pos hexp]
      obtain ⟨e, he⟩ := Int.eq_ofNat_of_zero_le hexp
      rw [he]
      simp only [Int.toNat_ofNat]
      rw [zpow_natCast]
      have h1 : (n : ℚ) * ((a : ℚ) * 2 ^ e) = ((n * a * 2 ^ e : Nat) : ℚ) := by
        push_cast
        ring
      rw [h1, Int.floor_natCast]
    · rw [if_neg hexp]
      have hneg : 0 ≤ -k.backoffExp := by omega
      obtain ⟨j, hj⟩ := Int.eq_ofNat_of_zero_le hneg
      have hexpj : k.backoffExp = -(j : Int) := by omega
      rw [hj, hexpj]
      simp only [Int.toNat_ofNat]
      rw [zpow_neg, zpow_natCast]
      have h1 : (n : ℚ) * ((a : ℚ) * (2 ^ j)⁻¹) = ((n * a : Nat) : ℚ) / ((2 ^ j : Nat) : ℚ) := by
        push_cast
        field_simp
      rw [h1, Rat.floor_natCast_div_natCast]
      exact Int.natCast_div _ _
  have hlt : scaledMagnitude k (n : Int) < 2 ^ 63 := by
    rw [← hfloor] at hrange
    exact_mod_cast hrange
  rw [scaleDuration_of_nonneg k n a ha hlt, hfloor]

/-! ## Group exclusivity, group policy and watcher events -/

/-- C1 (group exclusivity).  In every state the loop can be in between two events, that
is after any sequence of `queueMachineForPolling` and `pollGroupMembers` calls that
returned no error, started from the empty worker, no machine tag is a key of both the
short and the long poll group. -/
theorem group_exclusivity_invariant (c : Collaborators) (k : PollConsts) (s : State)
    (h : Reachable c k s) (tag : MachineTag) :
    ¬ (tag ∈ mapKeys s.u.shortGroup ∧ tag ∈ mapKeys s.u.longGroup) :=
  reachable_exclusive c k s h tag

theorem group_exclusivity_invariant_witness :
    Reachable demoWorld defaultConsts demoThree ∧
      ¬ ("1" ∈ mapKeys demoThree.u.shortGroup ∧ "1" ∈ mapKeys demoThree.u.longGroup) :=
  ⟨demoThree_reachable,
    group_exclusivity_invariant demoWorld defaultConsts demoThree demoThree_reachable "1"⟩

/-- C5 (group policy for an entry polled from the long group).  For an entry `e` at `p`
that is in the long group and not in the short group, `maybeSwitchPollGroup` with
`curGroup = longPollGroup` returns, and the entry is afterwards in the short group, out
of the long group and reset if and only if the provider status is neither Allocating nor
Pending and is Unknown or the list that `ProviderAddresses()` returns, with or without
an error, is empty; in every other case it is still in the long group and not in the
short group. -/
theorem long_group_policy (c : Collaborators) (k : PollConsts) (s : State) (p : Ptr)
    (e : pollGroupEntry) (ps ms : Status)
    (hheap : s.u.heap[p]? = some e)
    (hlong : mapLookup s.u.longGroup e.tag = some p)
    (hshort : mapLookup s.u.shortGroup e.tag = none) :
    ∃ s1, maybeSwitchPollGroup c k pollGroupType.longPollGroup p ps ms s = Outcome.ok () s1 ∧
      ((mapLookup s1.u.shortGroup e.tag = some p ∧ mapLookup s1.u.longGroup e.tag = none ∧
          s1.u.heap[p]? = some (e.resetShortPollInterval k
            (c.clockNow (s.trace ++ [Call.providerAddresses e.m]))))
        ↔ (ps ≠ Status.Allocating ∧ ps ≠ Status.Pending ∧
            (ps = Status.Unknown ∨ c.addressesReturned s.trace e.m = []))) ∧
      (¬ (ps ≠ Status.Allocating ∧ ps ≠ Status.Pending ∧
            (ps = Status.Unknown ∨ c.addressesReturned s.trace e.m = [])) →
        mapLookup s1.u.longGroup e.tag = some p ∧ mapLookup s1.u.shortGroup e.tag = none) := by
  have hlt : p < s.u.heap.length := (List.getElem?_eq_some_iff.1 hheap).1
  by_cases h1 : ps = Status.Allocating ∨ ps = Status.Pending
  · rw [maybeSwitchPollGroup_unsettled c k _ p ps ms s h1,
      bumpShortPollInterval_apply c k p s e hheap]
    refine ⟨_, rfl, ⟨fun h => ?_, fun h => ?_⟩, fun _ => ⟨hlong, hshort⟩⟩
    · rw [hshort] at h
      exact absurd h.1 (by simp)
    · rcases h1 with h1 | h1
      · exact absurd h1 h.1
      · exact absurd h1 h.2.1
  · have h1a : ps ≠ Status.Allocating := fun h => h1 (Or.inl h)
    have h1b : ps ≠ Status.Pending := fun h => h1 (Or.inr h)
    by_cases h2 : ps = Status.Unknown ∨ c.addressesReturned s.trace e.m = []
    · rw [maybeSwitchPollGroup_demote c k p ps ms s e hheap h1 h2]
      refine ⟨_, rfl, ⟨fun _ => ⟨h1a, h1b, h2⟩, fun _ => ⟨?_, ?_, ?_⟩⟩,
        fun h => absurd ⟨h1a, h1b, h2⟩ h⟩
      · show mapLookup (mapInsert s.u.shortGroup e.tag p) e.tag = some p
        rw [mapLookup_mapInsert, if_pos rfl]
      · show mapLookup (mapDelete s.u.longGroup e.tag) e.tag = none
        rw [mapLookup_mapDelete, if_pos rfl]
      · exact List.getElem?_set_self hlt
    · rw [maybeSwitchPollGroup_stay_long c k p ps ms s e hheap h1 h2]
      refine ⟨_, rfl, ⟨fun h => ?_, fun h => absurd h.2.2 h2⟩, fun _ => ⟨hlong, hshort⟩⟩
      rw [hshort] at h
      exact absurd h.1 (by simp)


theorem long_group_policy_witness :
    ∃ s1, maybeSwitchPollGroup demoWorld defaultConsts pollGroupType.longPollGroup 0
        Status.Unknown Status.Started demoPromoted = Outcome.ok () s1 ∧
      mapLookup s1.u.shortGroup "1" = some 0 ∧ mapLookup s1.u.longGroup "1" = none := by
  obtain ⟨s1, hrun, hiff, _⟩ :=
    long_group_policy demoWorld defaultConsts demoPromoted 0
      { m := 1, tag := "1", instanceID := "i-1", shortPollInterval := 1000000000,
        shortPollAt := 3000000000 }
      Status.Unknown Status.Started (by rfl) (by rfl) (by rfl)
  have h := hiff.2 ⟨by decide, by decide, Or.inl rfl⟩
  exact ⟨s1, hrun, h.1, h.2.1⟩

/-- C6 (promotion from the short group).  For an entry `e` at `p` that is in the short
group and not in the long group, `maybeSwitchPollGroup` with `curGroup = shortPollGroup`
returns, and the entry is afterwards in the long group and out of the short group if and
only if the provider status is neither Allocating nor Pending, `ProviderAddresses()`
yields at least one address and the machine status is Started; a promotion leaves the
heap, hence `shortPollInterval` and `shortPollAt`, unchanged; without promotion the
entry is still in the short group only. -/
theorem short_group_promotion (c : Collaborators) (k : PollConsts) (s : State) (p : Ptr)
    (e : pollGroupEntry) (ps ms : Status)
    (hheap : s.u.heap[p]? = some e)
    (hshort : mapLookup s.u.shortGroup e.tag = some p)
    (hlong : mapLookup s.u.longGroup e.tag = none) :
    ∃ s1, maybeSwitchPollGroup c k pollGroupType.shortPollGroup p ps ms s = Outcome.ok () s1 ∧
      ((mapLookup s1.u.longGroup e.tag = some p ∧ mapLookup s1.u.shortGroup e.tag = none)
        ↔ (ps ≠ Status.Allocating ∧ ps ≠ Status.Pending ∧
            c.addressesReturned s.trace e.m ≠ [] ∧ ms = Status.Started)) ∧
      ((ps ≠ Status.Allocating ∧ ps ≠ Status.Pending ∧
            c.addressesReturned s.trace e.m ≠ [] ∧ ms = Status.Started) →
        s1.u.heap = s.u.heap ∧ s1.u.heap[p]? = some e) ∧
      (¬ (ps ≠ Status.Allocating ∧ ps ≠ Status.Pending ∧
            c.addressesReturned s.trace e.m ≠ [] ∧ ms = Status.Started) →
        mapLookup s1.u.shortGroup e.tag = some p ∧ mapLookup s1.u.longGroup e.tag = none) := by
  by_cases h1 : ps = Status.Allocating ∨ ps = Status.Pending
  · rw [maybeSwitchPollGroup_unsettled c k _ p ps ms s h1,
      bumpShortPollInterval_apply c k p s e hheap]
    refine ⟨_, rfl, ⟨fun h => ?_, fun h => ?_⟩, fun h => ?_, fun _ => ⟨hshort, hlong⟩⟩
    · rw [hlong] at h
      exact absurd h.1 (by simp)
    · rcases h1 with h1 | h1
      · exact absurd h1 h.1
      · exact absurd h1 h.2.1
    · rcases h1 with h1 | h1
      · exact absurd h1 h.1
      · exact absurd h1 h.2.1
  · have h1a : ps ≠ Status.Allocating := fun h => h1 (Or.inl h)
    have h1b : ps ≠ Status.Pending := fun h => h1 (Or.inr h)
    by_cases h2 : c.addressesReturned s.trace e.m ≠ [] ∧ ms = Status.Started
    · rw [maybeSwitchPollGroup_promote c k p ps ms s e hheap h1 h2.1 h2.2]
      refine ⟨_, rfl, ⟨fun _ => ⟨h1a, h1b, h2⟩, fun _ => ⟨?_, ?_⟩⟩, fun _ => ⟨rfl, hheap⟩,
        fun h => absurd ⟨h1a, h1b, h2⟩ h⟩
      · show mapLookup (mapInsert s.u.longGroup e.tag p) e.tag = some p
        rw [mapLookup_mapInsert, if_pos rfl]
      · show mapLookup (mapDelete s.u.shortGroup e.tag) e.tag = none
        rw [mapLookup_mapDelete, if_pos rfl]
    · have h2c : c.addressesReturned s.trace e.m = [] ∨ ms ≠ Status.Started := by
        by_cases h3 : c.addressesReturned s.trace e.m = []
        · exact Or.inl h3
        · exact Or.inr (fun h4 => h2 ⟨h3, h4⟩)
      rw [maybeSwitchPollGroup_backoff c k p ps ms s e hheap h1 h2c]
      refine ⟨_, rfl, ⟨fun h => ?_, fun h => absurd h.2.2 h2⟩, fun h => absurd h.2.2 h2,
        fun _ => ⟨hshort, hlong⟩⟩
      rw [hlong] at h
      exact absurd h.1 (by simp)

theorem short_group_promotion_witness :
    ∃ s1, maybeSwitchPollGroup demoWorld defaultConsts pollGroupType.shortPollGroup 0
        Status.Running Status.Started demoQueued = Outcome.ok () s1 ∧
      mapLookup s1.u.longGroup "1" = some 0 ∧ mapLookup s1.u.shortGroup "1" = none ∧
      s1.u.heap = demoQueued.u.heap := by
  obtain ⟨s1, hrun, hiff, hsame, _⟩ :=
    short_group_promotion demoWorld defaultConsts demoQueued 0
      { m := 1, tag := "1", instanceID := "", shortPollInterval := 1000000000,
        shortPollAt := 3000000000 }
      Status.Running Status.Started (by rfl) (by rfl) (by rfl)
  have hc : Status.Running ≠ Status.Allocating ∧ Status.Running ≠ Status.Pending ∧
      demoWorld.addressesReturned demoQueued.trace 1 ≠ [] ∧
      Status.Started = Status.Started := ⟨by decide, by decide, by decide, rfl⟩
  have h := hiff.2 hc
  exact ⟨s1, hrun, h.1, h.2, (hsame hc).1⟩

theorem bumpShortPollInterval_interval (k : PollConsts) (now : Time) (e : pollGroupEntry) :
    (e.bumpShortPollInterval k now).shortPollInterval =
      min (scaleDuration k e.shortPollInterval) k.LongPoll := by
  unfold pollGroupEntry.bumpShortPollInterval
  simp only
  by_cases h : scaleDuration k e.shortPollInterval > k.LongPoll
  · rw [if_pos h, min_eq_right (le_of_lt h)]
  · rw [if_neg h, min_eq_left (not_lt.1 h)]

/-- A watcher event for an untracked manual machine: the three reads. -/
theorem queueMachineForPolling_manual (c : Collaborators) (k : PollConsts) (tag : MachineTag)
    (s : State) (m : Handle) (st : StatusResult)
    (hlook : lookupPolledMachine s.u tag = none)
    (hm : c.facadeMachine s.trace tag = Except.ok m)
    (hman : c.isManual (s.trace ++ [Call.facadeMachine tag]) m = Except.ok true)
    (hst : c.instanceStatus (s.trace ++ [Call.facadeMachine tag] ++ [Call.isManual m]) m =
      Except.ok st) :
    queueMachineForPolling c k tag s =
      (if st.Status ≠ Status.Running then
          invokeCheck (Call.setInstanceStatus m Status.Running "Manually provisioned machine")
            (fun tr => c.setInstanceStatus tr m Status.Running "Manually provisioned machine")
        else pure ())
        { u := s.u,
          trace := s.trace ++ [Call.facadeMachine tag] ++ [Call.isManual m] ++
            [Call.instanceStatus m] } := by
  unfold queueMachineForPolling
  simp only [M.bind_apply, getU, hlook]
  rw [invokeOrReturn_apply_ok _ _ s m hm]
  simp only []
  rw [invokeOrReturn_apply_ok _ _ _ true hman]
  simp only [if_true, M.bind_apply]
  rw [invokeOrReturn_apply_ok _ _ _ st hst]


/-- C8 (pruning on a watcher event).  In a reachable state, a tag tracked in either
group has an entry `e`; if `Refresh()` succeeds and `Life()` is then Dead,
`queueMachineForPolling` returns nil, the tag is afterwards in neither group, the
entry's instance id is no key of `instanceIDToGroupEntry`, and the heap, the group
membership of every other tag and the index of every other instance id are unchanged. -/
theorem dead_machine_pruned (c : Collaborators) (k : PollConsts) (s : State)
    (tag : MachineTag) (p : Ptr) (g : pollGroupType) (hreach : Reachable c k s)
    (htracked : lookupPolledMachine s.u tag = some (p, g)) :
    ∃ e, s.u.heap[p]? = some e ∧
      (c.refresh s.trace e.m = none →
        c.life (s.trace ++ [Call.refresh e.m]) e.m = Life.Dead →
        ∃ s1, queueMachineForPolling c k tag s = Outcome.ok () s1 ∧
          mapLookup s1.u.shortGroup tag = none ∧ mapLookup s1.u.longGroup tag = none ∧
          mapLookup s1.u.instanceIDToGroupEntry e.instanceID = none ∧
          s1.u.heap = s.u.heap ∧
          (∀ t, t ≠ tag → mapLookup s1.u.shortGroup t = mapLookup s.u.shortGroup t ∧
            mapLookup s1.u.longGroup t = mapLookup s.u.longGroup t) ∧
          (∀ id, id ≠ e.instanceID →
            mapLookup s1.u.instanceIDToGroupEntry id =
              mapLookup s.u.instanceIDToGroupEntry id)) := by
  have hwf := reachable_wellFormed c k s hreach
  have hl := lookupPolledMachine_some s.u tag p g htracked
  obtain ⟨e, he, _⟩ := hwf.groupEntry g tag p hl.1
  refine ⟨e, he, fun href hlife => ?_⟩
  rw [queueMachineForPolling_dead c k tag s p g e htracked he href hlife]
  refine ⟨_, rfl, ?_⟩
  cases g with
  | shortPollGroup =>
    have hlong : mapLookup s.u.longGroup tag = none := by
      rw [mapLookup_eq_none_iff]
      intro hmem
      exact hwf.exclusive tag ⟨mem_mapKeys_of_mapLookup _ _ _ hl.1, hmem⟩
    refine ⟨?_, hlong, ?_, rfl, ?_, ?_⟩
    · show mapLookup (mapDelete s.u.shortGroup tag) tag = none
      rw [mapLookup_mapDelete, if_pos rfl]
    · show mapLookup (mapDelete s.u.instanceIDToGroupEntry e.instanceID) e.instanceID = none
      rw [mapLookup_mapDelete, if_pos rfl]
    · intro t ht
      refine ⟨?_, rfl⟩
      show mapLookup (mapDelete s.u.shortGroup tag) t = _
      rw [mapLookup_mapDelete, if_neg (fun h => ht h.symm)]
    · intro id hid
      show mapLookup (mapDelete s.u.instanceIDToGroupEntry e.instanceID) id = _
      rw [mapLookup_mapDelete, if_neg (fun h => hid h.symm)]
  | longPollGroup =>
    refine ⟨hl.2 rfl, ?_, ?_, rfl, ?_, ?_⟩
    · show mapLookup (mapDelete s.u.longGroup tag) tag = none
      rw [mapLookup_mapDelete, if_pos rfl]
    · show mapLookup (mapDelete s.u.instanceIDToGroupEntry e.instanceID) e.instanceID = none
      rw [mapLookup_mapDelete, if_pos rfl]
    · intro t ht
      refine ⟨rfl, ?_⟩
      show mapLookup (mapDelete s.u.longGroup tag) t = _
      rw [mapLookup_mapDelete, if_neg (fun h => ht h.symm)]
    · intro id hid
      show mapLookup (mapDelete s.u.instanceIDToGroupEntry e.instanceID) id = _
      rw [mapLookup_mapDelete, if_neg (fun h => hid h.symm)]

theorem dead_machine_pruned_witness :
    ∃ s1, queueMachineForPolling demoWorld defaultConsts "2" demoTwo = Outcome.ok () s1 ∧
      mapLookup s1.u.shortGroup "2" = none ∧ mapLookup s1.u.longGroup "2" = none ∧
      mapLookup s1.u.longGroup "1" = some 0 := by
  obtain ⟨e, he, h⟩ :=
    dead_machine_pruned demoWorld defaultConsts demoTwo "2" 1 pollGroupType.shortPollGroup
      demoTwo_reachable (by rfl)
  have he2 : e = ⟨2, "2", "", 1000000000, 16000000000⟩ := by
    have h1 : demoTwo.u.heap[1]? = some ⟨2, "2", "", 1000000000, 16000000000⟩ := by rfl
    rw [h1] at he
    injection he with he
    exact he.symm
  subst he2
  obtain ⟨s1, hrun, hs, hl, _, _, hothers, _⟩ := h (by rfl) (by rfl)
  refine ⟨s1, hrun, hs, hl, ?_⟩
  rw [(hothers "1" (by decide)).2]
  rfl

/-- C9 (a watcher event for a tracked machine that is not Dead).  In a reachable state,
a tag tracked in either group has an entry `e`; if `Refresh()` succeeds and `Life()` is
then not Dead, `queueMachineForPolling` returns nil and afterwards the entry is in the
short group and not in the long group, it is `e` reset at the clock reading `now` taken
after the two machine calls (`shortPollInterval = ShortPoll`,
`shortPollAt = now + ShortPoll`, same `instanceID`), and `instanceIDToGroupEntry` is
unchanged. -/
theorem tracked_machine_requeued (c : Collaborators) (k : PollConsts) (s : State)
    (tag : MachineTag) (p : Ptr) (g : pollGroupType) (hreach : Reachable c k s)
    (htracked : lookupPolledMachine s.u tag = some (p, g)) :
    ∃ e, s.u.heap[p]? = some e ∧
      (c.refresh s.trace e.m = none →
        c.life (s.trace ++ [Call.refresh e.m]) e.m ≠ Life.Dead →
        ∃ s1 e1, queueMachineForPolling c k tag s = Outcome.ok () s1 ∧
          mapLookup s1.u.shortGroup tag = some p ∧ mapLookup s1.u.longGroup tag = none ∧
          s1.u.heap[p]? = some e1 ∧
          e1 = e.resetShortPollInterval k
            (c.clockNow (s.trace ++ [Call.refresh e.m] ++ [Call.life e.m])) ∧
          e1.shortPollInterval = k.ShortPoll ∧
          e1.shortPollAt =
            c.clockNow (s.trace ++ [Call.refresh e.m] ++ [Call.life e.m]) + k.ShortPoll ∧
          e1.instanceID = e.instanceID ∧
          s1.u.instanceIDToGroupEntry = s.u.instanceIDToGroupEntry) := by
  have hwf := reachable_wellFormed c k s hreach
  have hl := lookupPolledMachine_some s.u tag p g htracked
  obtain ⟨e, he, _⟩ := hwf.groupEntry g tag p hl.1
  have hlt : p < s.u.heap.length := (List.getElem?_eq_some_iff.1 he).1
  refine ⟨e, he, fun href hlife => ?_⟩
  rw [queueMachineForPolling_alive c k tag s p g e htracked he href hlife]
  refine ⟨_, _, rfl, ?_, ?_, List.getElem?_set_self hlt, rfl, rfl, rfl, rfl, rfl⟩
  · cases g with
    | shortPollGroup => exact hl.1
    | longPollGroup =>
      show mapLookup (mapInsert s.u.shortGroup tag p) tag = some p
      rw [mapLookup_mapInsert, if_pos rfl]
  · cases g with
    | shortPollGroup =>
      show mapLookup s.u.longGroup tag = none
      rw [mapLookup_eq_none_iff]
      intro hmem
      exact hwf.exclusive tag ⟨mem_mapKeys_of_mapLookup _ _ _ hl.1, hmem⟩
    | longPollGroup =>
      show mapLookup (mapDelete s.u.longGroup tag) tag = none
      rw [mapLookup_mapDelete, if_pos rfl]

theorem tracked_machine_requeued_witness :
    ∃ s1 e1, queueMachineForPolling demoWorld defaultConsts "1" demoPromoted =
        Outcome.ok () s1 ∧
      mapLookup s1.u.shortGroup "1" = some 0 ∧ mapLookup s1.u.longGroup "1" = none ∧
      s1.u.heap[0]? = some e1 ∧ e1.shortPollInterval = 1000000000 := by
  obtain ⟨e, he, h⟩ :=
    tracked_machine_requeued demoWorld defaultConsts demoPromoted "1" 0
      pollGroupType.longPollGroup demoPromoted_reachable (by rfl)
  have he2 : e = ⟨1, "1", "i-1", 1000000000, 3000000000⟩ := by
    have h1 : demoPromoted.u.heap[0]? = some ⟨1, "1", "i-1", 1000000000, 3000000000⟩ := by
      rfl
    rw [h1] at he
    injection he with he
    exact he.symm
  subst he2
  obtain ⟨s1, e1, hrun, hs, hl, hheap, _, hint, _⟩ := h (by rfl) (by decide)
  exact ⟨s1, e1, hrun, hs, hl, hheap, hint⟩

/-! ## Which machines a poll calls -/

theorem tripleAll_pure {α : Type} {P : State → Prop} {Q : α → State → Prop}
    {E : State → Prop} (a : α) (h : ∀ s, P s → Q a s) : TripleAll P (pure a : M α) Q E := by
  intro s hs
  exact h s hs

theorem tripleAll_bind {α β : Type} {P : State → Prop} {x : M α} {Q : α → State → Prop}
    {f : α → M β} {R : β → State → Prop} {E : State → Prop}
    (hx : TripleAll P x Q E) (hf : ∀ a, TripleAll (Q a) (f a) R E) :
    TripleAll P (x >>= f) R E := by
  intro s hs
  have h1 := hx s hs
  rw [M.bind_apply]
  cases hxs : x s with
  | ok a s1 =>
    rw [hxs] at h1
    exact hf a s1 h1
  | error e s1 =>
    rw [hxs] at h1
    exact h1
  | panic => trivial

theorem tripleAll_weaken {α : Type} {P P0 : State → Prop} {x : M α}
    {Q Q0 : α → State → Prop} {E : State → Prop}
    (h : TripleAll P0 x Q0 E) (hpre : ∀ s, P s → P0 s) (hpost : ∀ a s, Q0 a s → Q a s) :
    TripleAll P x Q E := by
  intro s hs
  have h1 := h s (hpre s hs)
  cases hxs : x s with
  | ok a s1 =>
    rw [hxs] at h1
    exact hpost a s1 h1
  | error e s1 =>
    rw [hxs] at h1
    exact h1
  | panic => trivial

theorem tripleAll_throwErr {α : Type} {P : State → Prop} {Q : α → State → Prop}
    {E : State → Prop} (e : Error) (h : ∀ s, P s → E s) :
    TripleAll P (throwErr e : M α) Q E := by
  intro s hs
  exact h s hs

theorem tripleAll_panicNow {α : Type} {P : State → Prop} {Q : α → State → Prop}
    {E : State → Prop} : TripleAll P (panicNow : M α) Q E := by
  intro s _
  trivial

theorem tripleAll_getU {P : State → Prop} {E : State → Prop} :
    TripleAll P getU (fun u s => P s ∧ u = s.u) E := by
  intro s hs
  exact ⟨hs, rfl⟩

theorem tripleAll_modifyU {P : State → Prop} {Q : Unit → State → Prop} {E : State → Prop}
    (f : updaterWorker → updaterWorker)
    (h : ∀ s, P s → Q () { s with u := f s.u }) : TripleAll P (modifyU f) Q E := by
  intro s hs
  exact h s hs

theorem tripleAll_invoke {ρ : Type} {P : State → Prop} {Q : ρ → State → Prop}
    {E : State → Prop} (ev : Call) (answer : List Call → ρ)
    (h : ∀ s, P s → Q (answer s.trace) { s with trace := s.trace ++ [ev] }) :
    TripleAll P (invoke ev answer) Q E := by
  intro s hs
  exact h s hs

theorem tripleAll_invokeOrReturn {ρ : Type} {P : State → Prop} {Q : ρ → State → Prop}
    {E : State → Prop} (ev : Call) (answer : List Call → Except Error ρ)
    (h : ∀ s a, P s → answer s.trace = .ok a → Q a { s with trace := s.trace ++ [ev] })
    (he : ∀ s, P s → E { s with trace := s.trace ++ [ev] }) :
    TripleAll P (invokeOrReturn ev answer) Q E := by
  intro s hs
  unfold invokeOrReturn
  cases ha : answer s.trace with
  | ok a => exact h s a hs ha
  | error e => exact he s hs

theorem tripleAll_invokeCheck {P : State → Prop} {Q : Unit → State → Prop}
    {E : State → Prop} (ev : Call) (answer : List Call → Option Error)
    (h : ∀ s, P s → Q () { s with trace := s.trace ++ [ev] })
    (he : ∀ s, P s → E { s with trace := s.trace ++ [ev] }) :
    TripleAll P (invokeCheck ev answer) Q E := by
  intro s hs
  unfold invokeCheck
  cases ha : answer s.trace with
  | none => exact h s hs
  | some e => exact he s hs

theorem tripleAll_deref {P : State → Prop} {E : State → Prop} (p : Ptr) :
    TripleAll P (deref p) (fun e s => P s ∧ s.u.heap[p]? = some e) E := by
  intro s hs
  unfold deref
  cases hp : s.u.heap[p]? with
  | none => trivial
  | some e => exact ⟨hs, hp⟩

theorem touchesOnly_call (H : Handle → Prop) (tr0 : List Call) (s : State) (ev : Call)
    (h : TouchesOnly H tr0 s) (hev : ∀ m, ev.machine? = some m → H m) :
    TouchesOnly H tr0 { s with trace := s.trace ++ [ev] } := by
  obtain ⟨⟨new, htr, hnew⟩, hheap⟩ := h
  refine ⟨⟨new ++ [ev], ?_, ?_⟩, hheap⟩
  · show s.trace ++ [ev] = tr0 ++ (new ++ [ev])
    rw [htr, List.append_assoc]
  · intro ev1 hmem m hm
    rcases List.mem_append.1 hmem with h1 | h1
    · exact hnew ev1 h1 m hm
    · rw [List.mem_singleton] at h1
      subst h1
      exact hev m hm

theorem touchesOnly_entry (H : Handle → Prop) (tr0 : List Call) (s : State) (p : Ptr)
    (e : pollGroupEntry) (h : TouchesOnly H tr0 s) (hp : s.u.heap[p]? = some e) : H e.m :=
  h.2 e (List.mem_iff_getElem?.2 ⟨p, hp⟩)

theorem touchesOnly_set (H : Handle → Prop) (tr0 : List Call) (s : State) (p : Ptr)
    (e1 : pollGroupEntry) (h : TouchesOnly H tr0 s) (h1 : H e1.m) :
    TouchesOnly H tr0 { s with u := { s.u with heap := s.u.heap.set p e1 } } := by
  refine ⟨h.1, ?_⟩
  intro e he
  rcases List.mem_or_eq_of_mem_set he with h2 | h2
  · exact h.2 e h2
  · rw [h2]
    exact h1

theorem touchesOnly_maps (H : Handle → Prop) (tr0 : List Call) (s : State)
    (u1 : updaterWorker) (h : TouchesOnly H tr0 s) (hheap : u1.heap = s.u.heap) :
    TouchesOnly H tr0 { s with u := u1 } := by
  refine ⟨h.1, ?_⟩
  intro e he
  have he1 : e ∈ u1.heap := he
  rw [hheap] at he1
  exact h.2 e he1

theorem resetShortPollInterval_touches (c : Collaborators) (k : PollConsts) (p : Ptr)
    (H : Handle → Prop) (tr0 : List Call) :
    TripleAll (TouchesOnly H tr0) (resetShortPollInterval c k p)
      (fun _ => TouchesOnly H tr0) (TouchesOnly H tr0) := by
  unfold resetShortPollInterval
  apply tripleAll_bind (tripleAll_deref p)
  intro e
  apply tripleAll_bind
    (Q := fun _ s => TouchesOnly H tr0 s ∧ H e.m)
  · apply tripleAll_invoke
    rintro s ⟨hs, hp⟩
    exact ⟨touchesOnly_call H tr0 s _ hs (fun m hm => by cases hm),
      touchesOnly_entry H tr0 s p e hs hp⟩
  · intro now
    apply tripleAll_modifyU
    rintro s ⟨hs, he⟩
    exact touchesOnly_set H tr0 s p _ hs he

theorem bumpShortPollInterval_touches (c : Collaborators) (k : PollConsts) (p : Ptr)
    (H : Handle → Prop) (tr0 : List Call) :
    TripleAll (TouchesOnly H tr0) (bumpShortPollInterval c k p)
      (fun _ => TouchesOnly H tr0) (TouchesOnly H tr0) := by
  unfold bumpShortPollInterval
  apply tripleAll_bind (tripleAll_deref p)
  intro e
  apply tripleAll_bind
    (Q := fun _ s => TouchesOnly H tr0 s ∧ H e.m)
  · apply tripleAll_invoke
    rintro s ⟨hs, hp⟩
    exact ⟨touchesOnly_call H tr0 s _ hs (fun m hm => by cases hm),
      touchesOnly_entry H tr0 s p e hs hp⟩
  · intro now
    apply tripleAll_modifyU
    rintro s ⟨hs, he⟩
    exact touchesOnly_set H tr0 s p _ hs he

theorem resolveInstanceID_touches (c : Collaborators) (p : Ptr)
    (H : Handle → Prop) (tr0 : List Call) :
    TripleAll (TouchesOnly H tr0) (resolveInstanceID c p)
      (fun _ => TouchesOnly H tr0) (TouchesOnly H tr0) := by
  unfold resolveInstanceID
  apply tripleAll_bind (tripleAll_deref p)
  intro entry
  split
  · exact tripleAll_pure _ (fun s hs => hs.1)
  · apply tripleAll_bind (Q := fun _ s => TouchesOnly H tr0 s ∧ H entry.m)
    · apply tripleAll_invoke
      rintro s ⟨hs, hp⟩
      have he := touchesOnly_entry H tr0 s p entry hs hp
      refine ⟨touchesOnly_call H tr0 s _ hs (fun m hm => ?_), he⟩
      injection hm with hm
      rw [← hm]
      exact he
    · intro r
      split
      · exact tripleAll_pure _ (fun s hs => hs.1)
      · apply tripleAll_bind (Q := fun _ s => TouchesOnly H tr0 s)
        · apply tripleAll_modifyU
          rintro s ⟨hs, he⟩
          exact touchesOnly_set H tr0 s p _ hs he
        · intro _
          apply tripleAll_bind (Q := fun _ s => TouchesOnly H tr0 s)
          · exact tripleAll_modifyU _ (fun s hs => touchesOnly_maps H tr0 s _ hs rfl)
          · intro _
            exact tripleAll_pure _ (fun s hs => hs)


theorem touchesOnly_machine_call (H : Handle → Prop) (tr0 : List Call) (s : State)
    (ev : Call) (m : Handle) (h : TouchesOnly H tr0 s ∧ H m)
    (hev : ∀ m1, ev.machine? = some m1 → m1 = m) :
    TouchesOnly H tr0 { s with trace := s.trace ++ [ev] } ∧ H m :=
  ⟨touchesOnly_call H tr0 s ev h.1 (fun m1 hm => by rw [hev m1 hm]; exact h.2), h.2⟩

theorem processProviderInfo_touches (c : Collaborators) (k : PollConsts) (p : Ptr)
    (info : InstHandle) (H : Handle → Prop) (tr0 : List Call) :
    TripleAll (TouchesOnly H tr0) (processProviderInfo c k p info)
      (fun _ => TouchesOnly H tr0) (TouchesOnly H tr0) := by
  unfold processProviderInfo
  apply tripleAll_bind (tripleAll_deref p)
  intro entry
  apply tripleAll_bind (Q := fun _ s => TouchesOnly H tr0 s ∧ H entry.m)
  · apply tripleAll_invoke
    rintro s ⟨hs, hp⟩
    exact touchesOnly_machine_call H tr0 s _ entry.m
      ⟨hs, touchesOnly_entry H tr0 s p entry hs hp⟩ (fun m1 hm => by injection hm with hm; exact hm.symm)
  · intro r
    split
    · exact tripleAll_pure _ (fun s hs => hs.1)
    · apply tripleAll_bind (Q := fun _ s => TouchesOnly H tr0 s ∧ H entry.m)
      · apply tripleAll_invoke
        rintro s ⟨hs, he⟩
        exact ⟨touchesOnly_call H tr0 s _ hs (fun m hm => by cases hm), he⟩
      · intro providerStatus
        apply tripleAll_bind (Q := fun _ s => TouchesOnly H tr0 s ∧ H entry.m)
        · split
          · apply tripleAll_bind (Q := fun _ s => TouchesOnly H tr0 s ∧ H entry.m)
            · apply tripleAll_invokeCheck
              · intro s hs
                exact touchesOnly_machine_call H tr0 s _ entry.m hs
                  (fun m1 hm => by injection hm with hm; exact hm.symm)
              · intro s hs
                exact (touchesOnly_machine_call H tr0 s _ entry.m hs
                  (fun m1 hm => by injection hm with hm; exact hm.symm)).1
            · intro _
              split
              · intro s hs
                have h1 := resetShortPollInterval_touches c k p H tr0 s hs.1
                cases hx : resetShortPollInterval c k p s with
                | ok a s1 =>
                  rw [hx] at h1
                  exact ⟨h1, hs.2⟩
                | error e s1 =>
                  rw [hx] at h1
                  exact h1
                | panic => trivial
              · exact tripleAll_pure _ (fun s hs => hs)
          · exact tripleAll_pure _ (fun s hs => hs)
        · intro _
          apply tripleAll_bind (Q := fun _ s => TouchesOnly H tr0 s ∧ H entry.m)
          · apply tripleAll_invoke
            intro s hs
            exact touchesOnly_machine_call H tr0 s _ entry.m hs
              (fun m1 hm => by injection hm with hm; exact hm.symm)
          · intro life
            split
            · exact tripleAll_pure _ (fun s hs => hs.1)
            · apply tripleAll_bind (Q := fun _ s => TouchesOnly H tr0 s ∧ H entry.m)
              · apply tripleAll_invokeOrReturn
                · intro s _ hs _
                  exact touchesOnly_machine_call H tr0 s _ entry.m hs
                    (fun m1 hm => by injection hm with hm; exact hm.symm)
                · intro s hs
                  exact (touchesOnly_machine_call H tr0 s _ entry.m hs
                    (fun m1 hm => by injection hm with hm; exact hm.symm)).1
              · intro curAddresses
                apply tripleAll_bind (Q := fun _ s => TouchesOnly H tr0 s ∧ H entry.m)
                · apply tripleAll_invokeOrReturn
                  · intro s _ hs _
                    exact ⟨touchesOnly_call H tr0 s _ hs.1 (fun m hm => by cases hm), hs.2⟩
                  · intro s hs
                    exact touchesOnly_call H tr0 s _ hs.1 (fun m hm => by cases hm)
                · intro providerAddresses
                  apply tripleAll_bind (Q := fun _ s => TouchesOnly H tr0 s)
                  · split
                    · apply tripleAll_invokeCheck
                      · intro s hs
                        exact (touchesOnly_machine_call H tr0 s _ entry.m hs
                          (fun m1 hm => by injection hm with hm; exact hm.symm)).1
                      · intro s hs
                        exact (touchesOnly_machine_call H tr0 s _ entry.m hs
                          (fun m1 hm => by injection hm with hm; exact hm.symm)).1
                    · exact tripleAll_pure _ (fun s hs => hs.1)
                  · intro _
                    exact tripleAll_pure _ (fun s hs => hs)

theorem maybeSwitchPollGroup_touches (c : Collaborators) (k : PollConsts)
    (g : pollGroupType) (p : Ptr) (ps ms : Status) (H : Handle → Prop) (tr0 : List Call) :
    TripleAll (TouchesOnly H tr0) (maybeSwitchPollGroup c k g p ps ms)
      (fun _ => TouchesOnly H tr0) (TouchesOnly H tr0) := by
  unfold maybeSwitchPollGroup
  split
  · exact bumpShortPollInterval_touches c k p H tr0
  · apply tripleAll_bind (tripleAll_deref p)
    intro entry
    apply tripleAll_bind (Q := fun _ s => TouchesOnly H tr0 s)
    · apply tripleAll_invoke
      rintro s ⟨hs, hp⟩
      exact (touchesOnly_machine_call H tr0 s _ entry.m
        ⟨hs, touchesOnly_entry H tr0 s p entry hs hp⟩
        (fun m1 hm => by injection hm with hm; exact hm.symm)).1
    · intro r
      dsimp only
      split
      · apply tripleAll_bind (Q := fun _ s => TouchesOnly H tr0 s)
        · apply tripleAll_modifyU
          intro s hs
          exact touchesOnly_maps H tr0 s _ hs rfl
        · intro _
          apply tripleAll_bind (Q := fun _ s => TouchesOnly H tr0 s)
          · apply tripleAll_modifyU
            intro s hs
            exact touchesOnly_maps H tr0 s _ hs rfl
          · intro _
            exact resetShortPollInterval_touches c k p H tr0
      · split
        · split
          · exact tripleAll_pure _ (fun s hs => hs)
          · apply tripleAll_bind (Q := fun _ s => TouchesOnly H tr0 s)
            · apply tripleAll_modifyU
              intro s hs
              exact touchesOnly_maps H tr0 s _ hs rfl
            · intro _
              apply tripleAll_modifyU
              intro s hs
              exact touchesOnly_maps H tr0 s _ hs rfl
        · split
          · exact bumpShortPollInterval_touches c k p H tr0
          · exact tripleAll_pure _ (fun s hs => hs)

theorem collectInstanceIDs_touches (c : Collaborators) (k : PollConsts) (g : pollGroupType)
    (now : Time) (H : Handle → Prop) (tr0 : List Call) (members : List (MachineTag × Ptr)) :
    ∀ instList : List InstanceId,
      TripleAll (TouchesOnly H tr0) (collectInstanceIDs c k g now members instList)
        (fun _ => TouchesOnly H tr0) (TouchesOnly H tr0) := by
  induction members with
  | nil =>
    intro instList
    unfold collectInstanceIDs
    exact tripleAll_pure _ (fun s hs => hs)
  | cons kv rest ih =>
    intro instList
    obtain ⟨t, p⟩ := kv
    unfold collectInstanceIDs
    apply tripleAll_bind (Q := fun _ => TouchesOnly H tr0)
    · exact tripleAll_weaken (tripleAll_deref p) (fun s hs => hs) (fun _ s hs => hs.1)
    · intro entry
      split
      · exact ih instList
      · apply tripleAll_bind (resolveInstanceID_touches c p H tr0)
        intro err
        split
        · split
          · apply tripleAll_bind (bumpShortPollInterval_touches c k p H tr0)
            intro _
            exact ih instList
          · exact tripleAll_throwErr _ (fun s hs => hs)
        · apply tripleAll_bind (Q := fun _ => TouchesOnly H tr0)
          · exact tripleAll_weaken (tripleAll_deref p) (fun s hs => hs) (fun _ s hs => hs.1)
          · intro entry2
            exact ih _

theorem processInfoList_touches (c : Collaborators) (k : PollConsts) (g : pollGroupType)
    (instList : List InstanceId) (H : Handle → Prop) (tr0 : List Call)
    (infoList : List (Option InstHandle)) :
    ∀ idx : Nat,
      TripleAll (TouchesOnly H tr0) (processInfoList c k g instList idx infoList)
        (fun _ => TouchesOnly H tr0) (TouchesOnly H tr0) := by
  induction infoList with
  | nil =>
    intro idx
    unfold processInfoList
    exact tripleAll_pure _ (fun s hs => hs)
  | cons slot rest ih =>
    intro idx
    unfold processInfoList
    split
    · exact tripleAll_panicNow
    · split
      · exact ih (idx + 1)
      · apply tripleAll_bind (Q := fun _ => TouchesOnly H tr0)
        · exact tripleAll_weaken tripleAll_getU (fun s hs => hs) (fun _ s hs => hs.1)
        · intro u
          split
          · exact tripleAll_panicNow
          · rename_i _ p _
            apply tripleAll_bind (processProviderInfo_touches c k p _ H tr0)
            intro providerStatus
            apply tripleAll_bind (tripleAll_deref p)
            intro entry
            apply tripleAll_bind (Q := fun _ => TouchesOnly H tr0)
            · apply tripleAll_invokeOrReturn
              · rintro s _ ⟨hs, hp⟩ _
                exact (touchesOnly_machine_call H tr0 s _ entry.m
                  ⟨hs, touchesOnly_entry H tr0 s p entry hs hp⟩
                  (fun m1 hm => by injection hm with hm; exact hm.symm)).1
              · rintro s ⟨hs, hp⟩
                exact (touchesOnly_machine_call H tr0 s _ entry.m
                  ⟨hs, touchesOnly_entry H tr0 s p entry hs hp⟩
                  (fun m1 hm => by injection hm with hm; exact hm.symm)).1
            · intro machineStatus
              apply tripleAll_bind (maybeSwitchPollGroup_touches c k g p _ _ H tr0)
              intro _
              exact ih (idx + 1)

/-- The machines `pollGroupMembers` calls are machines held by entries on the heap. -/
theorem pollGroupMembers_touches (c : Collaborators) (k : PollConsts) (g : pollGroupType)
    (H : Handle → Prop) (tr0 : List Call) :
    TripleAll (TouchesOnly H tr0) (pollGroupMembers c k g)
      (fun _ => TouchesOnly H tr0) (TouchesOnly H tr0) := by
  unfold pollGroupMembers
  apply tripleAll_bind (Q := fun _ => TouchesOnly H tr0)
  · exact tripleAll_invoke _ _
      (fun s hs => touchesOnly_call H tr0 s _ hs (fun m hm => by cases hm))
  · intro now
    apply tripleAll_bind (Q := fun _ => TouchesOnly H tr0)
    · exact tripleAll_weaken tripleAll_getU (fun s hs => hs) (fun _ s hs => hs.1)
    · intro u
      apply tripleAll_bind (collectInstanceIDs_touches c k g now H tr0 _ _)
      intro instList
      split
      · exact tripleAll_pure _ (fun s hs => hs)
      · apply tripleAll_bind (Q := fun _ => TouchesOnly H tr0)
        · exact tripleAll_invoke _ _
            (fun s hs => touchesOnly_call H tr0 s _ hs (fun m hm => by cases hm))
        · intro res
          split
          · split
            · exact tripleAll_throwErr _ (fun s hs => hs)
            · exact processInfoList_touches c k g instList H tr0 res.1 0
          · exact processInfoList_touches c k g instList H tr0 res.1 0

/-- C10 (manual machines).  For an untracked tag whose handle `m` is obtained, reports
`IsManual = true` and whose instance status `st` is read: `queueMachineForPolling` ends
(with nil, or with the error of `SetInstanceStatus`) in a state `s1` whose heap, poll
groups and reverse index are those of before; if `st` is not Running the calls made are
the three reads followed by exactly one
`SetInstanceStatus(Running, "Manually provisioned machine", nil)`, the result being nil
when that call succeeds; if `st` is Running the result is nil and the calls made are the
three reads only.  No machine is entered in any map, so if no entry held `m` before, no
call of a following `pollGroupMembers` (on either group, whatever its result) is a call
on `m`. -/
theorem manual_machine_not_tracked (c : Collaborators) (k : PollConsts) (s : State)
    (tag : MachineTag) (m : Handle) (st : StatusResult)
    (hun : lookupPolledMachine s.u tag = none)
    (hm : c.facadeMachine s.trace tag = Except.ok m)
    (hman : c.isManual (s.trace ++ [Call.facadeMachine tag]) m = Except.ok true)
    (hst : c.instanceStatus (s.trace ++ [Call.facadeMachine tag] ++ [Call.isManual m]) m =
      Except.ok st) :
    ∃ s1, (queueMachineForPolling c k tag s = Outcome.ok () s1 ∨
        ∃ err, queueMachineForPolling c k tag s = Outcome.error err s1) ∧
      s1.u = s.u ∧
      (st.Status ≠ Status.Running →
        s1.trace = s.trace ++ [Call.facadeMachine tag] ++ [Call.isManual m] ++
          [Call.instanceStatus m] ++
          [Call.setInstanceStatus m Status.Running "Manually provisioned machine"] ∧
        (c.setInstanceStatus
            (s.trace ++ [Call.facadeMachine tag] ++ [Call.isManual m] ++
              [Call.instanceStatus m]) m Status.Running "Manually provisioned machine" = none →
          queueMachineForPolling c k tag s = Outcome.ok () s1)) ∧
      (st.Status = Status.Running →
        queueMachineForPolling c k tag s = Outcome.ok () s1 ∧
        s1.trace = s.trace ++ [Call.facadeMachine tag] ++ [Call.isManual m] ++
          [Call.instanceStatus m]) ∧
      ((∀ e ∈ s.u.heap, e.m ≠ m) → ∀ g : pollGroupType,
        match pollGroupMembers c k g s1 with
        | .ok _ s2 => ∃ new, s2.trace = s1.trace ++ new ∧ ∀ ev ∈ new, ev.machine? ≠ some m
        | .error _ s2 => ∃ new, s2.trace = s1.trace ++ new ∧ ∀ ev ∈ new, ev.machine? ≠ some m
        | .panic => True) := by
  have hpoll : ∀ s1 : State, s1.u = s.u → (∀ e ∈ s.u.heap, e.m ≠ m) → ∀ g : pollGroupType,
      match pollGroupMembers c k g s1 with
      | .ok _ s2 => ∃ new, s2.trace = s1.trace ++ new ∧ ∀ ev ∈ new, ev.machine? ≠ some m
      | .error _ s2 => ∃ new, s2.trace = s1.trace ++ new ∧ ∀ ev ∈ new, ev.machine? ≠ some m
      | .panic => True := by
    intro s1 hu hfresh g
    have h0 : TouchesOnly (fun h => h ≠ m) s1.trace s1 := by
      refine ⟨⟨[], by simp, fun ev hev => by cases hev⟩, ?_⟩
      intro e he
      rw [hu] at he
      exact hfresh e he
    have h1 := pollGroupMembers_touches c k g (fun h => h ≠ m) s1.trace s1 h0
    cases hx : pollGroupMembers c k g s1 with
    | ok a s2 =>
      rw [hx] at h1
      obtain ⟨⟨new, htr, hnew⟩, _⟩ := h1
      exact ⟨new, htr, fun ev hev hm1 => hnew ev hev m hm1 rfl⟩
    | error e s2 =>
      rw [hx] at h1
      obtain ⟨⟨new, htr, hnew⟩, _⟩ := h1
      exact ⟨new, htr, fun ev hev hm1 => hnew ev hev m hm1 rfl⟩
    | panic => trivial
  rw [queueMachineForPolling_manual c k tag s m st hun hm hman hst]
  by_cases hr : st.Status = Status.Running
  · rw [if_neg (fun h => h hr)]
    exact ⟨_, Or.inl rfl, rfl, fun h => absurd hr h, fun _ => ⟨rfl, rfl⟩, hpoll _ rfl⟩
  · rw [if_pos hr]
    cases hset : c.setInstanceStatus
        (s.trace ++ [Call.facadeMachine tag] ++ [Call.isManual m] ++ [Call.instanceStatus m])
        m Status.Running "Manually provisioned machine" with
    | none =>
      rw [invokeCheck_apply_none _ _ _ hset]
      exact ⟨_, Or.inl rfl, rfl, fun _ => ⟨rfl, fun _ => rfl⟩, fun h => absurd h hr,
        hpoll _ rfl⟩
    | some err =>
      rw [invokeCheck_apply_some _ _ _ err hset]
      exact ⟨_, Or.inr ⟨err, rfl⟩, rfl, fun _ => ⟨rfl, fun h => by cases h⟩,
        fun h => absurd h hr, hpoll _ rfl⟩

theorem manual_machine_not_tracked_witness :
    ∃ s1, queueMachineForPolling demoWorld defaultConsts "m" demoThree = Outcome.ok () s1 ∧
      s1.u = demoThree.u ∧
      s1.trace = demoThree.trace ++ [Call.facadeMachine "m"] ++ [Call.isManual 3] ++
        [Call.instanceStatus 3] ++
        [Call.setInstanceStatus 3 Status.Running "Manually provisioned machine"] := by
  obtain ⟨s1, _, hu, hset, _, _⟩ :=
    manual_machine_not_tracked demoWorld defaultConsts demoThree "m" 3
      { Status := Status.Pending, Info := "" } (by rfl) (by rfl) (by rfl) (by rfl)
  have h := hset (by decide)
  exact ⟨s1, h.2 (by rfl), hu, h.1⟩

theorem dupPolled_reachable : Reachable dupWorld defaultConsts dupPolled :=
  Reachable.poll dupTwo dupPolled pollGroupType.shortPollGroup
    (Reachable.queue dupOne dupTwo "1"
      (Reachable.queue State.init dupOne "0" Reachable.init (by rfl)) (by rfl))
    (by rfl)

/-- C2, as stated, fails: when two machines report the same instance id, both entries
are resolved to it and the index can hold only one of them. -/
theorem shared_instance_id_breaks_index :
    Reachable dupWorld defaultConsts dupPolled ∧ ¬ IndexConsistent dupPolled.u := by
  refine ⟨dupPolled_reachable, fun h => ?_⟩
  have h1 := h.entryIndexed pollGroupType.shortPollGroup "1" 1
    ⟨1, "1", "i-0", 1000000000, 6000000000⟩ (by rfl) (by rfl) (by decide)
  revert h1
  decide


/-! ## Reverse-index consistency -/

theorem lookup_deleteFromGroup (u : updaterWorker) (g0 g : pollGroupType) (t t1 : MachineTag) :
    mapLookup ((u.deleteFromGroup g0 t).pollGroup g) t1 =
      if g = g0 ∧ t = t1 then none else mapLookup (u.pollGroup g) t1 := by
  cases g0 <;> cases g <;>
    simp [updaterWorker.deleteFromGroup, updaterWorker.pollGroup, mapLookup_mapDelete]

theorem lookup_insertIntoGroup (u : updaterWorker) (g0 g : pollGroupType) (t t1 : MachineTag)
    (p : Ptr) :
    mapLookup ((u.insertIntoGroup g0 t p).pollGroup g) t1 =
      if g = g0 ∧ t = t1 then some p else mapLookup (u.pollGroup g) t1 := by
  cases g0 <;> cases g <;>
    simp [updaterWorker.insertIntoGroup, updaterWorker.pollGroup, mapLookup_mapInsert]

theorem pollGroup_lookup_unique (u : updaterWorker) (hwf : WellFormed u)
    (g1 g2 : pollGroupType) (t : MachineTag) (p1 p2 : Ptr)
    (h1 : mapLookup (u.pollGroup g1) t = some p1)
    (h2 : mapLookup (u.pollGroup g2) t = some p2) : g1 = g2 ∧ p1 = p2 := by
  cases g1 <;> cases g2
  · rw [h1] at h2
    injection h2 with h2
    exact ⟨rfl, h2⟩
  · exact absurd ⟨mem_mapKeys_of_mapLookup _ _ _ h1, mem_mapKeys_of_mapLookup _ _ _ h2⟩
      (hwf.exclusive t)
  · exact absurd ⟨mem_mapKeys_of_mapLookup _ _ _ h2, mem_mapKeys_of_mapLookup _ _ _ h1⟩
      (hwf.exclusive t)
  · rw [h1] at h2
    injection h2 with h2
    exact ⟨rfl, h2⟩

/-- A change that keeps the index, keeps handle, tag and instance id of every entry, and
keeps every tag filed with the same pointer in some poll group, keeps the invariant. -/
theorem indexInv_of_same_entries (c : Collaborators) (u u1 : updaterWorker)
    (hwf : WellFormed u) (hi : IndexInv c u)
    (hidx : u1.instanceIDToGroupEntry = u.instanceIDToGroupEntry)
    (hheap : ∀ (q : Ptr) (e : pollGroupEntry), u.heap[q]? = some e →
      ∃ e1 : pollGroupEntry, u1.heap[q]? = some e1 ∧ e1.tag = e.tag ∧ e1.m = e.m ∧
        e1.instanceID = e.instanceID)
    (hnew : ∀ (g1 : pollGroupType) (t : MachineTag) (q : Ptr),
      mapLookup (u1.pollGroup g1) t = some q → ∃ g, mapLookup (u.pollGroup g) t = some q)
    (hold : ∀ (g : pollGroupType) (t : MachineTag) (q : Ptr),
      mapLookup (u.pollGroup g) t = some q → ∃ g1, mapLookup (u1.pollGroup g1) t = some q) :
    IndexInv c u1 := by
  have hback : ∀ (g1 : pollGroupType) (t : MachineTag) (q : Ptr) (e1 : pollGroupEntry),
      mapLookup (u1.pollGroup g1) t = some q → u1.heap[q]? = some e1 →
      ∃ g e, mapLookup (u.pollGroup g) t = some q ∧ u.heap[q]? = some e ∧
        e1.m = e.m ∧ e1.instanceID = e.instanceID := by
    intro g1 t q e1 hl he1
    obtain ⟨g, hg⟩ := hnew g1 t q hl
    obtain ⟨e, he, _⟩ := hwf.groupEntry g t q hg
    obtain ⟨e2, he2, _, hm, hid⟩ := hheap q e he
    rw [he1] at he2
    injection he2 with he2
    subst he2
    exact ⟨g, e, hg, he, hm, hid⟩
  refine ⟨?_, ?_, ?_⟩
  · intro g1 t q e1 hl he1
    obtain ⟨g, e, hg, he, hm, hid⟩ := hback g1 t q e1 hl he1
    have ho := hi.origin g t q e hg he
    rw [hm, hid]
    exact ho
  · intro g1 t q e1 hl he1 hne
    obtain ⟨g, e, hg, he, hm, hid⟩ := hback g1 t q e1 hl he1
    rw [hidx, hid]
    exact hi.entryIndexed g t q e hg he (by rw [← hid]; exact hne)
  · intro id q hl
    rw [hidx] at hl
    obtain ⟨hne, e, he, hid, g, hg⟩ := hi.keyOfEntry id q hl
    obtain ⟨e1, he1, ht, _, hid1⟩ := hheap q e he
    obtain ⟨g1, hg1⟩ := hold g e.tag q hg
    exact ⟨hne, e1, he1, hid1.trans hid, g1, by rw [ht]; exact hg1⟩

theorem indexInv_set_same (c : Collaborators) (u : updaterWorker) (p : Ptr)
    (e e1 : pollGroupEntry) (hwf : WellFormed u) (hi : IndexInv c u)
    (hp : u.heap[p]? = some e) (ht : e1.tag = e.tag) (hm : e1.m = e.m)
    (hid : e1.instanceID = e.instanceID) :
    IndexInv c { u with heap := u.heap.set p e1 } := by
  refine indexInv_of_same_entries c u _ hwf hi ?_ ?_ ?_ ?_
  · rfl
  · intro q e2 hq
    show ∃ e3 : pollGroupEntry, (u.heap.set p e1)[q]? = some e3 ∧ _
    rw [getElem?_set_of_some u.heap p q e e1 hp]
    by_cases hpq : p = q
    · subst hpq
      rw [if_pos rfl]
      rw [hp] at hq
      injection hq with hq
      subst hq
      exact ⟨e1, rfl, ht, hm, hid⟩
    · rw [if_neg hpq]
      exact ⟨e2, hq, rfl, rfl, rfl⟩
  · intro g1 t q hl
    refine ⟨g1, ?_⟩
    cases g1 with
    | shortPollGroup => exact hl
    | longPollGroup => exact hl
  · intro g t q hl
    refine ⟨g, ?_⟩
    cases g with
    | shortPollGroup => exact hl
    | longPollGroup => exact hl

/-- Moving a tag that is filed with pointer `p` from one poll group to the other keeps
the invariant. -/
theorem indexInv_move (c : Collaborators) (u : updaterWorker) (gs gt : pollGroupType)
    (t : MachineTag) (p : Ptr) (hwf : WellFormed u) (hi : IndexInv c u)
    (hmem : ∃ g, mapLookup (u.pollGroup g) t = some p) :
    IndexInv c ((u.deleteFromGroup gs t).insertIntoGroup gt t p) := by
  refine indexInv_of_same_entries c u _ hwf hi ?_ ?_ ?_ ?_
  · cases gs <;> cases gt <;> rfl
  · intro q e hq
    refine ⟨e, ?_, rfl, rfl, rfl⟩
    cases gs <;> cases gt <;> exact hq
  · intro g1 t1 q hl
    rw [lookup_insertIntoGroup] at hl
    by_cases h1 : g1 = gt ∧ t = t1
    · rw [if_pos h1] at hl
      injection hl with hl
      subst hl
      rw [← h1.2]
      exact hmem
    · rw [if_neg h1, lookup_deleteFromGroup] at hl
      by_cases h2 : g1 = gs ∧ t = t1
      · rw [if_pos h2] at hl
        exact absurd hl (by simp)
      · rw [if_neg h2] at hl
        exact ⟨g1, hl⟩
  · intro g t1 q hl
    by_cases ht : t = t1
    · subst ht
      obtain ⟨g0, hg0⟩ := hmem
      have hq := (pollGroup_lookup_unique u hwf g g0 t q p hl hg0).2
      subst hq
      refine ⟨gt, ?_⟩
      rw [lookup_insertIntoGroup, if_pos ⟨rfl, rfl⟩]
    · refine ⟨g, ?_⟩
      rw [lookup_insertIntoGroup, if_neg (fun h => ht h.2), lookup_deleteFromGroup,
        if_neg (fun h => ht h.2)]
      exact hl

theorem nodup_pollGroup (u : updaterWorker) (hwf : WellFormed u) (g : pollGroupType) :
    (mapKeys (u.pollGroup g)).Nodup := by
  cases g with
  | shortPollGroup => exact hwf.nodupShort
  | longPollGroup => exact hwf.nodupLong

theorem indexInv_resolve (c : Collaborators) (hd : DistinctInstanceIds c) (u : updaterWorker)
    (g : pollGroupType) (tag : MachineTag) (p : Ptr) (e : pollGroupEntry) (tr : List Call)
    (id : InstanceId) (hwf : WellFormed u) (hi : IndexInv c u)
    (hmem : (tag, p) ∈ u.pollGroup g) (hp : u.heap[p]? = some e) (hempty : e.instanceID = "")
    (hans : c.instanceId tr e.m = Except.ok id) :
    IndexInv c
      (updaterWorker.insertInstanceID
        { u with heap := u.heap.set p { e with instanceID := id } } id p) := by
  have hl : mapLookup (u.pollGroup g) tag = some p :=
    mapLookup_of_mem _ _ _ (nodup_pollGroup u hwf g) hmem
  have hne : id ≠ "" := hd.nonEmpty tr e.m id hans
  have htag : e.tag = tag := by
    obtain ⟨e0, he0, ht0⟩ := hwf.groupEntry g tag p hl
    rw [hp] at he0
    injection he0 with he0
    rw [he0]
    exact ht0
  have hfree : ∀ q, mapLookup u.instanceIDToGroupEntry id ≠ some q := by
    intro q hq
    obtain ⟨_, eq, heq, hideq, gq, hgq⟩ := hi.keyOfEntry id q hq
    have ho := hi.origin gq eq.tag q eq hgq heq
    obtain ⟨tr1, h1⟩ := ho.1
    obtain ⟨tr2, h2⟩ := ho.2 (by rw [hideq]; exact hne)
    rw [hideq] at h2
    obtain ⟨tr3, h3⟩ := (hi.origin g tag p e hl hp).1
    have ht : tag = eq.tag := hd.distinct tr3 tr1 tr tr2 tag eq.tag e.m eq.m id h3 h1 hans h2
    rw [← ht] at hgq
    have hpq := (pollGroup_lookup_unique u hwf g gq tag p q hl hgq).2
    subst hpq
    rw [hp] at heq
    injection heq with heq
    subst heq
    rw [hempty] at hideq
    exact hne hideq.symm
  have hgroups : ∀ g1 : pollGroupType,
      (updaterWorker.insertInstanceID
        { u with heap := u.heap.set p { e with instanceID := id } } id p).pollGroup g1 =
        u.pollGroup g1 := by
    intro g1
    cases g1 <;> rfl
  have hheap1 : ∀ q : Ptr,
      (updaterWorker.insertInstanceID
        { u with heap := u.heap.set p { e with instanceID := id } } id p).heap[q]? =
        if p = q then some { e with instanceID := id } else u.heap[q]? := by
    intro q
    exact getElem?_set_of_some u.heap p q e _ hp
  have hidx1 : ∀ id1 : InstanceId,
      mapLookup (updaterWorker.insertInstanceID
        { u with heap := u.heap.set p { e with instanceID := id } } id p).instanceIDToGroupEntry
        id1 = if id = id1 then some p else mapLookup u.instanceIDToGroupEntry id1 := by
    intro id1
    exact mapLookup_mapInsert _ _ _ _
  refine ⟨?_, ?_, ?_⟩
  · intro g1 t q e1 hl1 he1
    rw [hgroups] at hl1
    rw [hheap1] at he1
    by_cases hpq : p = q
    · subst hpq
      rw [if_pos rfl] at he1
      injection he1 with he1
      subst he1
      exact ⟨(hi.origin g1 t p e hl1 hp).1, fun _ => ⟨tr, hans⟩⟩
    · rw [if_neg hpq] at he1
      exact hi.origin g1 t q e1 hl1 he1
  · intro g1 t q e1 hl1 he1 hne1
    rw [hgroups] at hl1
    rw [hheap1] at he1
    rw [hidx1]
    by_cases hpq : p = q
    · subst hpq
      rw [if_pos rfl] at he1
      injection he1 with he1
      subst he1
      rw [if_pos rfl]
    · rw [if_neg hpq] at he1
      have hold := hi.entryIndexed g1 t q e1 hl1 he1 hne1
      by_cases hid : id = e1.instanceID
      · rw [← hid] at hold
        exact absurd hold (hfree q)
      · rw [if_neg hid]
        exact hold
  · intro id1 q hl1
    rw [hidx1] at hl1
    by_cases hid : id = id1
    · rw [if_pos hid] at hl1
      injection hl1 with hl1
      subst hl1
      subst hid
      refine ⟨hne, { e with instanceID := id }, ?_, rfl, g, ?_⟩
      · rw [hheap1, if_pos rfl]
      · rw [hgroups]
        show mapLookup (u.pollGroup g) e.tag = some p
        rw [htag]
        exact hl
    · rw [if_neg hid] at hl1
      obtain ⟨hne1, eq, heq, hideq, gq, hgq⟩ := hi.keyOfEntry id1 q hl1
      have hpq : p ≠ q := by
        intro hpq
        subst hpq
        rw [hp] at heq
        injection heq with heq
        subst heq
        rw [hempty] at hideq
        exact hne1 hideq.symm
      refine ⟨hne1, eq, ?_, hideq, gq, ?_⟩
      · rw [hheap1, if_neg hpq]
        exact heq
      · rw [hgroups]
        exact hgq

theorem indexInv_remove (c : Collaborators) (u : updaterWorker) (tag : MachineTag) (p : Ptr)
    (g : pollGroupType) (e : pollGroupEntry) (hwf : WellFormed u) (hi : IndexInv c u)
    (hlook : lookupPolledMachine u tag = some (p, g)) (hp : u.heap[p]? = some e) :
    IndexInv c ((u.deleteFromGroup g tag).deleteInstanceID e.instanceID) := by
  have hl : mapLookup (u.pollGroup g) tag = some p := (lookupPolledMachine_some u tag p g hlook).1
  have hgroups : ∀ (g1 : pollGroupType) (t : MachineTag),
      mapLookup (((u.deleteFromGroup g tag).deleteInstanceID e.instanceID).pollGroup g1) t =
        if g1 = g ∧ tag = t then none else mapLookup (u.pollGroup g1) t := by
    intro g1 t
    rw [← lookup_deleteFromGroup]
    cases g1 <;> rfl
  have hheap1 : ((u.deleteFromGroup g tag).deleteInstanceID e.instanceID).heap = u.heap := by
    cases g <;> rfl
  have hidx1 : ∀ id1 : InstanceId,
      mapLookup ((u.deleteFromGroup g tag).deleteInstanceID e.instanceID).instanceIDToGroupEntry
        id1 = if e.instanceID = id1 then none else mapLookup u.instanceIDToGroupEntry id1 := by
    intro id1
    rw [← mapLookup_mapDelete]
    cases g <;> rfl
  have hold : ∀ (g1 : pollGroupType) (t : MachineTag) (q : Ptr),
      mapLookup (((u.deleteFromGroup g tag).deleteInstanceID e.instanceID).pollGroup g1) t =
        some q → ¬ (g1 = g ∧ tag = t) ∧ mapLookup (u.pollGroup g1) t = some q := by
    intro g1 t q hq
    rw [hgroups] at hq
    by_cases h1 : g1 = g ∧ tag = t
    · rw [if_pos h1] at hq
      exact absurd hq (by simp)
    · rw [if_neg h1] at hq
      exact ⟨h1, hq⟩
  refine ⟨?_, ?_, ?_⟩
  · intro g1 t q e1 hl1 he1
    rw [hheap1] at he1
    exact hi.origin g1 t q e1 (hold g1 t q hl1).2 he1
  · intro g1 t q e1 hl1 he1 hne1
    rw [hheap1] at he1
    obtain ⟨hnot, hq⟩ := hold g1 t q hl1
    have hidxq := hi.entryIndexed g1 t q e1 hq he1 hne1
    rw [hidx1]
    by_cases hid : e.instanceID = e1.instanceID
    · exfalso
      have hidxp := hi.entryIndexed g tag p e hl hp (by rw [hid]; exact hne1)
      rw [hid, hidxq] at hidxp
      injection hidxp with hpq
      subst hpq
      obtain ⟨e0, he0, ht0⟩ := hwf.groupEntry g1 t q hq
      obtain ⟨e2, he2, ht2⟩ := hwf.groupEntry g tag q hl
      rw [he0] at he2
      injection he2 with he2
      subst he2
      have htt : tag = t := ht2.symm.trans ht0
      subst htt
      exact hnot ⟨(pollGroup_lookup_unique u hwf g1 g tag q q hq hl).1, rfl⟩
    · rw [if_neg hid]
      exact hidxq
  · intro id1 q hl1
    rw [hidx1] at hl1
    by_cases hid : e.instanceID = id1
    · rw [if_pos hid] at hl1
      exact absurd hl1 (by simp)
    · rw [if_neg hid] at hl1
      obtain ⟨hne1, eq, heq, hideq, gq, hgq⟩ := hi.keyOfEntry id1 q hl1
      refine ⟨hne1, eq, by rw [hheap1]; exact heq, hideq, gq, ?_⟩
      rw [hgroups]
      by_cases h1 : gq = g ∧ tag = eq.tag
      · exfalso
        rw [← h1.2] at hgq
        have hpq := (pollGroup_lookup_unique u hwf gq g tag q p hgq hl).2
        subst hpq
        rw [hp] at heq
        injection heq with heq
        subst heq
        exact hid hideq
      · rw [if_neg h1]
        exact hgq

theorem indexInv_append (c : Collaborators) (k : PollConsts) (u : updaterWorker)
    (tag : MachineTag) (tr : List Call) (m : Handle) (now : Time) (hwf : WellFormed u)
    (hi : IndexInv c u) (hlook : lookupPolledMachine u tag = none)
    (hans : c.facadeMachine tr tag = Except.ok m) :
    IndexInv c
      { heap := u.heap ++ [freshEntry k tag m now],
        shortGroup := mapInsert u.shortGroup tag u.heap.length,
        longGroup := u.longGroup,
        instanceIDToGroupEntry := u.instanceIDToGroupEntry } := by
  have hun := lookupPolledMachine_none u tag hlook
  have hgroups : ∀ (g1 : pollGroupType) (t : MachineTag),
      mapLookup (updaterWorker.pollGroup
        { heap := u.heap ++ [freshEntry k tag m now],
          shortGroup := mapInsert u.shortGroup tag u.heap.length,
          longGroup := u.longGroup,
          instanceIDToGroupEntry := u.instanceIDToGroupEntry } g1) t =
        if g1 = pollGroupType.shortPollGroup ∧ tag = t then some u.heap.length
        else mapLookup (u.pollGroup g1) t := by
    intro g1 t
    cases g1 with
    | shortPollGroup =>
      show mapLookup (mapInsert u.shortGroup tag u.heap.length) t = _
      rw [mapLookup_mapInsert]
      simp [updaterWorker.pollGroup]
    | longPollGroup => simp [updaterWorker.pollGroup]
  have hvalid : ∀ (q : Ptr) (eq : pollGroupEntry), u.heap[q]? = some eq →
      (u.heap ++ [freshEntry k tag m now])[q]? = some eq := by
    intro q eq hq
    rw [List.getElem?_append_left (List.getElem?_eq_some_iff.1 hq).1]
    exact hq
  have hnewEntry : ∀ (g1 : pollGroupType) (t : MachineTag) (q : Ptr) (e1 : pollGroupEntry),
      mapLookup (updaterWorker.pollGroup
        { heap := u.heap ++ [freshEntry k tag m now],
          shortGroup := mapInsert u.shortGroup tag u.heap.length,
          longGroup := u.longGroup,
          instanceIDToGroupEntry := u.instanceIDToGroupEntry } g1) t = some q →
      (u.heap ++ [freshEntry k tag m now])[q]? = some e1 →
      (t = tag ∧ e1 = freshEntry k tag m now) ∨
        (mapLookup (u.pollGroup g1) t = some q ∧ u.heap[q]? = some e1) := by
    intro g1 t q e1 hl1 he1
    rw [hgroups] at hl1
    by_cases h1 : g1 = pollGroupType.shortPollGroup ∧ tag = t
    · rw [if_pos h1] at hl1
      injection hl1 with hl1
      subst hl1
      rw [List.getElem?_concat_length] at he1
      injection he1 with he1
      exact Or.inl ⟨h1.2.symm, he1.symm⟩
    · rw [if_neg h1] at hl1
      obtain ⟨e0, he0, _⟩ := hwf.groupEntry g1 t q hl1
      have h2 := hvalid q e0 he0
      rw [he1] at h2
      injection h2 with h2
      subst h2
      exact Or.inr ⟨hl1, he0⟩
  refine ⟨?_, ?_, ?_⟩
  · intro g1 t q e1 hl1 he1
    rcases hnewEntry g1 t q e1 hl1 he1 with h | h
    · obtain ⟨ht, he⟩ := h
      subst ht
      subst he
      exact ⟨⟨tr, hans⟩, fun hne => absurd rfl hne⟩
    · exact hi.origin g1 t q e1 h.1 h.2
  · intro g1 t q e1 hl1 he1 hne1
    rcases hnewEntry g1 t q e1 hl1 he1 with h | h
    · obtain ⟨_, he⟩ := h
      subst he
      exact absurd rfl hne1
    · exact hi.entryIndexed g1 t q e1 h.1 h.2 hne1
  · intro id1 q hl1
    obtain ⟨hne1, eq, heq, hideq, gq, hgq⟩ := hi.keyOfEntry id1 q hl1
    refine ⟨hne1, eq, hvalid q eq heq, hideq, gq, ?_⟩
    rw [hgroups]
    by_cases h1 : gq = pollGroupType.shortPollGroup ∧ tag = eq.tag
    · exfalso
      obtain ⟨hg, ht⟩ := h1
      subst hg
      rw [← ht] at hgq
      exact hun.1 (mem_mapKeys_of_mapLookup _ _ _ hgq)
    · rw [if_neg h1]
      exact hgq

theorem indexInv_step (c : Collaborators) (k : PollConsts) (hd : DistinctInstanceIds c)
    (u u1 : updaterWorker) (hwf : WellFormed u) (hi : IndexInv c u)
    (hstep : Step c k u u1) : IndexInv c u1 := by
  cases hstep with
  | reset p e now hp => exact indexInv_set_same c u p e _ hwf hi hp rfl rfl rfl
  | bump p e now hp => exact indexInv_set_same c u p e _ hwf hi hp rfl rfl rfl
  | resolve g tag p e tr id hmem hp hid hans =>
    exact indexInv_resolve c hd u g tag p e tr id hwf hi hmem hp hid hans
  | demote id p e hidx hp =>
    obtain ⟨_, e0, he0, _, g0, hg0⟩ := hi.keyOfEntry id p hidx
    rw [hp] at he0
    injection he0 with he0
    subst he0
    exact indexInv_move c u _ _ e.tag p hwf hi ⟨g0, hg0⟩
  | promote id p e hidx hp =>
    obtain ⟨_, e0, he0, _, g0, hg0⟩ := hi.keyOfEntry id p hidx
    rw [hp] at he0
    injection he0 with he0
    subst he0
    exact indexInv_move c u _ _ e.tag p hwf hi ⟨g0, hg0⟩
  | requeue tag p hl =>
    exact indexInv_move c u _ _ tag p hwf hi ⟨_, (lookupPolledMachine_some u tag p _ hl).1⟩
  | remove tag p g e hl hp => exact indexInv_remove c u tag p g e hwf hi hl hp
  | append tag tr m now hl hans => exact indexInv_append c k u tag tr m now hwf hi hl hans

theorem indexInv_init (c : Collaborators) : IndexInv c State.init.u := by
  refine ⟨?_, ?_, ?_⟩
  · intro g tag p e hl
    cases g <;> simp [State.init, updaterWorker.pollGroup, mapLookup] at hl
  · intro g tag p e hl
    cases g <;> simp [State.init, updaterWorker.pollGroup, mapLookup] at hl
  · intro id p hl
    simp [State.init, mapLookup] at hl

theorem indexInv_reorder (c : Collaborators) (u : updaterWorker)
    (short long : List (MachineTag × Ptr)) (hwf : WellFormed u) (hi : IndexInv c u)
    (hs : short.Perm u.shortGroup) (hl : long.Perm u.longGroup) :
    IndexInv c (u.reorder short long) := by
  refine ⟨?_, ?_, ?_⟩
  · intro g tag p e hlk he
    rw [pollGroup_reorder u hwf short long hs hl] at hlk
    exact hi.origin g tag p e hlk he
  · intro g tag p e hlk he hne
    rw [pollGroup_reorder u hwf short long hs hl] at hlk
    exact hi.entryIndexed g tag p e hlk he hne
  · intro id p hlk
    obtain ⟨hne, e, he, hid, g, hg⟩ := hi.keyOfEntry id p hlk
    refine ⟨hne, e, he, hid, g, ?_⟩
    rw [pollGroup_reorder u hwf short long hs hl]
    exact hg

/-- With instance ids that identify machines, every reachable state is index
consistent. -/
theorem reachable_indexConsistent (c : Collaborators) (k : PollConsts)
    (hd : DistinctInstanceIds c) (s : State) (h : Reachable c k s) :
    IndexConsistent s.u := by
  have hboth : WellFormed s.u ∧ IndexInv c s.u :=
    reachable_of_steps_invariant c k (fun u => WellFormed u ∧ IndexInv c u)
      ⟨wellFormed_init, indexInv_init c⟩
      (fun u u1 hu hstep =>
        ⟨wellFormed_step c k u u1 hu.1 hstep, indexInv_step c k hd u u1 hu.1 hu.2 hstep⟩)
      (fun u short long hu hs hl =>
        ⟨wellFormed_reorder u short long hu.1 hs hl,
          indexInv_reorder c u short long hu.1 hu.2 hs hl⟩)
      s h
  obtain ⟨hwf, hi⟩ := hboth
  refine ⟨hi.entryIndexed, ?_⟩
  intro id p hl
  obtain ⟨hne, e, he, hid, g, hg⟩ := hi.keyOfEntry id p hl
  refine ⟨hne, e, he, hid, ?_⟩
  cases g with
  | shortPollGroup =>
    refine Or.inl ⟨hg, ?_⟩
    rw [mapLookup_eq_none_iff]
    intro hmem
    exact hwf.exclusive e.tag ⟨mem_mapKeys_of_mapLookup _ _ _ hg, hmem⟩
  | longPollGroup =>
    refine Or.inr ⟨hg, ?_⟩
    rw [mapLookup_eq_none_iff]
    intro hmem
    exact hwf.exclusive e.tag ⟨hmem, mem_mapKeys_of_mapLookup _ _ _ hg⟩

theorem demoWorld_distinctInstanceIds : DistinctInstanceIds demoWorld := by
  have hid : ∀ (tr : List Call) (m : Handle) (id : InstanceId),
      demoWorld.instanceId tr m = Except.ok id →
      (m = 1 ∧ id = "i-1") ∨ (m = 2 ∧ id = "i-2") := by
    intro tr m id h
    simp only [demoWorld] at h
    by_cases h1 : m = 1
    · rw [if_pos h1] at h
      injection h with h
      exact Or.inl ⟨h1, h.symm⟩
    · rw [if_neg h1] at h
      by_cases h2 : m = 2
      · rw [if_pos h2] at h
        injection h with h
        exact Or.inr ⟨h2, h.symm⟩
      · rw [if_neg h2] at h
        cases h
  have hfac : ∀ (tr : List Call) (tag : MachineTag) (m : Handle),
      demoWorld.facadeMachine tr tag = Except.ok m →
      (m = 1 → tag = "1") ∧ (m = 2 → tag = "2") := by
    intro tr tag m h
    simp only [demoWorld] at h
    injection h with h
    subst h
    by_cases h0 : tag = "0"
    · simp [h0]
    · by_cases h1 : tag = "1"
      · simp [h1]
      · by_cases h2 : tag = "2"
        · simp [h2]
        · simp [h0, h1, h2]
  refine ⟨?_, ?_⟩
  · intro tr m id h
    rcases hid tr m id h with h1 | h1
    · rw [h1.2]
      decide
    · rw [h1.2]
      decide
  · intro tr1 tr2 tr3 tr4 tag1 tag2 m1 m2 id hf1 hf2 hi1 hi2
    rcases hid tr3 m1 id hi1 with h1 | h1 <;> rcases hid tr4 m2 id hi2 with h2 | h2
    · rw [(hfac tr1 tag1 m1 hf1).1 h1.1, (hfac tr2 tag2 m2 hf2).1 h2.1]
    · exfalso
      have h3 : ("i-1" : String) = "i-2" := h1.2.symm.trans h2.2
      revert h3
      decide
    · exfalso
      have h3 : ("i-2" : String) = "i-1" := h1.2.symm.trans h2.2
      revert h3
      decide
    · rw [(hfac tr1 tag1 m1 hf1).2 h1.1, (hfac tr2 tag2 m2 hf2).2 h2.1]

/-- C2, amended (reverse-index consistency).  When `InstanceId()` never returns the empty
id and machines of different tags never report the same id, then in every state the loop
can be in between two events: an entry of a poll group with a non-empty `instanceID` is
the value of `instanceIDToGroupEntry` at that id, and every key of
`instanceIDToGroupEntry` is non-empty, is the `instanceID` of the entry it maps to, and
that entry is in exactly one of the two poll groups. -/
theorem reverse_index_consistent (c : Collaborators) (k : PollConsts) (s : State)
    (hd : DistinctInstanceIds c) (h : Reachable c k s) : IndexConsistent s.u :=
  reachable_indexConsistent c k hd s h

theorem reverse_index_consistent_witness :
    DistinctInstanceIds demoWorld ∧ Reachable demoWorld defaultConsts demoThree ∧
      IndexConsistent demoThree.u :=
  ⟨demoWorld_distinctInstanceIds, demoThree_reachable,
    reverse_index_consistent demoWorld defaultConsts demoThree demoWorld_distinctInstanceIds
      demoThree_reachable⟩

/-- C4, as stated, fails: a watcher event for an untracked machine never reads `Life()`;
a Dead machine that is not manual is appended to the short group. -/
theorem untracked_dead_machine_is_tracked :
    lookupPolledMachine State.init.u "2" = none ∧
      (∀ (tr : List Call) (m : Handle), deadWorld.life tr m = Life.Dead) ∧
      queueMachineForPolling deadWorld defaultConsts "2" State.init =
        Outcome.ok () deadQueued ∧
      "2" ∈ mapKeys deadQueued.u.shortGroup :=
  ⟨by rfl, fun _ _ => rfl, by rfl, by decide⟩

/-- C4, amended (dead machines are dropped).  In a reachable state whose reverse index
is consistent, for a tag that is tracked (with entry `e`): when
`queueMachineForPolling` finds, after a successful `Refresh()`, that `Life()` is Dead, it
returns nil and afterwards the tag is a key of neither poll group and no value of
`instanceIDToGroupEntry` is an entry for that tag. -/
theorem dead_tracked_machine_dropped (c : Collaborators) (k : PollConsts) (s : State)
    (tag : MachineTag) (p : Ptr) (g : pollGroupType) (hreach : Reachable c k s)
    (hidx : IndexConsistent s.u)
    (htracked : lookupPolledMachine s.u tag = some (p, g)) :
    ∃ e, s.u.heap[p]? = some e ∧
      (c.refresh s.trace e.m = none →
        c.life (s.trace ++ [Call.refresh e.m]) e.m = Life.Dead →
        ∃ s1, queueMachineForPolling c k tag s = Outcome.ok () s1 ∧
          tag ∉ mapKeys s1.u.shortGroup ∧ tag ∉ mapKeys s1.u.longGroup ∧
          ∀ (id : InstanceId) (q : Ptr) (e1 : pollGroupEntry),
            mapLookup s1.u.instanceIDToGroupEntry id = some q → s1.u.heap[q]? = some e1 →
            e1.tag ≠ tag) := by
  have hwf := reachable_wellFormed c k s hreach
  have hl := lookupPolledMachine_some s.u tag p g htracked
  obtain ⟨e, he, _⟩ := hwf.groupEntry g tag p hl.1
  refine ⟨e, he, fun href hlife => ?_⟩
  rw [queueMachineForPolling_dead c k tag s p g e htracked he href hlife]
  refine ⟨_, rfl, ?_, ?_, ?_⟩
  · cases g with
    | shortPollGroup => exact not_mem_mapKeys_mapDelete _ _
    | longPollGroup =>
      show tag ∉ mapKeys s.u.shortGroup
      rw [← mapLookup_eq_none_iff]
      exact hl.2 rfl
  · cases g with
    | shortPollGroup =>
      show tag ∉ mapKeys s.u.longGroup
      intro hmem
      exact hwf.exclusive tag ⟨mem_mapKeys_of_mapLookup _ _ _ hl.1, hmem⟩
    | longPollGroup => exact not_mem_mapKeys_mapDelete _ _
  · intro id q e1 hq he1 htag
    have hq1 : mapLookup (mapDelete s.u.instanceIDToGroupEntry e.instanceID) id = some q := by
      cases g <;> exact hq
    have he2 : s.u.heap[q]? = some e1 := by
      cases g <;> exact he1
    rw [mapLookup_mapDelete] at hq1
    by_cases hid : e.instanceID = id
    · rw [if_pos hid] at hq1
      exact absurd hq1 (by simp)
    · rw [if_neg hid] at hq1
      obtain ⟨_, e0, he0, hid0, hgrp⟩ := hidx.keyOfEntry id q hq1
      rw [he2] at he0
      injection he0 with he0
      subst he0
      rw [htag] at hgrp
      have hpq : q = p := by
        rcases hgrp with hgrp | hgrp
        · exact (pollGroup_lookup_unique s.u hwf pollGroupType.shortPollGroup g tag q p
            hgrp.1 hl.1).2
        · exact (pollGroup_lookup_unique s.u hwf pollGroupType.longPollGroup g tag q p
            hgrp.1 hl.1).2
      subst hpq
      rw [he] at he2
      injection he2 with he2
      subst he2
      exact hid hid0

theorem dead_tracked_machine_dropped_witness :
    ∃ s1, queueMachineForPolling demoWorld defaultConsts "2" demoTwo = Outcome.ok () s1 ∧
      "2" ∉ mapKeys s1.u.shortGroup ∧ "2" ∉ mapKeys s1.u.longGroup := by
  obtain ⟨e, he, h⟩ :=
    dead_tracked_machine_dropped demoWorld defaultConsts demoTwo "2" 1
      pollGroupType.shortPollGroup demoTwo_reachable
      (reachable_indexConsistent demoWorld defaultConsts demoWorld_distinctInstanceIds
        demoTwo demoTwo_reachable) (by rfl)
  have he2 : e = ⟨2, "2", "", 1000000000, 16000000000⟩ := by
    have h1 : demoTwo.u.heap[1]? = some ⟨2, "2", "", 1000000000, 16000000000⟩ := by rfl
    rw [h1] at he
    injection he with he
    exact he.symm
  subst he2
  obtain ⟨s1, hrun, hs, hl, _⟩ := h (by rfl) (by rfl)
  exact ⟨s1, hrun, hs, hl⟩

/-! ## Interval range -/

theorem slowPolled_reachable : Reachable slowWorld bigConsts slowPolled :=
  Reachable.poll slowQueued slowPolled pollGroupType.shortPollGroup
    (Reachable.queue State.init slowQueued "0" Reachable.init (by rfl)) (by rfl)

/-- C3, as stated, fails: with `ShortPoll = LongPoll = 2 ^ 53 + 1` ns and
`ShortPollBackoff = 1.0` one bump takes the interval to `2 ^ 53`, below `ShortPoll`,
because the interval is converted to `float64` before it is multiplied. -/
theorem interval_below_short_poll :
    0 < bigConsts.ShortPoll ∧ bigConsts.ShortPoll ≤ bigConsts.LongPoll ∧
      1 ≤ bigConsts.ShortPollBackoff ∧
      Reachable slowWorld bigConsts slowPolled ∧ ¬ IntervalsInRange bigConsts slowPolled.u := by
  refine ⟨by decide, by decide, ?_, slowPolled_reachable, fun h => ?_⟩
  · norm_num [PollConsts.ShortPollBackoff, bigConsts]
  · obtain ⟨e, he, hr⟩ := h pollGroupType.shortPollGroup "0" 0 (by rfl)
    have h1 : slowPolled.u.heap[0]? =
        some ⟨7, "0", "", 9007199254740992, 59007199254740992⟩ := by rfl
    rw [h1] at he
    injection he with he
    subst he
    have h2 := hr.1
    revert h2
    decide

theorem inRange_reset (k : PollConsts) (now : Time) (e : pollGroupEntry)
    (hle : k.ShortPoll ≤ k.LongPoll) : InRange k (e.resetShortPollInterval k now) :=
  ⟨le_refl _, hle⟩

theorem inRange_fresh (k : PollConsts) (tag : MachineTag) (m : Handle) (now : Time)
    (hle : k.ShortPoll ≤ k.LongPoll) : InRange k (freshEntry k tag m now) :=
  ⟨le_refl _, hle⟩

theorem inRange_bump (k : PollConsts) (now : Time) (e : pollGroupEntry)
    (hpos : 0 < k.ShortPoll) (hle : k.ShortPoll ≤ k.LongPoll)
    (h53 : k.LongPoll ≤ 2 ^ 53) (hb : 1 ≤ k.ShortPollBackoff)
    (hprod : (k.LongPoll : ℚ) * k.ShortPollBackoff ≤ 2 ^ 62) (he : InRange k e) :
    InRange k (e.bumpShortPollInterval k now) := by
  obtain ⟨hlo, hhi⟩ := he
  have hd0 : 0 < e.shortPollInterval := lt_of_lt_of_le hpos hlo
  have hd53 : e.shortPollInterval ≤ 2 ^ 53 := le_trans hhi h53
  have hq : (e.shortPollInterval : ℚ) * k.ShortPollBackoff ≤ 2 ^ 62 := by
    have h1 : (e.shortPollInterval : ℚ) ≤ (k.LongPoll : ℚ) := by exact_mod_cast hhi
    have h2 : (0 : ℚ) ≤ k.ShortPollBackoff := by linarith
    exact le_trans (mul_le_mul_of_nonneg_right h1 h2) hprod
  have hge := scaleDuration_ge k e.shortPollInterval hd0 hd53 hb hq
  unfold InRange
  rw [bumpShortPollInterval_interval]
  constructor
  · exact le_min (le_trans hlo hge) hle
  · exact min_le_right _ _

theorem heapInRange_set (k : PollConsts) (u : updaterWorker) (p : Ptr) (e1 : pollGroupEntry)
    (h : HeapInRange k u) (h1 : InRange k e1) :
    HeapInRange k { u with heap := u.heap.set p e1 } := by
  intro e he
  rcases List.mem_or_eq_of_mem_set he with h2 | h2
  · exact h e h2
  · rw [h2]
    exact h1

theorem heapInRange_step (c : Collaborators) (k : PollConsts)
    (hpos : 0 < k.ShortPoll) (hle : k.ShortPoll ≤ k.LongPoll)
    (h53 : k.LongPoll ≤ 2 ^ 53) (hb : 1 ≤ k.ShortPollBackoff)
    (hprod : (k.LongPoll : ℚ) * k.ShortPollBackoff ≤ 2 ^ 62)
    (u u1 : updaterWorker) (h : HeapInRange k u) (hstep : Step c k u u1) :
    HeapInRange k u1 := by
  cases hstep with
  | reset p e now hp => exact heapInRange_set k u p _ h (inRange_reset k now e hle)
  | bump p e now hp =>
    exact heapInRange_set k u p _ h
      (inRange_bump k now e hpos hle h53 hb hprod (h e (List.mem_iff_getElem?.2 ⟨p, hp⟩)))
  | resolve g tag p e tr id hmem hp hid hans =>
    exact heapInRange_set k u p _ h (h e (List.mem_iff_getElem?.2 ⟨p, hp⟩))
  | demote id p e hidx hp => exact h
  | promote id p e hidx hp => exact h
  | requeue tag p hl => exact h
  | remove tag p g e hl hp =>
    intro e1 he1
    have he2 : e1 ∈ u.heap := by
      cases g <;> exact he1
    exact h e1 he2
  | append tag tr m now hl hans =>
    intro e1 he1
    have he2 : e1 ∈ u.heap ++ [freshEntry k tag m now] := he1
    rcases List.mem_append.1 he2 with h1 | h1
    · exact h e1 h1
    · rw [List.mem_singleton] at h1
      rw [h1]
      exact inRange_fresh k tag m now hle

/-- With polling constants in the exact range of `float64`, every entry of a reachable
state has its interval in range. -/
theorem reachable_intervalsInRange (c : Collaborators) (k : PollConsts)
    (hpos : 0 < k.ShortPoll) (hle : k.ShortPoll ≤ k.LongPoll)
    (h53 : k.LongPoll ≤ 2 ^ 53) (hb : 1 ≤ k.ShortPollBackoff)
    (hprod : (k.LongPoll : ℚ) * k.ShortPollBackoff ≤ 2 ^ 62)
    (s : State) (h : Reachable c k s) : IntervalsInRange k s.u := by
  have hheap : HeapInRange k s.u :=
    reachable_of_steps_invariant c k (HeapInRange k)
      (fun e he => by simp [State.init] at he)
      (fun u u1 hu hstep => heapInRange_step c k hpos hle h53 hb hprod u u1 hu hstep)
      (fun _ _ _ hu _ _ => hu) s h
  have hwf := reachable_wellFormed c k s h
  intro g tag p hl
  obtain ⟨e, he, _⟩ := hwf.groupEntry g tag p hl
  exact ⟨e, he, hheap e (List.mem_iff_getElem?.2 ⟨p, he⟩)⟩

/-- C3, amended (interval range).  For polling constants with
`0 < ShortPoll ≤ LongPoll ≤ 2 ^ 53` ns, a finite `ShortPollBackoff ≥ 1` and
`LongPoll * ShortPollBackoff ≤ 2 ^ 62` (the defaults 1 s, 15 min, 2.0 among them), every
entry of either poll group has `ShortPoll ≤ shortPollInterval ≤ LongPoll` in every state
the loop can be in between two events; the entry `appendToShortPollGroup` stores and
every reset entry are in range, and a bump keeps an entry in range. -/
theorem interval_range_invariant (c : Collaborators) (k : PollConsts)
    (hpos : 0 < k.ShortPoll) (hle : k.ShortPoll ≤ k.LongPoll)
    (h53 : k.LongPoll ≤ 2 ^ 53) (hb : 1 ≤ k.ShortPollBackoff)
    (hprod : (k.LongPoll : ℚ) * k.ShortPollBackoff ≤ 2 ^ 62)
    (s : State) (h : Reachable c k s) :
    IntervalsInRange k s.u ∧
      (∀ (tag : MachineTag) (m : Handle) (now : Time), InRange k (freshEntry k tag m now)) ∧
      (∀ (e : pollGroupEntry) (now : Time), InRange k (e.resetShortPollInterval k now)) ∧
      (∀ (e : pollGroupEntry) (now : Time), InRange k e →
        InRange k (e.bumpShortPollInterval k now)) :=
  ⟨reachable_intervalsInRange c k hpos hle h53 hb hprod s h,
    fun tag m now => inRange_fresh k tag m now hle,
    fun e now => inRange_reset k now e hle,
    fun e now he => inRange_bump k now e hpos hle h53 hb hprod he⟩

theorem interval_range_invariant_witness :
    Reachable demoWorld defaultConsts demoThree ∧ IntervalsInRange defaultConsts demoThree.u :=
  ⟨demoThree_reachable,
    (interval_range_invariant demoWorld defaultConsts (by decide) (by decide) (by decide)
      (by norm_num [PollConsts.ShortPollBackoff, defaultConsts])
      (by norm_num [PollConsts.ShortPollBackoff, defaultConsts])
      demoThree demoThree_reachable).1⟩

/-! ## Address comparison -/

/-- What `addressesEqual` computes: equal lengths, and every address of the first list
occurs in the second. -/
theorem addressesEqual_iff (addrs0 addrs1 : List ProviderAddress) :
    addressesEqual addrs0 addrs1 = true ↔
      addrs0.length = addrs1.length ∧ ∀ a ∈ addrs0, a ∈ addrs1 := by
  unfold addressesEqual
  by_cases h : addrs0.length = addrs1.length
  · simp [h]
  · simp [h]

/-- On lists without repeated addresses `addressesEqual` is equality up to order. -/
theorem addressesEqual_iff_perm_of_nodup (addrs0 addrs1 : List ProviderAddress)
    (hnd : addrs0.Nodup) : addressesEqual addrs0 addrs1 = true ↔ addrs1.Perm addrs0 := by
  rw [addressesEqual_iff]
  constructor
  · rintro ⟨hlen, hsub⟩
    have hsp : addrs0.Subperm addrs1 := hnd.subperm hsub
    exact (hsp.perm_of_length_le (le_of_eq hlen.symm)).symm
  · intro hp
    exact ⟨hp.length_eq.symm, fun a ha => hp.mem_iff.2 ha⟩

/-- On lists without repeated addresses `addressesEqual` is symmetric. -/
theorem addressesEqual_comm_of_nodup (addrs0 addrs1 : List ProviderAddress)
    (h0 : addrs0.Nodup) (h1 : addrs1.Nodup) :
    addressesEqual addrs0 addrs1 = addressesEqual addrs1 addrs0 := by
  have h : addressesEqual addrs0 addrs1 = true ↔ addressesEqual addrs1 addrs0 = true := by
    rw [addressesEqual_iff_perm_of_nodup addrs0 addrs1 h0,
      addressesEqual_iff_perm_of_nodup addrs1 addrs0 h1]
    exact ⟨fun hp => hp.symm, fun hp => hp.symm⟩
  cases h01 : addressesEqual addrs0 addrs1 <;> cases h10 : addressesEqual addrs1 addrs0 <;>
    simp_all

/-- C18 (symmetry of `addressesEqual`), evaluated where it fails: with the model list
`[10.0.0.1, 10.0.0.1]` and the provider list `[10.0.0.1, 10.0.0.2]` the comparison is
`true` one way round and `false` the other. -/
theorem addressesEqual_not_symmetric :
    addressesEqual [demoAddress, demoAddress] [demoAddress, otherAddress] = true ∧
      addressesEqual [demoAddress, otherAddress] [demoAddress, demoAddress] = false := by
  decide

/-- C19 (`addressesEqual` ignores order).  A list compares equal to every permutation of
itself, in particular to itself. -/
theorem addressesEqual_of_perm (addrs addrs1 : List ProviderAddress)
    (h : addrs1.Perm addrs) :
    addressesEqual addrs1 addrs = true ∧ addressesEqual addrs addrs = true := by
  rw [addressesEqual_iff, addressesEqual_iff]
  exact ⟨⟨h.length_eq, fun a ha => h.mem_iff.1 ha⟩, rfl, fun a ha => ha⟩

theorem addressesEqual_of_perm_witness :
    addressesEqual [otherAddress, demoAddress] [demoAddress, otherAddress] = true ∧
      addressesEqual [demoAddress, otherAddress] [demoAddress, otherAddress] = true :=
  addressesEqual_of_perm [demoAddress, otherAddress] [otherAddress, demoAddress]
    (List.Perm.swap _ _ _)

/-- C20 (`addressesEqual` as equality up to order), evaluated where it fails: the model
list `[10.0.0.1, 10.0.0.1]` and the provider list `[10.0.0.1, 10.0.0.2]` compare equal
although the second is no permutation of the first. -/
theorem addressesEqual_accepts_non_permutation :
    addressesEqual [demoAddress, demoAddress] [demoAddress, otherAddress] = true ∧
      ¬ List.Perm [demoAddress, otherAddress] [demoAddress, demoAddress] := by
  refine ⟨by decide, ?_⟩
  intro h
  have h1 : otherAddress ∈ [demoAddress, demoAddress] := h.mem_iff.1 (by simp)
  revert h1
  decide

/-! ## A newly reported machine -/

theorem mapDelete_of_not_mem {κ : Type} [DecidableEq κ] (m : List (κ × Ptr)) (k : κ)
    (h : k ∉ mapKeys m) : mapDelete m k = m := by
  unfold mapDelete
  rw [List.filter_eq_self]
  intro kv hkv
  have h1 : kv.1 ≠ k := fun heq => h (List.mem_map.2 ⟨kv, hkv, heq⟩)
  simpa using h1

/-- A watcher event for an untracked machine that is not manual. -/
theorem queueMachineForPolling_fresh (c : Collaborators) (k : PollConsts) (tag : MachineTag)
    (s : State) (m : Handle)
    (hlook : lookupPolledMachine s.u tag = none)
    (hm : c.facadeMachine s.trace tag = Except.ok m)
    (hman : c.isManual (s.trace ++ [Call.facadeMachine tag]) m = Except.ok false) :
    queueMachineForPolling c k tag s =
      appendToShortPollGroup c k tag m
        { u := s.u, trace := s.trace ++ [Call.facadeMachine tag] ++ [Call.isManual m] } := by
  unfold queueMachineForPolling
  simp only [M.bind_apply, getU, hlook]
  rw [invokeOrReturn_apply_ok _ _ s m hm]
  simp only []
  rw [invokeOrReturn_apply_ok _ _ _ false hman]
  simp

/-- C11 (a newly reported machine that is not manual).  For an untracked tag whose
handle `m` is obtained and reports `IsManual = false`, `queueMachineForPolling` returns
nil after the three calls `Facade.Machine`, `IsManual`, `Clock.Now`; with `now` the
clock reading, the heap has one more entry `(m, tag, "", ShortPoll, now + ShortPoll)`,
the short group is the old one with that entry filed under `tag` as its one new key, and
the long group, `instanceIDToGroupEntry` and every entry that existed are unchanged. -/
theorem new_machine_appended (c : Collaborators) (k : PollConsts) (s : State)
    (tag : MachineTag) (m : Handle)
    (hun : lookupPolledMachine s.u tag = none)
    (hm : c.facadeMachine s.trace tag = Except.ok m)
    (hman : c.isManual (s.trace ++ [Call.facadeMachine tag]) m = Except.ok false) :
    ∃ s1, queueMachineForPolling c k tag s = Outcome.ok () s1 ∧
      s1.trace = s.trace ++ [Call.facadeMachine tag, Call.isManual m, Call.clockNow] ∧
      s1.u.heap = s.u.heap ++
        [{ m := m, tag := tag, instanceID := "", shortPollInterval := k.ShortPoll,
           shortPollAt :=
             c.clockNow (s.trace ++ [Call.facadeMachine tag] ++ [Call.isManual m]) +
               k.ShortPoll }] ∧
      s1.u.shortGroup = (tag, s.u.heap.length) :: s.u.shortGroup ∧
      mapLookup s1.u.shortGroup tag = some s.u.heap.length ∧
      (∀ t, t ≠ tag → mapLookup s1.u.shortGroup t = mapLookup s.u.shortGroup t) ∧
      s1.u.longGroup = s.u.longGroup ∧
      s1.u.instanceIDToGroupEntry = s.u.instanceIDToGroupEntry ∧
      (∀ (q : Ptr) (e : pollGroupEntry), s.u.heap[q]? = some e → s1.u.heap[q]? = some e) := by
  rw [queueMachineForPolling_fresh c k tag s m hun hm hman, appendToShortPollGroup_apply]
  have hkey : tag ∉ mapKeys s.u.shortGroup := (lookupPolledMachine_none s.u tag hun).1
  refine ⟨_, rfl, ?_, rfl, ?_, ?_, ?_, rfl, rfl, ?_⟩
  · simp
  · show mapInsert s.u.shortGroup tag s.u.heap.length = _
    unfold mapInsert
    rw [mapDelete_of_not_mem _ _ hkey]
  · show mapLookup (mapInsert s.u.shortGroup tag s.u.heap.length) tag = _
    rw [mapLookup_mapInsert, if_pos rfl]
  · intro t ht
    show mapLookup (mapInsert s.u.shortGroup tag s.u.heap.length) t = _
    rw [mapLookup_mapInsert, if_neg (fun h => ht h.symm)]
  · intro q e hq
    have hlt : q < s.u.heap.length := (List.getElem?_eq_some_iff.1 hq).1
    show (s.u.heap ++ _)[q]? = some e
    rw [List.getElem?_append_left hlt]
    exact hq

theorem new_machine_appended_witness :
    ∃ s1, queueMachineForPolling demoWorld defaultConsts "2" demoPromoted = Outcome.ok () s1 ∧
      s1.u.heap = demoTwo.u.heap ∧ s1.u.shortGroup = [("2", 1)] ∧
      s1.u.longGroup = [("1", 0)] := by
  obtain ⟨s1, hrun, _, hheap, hshort, _, _, hlong, _⟩ :=
    new_machine_appended demoWorld defaultConsts demoPromoted "2" 2 (by rfl) (by rfl) (by rfl)
  exact ⟨s1, hrun, hheap, hshort, hlong⟩

/-! ## Status and address updates (`processProviderInfo`) -/

/-- `processProviderInfo` when the model's instance status cannot be read. -/
theorem processProviderInfo_unread (c : Collaborators) (k : PollConsts) (p : Ptr)
    (info : InstHandle) (s : State) (e : pollGroupEntry) (err : Error)
    (hheap : s.u.heap[p]? = some e)
    (hcur : c.instanceStatus s.trace e.m = Except.error err) :
    processProviderInfo c k p info s =
      Outcome.ok Status.Unknown { u := s.u, trace := s.trace ++ [Call.instanceStatus e.m] } := by
  unfold processProviderInfo
  simp only [M.bind_apply, deref_apply p s e hheap, invoke, hcur]
  rfl

/-- `processProviderInfo` when the provider status is the recorded one. -/
theorem processProviderInfo_same (c : Collaborators) (k : PollConsts) (p : Ptr)
    (info : InstHandle) (s : State) (e : pollGroupEntry) (cur : StatusResult)
    (hheap : s.u.heap[p]? = some e)
    (hcur : c.instanceStatus s.trace e.m = Except.ok cur)
    (heq : c.instStatus (s.trace ++ [Call.instanceStatus e.m]) info =
      { Status := cur.Status, Message := cur.Info }) :
    processProviderInfo c k p info s =
      processProviderInfoAddresses c e info
        (c.instStatus (s.trace ++ [Call.instanceStatus e.m]) info)
        { u := s.u, trace := s.trace ++ [Call.instanceStatus e.m] ++ [Call.instStatus info] } := by
  unfold processProviderInfo
  simp only [M.bind_apply, deref_apply p s e hheap, invoke, hcur]
  rw [if_neg (by rw [heq]; simp)]
  rfl

/-- `processProviderInfo` when the write of a changed status fails. -/
theorem processProviderInfo_write_error (c : Collaborators) (k : PollConsts) (p : Ptr)
    (info : InstHandle) (s : State) (e : pollGroupEntry) (cur : StatusResult) (err : Error)
    (hheap : s.u.heap[p]? = some e)
    (hcur : c.instanceStatus s.trace e.m = Except.ok cur)
    (hne : c.instStatus (s.trace ++ [Call.instanceStatus e.m]) info ≠
      { Status := cur.Status, Message := cur.Info })
    (hset : c.setInstanceStatus
      (s.trace ++ [Call.instanceStatus e.m] ++ [Call.instStatus info]) e.m
      (c.instStatus (s.trace ++ [Call.instanceStatus e.m]) info).Status
      (c.instStatus (s.trace ++ [Call.instanceStatus e.m]) info).Message = some err) :
    processProviderInfo c k p info s =
      Outcome.error err
        { u := s.u,
          trace := s.trace ++ [Call.instanceStatus e.m] ++ [Call.instStatus info] ++
            [Call.setInstanceStatus e.m
              (c.instStatus (s.trace ++ [Call.instanceStatus e.m]) info).Status
              (c.instStatus (s.trace ++ [Call.instanceStatus e.m]) info).Message] } := by
  unfold processProviderInfo
  simp only [M.bind_apply, deref_apply p s e hheap, invoke, hcur]
  rw [if_pos hne]
  simp only [M.bind_apply]
  rw [invokeCheck_apply_some _ _ _ err hset]

/-- `processProviderInfo` when a changed status other than Running is written. -/
theorem processProviderInfo_written (c : Collaborators) (k : PollConsts) (p : Ptr)
    (info : InstHandle) (s : State) (e : pollGroupEntry) (cur : StatusResult)
    (hheap : s.u.heap[p]? = some e)
    (hcur : c.instanceStatus s.trace e.m = Except.ok cur)
    (hne : c.instStatus (s.trace ++ [Call.instanceStatus e.m]) info ≠
      { Status := cur.Status, Message := cur.Info })
    (hset : c.setInstanceStatus
      (s.trace ++ [Call.instanceStatus e.m] ++ [Call.instStatus info]) e.m
      (c.instStatus (s.trace ++ [Call.instanceStatus e.m]) info).Status
      (c.instStatus (s.trace ++ [Call.instanceStatus e.m]) info).Message = none)
    (hrun : (c.instStatus (s.trace ++ [Call.instanceStatus e.m]) info).Status ≠
      Status.Running) :
    processProviderInfo c k p info s =
      processProviderInfoAddresses c e info
        (c.instStatus (s.trace ++ [Call.instanceStatus e.m]) info)
        { u := s.u,
          trace := s.trace ++ [Call.instanceStatus e.m] ++ [Call.instStatus info] ++
            [Call.setInstanceStatus e.m
              (c.instStatus (s.trace ++ [Call.instanceStatus e.m]) info).Status
              (c.instStatus (s.trace ++ [Call.instanceStatus e.m]) info).Message] } := by
  unfold processProviderInfo
  simp only [M.bind_apply, deref_apply p s e hheap, invoke, hcur]
  rw [if_pos hne]
  simp only [M.bind_apply]
  rw [invokeCheck_apply_none _ _ _ hset]
  simp only [if_neg hrun, M.pure_apply]
  rfl

/-- `processProviderInfo` when the changed status Running is written. -/
theorem processProviderInfo_running (c : Collaborators) (k : PollConsts) (p : Ptr)
    (info : InstHandle) (s : State) (e : pollGroupEntry) (cur : StatusResult)
    (hheap : s.u.heap[p]? = some e)
    (hcur : c.instanceStatus s.trace e.m = Except.ok cur)
    (hne : c.instStatus (s.trace ++ [Call.instanceStatus e.m]) info ≠
      { Status := cur.Status, Message := cur.Info })
    (hset : c.setInstanceStatus
      (s.trace ++ [Call.instanceStatus e.m] ++ [Call.instStatus info]) e.m
      (c.instStatus (s.trace ++ [Call.instanceStatus e.m]) info).Status
      (c.instStatus (s.trace ++ [Call.instanceStatus e.m]) info).Message = none)
    (hrun : (c.instStatus (s.trace ++ [Call.instanceStatus e.m]) info).Status =
      Status.Running) :
    processProviderInfo c k p info s =
      processProviderInfoAddresses c e info
        (c.instStatus (s.trace ++ [Call.instanceStatus e.m]) info)
        { u := { s.u with
                   heap := s.u.heap.set p (e.resetShortPollInterval k
                     (c.clockNow (s.trace ++ [Call.instanceStatus e.m] ++
                       [Call.instStatus info] ++
                       [Call.setInstanceStatus e.m
                         (c.instStatus (s.trace ++ [Call.instanceStatus e.m]) info).Status
                         (c.instStatus (s.trace ++ [Call.instanceStatus e.m]) info).Message]))) },
          trace := s.trace ++ [Call.instanceStatus e.m] ++ [Call.instStatus info] ++
            [Call.setInstanceStatus e.m
              (c.instStatus (s.trace ++ [Call.instanceStatus e.m]) info).Status
              (c.instStatus (s.trace ++ [Call.instanceStatus e.m]) info).Message] ++
            [Call.clockNow] } := by
  unfold processProviderInfo
  simp only [M.bind_apply, deref_apply p s e hheap, invoke, hcur]
  rw [if_pos hne]
  simp only [M.bind_apply]
  rw [invokeCheck_apply_none _ _ _ hset]
  simp only [if_pos hrun]
  rw [resetShortPollInterval_apply c k p _ e (by exact hheap)]
  rfl

/-- The address step for a machine that is Dead. -/
theorem processProviderInfoAddresses_dead (c : Collaborators) (e : pollGroupEntry)
    (info : InstHandle) (ps : InstanceStatus) (s : State)
    (hlife : c.life s.trace e.m = Life.Dead) :
    processProviderInfoAddresses c e info ps s =
      Outcome.ok Status.Unknown { u := s.u, trace := s.trace ++ [Call.life e.m] } := by
  unfold processProviderInfoAddresses
  simp only [M.bind_apply, invoke, hlife, if_true]
  rfl

/-- The address step when the recorded addresses cannot be read. -/
theorem processProviderInfoAddresses_unread (c : Collaborators) (e : pollGroupEntry)
    (info : InstHandle) (ps : InstanceStatus) (s : State) (err : Error)
    (hlife : c.life s.trace e.m ≠ Life.Dead)
    (hcur : c.providerAddresses (s.trace ++ [Call.life e.m]) e.m = Except.error err) :
    processProviderInfoAddresses c e info ps s =
      Outcome.error err
        { u := s.u, trace := s.trace ++ [Call.life e.m] ++ [Call.providerAddresses e.m] } := by
  unfold processProviderInfoAddresses
  simp only [M.bind_apply, invoke, if_neg hlife]
  rw [invokeOrReturn_apply_error _ _ _ err hcur]

/-- The address step when the provider's addresses cannot be read. -/
theorem processProviderInfoAddresses_unreported (c : Collaborators) (e : pollGroupEntry)
    (info : InstHandle) (ps : InstanceStatus) (s : State) (cur : List ProviderAddress)
    (err : Error)
    (hlife : c.life s.trace e.m ≠ Life.Dead)
    (hcur : c.providerAddresses (s.trace ++ [Call.life e.m]) e.m = Except.ok cur)
    (hprov : c.instAddresses
      (s.trace ++ [Call.life e.m] ++ [Call.providerAddresses e.m]) info = Except.error err) :
    processProviderInfoAddresses c e info ps s =
      Outcome.error err
        { u := s.u,
          trace := s.trace ++ [Call.life e.m] ++ [Call.providerAddresses e.m] ++
            [Call.instAddresses info] } := by
  unfold processProviderInfoAddresses
  simp only [M.bind_apply, invoke, if_neg hlife]
  rw [invokeOrReturn_apply_ok _ _ _ cur hcur]
  simp only []
  rw [invokeOrReturn_apply_error _ _ _ err hprov]

/-- The address step when the two address lists compare equal. -/
theorem processProviderInfoAddresses_equal (c : Collaborators) (e : pollGroupEntry)
    (info : InstHandle) (ps : InstanceStatus) (s : State) (cur prov : List ProviderAddress)
    (hlife : c.life s.trace e.m ≠ Life.Dead)
    (hcur : c.providerAddresses (s.trace ++ [Call.life e.m]) e.m = Except.ok cur)
    (hprov : c.instAddresses
      (s.trace ++ [Call.life e.m] ++ [Call.providerAddresses e.m]) info = Except.ok prov)
    (heq : addressesEqual cur prov = true) :
    processProviderInfoAddresses c e info ps s =
      Outcome.ok ps.Status
        { u := s.u,
          trace := s.trace ++ [Call.life e.m] ++ [Call.providerAddresses e.m] ++
            [Call.instAddresses info] } := by
  unfold processProviderInfoAddresses
  simp only [M.bind_apply, invoke, if_neg hlife]
  rw [invokeOrReturn_apply_ok _ _ _ cur hcur]
  simp only []
  rw [invokeOrReturn_apply_ok _ _ _ prov hprov]
  simp only [heq]
  rfl

/-- The address step when the two address lists differ and the write succeeds. -/
theorem processProviderInfoAddresses_update (c : Collaborators) (e : pollGroupEntry)
    (info : InstHandle) (ps : InstanceStatus) (s : State) (cur prov : List ProviderAddress)
    (hlife : c.life s.trace e.m ≠ Life.Dead)
    (hcur : c.providerAddresses (s.trace ++ [Call.life e.m]) e.m = Except.ok cur)
    (hprov : c.instAddresses
      (s.trace ++ [Call.life e.m] ++ [Call.providerAddresses e.m]) info = Except.ok prov)
    (hne : addressesEqual cur prov = false)
    (hset : c.setProviderAddresses
      (s.trace ++ [Call.life e.m] ++ [Call.providerAddresses e.m] ++
        [Call.instAddresses info]) e.m prov = none) :
    processProviderInfoAddresses c e info ps s =
      Outcome.ok ps.Status
        { u := s.u,
          trace := s.trace ++ [Call.life e.m] ++ [Call.providerAddresses e.m] ++
            [Call.instAddresses info] ++ [Call.setProviderAddresses e.m prov] } := by
  unfold processProviderInfoAddresses
  simp only [M.bind_apply, invoke, if_neg hlife]
  rw [invokeOrReturn_apply_ok _ _ _ cur hcur]
  simp only []
  rw [invokeOrReturn_apply_ok _ _ _ prov hprov]
  simp only [hne, if_true]
  rw [invokeCheck_apply_none _ _ _ hset]
  rfl

/-- The address step when the two address lists differ and the write fails. -/
theorem processProviderInfoAddresses_update_error (c : Collaborators) (e : pollGroupEntry)
    (info : InstHandle) (ps : InstanceStatus) (s : State) (cur prov : List ProviderAddress)
    (err : Error)
    (hlife : c.life s.trace e.m ≠ Life.Dead)
    (hcur : c.providerAddresses (s.trace ++ [Call.life e.m]) e.m = Except.ok cur)
    (hprov : c.instAddresses
      (s.trace ++ [Call.life e.m] ++ [Call.providerAddresses e.m]) info = Except.ok prov)
    (hne : addressesEqual cur prov = false)
    (hset : c.setProviderAddresses
      (s.trace ++ [Call.life e.m] ++ [Call.providerAddresses e.m] ++
        [Call.instAddresses info]) e.m prov = some err) :
    processProviderInfoAddresses c e info ps s =
      Outcome.error err
        { u := s.u,
          trace := s.trace ++ [Call.life e.m] ++ [Call.providerAddresses e.m] ++
            [Call.instAddresses info] ++ [Call.setProviderAddresses e.m prov] } := by
  unfold processProviderInfoAddresses
  simp only [M.bind_apply, invoke, if_neg hlife]
  rw [invokeOrReturn_apply_ok _ _ _ cur hcur]
  simp only []
  rw [invokeOrReturn_apply_ok _ _ _ prov hprov]
  simp only [hne, if_true]
  rw [invokeCheck_apply_some _ _ _ err hset]

/-- The address step never panics, leaves the worker as it is, and calls `Life`,
`ProviderAddresses`, `Addresses` and `SetProviderAddresses` only. -/
theorem processProviderInfoAddresses_frame (c : Collaborators) (e : pollGroupEntry)
    (info : InstHandle) (ps : InstanceStatus) (s : State) :
    ∃ s1, (processProviderInfoAddresses c e info ps s).state? = some s1 ∧ s1.u = s.u ∧
      ∃ new, s1.trace = s.trace ++ new ∧
        ∀ ev ∈ new, ev = Call.life e.m ∨ ev = Call.providerAddresses e.m ∨
          ev = Call.instAddresses info ∨ ∃ addrs, ev = Call.setProviderAddresses e.m addrs := by
  by_cases hlife : c.life s.trace e.m = Life.Dead
  · rw [processProviderInfoAddresses_dead c e info ps s hlife]
    exact ⟨_, rfl, rfl, [Call.life e.m], rfl, by simp⟩
  · cases hcur : c.providerAddresses (s.trace ++ [Call.life e.m]) e.m with
    | error err =>
      rw [processProviderInfoAddresses_unread c e info ps s err hlife hcur]
      exact ⟨_, rfl, rfl, [Call.life e.m, Call.providerAddresses e.m], by simp [Outcome.state?],
        by simp⟩
    | ok cur =>
      cases hprov : c.instAddresses
          (s.trace ++ [Call.life e.m] ++ [Call.providerAddresses e.m]) info with
      | error err =>
        rw [processProviderInfoAddresses_unreported c e info ps s cur err hlife hcur hprov]
        exact ⟨_, rfl, rfl,
          [Call.life e.m, Call.providerAddresses e.m, Call.instAddresses info], by simp,
          by simp⟩
      | ok prov =>
        cases heq : addressesEqual cur prov with
        | true =>
          rw [processProviderInfoAddresses_equal c e info ps s cur prov hlife hcur hprov heq]
          exact ⟨_, rfl, rfl,
            [Call.life e.m, Call.providerAddresses e.m, Call.instAddresses info], by simp,
            by simp⟩
        | false =>
          cases hset : c.setProviderAddresses
              (s.trace ++ [Call.life e.m] ++ [Call.providerAddresses e.m] ++
                [Call.instAddresses info]) e.m prov with
          | none =>
            rw [processProviderInfoAddresses_update c e info ps s cur prov hlife hcur hprov
              heq hset]
            exact ⟨_, rfl, rfl,
              [Call.life e.m, Call.providerAddresses e.m, Call.instAddresses info,
                Call.setProviderAddresses e.m prov], by simp, by simp⟩
          | some err =>
            rw [processProviderInfoAddresses_update_error c e info ps s cur prov err hlife
              hcur hprov heq hset]
            exact ⟨_, rfl, rfl,
              [Call.life e.m, Call.providerAddresses e.m, Call.instAddresses info,
                Call.setProviderAddresses e.m prov], by simp, by simp⟩

/-- C16 (status update in `processProviderInfo`).  Let the model's `InstanceStatus()` be
read as `cur` and the provider status as `ps`, `tr1` being the calls made up to there.
If `ps` is the pair `(cur.Status, cur.Info)`, the address step starts with the worker
unchanged and no further call made: no write, no reset.  If the pairs differ,
`SetInstanceStatus(ps.Status, ps.Message)` is the next call; when it fails its error is
returned, when it succeeds and `ps.Status` is Running the address step starts after one
clock reading `now` with the entry reset (`shortPollInterval = ShortPoll`,
`shortPollAt = now + ShortPoll`), and when it succeeds for another status the address
step starts with the worker unchanged.  The address step itself never writes the
instance status, never reads the clock and never changes the worker. -/
theorem status_update_rule (c : Collaborators) (k : PollConsts) (p : Ptr) (info : InstHandle)
    (s : State) (e : pollGroupEntry) (cur : StatusResult) (ps : InstanceStatus)
    (tr1 : List Call)
    (hheap : s.u.heap[p]? = some e)
    (hcur : c.instanceStatus s.trace e.m = Except.ok cur)
    (hps : c.instStatus (s.trace ++ [Call.instanceStatus e.m]) info = ps)
    (htr1 : tr1 = s.trace ++ [Call.instanceStatus e.m] ++ [Call.instStatus info]) :
    (ps = { Status := cur.Status, Message := cur.Info } →
      processProviderInfo c k p info s =
        processProviderInfoAddresses c e info ps { u := s.u, trace := tr1 }) ∧
    (ps ≠ { Status := cur.Status, Message := cur.Info } →
      (∀ err, c.setInstanceStatus tr1 e.m ps.Status ps.Message = some err →
        processProviderInfo c k p info s =
          Outcome.error err
            { u := s.u,
              trace := tr1 ++ [Call.setInstanceStatus e.m ps.Status ps.Message] }) ∧
      (c.setInstanceStatus tr1 e.m ps.Status ps.Message = none →
        ps.Status = Status.Running →
        processProviderInfo c k p info s =
          processProviderInfoAddresses c e info ps
            { u := { s.u with
                       heap := s.u.heap.set p
                         { m := e.m, tag := e.tag, instanceID := e.instanceID,
                           shortPollInterval := k.ShortPoll,
                           shortPollAt :=
                             c.clockNow
                               (tr1 ++ [Call.setInstanceStatus e.m ps.Status ps.Message]) +
                               k.ShortPoll } },
              trace := tr1 ++ [Call.setInstanceStatus e.m ps.Status ps.Message] ++
                [Call.clockNow] }) ∧
      (c.setInstanceStatus tr1 e.m ps.Status ps.Message = none →
        ps.Status ≠ Status.Running →
        processProviderInfo c k p info s =
          processProviderInfoAddresses c e info ps
            { u := s.u,
              trace := tr1 ++ [Call.setInstanceStatus e.m ps.Status ps.Message] })) ∧
    (∀ s2 : State, ∃ s3, (processProviderInfoAddresses c e info ps s2).state? = some s3 ∧
      s3.u = s2.u ∧
      ∃ new, s3.trace = s2.trace ++ new ∧
        ∀ ev ∈ new, ev ≠ Call.clockNow ∧
          ∀ (m : Handle) (st : Status) (msg : String),
            ev ≠ Call.setInstanceStatus m st msg) := by
  subst hps
  subst htr1
  refine ⟨fun heq => processProviderInfo_same c k p info s e cur hheap hcur heq,
    fun hne => ⟨fun err hset => ?_, fun hset hrun => ?_, fun hset hrun => ?_⟩, fun s2 => ?_⟩
  · exact processProviderInfo_write_error c k p info s e cur err hheap hcur hne hset
  · exact processProviderInfo_running c k p info s e cur hheap hcur hne hset hrun
  · exact processProviderInfo_written c k p info s e cur hheap hcur hne hset hrun
  · obtain ⟨s3, hst, hu, new, htr, hnew⟩ := processProviderInfoAddresses_frame c e info _ s2
    refine ⟨s3, hst, hu, new, htr, fun ev hev => ?_⟩
    rcases hnew ev hev with h | h | h | ⟨addrs, h⟩ <;> subst h <;>
      exact ⟨by simp, by simp⟩

theorem status_update_rule_witness :
    processProviderInfo staleWorld defaultConsts 0 1 demoQueued =
      processProviderInfoAddresses staleWorld
        { m := 1, tag := "1", instanceID := "", shortPollInterval := 1000000000,
          shortPollAt := 3000000000 } 1 { Status := Status.Running, Message := "" }
        { u := { heap := [{ m := 1, tag := "1", instanceID := "",
                            shortPollInterval := 1000000000, shortPollAt := 7000000000 }],
                 shortGroup := [("1", 0)], longGroup := [], instanceIDToGroupEntry := [] },
          trace := demoQueued.trace ++ [Call.instanceStatus 1, Call.instStatus 1,
            Call.setInstanceStatus 1 Status.Running "", Call.clockNow] } :=
  ((status_update_rule staleWorld defaultConsts 0 1 demoQueued
      { m := 1, tag := "1", instanceID := "", shortPollInterval := 1000000000,
        shortPollAt := 3000000000 }
      { Status := Status.Pending, Info := "" } { Status := Status.Running, Message := "" }
      (demoQueued.trace ++ [Call.instanceStatus 1] ++ [Call.instStatus 1])
      (by rfl) (by rfl) (by rfl) rfl).2.1 (by decide)).2.1 (by rfl) (by rfl)

/-- After a successful read of the model's instance status, `processProviderInfo` either
returns the error of the status write or runs the address step, in a state whose calls
start with the two status reads. -/
theorem processProviderInfo_reaches (c : Collaborators) (k : PollConsts) (p : Ptr)
    (info : InstHandle) (s : State) (e : pollGroupEntry) (cur : StatusResult)
    (hheap : s.u.heap[p]? = some e)
    (hcur : c.instanceStatus s.trace e.m = Except.ok cur) :
    (∃ err, c.setInstanceStatus
          (s.trace ++ [Call.instanceStatus e.m] ++ [Call.instStatus info]) e.m
          (c.instStatus (s.trace ++ [Call.instanceStatus e.m]) info).Status
          (c.instStatus (s.trace ++ [Call.instanceStatus e.m]) info).Message = some err ∧
        processProviderInfo c k p info s =
          Outcome.error err
            { u := s.u,
              trace := s.trace ++ [Call.instanceStatus e.m] ++ [Call.instStatus info] ++
                [Call.setInstanceStatus e.m
                  (c.instStatus (s.trace ++ [Call.instanceStatus e.m]) info).Status
                  (c.instStatus (s.trace ++ [Call.instanceStatus e.m]) info).Message] }) ∨
      ∃ s2, processProviderInfo c k p info s =
          processProviderInfoAddresses c e info
            (c.instStatus (s.trace ++ [Call.instanceStatus e.m]) info) s2 ∧
        (s2.u = s.u ∨ ∃ now, s2.u = { s.u with
          heap := s.u.heap.set p (e.resetShortPollInterval k now) }) ∧
        ∃ new, s2.trace = s.trace ++ new ∧ ∀ ev ∈ new, Call.ofSlot e.m info ev = true := by
  by_cases heq : c.instStatus (s.trace ++ [Call.instanceStatus e.m]) info =
      { Status := cur.Status, Message := cur.Info }
  · right
    exact ⟨_, processProviderInfo_same c k p info s e cur hheap hcur heq, Or.inl rfl,
      [Call.instanceStatus e.m, Call.instStatus info], by simp, by simp [Call.ofSlot]⟩
  · cases hset : c.setInstanceStatus
        (s.trace ++ [Call.instanceStatus e.m] ++ [Call.instStatus info]) e.m
        (c.instStatus (s.trace ++ [Call.instanceStatus e.m]) info).Status
        (c.instStatus (s.trace ++ [Call.instanceStatus e.m]) info).Message with
    | some err =>
      left
      exact ⟨err, rfl,
        processProviderInfo_write_error c k p info s e cur err hheap hcur heq hset⟩
    | none =>
      right
      by_cases hrun : (c.instStatus (s.trace ++ [Call.instanceStatus e.m]) info).Status =
          Status.Running
      · exact ⟨_, processProviderInfo_running c k p info s e cur hheap hcur heq hset hrun,
          Or.inr ⟨_, rfl⟩,
          [Call.instanceStatus e.m, Call.instStatus info,
            Call.setInstanceStatus e.m
              (c.instStatus (s.trace ++ [Call.instanceStatus e.m]) info).Status
              (c.instStatus (s.trace ++ [Call.instanceStatus e.m]) info).Message,
            Call.clockNow], by simp, by simp [Call.ofSlot]⟩
      · exact ⟨_, processProviderInfo_written c k p info s e cur hheap hcur heq hset hrun,
          Or.inl rfl,
          [Call.instanceStatus e.m, Call.instStatus info,
            Call.setInstanceStatus e.m
              (c.instStatus (s.trace ++ [Call.instanceStatus e.m]) info).Status
              (c.instStatus (s.trace ++ [Call.instanceStatus e.m]) info).Message],
          by simp, by simp [Call.ofSlot]⟩

/-- C17 (address update in `processProviderInfo`).  After the model's instance status
has been read, `processProviderInfo` either returns the error of the status write or
reaches the address step, in some state `s2`.  Whenever it reaches the address step in
`s2` with provider status `ps`: if `Life()` is then Dead it returns Unknown after that
one call, with no address read or written; otherwise, once both address lists are read,
it calls `SetProviderAddresses` with exactly the provider's list if
`addressesEqual(model, provider)` is false, and makes no further call if it is true, and
returns `ps.Status` unless the write fails; an address list that cannot be read gives
that error.  The worker is not changed by the address step. -/
theorem address_update_rule (c : Collaborators) (k : PollConsts) (p : Ptr) (info : InstHandle)
    (s : State) (e : pollGroupEntry) (cur : StatusResult) (ps : InstanceStatus)
    (hheap : s.u.heap[p]? = some e)
    (hcur : c.instanceStatus s.trace e.m = Except.ok cur)
    (hps : c.instStatus (s.trace ++ [Call.instanceStatus e.m]) info = ps) :
    ((∃ err s1, processProviderInfo c k p info s = Outcome.error err s1 ∧
          s1.trace = s.trace ++ [Call.instanceStatus e.m] ++ [Call.instStatus info] ++
            [Call.setInstanceStatus e.m ps.Status ps.Message]) ∨
      ∃ s2, processProviderInfo c k p info s = processProviderInfoAddresses c e info ps s2) ∧
    ∀ s2 : State,
      processProviderInfo c k p info s = processProviderInfoAddresses c e info ps s2 →
      (c.life s2.trace e.m = Life.Dead →
        processProviderInfo c k p info s =
          Outcome.ok Status.Unknown { u := s2.u, trace := s2.trace ++ [Call.life e.m] }) ∧
      (c.life s2.trace e.m ≠ Life.Dead →
        (∀ err, c.providerAddresses (s2.trace ++ [Call.life e.m]) e.m = Except.error err →
          processProviderInfo c k p info s =
            Outcome.error err
              { u := s2.u,
                trace := s2.trace ++ [Call.life e.m] ++ [Call.providerAddresses e.m] }) ∧
        ∀ model, c.providerAddresses (s2.trace ++ [Call.life e.m]) e.m = Except.ok model →
          (∀ err, c.instAddresses
              (s2.trace ++ [Call.life e.m] ++ [Call.providerAddresses e.m]) info =
                Except.error err →
            processProviderInfo c k p info s =
              Outcome.error err
                { u := s2.u,
                  trace := s2.trace ++ [Call.life e.m] ++ [Call.providerAddresses e.m] ++
                    [Call.instAddresses info] }) ∧
          ∀ prov, c.instAddresses
              (s2.trace ++ [Call.life e.m] ++ [Call.providerAddresses e.m]) info =
                Except.ok prov →
            (addressesEqual model prov = true →
              processProviderInfo c k p info s =
                Outcome.ok ps.Status
                  { u := s2.u,
                    trace := s2.trace ++ [Call.life e.m] ++ [Call.providerAddresses e.m] ++
                      [Call.instAddresses info] }) ∧
            (addressesEqual model prov = false →
              (c.setProviderAddresses
                  (s2.trace ++ [Call.life e.m] ++ [Call.providerAddresses e.m] ++
                    [Call.instAddresses info]) e.m prov = none →
                processProviderInfo c k p info s =
                  Outcome.ok ps.Status
                    { u := s2.u,
                      trace := s2.trace ++ [Call.life e.m] ++ [Call.providerAddresses e.m] ++
                        [Call.instAddresses info] ++
                        [Call.setProviderAddresses e.m prov] }) ∧
              ∀ err, c.setProviderAddresses
                  (s2.trace ++ [Call.life e.m] ++ [Call.providerAddresses e.m] ++
                    [Call.instAddresses info]) e.m prov = some err →
                processProviderInfo c k p info s =
                  Outcome.error err
                    { u := s2.u,
                      trace := s2.trace ++ [Call.life e.m] ++ [Call.providerAddresses e.m] ++
                        [Call.instAddresses info] ++
                        [Call.setProviderAddresses e.m prov] })) := by
  subst hps
  refine ⟨?_, fun s2 hreach => ?_⟩
  · rcases processProviderInfo_reaches c k p info s e cur hheap hcur with
      ⟨err, _, h⟩ | ⟨s2, h, _⟩
    · exact Or.inl ⟨err, _, h, rfl⟩
    · exact Or.inr ⟨s2, h⟩
  · rw [hreach]
    refine ⟨fun hlife => processProviderInfoAddresses_dead c e info _ s2 hlife,
      fun hlife => ⟨fun err hm => ?_, fun model hm => ⟨fun err hp => ?_, fun prov hp =>
        ⟨fun heq => ?_, fun hne => ⟨fun hset => ?_, fun err hset => ?_⟩⟩⟩⟩⟩
    · exact processProviderInfoAddresses_unread c e info _ s2 err hlife hm
    · exact processProviderInfoAddresses_unreported c e info _ s2 model err hlife hm hp
    · exact processProviderInfoAddresses_equal c e info _ s2 model prov hlife hm hp heq
    · exact processProviderInfoAddresses_update c e info _ s2 model prov hlife hm hp hne hset
    · exact processProviderInfoAddresses_update_error c e info _ s2 model prov err hlife hm hp
        hne hset

theorem address_update_rule_witness :
    processProviderInfo staleWorld defaultConsts 0 1 demoQueued =
      Outcome.ok Status.Running
        { u := { heap := [{ m := 1, tag := "1", instanceID := "",
                            shortPollInterval := 1000000000, shortPollAt := 7000000000 }],
                 shortGroup := [("1", 0)], longGroup := [], instanceIDToGroupEntry := [] },
          trace := demoQueued.trace ++ [Call.instanceStatus 1, Call.instStatus 1,
            Call.setInstanceStatus 1 Status.Running "", Call.clockNow, Call.life 1,
            Call.providerAddresses 1, Call.instAddresses 1,
            Call.setProviderAddresses 1 [demoAddress]] } :=
  ((((((address_update_rule staleWorld defaultConsts 0 1 demoQueued
      { m := 1, tag := "1", instanceID := "", shortPollInterval := 1000000000,
        shortPollAt := 3000000000 }
      { Status := Status.Pending, Info := "" } { Status := Status.Running, Message := "" }
      (by rfl) (by rfl) (by rfl)).2
      { u := { heap := [{ m := 1, tag := "1", instanceID := "",
                          shortPollInterval := 1000000000, shortPollAt := 7000000000 }],
               shortGroup := [("1", 0)], longGroup := [], instanceIDToGroupEntry := [] },
        trace := demoQueued.trace ++ [Call.instanceStatus 1, Call.instStatus 1,
          Call.setInstanceStatus 1 Status.Running "", Call.clockNow] }
      (by rfl)).2 (by decide)).2 [] (by rfl)).2 [demoAddress] (by rfl)).2 (by rfl)).1 (by rfl)

/-! ## The first loop of `pollGroupMembers` -/

theorem resolveInstanceID_resolved (c : Collaborators) (p : Ptr) (s : State)
    (e : pollGroupEntry) (hheap : s.u.heap[p]? = some e) (hid : e.instanceID ≠ "") :
    resolveInstanceID c p s = Outcome.ok none s := by
  unfold resolveInstanceID
  simp only [M.bind_apply, deref_apply p s e hheap, if_pos hid]
  rfl

theorem resolveInstanceID_ok (c : Collaborators) (p : Ptr) (s : State)
    (e : pollGroupEntry) (id : InstanceId) (hheap : s.u.heap[p]? = some e)
    (hid : e.instanceID = "") (hres : c.instanceId s.trace e.m = Except.ok id) :
    resolveInstanceID c p s =
      Outcome.ok none
        { u := updaterWorker.insertInstanceID
            { s.u with heap := s.u.heap.set p { e with instanceID := id } } id p,
          trace := s.trace ++ [Call.instanceId e.m] } := by
  unfold resolveInstanceID
  simp only [M.bind_apply, deref_apply p s e hheap, if_neg (not_not.2 hid), invoke, hres]
  rfl

theorem resolveInstanceID_error (c : Collaborators) (p : Ptr) (s : State)
    (e : pollGroupEntry) (err : Error) (hheap : s.u.heap[p]? = some e)
    (hid : e.instanceID = "") (hres : c.instanceId s.trace e.m = Except.error err) :
    resolveInstanceID c p s =
      Outcome.ok (some err) { u := s.u, trace := s.trace ++ [Call.instanceId e.m] } := by
  unfold resolveInstanceID
  simp only [M.bind_apply, deref_apply p s e hheap, if_neg (not_not.2 hid), invoke, hres]
  rfl

/-- First loop, a member that is not due: nothing happens. -/
theorem collectInstanceIDs_skip (c : Collaborators) (k : PollConsts) (g : pollGroupType)
    (now : Time) (t : MachineTag) (p : Ptr) (rest : List (MachineTag × Ptr))
    (acc : List InstanceId) (s : State) (e : pollGroupEntry)
    (hheap : s.u.heap[p]? = some e) (hskip : ¬ Candidate g now e) :
    collectInstanceIDs c k g now ((t, p) :: rest) acc s =
      collectInstanceIDs c k g now rest acc s := by
  have h : g = pollGroupType.shortPollGroup ∧ now < e.shortPollAt := not_not.1 hskip
  rw [collectInstanceIDs]
  simp only [M.bind_apply, deref_apply p s e hheap]
  rw [if_pos h]

/-- First loop, a candidate whose instance id is known: the id joins the batch. -/
theorem collectInstanceIDs_resolved (c : Collaborators) (k : PollConsts) (g : pollGroupType)
    (now : Time) (t : MachineTag) (p : Ptr) (rest : List (MachineTag × Ptr))
    (acc : List InstanceId) (s : State) (e : pollGroupEntry)
    (hheap : s.u.heap[p]? = some e) (hcand : Candidate g now e) (hid : e.instanceID ≠ "") :
    collectInstanceIDs c k g now ((t, p) :: rest) acc s =
      collectInstanceIDs c k g now rest (acc ++ [e.instanceID]) s := by
  rw [collectInstanceIDs]
  simp only [M.bind_apply, deref_apply p s e hheap]
  rw [if_neg hcand]
  simp only [M.bind_apply, resolveInstanceID_resolved c p s e hheap hid,
    deref_apply p s e hheap]

/-- First loop, a candidate whose instance id resolves: the entry and the reverse index
are updated and the id joins the batch. -/
theorem collectInstanceIDs_resolves (c : Collaborators) (k : PollConsts) (g : pollGroupType)
    (now : Time) (t : MachineTag) (p : Ptr) (rest : List (MachineTag × Ptr))
    (acc : List InstanceId) (s : State) (e : pollGroupEntry) (id : InstanceId)
    (hheap : s.u.heap[p]? = some e) (hcand : Candidate g now e) (hid : e.instanceID = "")
    (hres : c.instanceId s.trace e.m = Except.ok id) :
    collectInstanceIDs c k g now ((t, p) :: rest) acc s =
      collectInstanceIDs c k g now rest (acc ++ [id])
        { u := updaterWorker.insertInstanceID
            { s.u with heap := s.u.heap.set p { e with instanceID := id } } id p,
          trace := s.trace ++ [Call.instanceId e.m] } := by
  have hlt : p < s.u.heap.length := (List.getElem?_eq_some_iff.1 hheap).1
  rw [collectInstanceIDs]
  simp only [M.bind_apply, deref_apply p s e hheap]
  rw [if_neg hcand]
  simp only [M.bind_apply, resolveInstanceID_ok c p s e id hheap hid hres]
  rw [deref_apply p _ { e with instanceID := id }
    (by show (s.u.heap.set p _)[p]? = _; exact List.getElem?_set_self hlt)]

/-- First loop, a candidate that is not provisioned: the entry is bumped and the batch
is left as it is. -/
theorem collectInstanceIDs_unprovisioned (c : Collaborators) (k : PollConsts)
    (g : pollGroupType) (now : Time) (t : MachineTag) (p : Ptr)
    (rest : List (MachineTag × Ptr)) (acc : List InstanceId) (s : State) (e : pollGroupEntry)
    (hheap : s.u.heap[p]? = some e) (hcand : Candidate g now e) (hid : e.instanceID = "")
    (hres : c.instanceId s.trace e.m = Except.error Error.NotProvisioned) :
    collectInstanceIDs c k g now ((t, p) :: rest) acc s =
      collectInstanceIDs c k g now rest acc
        { u := { s.u with
                   heap := s.u.heap.set p (e.bumpShortPollInterval k
                     (c.clockNow (s.trace ++ [Call.instanceId e.m]))) },
          trace := s.trace ++ [Call.instanceId e.m] ++ [Call.clockNow] } := by
  rw [collectInstanceIDs]
  simp only [M.bind_apply, deref_apply p s e hheap]
  rw [if_neg hcand]
  simp only [M.bind_apply, resolveInstanceID_error c p s e _ hheap hid hres, if_true]
  rw [bumpShortPollInterval_apply c k p _ e (by exact hheap)]

/-- First loop, a candidate whose instance id cannot be had for another reason: the
error ends the loop. -/
theorem collectInstanceIDs_error (c : Collaborators) (k : PollConsts)
    (g : pollGroupType) (now : Time) (t : MachineTag) (p : Ptr)
    (rest : List (MachineTag × Ptr)) (acc : List InstanceId) (s : State) (e : pollGroupEntry)
    (err : Error)
    (hheap : s.u.heap[p]? = some e) (hcand : Candidate g now e) (hid : e.instanceID = "")
    (hres : c.instanceId s.trace e.m = Except.error err) (hne : err ≠ Error.NotProvisioned) :
    collectInstanceIDs c k g now ((t, p) :: rest) acc s =
      Outcome.error err { u := s.u, trace := s.trace ++ [Call.instanceId e.m] } := by
  rw [collectInstanceIDs]
  simp only [M.bind_apply, deref_apply p s e hheap]
  rw [if_neg hcand]
  simp only [M.bind_apply, resolveInstanceID_error c p s e _ hheap hid hres, if_neg hne]
  rfl

/-- The first loop over a list in two parts is the loop over the first part followed by
the loop over the second. -/
theorem collectInstanceIDs_append (c : Collaborators) (k : PollConsts) (g : pollGroupType)
    (now : Time) (pre post : List (MachineTag × Ptr)) :
    ∀ (acc : List InstanceId) (s : State),
      collectInstanceIDs c k g now (pre ++ post) acc s =
        match collectInstanceIDs c k g now pre acc s with
        | .ok acc1 s1 => collectInstanceIDs c k g now post acc1 s1
        | .error err s1 => .error err s1
        | .panic => .panic := by
  induction pre with
  | nil =>
    intro acc s
    rw [List.nil_append]
    conv => rhs; rw [collectInstanceIDs]
  | cons kv rest ih =>
    intro acc s
    obtain ⟨t, p⟩ := kv
    rw [List.cons_append]
    cases hheap : s.u.heap[p]? with
    | none =>
      rw [collectInstanceIDs]
      conv => rhs; rw [collectInstanceIDs]
      simp only [M.bind_apply, deref, hheap]
    | some e =>
      by_cases hcand : Candidate g now e
      · by_cases hid : e.instanceID = ""
        · cases hres : c.instanceId s.trace e.m with
          | ok id =>
            rw [collectInstanceIDs_resolves c k g now t p _ acc s e id hheap hcand hid hres,
              collectInstanceIDs_resolves c k g now t p _ acc s e id hheap hcand hid hres]
            exact ih _ _
          | error err =>
            by_cases hne : err = Error.NotProvisioned
            · subst hne
              rw [collectInstanceIDs_unprovisioned c k g now t p _ acc s e hheap hcand hid hres,
                collectInstanceIDs_unprovisioned c k g now t p _ acc s e hheap hcand hid hres]
              exact ih _ _
            · rw [collectInstanceIDs_error c k g now t p _ acc s e err hheap hcand hid hres hne,
                collectInstanceIDs_error c k g now t p _ acc s e err hheap hcand hid hres hne]
        · rw [collectInstanceIDs_resolved c k g now t p _ acc s e hheap hcand hid,
            collectInstanceIDs_resolved c k g now t p _ acc s e hheap hcand hid]
          exact ih _ _
      · rw [collectInstanceIDs_skip c k g now t p _ acc s e hheap hcand,
          collectInstanceIDs_skip c k g now t p _ acc s e hheap hcand]
        exact ih _ _

/-- `pollGroupMembers` once its first loop has returned the batch `ids` in state `s1`:
nothing more for an empty batch; otherwise one `Environ.Instances` call, whose error is
returned unless it is `ErrPartialInstances`, followed by the second loop. -/
theorem pollGroupMembers_apply (c : Collaborators) (k : PollConsts) (g : pollGroupType)
    (s s1 : State) (ids : List InstanceId)
    (hloop : collectInstanceIDs c k g (c.clockNow s.trace) (s.u.pollGroup g) []
      { u := s.u, trace := s.trace ++ [Call.clockNow] } = Outcome.ok ids s1) :
    pollGroupMembers c k g s =
      if ids = [] then Outcome.ok () s1
      else
        match (c.environInstances s1.trace ids).2 with
        | some err =>
          if err ≠ Error.ErrPartialInstances then
            Outcome.error err { u := s1.u, trace := s1.trace ++ [Call.environInstances ids] }
          else
            processInfoList c k g ids 0 (c.environInstances s1.trace ids).1
              { u := s1.u, trace := s1.trace ++ [Call.environInstances ids] }
        | none =>
          processInfoList c k g ids 0 (c.environInstances s1.trace ids).1
            { u := s1.u, trace := s1.trace ++ [Call.environInstances ids] } := by
  unfold pollGroupMembers
  simp only [M.bind_apply, invoke, getU]
  have h : collectInstanceIDs c k g (c.clockNow s.trace) (s.u.pollGroup g) []
      { u := s.u, trace := s.trace ++ [Call.clockNow] } = Outcome.ok ids s1 := hloop
  rw [h]
  simp only []
  by_cases hids : ids = []
  · subst hids
    simp [M.pure_apply]
  · have hlen : ¬ ids.length = 0 := fun h0 => hids (List.length_eq_zero.1 h0)
    rw [if_neg hlen, if_neg hids]
    simp only [M.bind_apply, invoke]
    generalize c.environInstances s1.trace ids = res
    obtain ⟨infos, oerr⟩ := res
    cases oerr with
    | none => rfl
    | some err =>
      simp only []
      by_cases herr : err ≠ Error.ErrPartialInstances
      · rw [if_pos herr, if_pos herr]
        rfl
      · rw [if_neg herr, if_neg herr]

/-- `pollGroupMembers` when its first loop ends with an error: that error is returned. -/
theorem pollGroupMembers_apply_error (c : Collaborators) (k : PollConsts) (g : pollGroupType)
    (s s1 : State) (err : Error)
    (hloop : collectInstanceIDs c k g (c.clockNow s.trace) (s.u.pollGroup g) []
      { u := s.u, trace := s.trace ++ [Call.clockNow] } = Outcome.error err s1) :
    pollGroupMembers c k g s = Outcome.error err s1 := by
  unfold pollGroupMembers
  simp only [M.bind_apply, invoke, getU]
  have h : collectInstanceIDs c k g (c.clockNow s.trace) (s.u.pollGroup g) []
      { u := s.u, trace := s.trace ++ [Call.clockNow] } = Outcome.error err s1 := hloop
  rw [h]

theorem memberFate_mono (c : Collaborators) (k : PollConsts) (g : pollGroupType) (now : Time)
    (tr0 tr0a tr1 tr1a : List Call) (e e1 : pollGroupEntry) (f : Option InstanceId)
    (h0 : tr0 <+: tr0a) (h1 : tr1a <+: tr1)
    (h : MemberFate c k g now tr0a tr1a e e1 f) : MemberFate c k g now tr0 tr1 e e1 f := by
  cases h with
  | notDue hc he => exact MemberFate.notDue hc he
  | resolved hc hid he => exact MemberFate.resolved hc hid he
  | resolves tr id hc hid hp0 hp1 hres he =>
    exact MemberFate.resolves tr id hc hid (h0.trans hp0) (hp1.trans h1) hres he
  | unprovisioned tr hc hid hp0 hp1 hres he =>
    exact MemberFate.unprovisioned tr hc hid (h0.trans hp0) (hp1.trans h1) hres he

theorem forall₂_imp_of_mem {α β : Type} {R S : α → β → Prop} :
    ∀ (l1 : List α) (l2 : List β), (∀ a b, a ∈ l1 → R a b → S a b) →
      List.Forall₂ R l1 l2 → List.Forall₂ S l1 l2 := by
  intro l1 l2 himp h
  induction h with
  | nil => exact List.Forall₂.nil
  | cons hab _ ih =>
    exact List.Forall₂.cons (himp _ _ (List.mem_cons_self _ _) hab)
      (ih (fun a b ha hr => himp a b (List.mem_cons_of_mem _ ha) hr))

theorem selectionFrame_refl (g : pollGroupType) (now : Time)
    (members : List (MachineTag × Ptr)) (s : State) : SelectionFrame g now members s s :=
  ⟨rfl, rfl, fun _ _ => rfl, [], by simp, fun ev hev => by cases hev⟩

/-- The frame of the loop over the remaining members, seen from before the step made
for the first member `(t, p)`. -/
theorem selectionFrame_step (g : pollGroupType) (now : Time) (t : MachineTag) (p : Ptr)
    (rest : List (MachineTag × Ptr)) (s sa s1 : State) (e : pollGroupEntry)
    (newp : List Call)
    (hp : s.u.heap[p]? = some e)
    (hnot : p ∉ rest.map Prod.snd)
    (hshort : sa.u.shortGroup = s.u.shortGroup) (hlong : sa.u.longGroup = s.u.longGroup)
    (hheap : ∀ q : Ptr, q ≠ p → sa.u.heap[q]? = s.u.heap[q]?)
    (htr : sa.trace = s.trace ++ newp)
    (hnew : ∀ ev ∈ newp, ev = Call.clockNow ∨
      (Candidate g now e ∧ e.instanceID = "" ∧ ev = Call.instanceId e.m))
    (h : SelectionFrame g now rest sa s1) :
    SelectionFrame g now ((t, p) :: rest) s s1 := by
  obtain ⟨h1, h2, h3, new, h4, h5⟩ := h
  refine ⟨h1.trans hshort, h2.trans hlong, ?_, newp ++ new, ?_, ?_⟩
  · intro q hq
    rw [List.map_cons, List.mem_cons, not_or] at hq
    rw [h3 q hq.2, hheap q hq.1]
  · rw [h4, htr, List.append_assoc]
  · intro ev hev
    rcases List.mem_append.1 hev with hev | hev
    · rcases hnew ev hev with h6 | ⟨h6, h7, h8⟩
      · exact Or.inl h6
      · exact Or.inr ⟨(t, p), e, List.mem_cons_self _ _, hp, h6, h7, h8⟩
    · rcases h5 ev hev with h6 | ⟨tp, e2, hmem, he2, h6, h7, h8⟩
      · exact Or.inl h6
      · have hne : tp.2 ≠ p := fun heq => hnot (heq ▸ List.mem_map_of_mem Prod.snd hmem)
        exact Or.inr ⟨tp, e2, List.mem_cons_of_mem _ hmem, by rw [← hheap tp.2 hne]; exact he2,
          h6, h7, h8⟩

/-- The selection made for the remaining members, seen from before a step for the first
member `(t, p)` that left the reverse index alone. -/
theorem selection_cons (c : Collaborators) (k : PollConsts) (g : pollGroupType) (now : Time)
    (t : MachineTag) (p : Ptr) (rest : List (MachineTag × Ptr))
    (fs : List (Option InstanceId)) (f : Option InstanceId) (s sa s1 : State)
    (e ea : pollGroupEntry) (newp : List Call)
    (hp : s.u.heap[p]? = some e) (hpa : sa.u.heap[p]? = some ea)
    (hnot : p ∉ rest.map Prod.snd)
    (hshort : sa.u.shortGroup = s.u.shortGroup) (hlong : sa.u.longGroup = s.u.longGroup)
    (hheap : ∀ q : Ptr, q ≠ p → sa.u.heap[q]? = s.u.heap[q]?)
    (htr : sa.trace = s.trace ++ newp)
    (hnew : ∀ ev ∈ newp, ev = Call.clockNow ∨
      (Candidate g now e ∧ e.instanceID = "" ∧ ev = Call.instanceId e.m))
    (hindex : ∀ (id : InstanceId) (q : Ptr),
      mapLookup sa.u.instanceIDToGroupEntry id = some q →
      mapLookup s.u.instanceIDToGroupEntry id = some q ∨ (f = some id ∧ q = p))
    (hfate : MemberFate c k g now s.trace sa.trace e ea f)
    (h : Selection c k g now rest fs sa s1) :
    Selection c k g now ((t, p) :: rest) (f :: fs) s s1 := by
  obtain ⟨hf, hi, hfr⟩ := h
  have hfr1 := selectionFrame_step g now t p rest s sa s1 e newp hp hnot hshort hlong hheap
    htr hnew hfr
  obtain ⟨new, hnewtr, _⟩ := hfr.calls
  have hpre0 : s.trace <+: sa.trace := ⟨newp, htr.symm⟩
  have hpre1 : sa.trace <+: s1.trace := ⟨new, hnewtr.symm⟩
  refine ⟨List.Forall₂.cons ?_ ?_, ?_, hfr1⟩
  · refine ⟨e, ea, hp, ?_, memberFate_mono c k g now _ _ _ _ e ea f (List.prefix_refl _)
      hpre1 hfate⟩
    rw [hfr.others p hnot]
    exact hpa
  · refine forall₂_imp_of_mem rest fs ?_ hf
    rintro tp f2 hmem ⟨e2, e3, h2, h3, h4⟩
    have hne : tp.2 ≠ p := fun heq => hnot (heq ▸ List.mem_map_of_mem Prod.snd hmem)
    refine ⟨e2, e3, ?_, h3, memberFate_mono c k g now _ _ _ _ e2 e3 f2 hpre0
      (List.prefix_refl _) h4⟩
    rw [← hheap tp.2 hne]
    exact h2
  · intro id q hq
    rcases hi id q hq with h1 | ⟨tp, hmem, htp⟩
    · rcases hindex id q h1 with h2 | ⟨h2, h3⟩
      · exact Or.inl h2
      · refine Or.inr ⟨(t, p), ?_, h3.symm⟩
        rw [h2, List.zip_cons_cons]
        exact List.mem_cons_self _ _
    · refine Or.inr ⟨tp, ?_, htp⟩
      rw [List.zip_cons_cons]
      exact List.mem_cons_of_mem _ hmem

theorem selectionError_cons (c : Collaborators) (g : pollGroupType) (now : Time)
    (t : MachineTag) (p : Ptr) (rest : List (MachineTag × Ptr)) (s sa s1 : State)
    (e : pollGroupEntry) (newp : List Call) (err : Error)
    (hp : s.u.heap[p]? = some e)
    (hnot : p ∉ rest.map Prod.snd)
    (hshort : sa.u.shortGroup = s.u.shortGroup) (hlong : sa.u.longGroup = s.u.longGroup)
    (hheap : ∀ q : Ptr, q ≠ p → sa.u.heap[q]? = s.u.heap[q]?)
    (htr : sa.trace = s.trace ++ newp)
    (hnew : ∀ ev ∈ newp, ev = Call.clockNow ∨
      (Candidate g now e ∧ e.instanceID = "" ∧ ev = Call.instanceId e.m))
    (h : SelectionError c g now rest sa err s1) :
    SelectionError c g now ((t, p) :: rest) s err s1 := by
  obtain ⟨⟨tp, e2, tr, hmem, he2, hc, hid, hpre, hres, htr1⟩, hother, hfr⟩ := h
  have hne : tp.2 ≠ p := fun heq => hnot (heq ▸ List.mem_map_of_mem Prod.snd hmem)
  refine ⟨⟨tp, e2, tr, List.mem_cons_of_mem _ hmem, ?_, hc, hid, ?_, hres, htr1⟩, hother,
    selectionFrame_step g now t p rest s sa s1 e newp hp hnot hshort hlong hheap htr hnew hfr⟩
  · rw [← hheap tp.2 hne]
    exact he2
  · exact List.IsPrefix.trans ⟨newp, htr.symm⟩ hpre

/-- The first loop of `pollGroupMembers`, over members whose pointers are distinct and
address entries: it does not panic; when it returns, the batch is what it started with
followed by the ids the members added, in order; when it fails, a candidate could not
be resolved. -/
theorem collectInstanceIDs_selection (c : Collaborators) (k : PollConsts) (g : pollGroupType)
    (now : Time) (members : List (MachineTag × Ptr)) :
    (members.map Prod.snd).Nodup →
    ∀ (acc : List InstanceId) (s : State),
      (∀ tp ∈ members, ∃ e, s.u.heap[tp.2]? = some e) →
      match collectInstanceIDs c k g now members acc s with
      | .ok ids s1 =>
        ∃ fates, ids = acc ++ fates.reduceOption ∧ Selection c k g now members fates s s1
      | .error err s1 => SelectionError c g now members s err s1
      | .panic => False := by
  induction members with
  | nil =>
    intro _ acc s _
    rw [collectInstanceIDs]
    exact ⟨[], by simp, List.Forall₂.nil, fun id q h => Or.inl h,
      selectionFrame_refl g now [] s⟩
  | cons kv rest ih =>
    intro hnd acc s hvalid
    obtain ⟨t, p⟩ := kv
    rw [List.map_cons, List.nodup_cons] at hnd
    obtain ⟨hnot, hnd⟩ := hnd
    have hnot : p ∉ rest.map Prod.snd := hnot
    obtain ⟨e, he⟩ := hvalid (t, p) (List.mem_cons_self _ _)
    have he : s.u.heap[p]? = some e := he
    have hlt : p < s.u.heap.length := (List.getElem?_eq_some_iff.1 he).1
    have hvalid_set : ∀ (e2 : pollGroupEntry) (tp : MachineTag × Ptr), tp ∈ rest →
        ∃ e3, (s.u.heap.set p e2)[tp.2]? = some e3 := by
      intro e2 tp hmem
      obtain ⟨e3, he3⟩ := hvalid tp (List.mem_cons_of_mem _ hmem)
      have hne : p ≠ tp.2 := fun heq =>
        hnot (by rw [heq]; exact List.mem_map_of_mem Prod.snd hmem)
      exact ⟨e3, by rw [List.getElem?_set_ne hne]; exact he3⟩
    have hset_ne : ∀ (e2 : pollGroupEntry) (q : Ptr), q ≠ p →
        (s.u.heap.set p e2)[q]? = s.u.heap[q]? :=
      fun e2 q hq => List.getElem?_set_ne (fun h => hq h.symm)
    by_cases hcand : Candidate g now e
    · by_cases hid : e.instanceID = ""
      · cases hres : c.instanceId s.trace e.m with
        | ok id =>
          rw [collectInstanceIDs_resolves c k g now t p rest acc s e id he hcand hid hres]
          have h := ih hnd (acc ++ [id])
            { u := updaterWorker.insertInstanceID
                { s.u with heap := s.u.heap.set p { e with instanceID := id } } id p,
              trace := s.trace ++ [Call.instanceId e.m] }
            (hvalid_set _)
          revert h
          cases collectInstanceIDs c k g now rest (acc ++ [id])
            { u := updaterWorker.insertInstanceID
                { s.u with heap := s.u.heap.set p { e with instanceID := id } } id p,
              trace := s.trace ++ [Call.instanceId e.m] } with
          | ok ids s1 =>
            rintro ⟨fs, hids, hsel⟩
            refine ⟨some id :: fs, ?_, ?_⟩
            · rw [hids, List.reduceOption_cons_of_some, List.append_assoc]
              rfl
            · refine selection_cons c k g now t p rest fs (some id) s
                ({ u := updaterWorker.insertInstanceID
                                    { s.u with heap := s.u.heap.set p { e with instanceID := id } } id p,
                   trace := s.trace ++ [Call.instanceId e.m] } : State) s1 e
                { e with instanceID := id } [Call.instanceId e.m] he
                (List.getElem?_set_self hlt) hnot rfl rfl (hset_ne _) rfl ?_ ?_ ?_ hsel
              · intro ev hev
                rw [List.mem_singleton] at hev
                exact Or.inr ⟨hcand, hid, hev⟩
              · intro id1 q hq
                have hq1 : mapLookup (mapInsert s.u.instanceIDToGroupEntry id p) id1 =
                    some q := hq
                rw [mapLookup_mapInsert] at hq1
                by_cases h1 : id = id1
                · rw [if_pos h1] at hq1
                  injection hq1 with hq1
                  exact Or.inr ⟨by rw [h1], hq1.symm⟩
                · rw [if_neg h1] at hq1
                  exact Or.inl hq1
              · exact MemberFate.resolves s.trace id hcand hid (List.prefix_refl _)
                  (List.prefix_refl _) hres rfl
          | error err s1 =>
            intro herr
            exact selectionError_cons c g now t p rest s
              ({ u := updaterWorker.insertInstanceID
                                    { s.u with heap := s.u.heap.set p { e with instanceID := id } } id p,
                   trace := s.trace ++ [Call.instanceId e.m] } : State) s1 e [Call.instanceId e.m] err he
              hnot rfl rfl (hset_ne _) rfl
              (fun ev hev => Or.inr ⟨hcand, hid, List.mem_singleton.1 hev⟩) herr
          | panic => exact fun h => h
        | error err =>
          by_cases hne : err = Error.NotProvisioned
          · subst hne
            rw [collectInstanceIDs_unprovisioned c k g now t p rest acc s e he hcand hid hres]
            have h := ih hnd acc
              { u := { s.u with
                         heap := s.u.heap.set p (e.bumpShortPollInterval k
                           (c.clockNow (s.trace ++ [Call.instanceId e.m]))) },
                trace := s.trace ++ [Call.instanceId e.m] ++ [Call.clockNow] }
              (hvalid_set _)
            have hnew : ∀ ev ∈ [Call.instanceId e.m, Call.clockNow], ev = Call.clockNow ∨
                (Candidate g now e ∧ e.instanceID = "" ∧ ev = Call.instanceId e.m) := by
              intro ev hev
              rw [List.mem_cons, List.mem_singleton] at hev
              rcases hev with hev | hev
              · exact Or.inr ⟨hcand, hid, hev⟩
              · exact Or.inl hev
            revert h
            cases collectInstanceIDs c k g now rest acc
              { u := { s.u with
                         heap := s.u.heap.set p (e.bumpShortPollInterval k
                           (c.clockNow (s.trace ++ [Call.instanceId e.m]))) },
                trace := s.trace ++ [Call.instanceId e.m] ++ [Call.clockNow] } with
            | ok ids s1 =>
              rintro ⟨fs, hids, hsel⟩
              refine ⟨none :: fs, ?_, ?_⟩
              · rw [hids, List.reduceOption_cons_of_none]
              · refine selection_cons c k g now t p rest fs none s
                  ({ u := { s.u with
                                    heap := s.u.heap.set p (e.bumpShortPollInterval k
                                        (c.clockNow (s.trace ++ [Call.instanceId e.m]))) },
                     trace := s.trace ++ [Call.instanceId e.m] ++ [Call.clockNow] } : State) s1 e
                  (e.bumpShortPollInterval k (c.clockNow (s.trace ++ [Call.instanceId e.m])))
                  [Call.instanceId e.m, Call.clockNow] he
                  (List.getElem?_set_self hlt) hnot rfl rfl (hset_ne _) (by simp) hnew
                  (fun id1 q hq => Or.inl hq) ?_ hsel
                exact MemberFate.unprovisioned s.trace hcand hid (List.prefix_refl _)
                  (by simp) hres rfl
            | error err s1 =>
              intro herr
              exact selectionError_cons c g now t p rest s
                ({ u := { s.u with
                                    heap := s.u.heap.set p (e.bumpShortPollInterval k
                                        (c.clockNow (s.trace ++ [Call.instanceId e.m]))) },
                     trace := s.trace ++ [Call.instanceId e.m] ++ [Call.clockNow] } : State) s1 e
                [Call.instanceId e.m, Call.clockNow] err he hnot rfl rfl (hset_ne _) (by simp)
                hnew herr
            | panic => exact fun h => h
          · rw [collectInstanceIDs_error c k g now t p rest acc s e err he hcand hid hres hne]
            refine ⟨⟨(t, p), e, s.trace, List.mem_cons_self _ _, he, hcand, hid,
              List.prefix_refl _, hres, rfl⟩, hne, rfl, rfl, fun _ _ => rfl,
              [Call.instanceId e.m], rfl, ?_⟩
            intro ev hev
            exact Or.inr ⟨(t, p), e, List.mem_cons_self _ _, he, hcand, hid,
              List.mem_singleton.1 hev⟩
      · rw [collectInstanceIDs_resolved c k g now t p rest acc s e he hcand hid]
        have h := ih hnd (acc ++ [e.instanceID]) s
          (fun tp hmem => hvalid tp (List.mem_cons_of_mem _ hmem))
        revert h
        cases collectInstanceIDs c k g now rest (acc ++ [e.instanceID]) s with
        | ok ids s1 =>
          rintro ⟨fs, hids, hsel⟩
          refine ⟨some e.instanceID :: fs, ?_, ?_⟩
          · rw [hids, List.reduceOption_cons_of_some, List.append_assoc]
            rfl
          · exact selection_cons c k g now t p rest fs (some e.instanceID) s s s1 e e [] he he
              hnot rfl rfl (fun _ _ => rfl) (by simp) (fun ev hev => by cases hev)
              (fun id1 q hq => Or.inl hq) (MemberFate.resolved hcand hid rfl) hsel
        | error err s1 =>
          intro herr
          exact selectionError_cons c g now t p rest s s s1 e [] err he hnot rfl rfl
            (fun _ _ => rfl) (by simp) (fun ev hev => by cases hev) herr
        | panic => exact fun h => h
    · rw [collectInstanceIDs_skip c k g now t p rest acc s e he hcand]
      have h := ih hnd acc s (fun tp hmem => hvalid tp (List.mem_cons_of_mem _ hmem))
      revert h
      cases collectInstanceIDs c k g now rest acc s with
      | ok ids s1 =>
        rintro ⟨fs, hids, hsel⟩
        refine ⟨none :: fs, ?_, ?_⟩
        · rw [hids, List.reduceOption_cons_of_none]
        · exact selection_cons c k g now t p rest fs none s s s1 e e [] he he
            hnot rfl rfl (fun _ _ => rfl) (by simp) (fun ev hev => by cases hev)
            (fun id1 q hq => Or.inl hq) (MemberFate.notDue hcand rfl) hsel
      | error err s1 =>
        intro herr
        exact selectionError_cons c g now t p rest s s s1 e [] err he hnot rfl rfl
          (fun _ _ => rfl) (by simp) (fun ev hev => by cases hev) herr
      | panic => exact fun h => h

/-! ## The second loop of `pollGroupMembers` -/

theorem slotFrame_trans (p : Ptr) (e : pollGroupEntry) (info : InstHandle) (s s1 s2 : State)
    (h1 : SlotFrame p e info s s1) (h2 : SlotFrame p e info s1 s2) :
    SlotFrame p e info s s2 := by
  obtain ⟨a1, a2, _, a4, n1, a5, a6⟩ := h1
  obtain ⟨b1, b2, b3, b4, n2, b5, b6⟩ := h2
  refine ⟨b1.trans a1, fun q hq => (b2 q hq).trans (a2 q hq), b3,
    fun t ht => ⟨((b4 t ht).1).trans ((a4 t ht).1), ((b4 t ht).2).trans ((a4 t ht).2)⟩,
    n1 ++ n2, ?_, ?_⟩
  · rw [b5, a5, List.append_assoc]
  · intro ev hev
    rcases List.mem_append.1 hev with h | h
    · exact a6 ev h
    · exact b6 ev h

theorem slotFrame_congr (p : Ptr) (e e1 : pollGroupEntry) (info : InstHandle) (s s1 : State)
    (hm : e1.m = e.m) (ht : e1.tag = e.tag) (hi : e1.instanceID = e.instanceID)
    (h : SlotFrame p e1 info s s1) : SlotFrame p e info s s1 := by
  obtain ⟨a1, a2, ⟨e2, a3, a3m, a3t, a3i⟩, a4, n1, a5, a6⟩ := h
  refine ⟨a1, a2, ⟨e2, a3, a3m.trans hm, a3t.trans ht, a3i.trans hi⟩, ?_, n1, a5, ?_⟩
  · intro t htt
    exact a4 t (by rw [ht]; exact htt)
  · intro ev hev
    rw [← hm]
    exact a6 ev hev

/-- A step that only makes calls of the slot. -/
theorem slotFrame_calls (p : Ptr) (e : pollGroupEntry) (info : InstHandle) (s s1 : State)
    (new : List Call) (hp : s.u.heap[p]? = some e)
    (hu : s1.u = s.u) (htr : s1.trace = s.trace ++ new)
    (hnew : ∀ ev ∈ new, Call.ofSlot e.m info ev = true) :
    SlotFrame p e info s s1 :=
  ⟨by rw [hu], fun _ _ => by rw [hu], ⟨e, by rw [hu]; exact hp, rfl, rfl, rfl⟩,
    fun _ _ => ⟨by rw [hu], by rw [hu]⟩, new, htr, hnew⟩

/-- A step that makes calls of the slot and rewrites the timing of the entry. -/
theorem slotFrame_set (p : Ptr) (e e1 : pollGroupEntry) (info : InstHandle) (s s1 : State)
    (new : List Call) (hp : s.u.heap[p]? = some e)
    (hm : e1.m = e.m) (ht : e1.tag = e.tag) (hi : e1.instanceID = e.instanceID)
    (hu : s1.u = { s.u with heap := s.u.heap.set p e1 }) (htr : s1.trace = s.trace ++ new)
    (hnew : ∀ ev ∈ new, Call.ofSlot e.m info ev = true) :
    SlotFrame p e info s s1 := by
  have hlt : p < s.u.heap.length := (List.getElem?_eq_some_iff.1 hp).1
  refine ⟨by rw [hu], fun q hq => ?_, ⟨e1, ?_, hm, ht, hi⟩,
    fun _ _ => ⟨by rw [hu], by rw [hu]⟩, new, htr, hnew⟩
  · rw [hu]
    exact List.getElem?_set_ne (fun h => hq h.symm)
  · rw [hu]
    exact List.getElem?_set_self hlt

/-- `maybeSwitchPollGroup` returns, and stays within the frame of the slot. -/
theorem maybeSwitchPollGroup_slot (c : Collaborators) (k : PollConsts) (g : pollGroupType)
    (p : Ptr) (ps ms : Status) (info : InstHandle) (s : State) (e : pollGroupEntry)
    (hp : s.u.heap[p]? = some e) :
    ∃ s1, maybeSwitchPollGroup c k g p ps ms s = Outcome.ok () s1 ∧
      SlotFrame p e info s s1 := by
  have hlt : p < s.u.heap.length := (List.getElem?_eq_some_iff.1 hp).1
  by_cases h1 : ps = Status.Allocating ∨ ps = Status.Pending
  · rw [maybeSwitchPollGroup_unsettled c k g p ps ms s h1,
      bumpShortPollInterval_apply c k p s e hp]
    exact ⟨_, rfl, slotFrame_set p e (e.bumpShortPollInterval k (c.clockNow s.trace)) info s _
      [Call.clockNow] hp rfl rfl rfl rfl rfl (by simp [Call.ofSlot])⟩
  · cases g with
    | longPollGroup =>
      by_cases h2 : ps = Status.Unknown ∨ c.addressesReturned s.trace e.m = []
      · rw [maybeSwitchPollGroup_demote c k p ps ms s e hp h1 h2]
        refine ⟨_, rfl, rfl, fun q hq => List.getElem?_set_ne (fun h => hq h.symm),
          ⟨_, List.getElem?_set_self hlt, rfl, rfl, rfl⟩, fun t ht => ⟨?_, ?_⟩,
          [Call.providerAddresses e.m, Call.clockNow], by simp, by simp [Call.ofSlot]⟩
        · show mapLookup (mapInsert s.u.shortGroup e.tag p) t = _
          rw [mapLookup_mapInsert, if_neg (fun h => ht h.symm)]
        · show mapLookup (mapDelete s.u.longGroup e.tag) t = _
          rw [mapLookup_mapDelete, if_neg (fun h => ht h.symm)]
      · rw [maybeSwitchPollGroup_stay_long c k p ps ms s e hp h1 h2]
        exact ⟨_, rfl, slotFrame_calls p e info s _ [Call.providerAddresses e.m] hp rfl rfl
          (by simp [Call.ofSlot])⟩
    | shortPollGroup =>
      by_cases h2 : c.addressesReturned s.trace e.m ≠ [] ∧ ms = Status.Started
      · rw [maybeSwitchPollGroup_promote c k p ps ms s e hp h1 h2.1 h2.2]
        refine ⟨_, rfl, rfl, fun q hq => rfl, ⟨e, hp, rfl, rfl, rfl⟩, fun t ht => ⟨?_, ?_⟩,
          [Call.providerAddresses e.m], rfl, by simp [Call.ofSlot]⟩
        · show mapLookup (mapDelete s.u.shortGroup e.tag) t = _
          rw [mapLookup_mapDelete, if_neg (fun h => ht h.symm)]
        · show mapLookup (mapInsert s.u.longGroup e.tag p) t = _
          rw [mapLookup_mapInsert, if_neg (fun h => ht h.symm)]
      · have h2c : c.addressesReturned s.trace e.m = [] ∨ ms ≠ Status.Started := by
          by_cases h3 : c.addressesReturned s.trace e.m = []
          · exact Or.inl h3
          · exact Or.inr (fun h4 => h2 ⟨h3, h4⟩)
        rw [maybeSwitchPollGroup_backoff c k p ps ms s e hp h1 h2c]
        exact ⟨_, rfl, slotFrame_set p e
          (e.bumpShortPollInterval k (c.clockNow (s.trace ++ [Call.providerAddresses e.m])))
          info s _ [Call.providerAddresses e.m, Call.clockNow] hp rfl rfl rfl rfl (by simp)
          (by simp [Call.ofSlot])⟩

/-- `processProviderInfo` does not panic and stays within the frame of the slot; it
leaves the poll groups alone. -/
theorem processProviderInfo_slot (c : Collaborators) (k : PollConsts) (p : Ptr)
    (info : InstHandle) (s : State) (e : pollGroupEntry) (hp : s.u.heap[p]? = some e) :
    ∃ s1, (processProviderInfo c k p info s).state? = some s1 ∧ SlotFrame p e info s s1 ∧
      s1.u.shortGroup = s.u.shortGroup ∧ s1.u.longGroup = s.u.longGroup := by
  cases hcur : c.instanceStatus s.trace e.m with
  | error err =>
    rw [processProviderInfo_unread c k p info s e err hp hcur]
    exact ⟨_, rfl, slotFrame_calls p e info s _ [Call.instanceStatus e.m] hp rfl rfl
      (by simp [Call.ofSlot]), rfl, rfl⟩
  | ok cur =>
    rcases processProviderInfo_reaches c k p info s e cur hp hcur with
      ⟨err, _, h⟩ | ⟨s2, h, hu, new, htr, hnew⟩
    · rw [h]
      exact ⟨_, rfl, slotFrame_calls p e info s _
        [Call.instanceStatus e.m, Call.instStatus info,
          Call.setInstanceStatus e.m
            (c.instStatus (s.trace ++ [Call.instanceStatus e.m]) info).Status
            (c.instStatus (s.trace ++ [Call.instanceStatus e.m]) info).Message]
        hp rfl (by simp) (by simp [Call.ofSlot]), rfl, rfl⟩
    · rw [h]
      obtain ⟨s3, hst, hu3, new3, htr3, hnew3⟩ :=
        processProviderInfoAddresses_frame c e info
          (c.instStatus (s.trace ++ [Call.instanceStatus e.m]) info) s2
      have hnew3a : ∀ ev ∈ new3, Call.ofSlot e.m info ev = true := by
        intro ev hev
        rcases hnew3 ev hev with h | h | h | ⟨addrs, h⟩ <;> subst h <;> simp [Call.ofSlot]
      have hall : ∀ ev ∈ new ++ new3, Call.ofSlot e.m info ev = true := by
        intro ev hev
        rcases List.mem_append.1 hev with h | h
        · exact hnew ev h
        · exact hnew3a ev h
      have htr13 : s3.trace = s.trace ++ (new ++ new3) := by
        rw [htr3, htr, List.append_assoc]
      refine ⟨s3, hst, ?_, ?_, ?_⟩
      · rcases hu with hu | ⟨now, hu⟩
        · exact slotFrame_calls p e info s s3 (new ++ new3) hp (hu3.trans hu) htr13 hall
        · exact slotFrame_set p e (e.resetShortPollInterval k now) info s s3 (new ++ new3) hp
            rfl rfl rfl (hu3.trans hu) htr13 hall
      · rw [hu3]
        rcases hu with hu | ⟨now, hu⟩ <;> rw [hu]
      · rw [hu3]
        rcases hu with hu | ⟨now, hu⟩ <;> rw [hu]

/-- Second loop, a nil slot: nothing happens. -/
theorem processInfoList_absent (c : Collaborators) (k : PollConsts) (g : pollGroupType)
    (instList : List InstanceId) (idx : Nat) (rest : List (Option InstHandle)) (s : State)
    (id : InstanceId) (hid : instList[idx]? = some id) :
    processInfoList c k g instList idx (none :: rest) s =
      processInfoList c k g instList (idx + 1) rest s := by
  rw [processInfoList]
  simp only [hid]

/-- Second loop, a slot beyond the end of the batch: the index expression panics. -/
theorem processInfoList_beyond (c : Collaborators) (k : PollConsts) (g : pollGroupType)
    (instList : List InstanceId) (idx : Nat) (slot : Option InstHandle)
    (rest : List (Option InstHandle)) (s : State) (hid : instList[idx]? = none) :
    processInfoList c k g instList idx (slot :: rest) s = Outcome.panic := by
  rw [processInfoList]
  simp only [hid]
  rfl

/-- Second loop, a slot whose id the reverse index does not hold: the nil entry is
dereferenced. -/
theorem processInfoList_unindexed (c : Collaborators) (k : PollConsts) (g : pollGroupType)
    (instList : List InstanceId) (idx : Nat) (info : InstHandle)
    (rest : List (Option InstHandle)) (s : State) (id : InstanceId)
    (hid : instList[idx]? = some id)
    (hp : mapLookup s.u.instanceIDToGroupEntry id = none) :
    processInfoList c k g instList idx (some info :: rest) s = Outcome.panic := by
  rw [processInfoList]
  simp only [hid, M.bind_apply, getU, hp]
  rfl

/-- Second loop, a slot holding an instance: the entry the reverse index gives for the
id is handled, then the loop goes on. -/
theorem processInfoList_present (c : Collaborators) (k : PollConsts) (g : pollGroupType)
    (instList : List InstanceId) (idx : Nat) (info : InstHandle)
    (rest : List (Option InstHandle)) (s : State) (id : InstanceId) (p : Ptr)
    (hid : instList[idx]? = some id)
    (hp : mapLookup s.u.instanceIDToGroupEntry id = some p) :
    processInfoList c k g instList idx (some info :: rest) s =
      match pollGroupMembersSlot c k g p info s with
      | .ok _ s1 => processInfoList c k g instList (idx + 1) rest s1
      | .error err s1 => .error err s1
      | .panic => .panic := by
  rw [processInfoList]
  simp only [hid, M.bind_apply, getU, hp, pollGroupMembersSlot]
  cases processProviderInfo c k p info s with
  | ok ps s1 =>
    simp only []
    cases deref p s1 with
    | ok entry s2 =>
      simp only []
      cases invokeOrReturn (Call.status entry.m) (fun tr => c.status tr entry.m) s2 with
      | ok ms s3 =>
        simp only []
        cases maybeSwitchPollGroup c k g p ps ms.Status s3 <;> rfl
      | error err s3 => rfl
      | panic => rfl
    | error err s2 => rfl
    | panic => rfl
  | error err s1 => rfl
  | panic => rfl

/-- Handling a slot does not panic and stays within the frame of the slot. -/
theorem pollGroupMembersSlot_frame (c : Collaborators) (k : PollConsts) (g : pollGroupType)
    (p : Ptr) (info : InstHandle) (s : State) (e : pollGroupEntry)
    (hp : s.u.heap[p]? = some e) :
    ∃ s1, (pollGroupMembersSlot c k g p info s).state? = some s1 ∧
      SlotFrame p e info s s1 := by
  obtain ⟨s1, hst, hfr, _, _⟩ := processProviderInfo_slot c k p info s e hp
  unfold pollGroupMembersSlot
  simp only [M.bind_apply]
  cases hx : processProviderInfo c k p info s with
  | panic =>
    rw [hx] at hst
    cases hst
  | error err s1a =>
    rw [hx] at hst
    injection hst with hst
    subst hst
    exact ⟨_, rfl, hfr⟩
  | ok ps s1a =>
    rw [hx] at hst
    injection hst with hst
    subst hst
    obtain ⟨e1, he1, hm, ht, hi⟩ := hfr.entry
    simp only [deref_apply p s1a e1 he1]
    cases hms : c.status s1a.trace e1.m with
    | error err =>
      rw [invokeOrReturn_apply_error _ _ _ err hms]
      refine ⟨_, rfl, slotFrame_trans p e info s s1a _ hfr ?_⟩
      exact slotFrame_congr p e e1 info _ _ hm ht hi
        (slotFrame_calls p e1 info s1a
          { u := s1a.u, trace := s1a.trace ++ [Call.status e1.m] } [Call.status e1.m] he1
          rfl rfl (by simp [Call.ofSlot]))
    | ok ms =>
      rw [invokeOrReturn_apply_ok _ _ _ ms hms]
      simp only []
      obtain ⟨s3, hrun, hfr3⟩ := maybeSwitchPollGroup_slot c k g p ps ms.Status info
        { u := s1a.u, trace := s1a.trace ++ [Call.status e1.m] } e1 he1
      rw [hrun]
      refine ⟨s3, rfl, slotFrame_trans p e info s s1a s3 hfr ?_⟩
      refine slotFrame_congr p e e1 info _ _ hm ht hi ?_
      exact slotFrame_trans p e1 info s1a _ s3
        (slotFrame_calls p e1 info s1a
          { u := s1a.u, trace := s1a.trace ++ [Call.status e1.m] } [Call.status e1.m] he1
          rfl rfl (by simp [Call.ofSlot])) hfr3

theorem slotTarget_succ (u : updaterWorker) (instList : List InstanceId) (idx : Nat)
    (slot : Option InstHandle) (rest : List (Option InstHandle)) (q : Ptr) (info : InstHandle)
    (h : SlotTarget u instList (idx + 1) rest q info) :
    SlotTarget u instList idx (slot :: rest) q info := by
  obtain ⟨i, id, h1, h2, h3⟩ := h
  refine ⟨i + 1, id, ?_, ?_, h3⟩
  · rw [List.getElem?_cons_succ]
    exact h1
  · rw [show idx + (i + 1) = idx + 1 + i by omega]
    exact h2

theorem slotTarget_zero (u : updaterWorker) (instList : List InstanceId) (idx : Nat)
    (rest : List (Option InstHandle)) (p : Ptr) (info : InstHandle) (id : InstanceId)
    (hid : instList[idx]? = some id) (hp : mapLookup u.instanceIDToGroupEntry id = some p) :
    SlotTarget u instList idx (some info :: rest) p info :=
  ⟨0, id, List.getElem?_cons_zero, by rw [Nat.add_zero]; exact hid, hp⟩

theorem slotTarget_index (u u1 : updaterWorker) (instList : List InstanceId) (idx : Nat)
    (infoList : List (Option InstHandle)) (q : Ptr) (info : InstHandle)
    (hi : u1.instanceIDToGroupEntry = u.instanceIDToGroupEntry)
    (h : SlotTarget u1 instList idx infoList q info) :
    SlotTarget u instList idx infoList q info := by
  obtain ⟨i, id, h1, h2, h3⟩ := h
  exact ⟨i, id, h1, h2, by rw [← hi]; exact h3⟩

theorem slotsFrame_refl (instList : List InstanceId) (idx : Nat)
    (infoList : List (Option InstHandle)) (s : State) :
    SlotsFrame instList idx infoList s s :=
  ⟨rfl, fun _ _ => rfl, fun q e1 h => ⟨e1, h, rfl, rfl, rfl⟩, fun _ _ => ⟨rfl, rfl⟩,
    [], by simp, fun ev hev => by cases hev⟩

/-- The frame of the loop over the remaining slots is a frame of the loop with one more
slot in front. -/
theorem slotsFrame_shift (instList : List InstanceId) (idx : Nat) (slot : Option InstHandle)
    (rest : List (Option InstHandle)) (s s1 : State)
    (h : SlotsFrame instList (idx + 1) rest s s1) :
    SlotsFrame instList idx (slot :: rest) s s1 := by
  obtain ⟨h1, h2, h3, h4, new, h5, h6⟩ := h
  refine ⟨h1, fun q hq => h2 q (fun info ht => hq info (slotTarget_succ _ _ _ _ _ _ _ ht)),
    h3, fun t ht => h4 t (fun q info e hq he => ht q info e (slotTarget_succ _ _ _ _ _ _ _ hq)
      he), new, h5, ?_⟩
  intro ev hev
  obtain ⟨q, info, e, hq, he, hc⟩ := h6 ev hev
  exact ⟨q, info, e, slotTarget_succ _ _ _ _ _ _ _ hq, he, hc⟩

/-- Entries after handling a slot, traced back to the entries before. -/
theorem slotFrame_entries (p : Ptr) (e : pollGroupEntry) (info : InstHandle) (s s1 : State)
    (h : SlotFrame p e info s s1) (hp : s.u.heap[p]? = some e) (q : Ptr)
    (e1 : pollGroupEntry) (hq : s1.u.heap[q]? = some e1) :
    ∃ e0, s.u.heap[q]? = some e0 ∧ e1.m = e0.m ∧ e1.tag = e0.tag ∧
      e1.instanceID = e0.instanceID := by
  by_cases hqp : q = p
  · subst hqp
    obtain ⟨e2, he2, hm, ht, hi⟩ := h.entry
    rw [he2] at hq
    injection hq with hq
    subst hq
    exact ⟨e, hp, hm, ht, hi⟩
  · rw [h.others q hqp] at hq
    exact ⟨e1, hq, rfl, rfl, rfl⟩

/-- The frame of handling the first slot, for the entry at `p`, followed by the frame of
the loop over the remaining slots. -/
theorem slotsFrame_cons (instList : List InstanceId) (idx : Nat) (info : InstHandle)
    (rest : List (Option InstHandle)) (s s1 s2 : State) (p : Ptr) (e : pollGroupEntry)
    (hp : s.u.heap[p]? = some e)
    (htarget : SlotTarget s.u instList idx (some info :: rest) p info)
    (hslot : SlotFrame p e info s s1)
    (h : SlotsFrame instList (idx + 1) rest s1 s2) :
    SlotsFrame instList idx (some info :: rest) s s2 := by
  have hshift : ∀ q info1, SlotTarget s1.u instList (idx + 1) rest q info1 →
      SlotTarget s.u instList idx (some info :: rest) q info1 := fun q info1 ht =>
    slotTarget_succ _ _ _ _ _ _ _ (slotTarget_index s.u s1.u _ _ _ _ _ hslot.index ht)
  obtain ⟨h1, h2, h3, h4, new, h5, h6⟩ := h
  obtain ⟨newp, a5, a6⟩ := hslot.calls
  refine ⟨h1.trans hslot.index, ?_, ?_, ?_, newp ++ new, ?_, ?_⟩
  · intro q hq
    have hqp : q ≠ p := fun heq => hq info (heq ▸ htarget)
    rw [h2 q (fun info1 ht => hq info1 (hshift q info1 ht)), hslot.others q hqp]
  · intro q e2 hq
    obtain ⟨e1, he1, hm, ht, hi⟩ := h3 q e2 hq
    obtain ⟨e0, he0, hm0, ht0, hi0⟩ := slotFrame_entries p e info s s1 hslot hp q e1 he1
    exact ⟨e0, he0, hm.trans hm0, ht.trans ht0, hi.trans hi0⟩
  · intro t ht
    have hte : t ≠ e.tag := fun heq => ht p info e htarget hp heq.symm
    have hrest := h4 t (fun q info1 e1 hq he1 => by
      obtain ⟨e0, he0, _, ht0, _⟩ := slotFrame_entries p e info s s1 hslot hp q e1 he1
      rw [ht0]
      exact ht q info1 e0 (hshift q info1 hq) he0)
    exact ⟨hrest.1.trans (hslot.groups t hte).1, hrest.2.trans (hslot.groups t hte).2⟩
  · rw [h5, a5, List.append_assoc]
  · intro ev hev
    rcases List.mem_append.1 hev with hev | hev
    · exact ⟨p, info, e, htarget, hp, a6 ev hev⟩
    · obtain ⟨q, info1, e1, hq, he1, hc⟩ := h6 ev hev
      obtain ⟨e0, he0, hm0, _, _⟩ := slotFrame_entries p e info s s1 hslot hp q e1 he1
      exact ⟨q, info1, e0, hshift q info1 hq, he0, by rw [← hm0]; exact hc⟩

/-- Handling a slot whose entry pointer addresses nothing panics. -/
theorem pollGroupMembersSlot_dangling (c : Collaborators) (k : PollConsts)
    (g : pollGroupType) (p : Ptr) (info : InstHandle) (s : State)
    (hp : s.u.heap[p]? = none) : pollGroupMembersSlot c k g p info s = Outcome.panic := by
  unfold pollGroupMembersSlot processProviderInfo
  simp only [M.bind_apply, deref, hp]

/-- The second loop of `pollGroupMembers` stays within the frame of its slots, whether it
returns or fails. -/
theorem processInfoList_frame (c : Collaborators) (k : PollConsts) (g : pollGroupType)
    (instList : List InstanceId) (infoList : List (Option InstHandle)) :
    ∀ (idx : Nat) (s : State),
      match processInfoList c k g instList idx infoList s with
      | .ok _ s1 => SlotsFrame instList idx infoList s s1
      | .error _ s1 => SlotsFrame instList idx infoList s s1
      | .panic => True := by
  induction infoList with
  | nil =>
    intro idx s
    rw [processInfoList]
    exact slotsFrame_refl instList idx [] s
  | cons slot rest ih =>
    intro idx s
    cases hid : instList[idx]? with
    | none =>
      rw [processInfoList_beyond c k g instList idx slot rest s hid]
      trivial
    | some id =>
      cases slot with
      | none =>
        rw [processInfoList_absent c k g instList idx rest s id hid]
        have h := ih (idx + 1) s
        revert h
        cases processInfoList c k g instList (idx + 1) rest s with
        | ok a s1 => exact fun h => slotsFrame_shift instList idx none rest s s1 h
        | error err s1 => exact fun h => slotsFrame_shift instList idx none rest s s1 h
        | panic => exact fun _ => trivial
      | some info =>
        cases hp : mapLookup s.u.instanceIDToGroupEntry id with
        | none =>
          rw [processInfoList_unindexed c k g instList idx info rest s id hid hp]
          trivial
        | some p =>
          rw [processInfoList_present c k g instList idx info rest s id p hid hp]
          have htarget := slotTarget_zero s.u instList idx rest p info id hid hp
          cases he : s.u.heap[p]? with
          | none =>
            rw [pollGroupMembersSlot_dangling c k g p info s he]
            trivial
          | some e =>
            obtain ⟨s1, hst, hfr⟩ := pollGroupMembersSlot_frame c k g p info s e he
            revert hst
            cases pollGroupMembersSlot c k g p info s with
            | panic => exact fun hst => by cases hst
            | error err s1a =>
              intro hst
              injection hst with hst
              subst hst
              exact slotsFrame_cons instList idx info rest s s1a s1a p e he htarget hfr
                (slotsFrame_refl instList (idx + 1) rest s1a)
            | ok a s1a =>
              intro hst
              injection hst with hst
              subst hst
              have h := ih (idx + 1) s1a
              show match processInfoList c k g instList (idx + 1) rest s1a with
                | .ok _ s1 => SlotsFrame instList idx (some info :: rest) s s1
                | .error _ s1 => SlotsFrame instList idx (some info :: rest) s s1
                | .panic => True
              revert h
              cases processInfoList c k g instList (idx + 1) rest s1a with
              | ok a2 s2 =>
                exact fun h => slotsFrame_cons instList idx info rest s s1a s2 p e he htarget
                  hfr h
              | error err s2 =>
                exact fun h => slotsFrame_cons instList idx info rest s s1a s2 p e he htarget
                  hfr h
              | panic => exact fun _ => trivial

/-! ## A poll as a whole -/

/-- In a well-formed worker the members of a poll group have distinct pointers, each
addressing an entry. -/
theorem wellFormed_members (u : updaterWorker) (hwf : WellFormed u) (g : pollGroupType) :
    ((u.pollGroup g).map Prod.snd).Nodup ∧
      ∀ tp ∈ u.pollGroup g, ∃ e, u.heap[tp.2]? = some e ∧ e.tag = tp.1 := by
  have hkeys : (mapKeys (u.pollGroup g)).Nodup := nodup_pollGroup u hwf g
  have hentry : ∀ tp ∈ u.pollGroup g, ∃ e, u.heap[tp.2]? = some e ∧ e.tag = tp.1 := by
    intro tp hmem
    exact hwf.groupEntry g tp.1 tp.2 (mapLookup_of_mem _ tp.1 tp.2 hkeys hmem)
  refine ⟨?_, hentry⟩
  refine List.Nodup.map_on ?_ (List.Nodup.of_map Prod.fst hkeys)
  intro x hx y hy hxy
  obtain ⟨ex, hex, htx⟩ := hentry x hx
  obtain ⟨ey, hey, hty⟩ := hentry y hy
  rw [hxy, hey] at hex
  injection hex with hex
  have h1 : x.1 = y.1 := by rw [← htx, ← hty, hex]
  exact Prod.ext h1 hxy

/-- The first loop of `pollGroupMembers` in a well-formed worker: it ends with an error,
which `pollGroupMembers` returns, or with a batch. -/
theorem pollGroupMembers_selection (c : Collaborators) (k : PollConsts) (g : pollGroupType)
    (s : State) (hwf : WellFormed s.u) :
    (∃ err s1,
        collectInstanceIDs c k g (c.clockNow s.trace) (s.u.pollGroup g) []
          { u := s.u, trace := s.trace ++ [Call.clockNow] } = Outcome.error err s1 ∧
        pollGroupMembers c k g s = Outcome.error err s1 ∧
        SelectionError c g (c.clockNow s.trace) (s.u.pollGroup g)
          { u := s.u, trace := s.trace ++ [Call.clockNow] } err s1) ∨
      ∃ ids s1 fates,
        collectInstanceIDs c k g (c.clockNow s.trace) (s.u.pollGroup g) []
          { u := s.u, trace := s.trace ++ [Call.clockNow] } = Outcome.ok ids s1 ∧
        ids = fates.reduceOption ∧
        Selection c k g (c.clockNow s.trace) (s.u.pollGroup g) fates
          { u := s.u, trace := s.trace ++ [Call.clockNow] } s1 := by
  obtain ⟨hnd, hvalid⟩ := wellFormed_members s.u hwf g
  have h := collectInstanceIDs_selection c k g (c.clockNow s.trace) (s.u.pollGroup g) hnd []
    { u := s.u, trace := s.trace ++ [Call.clockNow] }
    (fun tp hmem => (hvalid tp hmem).imp (fun e he => he.1))
  cases hx : collectInstanceIDs c k g (c.clockNow s.trace) (s.u.pollGroup g) []
      { u := s.u, trace := s.trace ++ [Call.clockNow] } with
  | ok ids s1 =>
    rw [hx] at h
    obtain ⟨fates, hids, hsel⟩ := h
    exact Or.inr ⟨ids, s1, fates, rfl, by rw [hids, List.nil_append], hsel⟩
  | error err s1 =>
    rw [hx] at h
    exact Or.inl ⟨err, s1, rfl, pollGroupMembers_apply_error c k g s s1 err hx, h⟩
  | panic =>
    rw [hx] at h
    exact h.elim

/-- The calls of the first loop are clock readings and `InstanceId()` calls. -/
theorem selectionFrame_calls (g : pollGroupType) (now : Time)
    (members : List (MachineTag × Ptr)) (s s1 : State)
    (h : SelectionFrame g now members s s1) :
    ∃ new, s1.trace = s.trace ++ new ∧
      ∀ ev ∈ new, ev = Call.clockNow ∨ ∃ m, ev = Call.instanceId m := by
  obtain ⟨new, htr, hnew⟩ := h.calls
  refine ⟨new, htr, fun ev hev => ?_⟩
  rcases hnew ev hev with h1 | ⟨_, e, _, _, _, _, h1⟩
  · exact Or.inl h1
  · exact Or.inr ⟨e.m, h1⟩

theorem pairQueued_reachable : Reachable partialWorld defaultConsts pairQueued :=
  Reachable.queue _ pairQueued "2"
    (Reachable.queue State.init
      { u := { heap := [{ m := 1, tag := "1", instanceID := "",
                          shortPollInterval := 1000000000, shortPollAt := 3000000000 }],
               shortGroup := [("1", 0)], longGroup := [], instanceIDToGroupEntry := [] },
        trace := [Call.facadeMachine "1", Call.isManual 1, Call.clockNow] }
      "1" Reachable.init (by rfl))
    (by rfl)

theorem pairSelected_run :
    collectInstanceIDs partialWorld defaultConsts pollGroupType.shortPollGroup
        (partialWorld.clockNow pairQueued.trace)
        (pairQueued.u.pollGroup pollGroupType.shortPollGroup) []
        { u := pairQueued.u, trace := pairQueued.trace ++ [Call.clockNow] } =
      Outcome.ok ["i-2", "i-1"] pairSelected := by
  rfl

theorem pairPolled_loop :
    processInfoList partialWorld defaultConsts pollGroupType.shortPollGroup ["i-2", "i-1"] 0
        [none, some 1]
        { u := pairSelected.u,
          trace := pairSelected.trace ++ [Call.environInstances ["i-2", "i-1"]] } =
      Outcome.ok () pairPolled := by
  rfl

theorem pairPolled_run :
    pollGroupMembers partialWorld defaultConsts pollGroupType.shortPollGroup pairQueued =
      Outcome.ok () pairPolled := by
  rw [pollGroupMembers_apply partialWorld defaultConsts pollGroupType.shortPollGroup pairQueued
    pairSelected ["i-2", "i-1"] pairSelected_run, if_neg (by decide)]
  exact pairPolled_loop

/-- C14 (errors of the provider query).  In a well-formed worker, let the first loop of
`pollGroupMembers` return the non-empty batch `ids` in state `s1`, so that
`Environ.Instances` is called with it.  If the call yields the slice `infos` with no
error or with `ErrPartialInstances`, `pollGroupMembers` is, in both cases alike, the
second loop over `infos` from slot 0: the partial error is dropped.  If it yields any
other error, `pollGroupMembers` returns that error right after the call; by then the
two poll groups are what they were and the calls made are clock readings, `InstanceId()`
calls and the one `Environ.Instances` call, so no `SetInstanceStatus` and no
`SetProviderAddresses`. -/
theorem provider_query_errors (c : Collaborators) (k : PollConsts) (g : pollGroupType)
    (s s1 : State) (ids : List InstanceId) (hwf : WellFormed s.u)
    (hloop : collectInstanceIDs c k g (c.clockNow s.trace) (s.u.pollGroup g) []
      { u := s.u, trace := s.trace ++ [Call.clockNow] } = Outcome.ok ids s1)
    (hids : ids ≠ []) :
    (∀ infos, (c.environInstances s1.trace ids = (infos, none) ∨
          c.environInstances s1.trace ids = (infos, some Error.ErrPartialInstances)) →
        pollGroupMembers c k g s =
          processInfoList c k g ids 0 infos
            { u := s1.u, trace := s1.trace ++ [Call.environInstances ids] }) ∧
      (∀ infos err, c.environInstances s1.trace ids = (infos, some err) →
        err ≠ Error.ErrPartialInstances →
        pollGroupMembers c k g s =
          Outcome.error err { u := s1.u, trace := s1.trace ++ [Call.environInstances ids] } ∧
        s1.u.shortGroup = s.u.shortGroup ∧ s1.u.longGroup = s.u.longGroup ∧
        ∃ new, s1.trace ++ [Call.environInstances ids] =
            s.trace ++ new ++ [Call.environInstances ids] ∧
          ∀ ev ∈ new, ev = Call.clockNow ∨ ∃ m, ev = Call.instanceId m) := by
  have happly := pollGroupMembers_apply c k g s s1 ids hloop
  rw [if_neg hids] at happly
  refine ⟨fun infos hres => ?_, fun infos err hres herr => ?_⟩
  · rw [happly]
    rcases hres with hres | hres
    · rw [hres]
    · rw [hres]
      simp only [ne_eq, not_true_eq_false, if_false]
  · rw [happly, hres]
    simp only [if_pos herr]
    rcases pollGroupMembers_selection c k g s hwf with ⟨err1, s2, h, _⟩ | ⟨ids2, s2, fs, h, _, hsel⟩
    · rw [hloop] at h
      cases h
    · rw [hloop] at h
      injection h with h1 h2
      subst h2
      obtain ⟨new, htr, hnew⟩ := selectionFrame_calls g _ _ _ _ hsel.frame
      refine ⟨trivial, hsel.frame.short, hsel.frame.long, Call.clockNow :: new, ?_, ?_⟩
      · rw [htr]
        simp
      · intro ev hev
        rcases List.mem_cons.1 hev with h3 | h3
        · exact Or.inl h3
        · exact hnew ev h3

theorem provider_query_errors_witness :
    pollGroupMembers partialWorld defaultConsts pollGroupType.shortPollGroup pairQueued =
      processInfoList partialWorld defaultConsts pollGroupType.shortPollGroup ["i-2", "i-1"] 0
        [none, some 1]
        { u := pairSelected.u,
          trace := pairSelected.trace ++ [Call.environInstances ["i-2", "i-1"]] } :=
  (provider_query_errors partialWorld defaultConsts pollGroupType.shortPollGroup pairQueued
    pairSelected ["i-2", "i-1"]
    (reachable_wellFormed partialWorld defaultConsts pairQueued pairQueued_reachable)
    pairSelected_run (by decide)).1 [none, some 1] (Or.inr (by rfl))

theorem forall₂_of_mem_left {α β : Type} {R : α → β → Prop} :
    ∀ (l1 : List α) (l2 : List β), List.Forall₂ R l1 l2 → ∀ a ∈ l1, ∃ b ∈ l2, R a b := by
  intro l1 l2 h
  induction h with
  | nil => exact fun a ha => by cases ha
  | cons hab _ ih =>
    intro a ha
    rcases List.mem_cons.1 ha with h1 | h1
    · subst h1
      exact ⟨_, List.mem_cons_self _ _, hab⟩
    · obtain ⟨b, hb, hr⟩ := ih a h1
      exact ⟨b, List.mem_cons_of_mem _ hb, hr⟩

/-- A member that is not due is left as it is by the first loop. -/
theorem selection_notDue (c : Collaborators) (k : PollConsts) (g : pollGroupType) (now : Time)
    (members : List (MachineTag × Ptr)) (fates : List (Option InstanceId)) (s s1 : State)
    (h : Selection c k g now members fates s s1) (tp : MachineTag × Ptr) (hmem : tp ∈ members)
    (e : pollGroupEntry) (he : s.u.heap[tp.2]? = some e) (hskip : ¬ Candidate g now e) :
    s1.u.heap[tp.2]? = some e := by
  obtain ⟨f, _, e0, e1, h0, h1, hf⟩ := forall₂_of_mem_left _ _ h.fate tp hmem
  rw [he] at h0
  injection h0 with h0
  subst h0
  cases hf with
  | notDue _ heq => rw [h1, heq]
  | resolved hc _ _ => exact absurd hc hskip
  | resolves tr id hc _ _ _ _ _ => exact absurd hc hskip
  | unprovisioned tr hc _ _ _ _ _ => exact absurd hc hskip

/-- What follows the first loop of `pollGroupMembers`, for a batch that is not empty:
the state reached stays within the frame of the slots of the provider's answer. -/
theorem pollGroupMembers_slots (c : Collaborators) (k : PollConsts) (g : pollGroupType)
    (s s1 : State) (ids : List InstanceId)
    (hloop : collectInstanceIDs c k g (c.clockNow s.trace) (s.u.pollGroup g) []
      { u := s.u, trace := s.trace ++ [Call.clockNow] } = Outcome.ok ids s1)
    (hids : ids ≠ []) :
    match pollGroupMembers c k g s with
    | .ok _ s2 =>
      SlotsFrame ids 0 (c.environInstances s1.trace ids).1
        { u := s1.u, trace := s1.trace ++ [Call.environInstances ids] } s2
    | .error _ s2 =>
      SlotsFrame ids 0 (c.environInstances s1.trace ids).1
        { u := s1.u, trace := s1.trace ++ [Call.environInstances ids] } s2
    | .panic => True := by
  rw [pollGroupMembers_apply c k g s s1 ids hloop, if_neg hids]
  have hframe := processInfoList_frame c k g ids (c.environInstances s1.trace ids).1 0
    { u := s1.u, trace := s1.trace ++ [Call.environInstances ids] }
  cases hres : (c.environInstances s1.trace ids).2 with
  | none => exact hframe
  | some err =>
    simp only []
    by_cases herr : err ≠ Error.ErrPartialInstances
    · rw [if_pos herr]
      exact slotsFrame_refl _ _ _ _
    · rw [if_neg herr]
      exact hframe

/-- The second loop never calls `Environ.Instances`. -/
theorem slotsFrame_no_query (instList : List InstanceId) (idx : Nat)
    (infoList : List (Option InstHandle)) (s s1 : State)
    (h : SlotsFrame instList idx infoList s s1) :
    ∃ new, s1.trace = s.trace ++ new ∧
      ∀ ev ∈ new, ∀ ids : List InstanceId, ev ≠ Call.environInstances ids := by
  obtain ⟨new, htr, hnew⟩ := h.calls
  refine ⟨new, htr, fun ev hev ids heq => ?_⟩
  obtain ⟨_, info, e, _, _, hc⟩ := hnew ev hev
  rw [heq] at hc
  simp [Call.ofSlot] at hc

/-- When every member is a candidate with a known id, the batch is the list of the
members' ids. -/
theorem selection_all_resolved (c : Collaborators) (k : PollConsts) (g : pollGroupType)
    (now : Time) (tr0 tr1 : List Call) (heap heap1 : List pollGroupEntry)
    (members : List (MachineTag × Ptr)) (fates : List (Option InstanceId))
    (h : List.Forall₂
      (fun tp f => ∃ e e1, heap[tp.2]? = some e ∧ heap1[tp.2]? = some e1 ∧
        MemberFate c k g now tr0 tr1 e e1 f) members fates)
    (hall : ∀ tp ∈ members, ∀ e, heap[tp.2]? = some e →
      Candidate g now e ∧ e.instanceID ≠ "") :
    fates.reduceOption =
      members.filterMap (fun tp => (heap[tp.2]?).map pollGroupEntry.instanceID) := by
  induction h with
  | nil => rfl
  | @cons tp f rest fs hab _ ih =>
    obtain ⟨e, e1, he, _, hf⟩ := hab
    obtain ⟨hc, hid⟩ := hall tp (List.mem_cons_self _ _) e he
    have hrest := ih (fun tp1 h1 => hall tp1 (List.mem_cons_of_mem _ h1))
    have hf1 : f = some e.instanceID := by
      cases hf with
      | notDue hn _ => exact absurd hc hn
      | resolved _ _ _ => rfl
      | resolves tr id _ h0 _ _ _ _ => exact absurd h0 hid
      | unprovisioned tr _ h0 _ _ _ _ => exact absurd h0 hid
    rw [hf1, List.reduceOption_cons_of_some, hrest,
      List.filterMap_cons_some (by rw [he]; rfl)]

/-! ## Invariants in the middle of a poll, and a nil slot -/

/-- The invariant behind reverse-index consistency holds in every reachable state. -/
theorem reachable_indexInv (c : Collaborators) (k : PollConsts)
    (hd : DistinctInstanceIds c) (s : State) (h : Reachable c k s) :
    WellFormed s.u ∧ IndexInv c s.u :=
  reachable_of_steps_invariant c k (fun u => WellFormed u ∧ IndexInv c u)
    ⟨wellFormed_init, indexInv_init c⟩
    (fun u u1 hu hstep =>
      ⟨wellFormed_step c k u u1 hu.1 hstep, indexInv_step c k hd u u1 hu.1 hu.2 hstep⟩)
    (fun u short long hu hs hl =>
      ⟨wellFormed_reorder u short long hu.1 hs hl,
        indexInv_reorder c u short long hu.1 hu.2 hs hl⟩)
    s h

/-- It is kept by every sequence of mutations, so it holds in the middle of a poll. -/
theorem steps_indexInv (c : Collaborators) (k : PollConsts) (hd : DistinctInstanceIds c)
    (u u1 : updaterWorker) (h : Steps c k u u1) :
    WellFormed u ∧ IndexInv c u → WellFormed u1 ∧ IndexInv c u1 := by
  induction h with
  | refl => exact fun h => h
  | tail _ hlast ih =>
    intro h0
    have h1 := ih h0
    exact ⟨wellFormed_step c k _ _ h1.1 hlast, indexInv_step c k hd _ _ h1.1 h1.2 hlast⟩

theorem indexConsistent_of_indexInv (c : Collaborators) (u : updaterWorker)
    (hwf : WellFormed u) (hi : IndexInv c u) : IndexConsistent u := by
  refine ⟨hi.entryIndexed, ?_⟩
  intro id p hl
  obtain ⟨hne, e, he, hid, g, hg⟩ := hi.keyOfEntry id p hl
  refine ⟨hne, e, he, hid, ?_⟩
  cases g with
  | shortPollGroup =>
    refine Or.inl ⟨hg, ?_⟩
    rw [mapLookup_eq_none_iff]
    intro hmem
    exact hwf.exclusive e.tag ⟨mem_mapKeys_of_mapLookup _ _ _ hg, hmem⟩
  | longPollGroup =>
    refine Or.inr ⟨hg, ?_⟩
    rw [mapLookup_eq_none_iff]
    intro hmem
    exact hwf.exclusive e.tag ⟨hmem, mem_mapKeys_of_mapLookup _ _ _ hg⟩

/-- The state in which the first loop of a poll returns its batch is reached by
mutations of the state the poll started in. -/
theorem collectInstanceIDs_reach (c : Collaborators) (k : PollConsts) (g : pollGroupType)
    (s s1 : State) (ids : List InstanceId)
    (hloop : collectInstanceIDs c k g (c.clockNow s.trace) (s.u.pollGroup g) []
      { u := s.u, trace := s.trace ++ [Call.clockNow] } = Outcome.ok ids s1) :
    Steps c k s.u s1.u := by
  have h := collectInstanceIDs_steps c k g (c.clockNow s.trace) s.u.shortGroup s.u.longGroup
    s.u (s.u.pollGroup g)
    (by
      intro x hx
      cases g with
      | shortPollGroup => exact hx
      | longPollGroup => exact hx) []
  exact (triple_apply h { u := s.u, trace := s.trace ++ [Call.clockNow] }
    ⟨Relation.ReflTransGen.refl, rfl, rfl⟩ ids s1 hloop).1

/-- With instance ids that identify machines, the worker is well formed and index
consistent when the first loop of a poll returns its batch. -/
theorem selected_invariants (c : Collaborators) (k : PollConsts) (g : pollGroupType)
    (hd : DistinctInstanceIds c) (s s1 : State) (ids : List InstanceId)
    (hreach : Reachable c k s)
    (hloop : collectInstanceIDs c k g (c.clockNow s.trace) (s.u.pollGroup g) []
      { u := s.u, trace := s.trace ++ [Call.clockNow] } = Outcome.ok ids s1) :
    WellFormed s1.u ∧ IndexInv c s1.u ∧ IndexConsistent s1.u := by
  have h := steps_indexInv c k hd s.u s1.u (collectInstanceIDs_reach c k g s s1 ids hloop)
    (reachable_indexInv c k hd s hreach)
  exact ⟨h.1, h.2, indexConsistent_of_indexInv c s1.u h.1 h.2⟩

theorem partialWorld_distinctInstanceIds : DistinctInstanceIds partialWorld :=
  ⟨demoWorld_distinctInstanceIds.nonEmpty, demoWorld_distinctInstanceIds.distinct⟩

/-- In an index-consistent worker an indexed entry is filed in a poll group under its
tag. -/
theorem indexConsistent_filed (u : updaterWorker) (hic : IndexConsistent u)
    (id : InstanceId) (q : Ptr) (e : pollGroupEntry)
    (hq : mapLookup u.instanceIDToGroupEntry id = some q) (he : u.heap[q]? = some e) :
    e.instanceID = id ∧ ∃ g, mapLookup (u.pollGroup g) e.tag = some q := by
  obtain ⟨_, e1, he1, hid, hg⟩ := hic.keyOfEntry id q hq
  rw [he] at he1
  injection he1 with he1
  subst he1
  refine ⟨hid, ?_⟩
  rcases hg with hg | hg
  · exact ⟨pollGroupType.shortPollGroup, hg.1⟩
  · exact ⟨pollGroupType.longPollGroup, hg.1⟩

/-- The state in which the first loop ends, by return or by error, stays within the frame
of the loop. -/
theorem collectInstanceIDs_frame (c : Collaborators) (k : PollConsts) (g : pollGroupType)
    (now : Time) (members : List (MachineTag × Ptr)) (hnd : (members.map Prod.snd).Nodup)
    (acc : List InstanceId) (s : State)
    (hvalid : ∀ tp ∈ members, ∃ e, s.u.heap[tp.2]? = some e) (s1 : State)
    (h : (collectInstanceIDs c k g now members acc s).state? = some s1) :
    SelectionFrame g now members s s1 := by
  have hsel := collectInstanceIDs_selection c k g now members hnd acc s hvalid
  revert h hsel
  cases collectInstanceIDs c k g now members acc s with
  | ok ids s2 =>
    intro h hsel
    injection h with h
    obtain ⟨_, _, hs⟩ := hsel
    rw [← h]
    exact hs.frame
  | error err s2 =>
    intro h hsel
    injection h with h
    rw [← h]
    exact hsel.frame
  | panic =>
    intro h
    cases h

/-- A value that `instanceIDToGroupEntry` holds when the first loop ends, by return or
by error, is one it held when the loop started or is a member. -/
theorem collectInstanceIDs_index (c : Collaborators) (k : PollConsts) (g : pollGroupType)
    (now : Time) (members : List (MachineTag × Ptr)) :
    ∀ (acc : List InstanceId) (s s1 : State),
      (collectInstanceIDs c k g now members acc s).state? = some s1 →
      ∀ (id : InstanceId) (q : Ptr), mapLookup s1.u.instanceIDToGroupEntry id = some q →
        mapLookup s.u.instanceIDToGroupEntry id = some q ∨ q ∈ members.map Prod.snd := by
  induction members with
  | nil =>
    intro acc s s1 h id q hq
    rw [collectInstanceIDs] at h
    have h : some s = some s1 := h
    injection h with h
    rw [h]
    exact Or.inl hq
  | cons kv rest ih =>
    intro acc s s1 h id q hq
    obtain ⟨t, p⟩ := kv
    have hcons : ∀ x, x ∈ rest.map Prod.snd → x ∈ ((t, p) :: rest).map Prod.snd :=
      fun x hx => List.mem_cons_of_mem _ hx
    cases hheap : s.u.heap[p]? with
    | none =>
      rw [collectInstanceIDs] at h
      simp only [M.bind_apply, deref, hheap] at h
      cases h
    | some e =>
      by_cases hcand : Candidate g now e
      · by_cases hid : e.instanceID = ""
        · cases hres : c.instanceId s.trace e.m with
          | ok id0 =>
            rw [collectInstanceIDs_resolves c k g now t p _ acc s e id0 hheap hcand hid hres]
              at h
            rcases ih _ _ _ h id q hq with h1 | h1
            · have h2 : mapLookup (mapInsert s.u.instanceIDToGroupEntry id0 p) id = some q :=
                h1
              rw [mapLookup_mapInsert] at h2
              by_cases h3 : id0 = id
              · rw [if_pos h3] at h2
                injection h2 with h2
                rw [← h2]
                exact Or.inr (List.mem_cons_self _ _)
              · rw [if_neg h3] at h2
                exact Or.inl h2
            · exact Or.inr (hcons q h1)
          | error err =>
            by_cases hne : err = Error.NotProvisioned
            · subst hne
              rw [collectInstanceIDs_unprovisioned c k g now t p _ acc s e hheap hcand hid hres]
                at h
              rcases ih _ _ _ h id q hq with h1 | h1
              · exact Or.inl h1
              · exact Or.inr (hcons q h1)
            · rw [collectInstanceIDs_error c k g now t p _ acc s e err hheap hcand hid hres hne]
                at h
              have h : some ({ u := s.u, trace := s.trace ++ [Call.instanceId e.m] } : State) =
                  some s1 := h
              injection h with h
              rw [← h] at hq
              exact Or.inl hq
        · rw [collectInstanceIDs_resolved c k g now t p _ acc s e hheap hcand hid] at h
          rcases ih _ _ _ h id q hq with h1 | h1
          · exact Or.inl h1
          · exact Or.inr (hcons q h1)
      · rw [collectInstanceIDs_skip c k g now t p _ acc s e hheap hcand] at h
        rcases ih _ _ _ h id q hq with h1 | h1
        · exact Or.inl h1
        · exact Or.inr (hcons q h1)

/-- A member of the polled group that the first loop leaves out of
`instanceIDToGroupEntry` stays as the loop left it until the poll ends.  The poll is
made in a reachable state, with instance ids that identify machines; `sb` is a state of
the first loop from which the members `post` remain to be visited, `p` not among them. -/
theorem pollGroupMembers_unindexed (c : Collaborators) (k : PollConsts) (g : pollGroupType)
    (hd : DistinctInstanceIds c) (s : State) (hreach : Reachable c k s)
    (post : List (MachineTag × Ptr)) (tag : MachineTag) (p : Ptr) (eb : pollGroupEntry)
    (acc : List InstanceId) (sb : State)
    (hlookup : mapLookup (s.u.pollGroup g) tag = some p)
    (hndpost : (post.map Prod.snd).Nodup) (hppost : p ∉ post.map Prod.snd)
    (hvalid : ∀ tp ∈ post, ∃ e, sb.u.heap[tp.2]? = some e)
    (hshort : sb.u.shortGroup = s.u.shortGroup) (hlong : sb.u.longGroup = s.u.longGroup)
    (hb : sb.u.heap[p]? = some eb)
    (hnoindex : ∀ id, mapLookup sb.u.instanceIDToGroupEntry id ≠ some p)
    (heq : collectInstanceIDs c k g (c.clockNow s.trace) (s.u.pollGroup g) []
        { u := s.u, trace := s.trace ++ [Call.clockNow] } =
      collectInstanceIDs c k g (c.clockNow s.trace) post acc sb) :
    ∀ s2, (pollGroupMembers c k g s).state? = some s2 →
      s2.u.heap[p]? = some eb ∧
      (∀ id, mapLookup s2.u.instanceIDToGroupEntry id ≠ some p) ∧
      mapLookup (s2.u.pollGroup g) tag = some p := by
  intro s2 hs2
  have hsel := collectInstanceIDs_selection c k g (c.clockNow s.trace) post hndpost acc sb
    hvalid
  have hfr : ∀ s1, (collectInstanceIDs c k g (c.clockNow s.trace) post acc sb).state? =
      some s1 →
      s1.u.heap[p]? = some eb ∧
      (∀ id, mapLookup s1.u.instanceIDToGroupEntry id ≠ some p) ∧
      s1.u.pollGroup g = s.u.pollGroup g := by
    intro s1 h1
    have hf := collectInstanceIDs_frame c k g (c.clockNow s.trace) post hndpost acc sb hvalid
      s1 h1
    have hi := collectInstanceIDs_index c k g (c.clockNow s.trace) post acc sb s1 h1
    refine ⟨(hf.others p hppost).trans hb, ?_, ?_⟩
    · intro id h
      rcases hi id p h with h2 | h2
      · exact hnoindex id h2
      · exact hppost h2
    · cases g with
      | shortPollGroup => exact hf.short.trans hshort
      | longPollGroup => exact hf.long.trans hlong
  cases hx : collectInstanceIDs c k g (c.clockNow s.trace) post acc sb with
  | ok ids s1 =>
    have hloop := heq.trans hx
    obtain ⟨h1heap, h1idx, h1grp⟩ := hfr s1 (by rw [hx]; rfl)
    by_cases hids : ids = []
    · rw [pollGroupMembers_apply c k g s s1 ids hloop, if_pos hids] at hs2
      have hs2 : some s1 = some s2 := hs2
      injection hs2 with hs2
      rw [← hs2]
      exact ⟨h1heap, h1idx, by rw [h1grp]; exact hlookup⟩
    · have hslots := pollGroupMembers_slots c k g s s1 ids hloop hids
      have hfr2 : SlotsFrame ids 0 (c.environInstances s1.trace ids).1
          { u := s1.u, trace := s1.trace ++ [Call.environInstances ids] } s2 := by
        revert hs2 hslots
        cases pollGroupMembers c k g s with
        | ok a s3 =>
          intro hs2 hslots
          injection hs2 with hs2
          rw [← hs2]
          exact hslots
        | error err s3 =>
          intro hs2 hslots
          injection hs2 with hs2
          rw [← hs2]
          exact hslots
        | panic =>
          intro hs2
          cases hs2
      obtain ⟨hwf1, _, hic1⟩ := selected_invariants c k g hd s s1 ids hreach hloop
      have hl1 : mapLookup (s1.u.pollGroup g) tag = some p := by
        rw [h1grp]
        exact hlookup
      have hnot : ∀ info,
          ¬ SlotTarget s1.u ids 0 (c.environInstances s1.trace ids).1 p info := by
        rintro info ⟨j, id1, _, _, h3⟩
        exact h1idx id1 h3
      have htag : ∀ q info e1,
          SlotTarget s1.u ids 0 (c.environInstances s1.trace ids).1 q info →
          s1.u.heap[q]? = some e1 → e1.tag ≠ tag := by
        intro q info e1 hq he1 heqt
        have hqp : q ≠ p := fun h => hnot info (h ▸ hq)
        obtain ⟨j, id1, _, _, h3⟩ := hq
        obtain ⟨_, g1, hg1⟩ := indexConsistent_filed s1.u hic1 id1 q e1 h3 he1
        rw [heqt] at hg1
        exact hqp (pollGroup_lookup_unique s1.u hwf1 g1 g tag q p hg1 hl1).2
      refine ⟨(hfr2.others p hnot).trans h1heap, ?_, ?_⟩
      · intro id
        rw [hfr2.index]
        exact h1idx id
      · have hg := hfr2.groups tag htag
        cases g with
        | shortPollGroup => exact hg.1.trans hl1
        | longPollGroup => exact hg.2.trans hl1
  | error err s1 =>
    have hloop := heq.trans hx
    obtain ⟨h1heap, h1idx, h1grp⟩ := hfr s1 (by rw [hx]; rfl)
    rw [pollGroupMembers_apply_error c k g s s1 err hloop] at hs2
    have hs2 : some s1 = some s2 := hs2
    injection hs2 with hs2
    rw [← hs2]
    exact ⟨h1heap, h1idx, by rw [h1grp]; exact hlookup⟩
  | panic =>
    rw [hx] at hsel
    exact hsel.elim

/-- C13 (unprovisioned machines).  A poll of group `g` starts in a reachable state `s`,
with instance ids that identify machines.  The members of the group are visited in the
order `pre`, then `(tag, p)`, then `post`; the loop over `pre` returns, in state `si`
with the batch `acc`; the entry `e` at `p` is a candidate (not a short-group entry due
later than the time `now` read when the poll started) with an empty `instanceID`, so
`InstanceId()` is called on its machine at `si`.

If that call returns NotProvisioned, the first loop goes on with `post` from the state
in which the entry is bumped once, at the time read after the call, and nothing else has
changed, the batch being `acc` still; the loop over `post` does not panic, an error it
ends with comes from a member of `post` (`SelectionError`), and a batch it returns is
`acc` followed by the ids added for members of `post`.  However the poll ends, by return
or by error, the entry at `p` is then the bumped entry, with `instanceID` empty, no key
of `instanceIDToGroupEntry` maps to `p`, and `tag` is still filed under `p` in group `g`.

If the call returns any other error, `pollGroupMembers` returns that error at once, and
no call made since the poll started is a call of `Environ.Instances`. -/
theorem unprovisioned_backoff (c : Collaborators) (k : PollConsts) (g : pollGroupType)
    (hd : DistinctInstanceIds c) (s : State) (hreach : Reachable c k s)
    (pre post : List (MachineTag × Ptr)) (tag : MachineTag) (p : Ptr) (e : pollGroupEntry)
    (acc : List InstanceId) (si : State)
    (hmembers : s.u.pollGroup g = pre ++ (tag, p) :: post)
    (hheap : s.u.heap[p]? = some e)
    (hcand : Candidate g (c.clockNow s.trace) e) (hid : e.instanceID = "")
    (hpre : collectInstanceIDs c k g (c.clockNow s.trace) pre []
      { u := s.u, trace := s.trace ++ [Call.clockNow] } = Outcome.ok acc si) :
    (c.instanceId si.trace e.m = Except.error Error.NotProvisioned →
      collectInstanceIDs c k g (c.clockNow s.trace) (s.u.pollGroup g) []
          { u := s.u, trace := s.trace ++ [Call.clockNow] } =
        collectInstanceIDs c k g (c.clockNow s.trace) post acc
          { u := { si.u with
                     heap := si.u.heap.set p (e.bumpShortPollInterval k
                       (c.clockNow (si.trace ++ [Call.instanceId e.m]))) },
            trace := si.trace ++ [Call.instanceId e.m] ++ [Call.clockNow] } ∧
      (match collectInstanceIDs c k g (c.clockNow s.trace) post acc
          { u := { si.u with
                     heap := si.u.heap.set p (e.bumpShortPollInterval k
                       (c.clockNow (si.trace ++ [Call.instanceId e.m]))) },
            trace := si.trace ++ [Call.instanceId e.m] ++ [Call.clockNow] } with
        | .ok ids s1 =>
          ∃ fates, ids = acc ++ fates.reduceOption ∧
            Selection c k g (c.clockNow s.trace) post fates
              { u := { si.u with
                         heap := si.u.heap.set p (e.bumpShortPollInterval k
                           (c.clockNow (si.trace ++ [Call.instanceId e.m]))) },
                trace := si.trace ++ [Call.instanceId e.m] ++ [Call.clockNow] } s1
        | .error err s1 =>
          SelectionError c g (c.clockNow s.trace) post
            { u := { si.u with
                       heap := si.u.heap.set p (e.bumpShortPollInterval k
                         (c.clockNow (si.trace ++ [Call.instanceId e.m]))) },
              trace := si.trace ++ [Call.instanceId e.m] ++ [Call.clockNow] } err s1
        | .panic => False) ∧
      ∀ s2, (pollGroupMembers c k g s).state? = some s2 →
        s2.u.heap[p]? = some (e.bumpShortPollInterval k
          (c.clockNow (si.trace ++ [Call.instanceId e.m]))) ∧
        (e.bumpShortPollInterval k
          (c.clockNow (si.trace ++ [Call.instanceId e.m]))).instanceID = "" ∧
        (∀ id, mapLookup s2.u.instanceIDToGroupEntry id ≠ some p) ∧
        mapLookup (s2.u.pollGroup g) tag = some p) ∧
    (∀ err, c.instanceId si.trace e.m = Except.error err → err ≠ Error.NotProvisioned →
      pollGroupMembers c k g s =
        Outcome.error err { u := si.u, trace := si.trace ++ [Call.instanceId e.m] } ∧
      ∃ new, si.trace ++ [Call.instanceId e.m] = s.trace ++ new ∧
        ∀ ev ∈ new, ∀ ids : List InstanceId, ev ≠ Call.environInstances ids) := by
  obtain ⟨hwf, hinv⟩ := reachable_indexInv c k hd s hreach
  obtain ⟨hnd, hvalid⟩ := wellFormed_members s.u hwf g
  have hlookup : mapLookup (s.u.pollGroup g) tag = some p :=
    mapLookup_of_mem (s.u.pollGroup g) tag p (nodup_pollGroup s.u hwf g)
      (by rw [hmembers]; simp)
  have hvalid0 : ∀ tp ∈ pre ++ (tag, p) :: post, ∃ e1, s.u.heap[tp.2]? = some e1 := by
    intro tp hmem
    rw [← hmembers] at hmem
    exact (hvalid tp hmem).imp (fun _ h => h.1)
  rw [hmembers, List.map_append, List.map_cons] at hnd
  have hndpre : (pre.map Prod.snd).Nodup := hnd.of_append_left
  have hndr := hnd.of_append_right
  rw [List.nodup_cons] at hndr
  obtain ⟨hppost, hndpost⟩ := hndr
  have hdisj := List.disjoint_of_nodup_append hnd
  have hppre : p ∉ pre.map Prod.snd := fun h => hdisj h (List.mem_cons_self _ _)
  have hfpre := collectInstanceIDs_frame c k g (c.clockNow s.trace) pre hndpre []
    { u := s.u, trace := s.trace ++ [Call.clockNow] }
    (fun tp hmem => hvalid0 tp (List.mem_append_left _ hmem)) si (by rw [hpre]; rfl)
  have hipre := collectInstanceIDs_index c k g (c.clockNow s.trace) pre []
    { u := s.u, trace := s.trace ++ [Call.clockNow] } si (by rw [hpre]; rfl)
  have hsi : si.u.heap[p]? = some e := (hfpre.others p hppre).trans hheap
  have hlt : p < si.u.heap.length := (List.getElem?_eq_some_iff.1 hsi).1
  have hnoindex : ∀ id, mapLookup si.u.instanceIDToGroupEntry id ≠ some p := by
    intro id h
    rcases hipre id p h with h1 | h1
    · obtain ⟨hne, e1, he1, hid1, _⟩ := hinv.keyOfEntry id p h1
      rw [hheap] at he1
      injection he1 with he1
      rw [← he1] at hid1
      exact hne (hid1.symm.trans hid)
    · exact hppre h1
  refine ⟨?_, ?_⟩
  · intro hnp
    have heq : collectInstanceIDs c k g (c.clockNow s.trace) (s.u.pollGroup g) []
          { u := s.u, trace := s.trace ++ [Call.clockNow] } =
        collectInstanceIDs c k g (c.clockNow s.trace) post acc
          { u := { si.u with
                     heap := si.u.heap.set p (e.bumpShortPollInterval k
                       (c.clockNow (si.trace ++ [Call.instanceId e.m]))) },
            trace := si.trace ++ [Call.instanceId e.m] ++ [Call.clockNow] } := by
      rw [hmembers, collectInstanceIDs_append c k g _ pre ((tag, p) :: post) [] _, hpre]
      exact collectInstanceIDs_unprovisioned c k g _ tag p post acc si e hsi hcand hid hnp
    have hvalidb : ∀ tp ∈ post, ∃ e1,
        (si.u.heap.set p (e.bumpShortPollInterval k
          (c.clockNow (si.trace ++ [Call.instanceId e.m]))))[tp.2]? = some e1 := by
      intro tp hmem
      obtain ⟨e1, he1⟩ := hvalid0 tp (List.mem_append_right _ (List.mem_cons_of_mem _ hmem))
      have hin : tp.2 ∈ post.map Prod.snd := List.mem_map.2 ⟨tp, hmem, rfl⟩
      have hne : p ≠ tp.2 := fun h => hppost (by rw [h]; exact hin)
      have hnpre : tp.2 ∉ pre.map Prod.snd := fun h => hdisj h (List.mem_cons_of_mem _ hin)
      exact ⟨e1, by rw [List.getElem?_set_ne hne, hfpre.others tp.2 hnpre]; exact he1⟩
    refine ⟨heq, collectInstanceIDs_selection c k g (c.clockNow s.trace) post hndpost acc _
      hvalidb, ?_⟩
    intro s2 hs2
    obtain ⟨h1, h2, h3⟩ := pollGroupMembers_unindexed c k g hd s hreach post tag p
      (e.bumpShortPollInterval k (c.clockNow (si.trace ++ [Call.instanceId e.m]))) acc
      { u := { si.u with
                 heap := si.u.heap.set p (e.bumpShortPollInterval k
                   (c.clockNow (si.trace ++ [Call.instanceId e.m]))) },
        trace := si.trace ++ [Call.instanceId e.m] ++ [Call.clockNow] }
      hlookup hndpost hppost hvalidb hfpre.short hfpre.long (List.getElem?_set_self hlt)
      hnoindex heq s2 hs2
    exact ⟨h1, hid, h2, h3⟩
  · intro err herr hne
    have hfull : collectInstanceIDs c k g (c.clockNow s.trace) (s.u.pollGroup g) []
          { u := s.u, trace := s.trace ++ [Call.clockNow] } =
        Outcome.error err { u := si.u, trace := si.trace ++ [Call.instanceId e.m] } := by
      rw [hmembers, collectInstanceIDs_append c k g _ pre ((tag, p) :: post) [] _, hpre]
      exact collectInstanceIDs_error c k g _ tag p post acc si e err hsi hcand hid herr hne
    refine ⟨pollGroupMembers_apply_error c k g s _ err hfull, ?_⟩
    obtain ⟨new, htr, hnew⟩ := selectionFrame_calls g _ pre _ si hfpre
    refine ⟨[Call.clockNow] ++ new ++ [Call.instanceId e.m], by rw [htr]; simp, ?_⟩
    intro ev hev ids heq
    subst heq
    rw [List.mem_append, List.mem_append, List.mem_singleton, List.mem_singleton] at hev
    rcases hev with (hev | hev) | hev
    · cases hev
    · rcases hnew _ hev with h | ⟨m, h⟩ <;> cases h
    · cases hev

theorem demoThreeSelected_run :
    collectInstanceIDs demoWorld defaultConsts pollGroupType.shortPollGroup
        (demoWorld.clockNow demoThree.trace)
        (demoThree.u.pollGroup pollGroupType.shortPollGroup) []
        { u := demoThree.u, trace := demoThree.trace ++ [Call.clockNow] } =
      Outcome.ok ["i-2"] demoThreeSelected := by
  rfl

theorem demoThreePolled_loop :
    processInfoList demoWorld defaultConsts pollGroupType.shortPollGroup ["i-2"] 0
        (demoWorld.environInstances demoThreeSelected.trace ["i-2"]).1
        { u := demoThreeSelected.u,
          trace := demoThreeSelected.trace ++ [Call.environInstances ["i-2"]] } =
      Outcome.ok () demoThreePolled := by
  rfl

/-- The short poll of the concrete run with the three machines. -/
theorem demoThreePolled_run :
    pollGroupMembers demoWorld defaultConsts pollGroupType.shortPollGroup demoThree =
      Outcome.ok () demoThreePolled := by
  rw [pollGroupMembers_apply demoWorld defaultConsts pollGroupType.shortPollGroup demoThree
    demoThreeSelected ["i-2"] demoThreeSelected_run, if_neg (by decide)]
  exact demoThreePolled_loop

theorem unprovisioned_backoff_witness :
    demoThreePolled.u.heap[2]? =
        some { m := 0, tag := "0", instanceID := "", shortPollInterval := 2000000000,
               shortPollAt := 23000000000 } ∧
      mapLookup demoThreePolled.u.instanceIDToGroupEntry "i-2" ≠ some 2 ∧
      mapLookup demoThreePolled.u.shortGroup "0" = some 2 := by
  have h := ((unprovisioned_backoff demoWorld defaultConsts pollGroupType.shortPollGroup
    demoWorld_distinctInstanceIds demoThree demoThree_reachable [] [("2", 1)] "0" 2
    { m := 0, tag := "0", instanceID := "", shortPollInterval := 1000000000,
      shortPollAt := 19000000000 } []
    { u := demoThree.u, trace := demoThree.trace ++ [Call.clockNow] }
    (by rfl) (by rfl) (fun h => absurd h.2 (by decide)) (by rfl) (by rfl)).1 (by rfl)).2.2
    demoThreePolled (by rw [demoThreePolled_run]; rfl)
  exact ⟨h.1, h.2.2.1 "i-2", h.2.2.2⟩

/-! ## The batch and the entries that are not due -/

/-- An entry that is not due is left as it is by the first loop, however the loop
ends. -/
theorem collectInstanceIDs_notDue (c : Collaborators) (k : PollConsts) (g : pollGroupType)
    (now : Time) (members : List (MachineTag × Ptr)) :
    ∀ (acc : List InstanceId) (s s1 : State),
      (collectInstanceIDs c k g now members acc s).state? = some s1 →
      ∀ (q : Ptr) (eq : pollGroupEntry), s.u.heap[q]? = some eq → ¬ Candidate g now eq →
        s1.u.heap[q]? = some eq := by
  induction members with
  | nil =>
    intro acc s s1 h q eq hq _
    rw [collectInstanceIDs] at h
    have h : some s = some s1 := h
    injection h with h
    rw [← h]
    exact hq
  | cons kv rest ih =>
    intro acc s s1 h q eq hq hskip
    obtain ⟨t, p⟩ := kv
    cases hheap : s.u.heap[p]? with
    | none =>
      rw [collectInstanceIDs] at h
      simp only [M.bind_apply, deref, hheap] at h
      cases h
    | some e =>
      by_cases hcand : Candidate g now e
      · have hne : p ≠ q := by
          intro hpq
          rw [hpq, hq] at hheap
          injection hheap with hheap
          exact hskip (hheap ▸ hcand)
        by_cases hid : e.instanceID = ""
        · cases hres : c.instanceId s.trace e.m with
          | ok id0 =>
            rw [collectInstanceIDs_resolves c k g now t p _ acc s e id0 hheap hcand hid hres]
              at h
            exact ih _ _ _ h q eq (by
              show (s.u.heap.set p _)[q]? = some eq
              rw [List.getElem?_set_ne hne]
              exact hq) hskip
          | error err =>
            by_cases herr : err = Error.NotProvisioned
            · subst herr
              rw [collectInstanceIDs_unprovisioned c k g now t p _ acc s e hheap hcand hid hres]
                at h
              exact ih _ _ _ h q eq (by
                show (s.u.heap.set p _)[q]? = some eq
                rw [List.getElem?_set_ne hne]
                exact hq) hskip
            · rw [collectInstanceIDs_error c k g now t p _ acc s e err hheap hcand hid hres herr]
                at h
              have h : some ({ u := s.u, trace := s.trace ++ [Call.instanceId e.m] } : State) =
                  some s1 := h
              injection h with h
              rw [← h]
              exact hq
        · rw [collectInstanceIDs_resolved c k g now t p _ acc s e hheap hcand hid] at h
          exact ih _ _ _ h q eq hq hskip
      · rw [collectInstanceIDs_skip c k g now t p _ acc s e hheap hcand] at h
        exact ih _ _ _ h q eq hq hskip

theorem forall₂_of_mem_right {α β : Type} {R : α → β → Prop} :
    ∀ (l1 : List α) (l2 : List β), List.Forall₂ R l1 l2 → ∀ b ∈ l2, ∃ a ∈ l1, R a b := by
  intro l1 l2 h
  induction h with
  | nil => exact fun b hb => by cases hb
  | cons hab _ ih =>
    intro b hb
    rcases List.mem_cons.1 hb with h1 | h1
    · subst h1
      exact ⟨_, List.mem_cons_self _ _, hab⟩
    · obtain ⟨a, ha, hr⟩ := ih b h1
      exact ⟨a, List.mem_cons_of_mem _ ha, hr⟩

/-- An id of the batch was added by a member that was a candidate, whose entry holds
that id when the loop ends; the id is the one the entry had, or one that `InstanceId()`
returned. -/
theorem selection_batch_member (c : Collaborators) (k : PollConsts) (g : pollGroupType)
    (now : Time) (members : List (MachineTag × Ptr)) (fates : List (Option InstanceId))
    (s s1 : State) (h : Selection c k g now members fates s s1) (id : InstanceId)
    (hid : id ∈ fates.reduceOption) :
    ∃ tp ∈ members, ∃ e e1, s.u.heap[tp.2]? = some e ∧ s1.u.heap[tp.2]? = some e1 ∧
      Candidate g now e ∧ e1.instanceID = id ∧
      (id ≠ "" ∨ ∃ tr, c.instanceId tr e.m = Except.ok id) := by
  rw [List.reduceOption_mem_iff] at hid
  obtain ⟨tp, hmem, e, e1, he, he1, hf⟩ := forall₂_of_mem_right _ _ h.fate (some id) hid
  refine ⟨tp, hmem, e, e1, he, he1, ?_⟩
  cases hf with
  | resolved hc hne heq => exact ⟨hc, by rw [heq], Or.inl hne⟩
  | resolves tr _ hc _ _ _ hres heq => exact ⟨hc, by rw [heq], Or.inr ⟨tr, hres⟩⟩

/-- In a poll made in a reachable state, with instance ids that identify machines, an
id of the batch is mapped by `instanceIDToGroupEntry` to the member that added it: a
member that is not due is the entry of no slot. -/
theorem notDue_not_target (c : Collaborators) (k : PollConsts) (g : pollGroupType)
    (hd : DistinctInstanceIds c) (s s1 : State) (ids : List InstanceId)
    (hreach : Reachable c k s)
    (hloop : collectInstanceIDs c k g (c.clockNow s.trace) (s.u.pollGroup g) []
      { u := s.u, trace := s.trace ++ [Call.clockNow] } = Outcome.ok ids s1)
    (p : Ptr) (e : pollGroupEntry)
    (he : s.u.heap[p]? = some e) (hskip : ¬ Candidate g (c.clockNow s.trace) e)
    (idx : Nat) (infos : List (Option InstHandle)) (info : InstHandle) :
    ¬ SlotTarget s1.u ids idx infos p info := by
  obtain ⟨hwf, _⟩ := reachable_indexInv c k hd s hreach
  obtain ⟨_, _, hic1⟩ := selected_invariants c k g hd s s1 ids hreach hloop
  rcases pollGroupMembers_selection c k g s hwf with
    ⟨err, s1a, h, _⟩ | ⟨ids1, s1a, fates, hloop1, hids, hsel⟩
  · rw [hloop] at h
    cases h
  · rw [hloop] at hloop1
    injection hloop1 with h1 h2
    subst h1
    subst h2
    rintro ⟨j, id, _, hidj, hidx⟩
    have hmem : id ∈ fates.reduceOption := by
      rw [← hids]
      exact List.getElem?_mem hidj
    obtain ⟨tq, hq, eq, e1, heq, he1, hc, hid1, hor⟩ :=
      selection_batch_member c k g _ _ fates _ s1 hsel id hmem
    have hne : id ≠ "" := by
      rcases hor with h | ⟨tr, h⟩
      · exact h
      · exact hd.nonEmpty tr eq.m id h
    have hgrp : s1.u.pollGroup g = s.u.pollGroup g := by
      cases g with
      | shortPollGroup => exact hsel.frame.short
      | longPollGroup => exact hsel.frame.long
    have hl : mapLookup (s1.u.pollGroup g) tq.1 = some tq.2 := by
      rw [hgrp]
      exact mapLookup_of_mem _ tq.1 tq.2 (nodup_pollGroup s.u hwf g) hq
    have hx := hic1.entryIndexed g tq.1 tq.2 e1 hl he1 (by rw [hid1]; exact hne)
    rw [hid1, hidx] at hx
    injection hx with hx
    rw [hx, heq] at he
    injection he with he
    exact hskip (he ▸ hc)

/-- What the second loop leaves alone of an entry filed under `tag` that is the entry of
no slot, in a well-formed and index-consistent worker: the entry and its place in its
group. -/
theorem slotsFrame_keeps (instList : List InstanceId) (idx : Nat)
    (infoList : List (Option InstHandle)) (s s2 : State)
    (hwf : WellFormed s.u) (hic : IndexConsistent s.u)
    (hfr : SlotsFrame instList idx infoList s s2)
    (g : pollGroupType) (tag : MachineTag) (p : Ptr)
    (hl : mapLookup (s.u.pollGroup g) tag = some p)
    (hnot : ∀ info, ¬ SlotTarget s.u instList idx infoList p info) :
    s2.u.heap[p]? = s.u.heap[p]? ∧ mapLookup (s2.u.pollGroup g) tag = some p := by
  have htag : ∀ q info e1, SlotTarget s.u instList idx infoList q info →
      s.u.heap[q]? = some e1 → e1.tag ≠ tag := by
    intro q info e1 hq he1 heqt
    have hqp : q ≠ p := fun h => hnot info (h ▸ hq)
    obtain ⟨j, id1, _, _, h3⟩ := hq
    obtain ⟨_, g1, hg1⟩ := indexConsistent_filed s.u hic id1 q e1 h3 he1
    rw [heqt] at hg1
    exact hqp (pollGroup_lookup_unique s.u hwf g1 g tag q p hg1 hl).2
  refine ⟨hfr.others p hnot, ?_⟩
  have hg := hfr.groups tag htag
  cases g with
  | shortPollGroup => exact hg.1.trans hl
  | longPollGroup => exact hg.2.trans hl

/-- In a poll made in a reachable state, with instance ids that identify machines, a
member that is not due is, when the poll ends after its first loop has returned, the
entry it was, filed where it was. -/
theorem pollGroupMembers_notDue (c : Collaborators) (k : PollConsts) (g : pollGroupType)
    (hd : DistinctInstanceIds c) (s s1 : State) (ids : List InstanceId)
    (hreach : Reachable c k s)
    (hloop : collectInstanceIDs c k g (c.clockNow s.trace) (s.u.pollGroup g) []
      { u := s.u, trace := s.trace ++ [Call.clockNow] } = Outcome.ok ids s1)
    (tp : MachineTag × Ptr) (hmem : tp ∈ s.u.pollGroup g) (e : pollGroupEntry)
    (he : s.u.heap[tp.2]? = some e) (hskip : ¬ Candidate g (c.clockNow s.trace) e) :
    ∀ s2, (pollGroupMembers c k g s).state? = some s2 →
      s2.u.heap[tp.2]? = some e ∧ mapLookup (s2.u.pollGroup g) tp.1 = some tp.2 := by
  intro s2 hs2
  obtain ⟨hwf, _⟩ := reachable_indexInv c k hd s hreach
  obtain ⟨hwf1, _, hic1⟩ := selected_invariants c k g hd s s1 ids hreach hloop
  obtain ⟨hnd, hvalid⟩ := wellFormed_members s.u hwf g
  have hf := collectInstanceIDs_frame c k g (c.clockNow s.trace) (s.u.pollGroup g) hnd []
    { u := s.u, trace := s.trace ++ [Call.clockNow] }
    (fun tq hq => (hvalid tq hq).imp (fun _ h => h.1)) s1 (by rw [hloop]; rfl)
  have h1heap : s1.u.heap[tp.2]? = some e :=
    collectInstanceIDs_notDue c k g (c.clockNow s.trace) (s.u.pollGroup g) []
      { u := s.u, trace := s.trace ++ [Call.clockNow] } s1 (by rw [hloop]; rfl) tp.2 e he hskip
  have hgrp : s1.u.pollGroup g = s.u.pollGroup g := by
    cases g with
    | shortPollGroup => exact hf.short
    | longPollGroup => exact hf.long
  have hl : mapLookup (s1.u.pollGroup g) tp.1 = some tp.2 := by
    rw [hgrp]
    exact mapLookup_of_mem _ tp.1 tp.2 (nodup_pollGroup s.u hwf g) hmem
  by_cases hids : ids = []
  · rw [pollGroupMembers_apply c k g s s1 ids hloop, if_pos hids] at hs2
    have hs2 : some s1 = some s2 := hs2
    injection hs2 with hs2
    rw [← hs2]
    exact ⟨h1heap, hl⟩
  · have hslots := pollGroupMembers_slots c k g s s1 ids hloop hids
    have hfr2 : SlotsFrame ids 0 (c.environInstances s1.trace ids).1
        { u := s1.u, trace := s1.trace ++ [Call.environInstances ids] } s2 := by
      revert hs2 hslots
      cases pollGroupMembers c k g s with
      | ok a s3 =>
        intro hs2 hslots
        injection hs2 with hs2
        rw [← hs2]
        exact hslots
      | error err s3 =>
        intro hs2 hslots
        injection hs2 with hs2
        rw [← hs2]
        exact hslots
      | panic =>
        intro hs2
        cases hs2
    have hk := slotsFrame_keeps ids 0 (c.environInstances s1.trace ids).1
      { u := s1.u, trace := s1.trace ++ [Call.environInstances ids] } s2 hwf1 hic1 hfr2 g tp.1
      tp.2 hl
      (fun info => notDue_not_target c k g hd s s1 ids hreach hloop tp.2 e he hskip 0 _ info)
    exact ⟨hk.1.trans h1heap, hk.2⟩

/-- C12 (batch selection in `pollGroupMembers`).  In a well-formed worker, with `now` the
clock reading `pollGroupMembers` starts with, the first loop either fails, and
`pollGroupMembers` returns that error without having called `Environ.Instances`, or
returns a batch `ids`.  The batch is, in the order the group is visited, what the
members added (`Selection`, `MemberFate`): nothing for a short-group entry with
`now < shortPollAt`, which is left exactly as it was; for every other entry, its id if it
has one, or the id `InstanceId()` returns for it, or nothing if it is not provisioned.
In the long group every entry is such a candidate whatever its `shortPollAt`, and when
all members have ids the batch is the list of these ids.  The calls made for the
selection are clock readings and `InstanceId()` calls on candidates without an id.  An
empty batch ends the call with nil and no `Environ.Instances` call; otherwise
`Environ.Instances` is called with `ids` exactly once: the calls before it and the calls
after it are no such call, and what follows stays within the frame of the slots that
hold an instance.  When the first loop fails, too, the entries that are not due are as
they were.  In a reachable state, with instance ids that identify machines, an entry
that is not due is the entry of no slot, so that none of the calls of the slots is made
for it, and when the poll ends, by return or by error, it is unchanged and filed where
it was. -/
theorem batch_selection (c : Collaborators) (k : PollConsts) (g : pollGroupType) (s : State)
    (hwf : WellFormed s.u) :
    (∃ err s1, pollGroupMembers c k g s = Outcome.error err s1 ∧
        SelectionError c g (c.clockNow s.trace) (s.u.pollGroup g)
          { u := s.u, trace := s.trace ++ [Call.clockNow] } err s1 ∧
        (∃ new, s1.trace = s.trace ++ new ∧
          ∀ ev ∈ new, ∀ ids : List InstanceId, ev ≠ Call.environInstances ids) ∧
        ∀ tp ∈ s.u.pollGroup g, ∀ e, s.u.heap[tp.2]? = some e →
          ¬ Candidate g (c.clockNow s.trace) e → s1.u.heap[tp.2]? = some e) ∨
      ∃ ids s1 fates,
        collectInstanceIDs c k g (c.clockNow s.trace) (s.u.pollGroup g) []
          { u := s.u, trace := s.trace ++ [Call.clockNow] } = Outcome.ok ids s1 ∧
        ids = fates.reduceOption ∧
        Selection c k g (c.clockNow s.trace) (s.u.pollGroup g) fates
          { u := s.u, trace := s.trace ++ [Call.clockNow] } s1 ∧
        (∀ tp ∈ s.u.pollGroup g, ∀ e, s.u.heap[tp.2]? = some e →
          ¬ Candidate g (c.clockNow s.trace) e → s1.u.heap[tp.2]? = some e) ∧
        (g = pollGroupType.longPollGroup → ∀ e, Candidate g (c.clockNow s.trace) e) ∧
        ((∀ tp ∈ s.u.pollGroup g, ∀ e, s.u.heap[tp.2]? = some e →
            Candidate g (c.clockNow s.trace) e ∧ e.instanceID ≠ "") →
          ids = (s.u.pollGroup g).filterMap
            (fun tp => (s.u.heap[tp.2]?).map pollGroupEntry.instanceID)) ∧
        (∃ new, s1.trace = s.trace ++ [Call.clockNow] ++ new ∧
          ∀ ev ∈ new, ev = Call.clockNow ∨
            ∃ tp e, tp ∈ s.u.pollGroup g ∧ s.u.heap[tp.2]? = some e ∧
              Candidate g (c.clockNow s.trace) e ∧ e.instanceID = "" ∧
              ev = Call.instanceId e.m) ∧
        (ids = [] → pollGroupMembers c k g s = Outcome.ok () s1) ∧
        (ids ≠ [] →
          match pollGroupMembers c k g s with
          | .ok _ s2 =>
            SlotsFrame ids 0 (c.environInstances s1.trace ids).1
                { u := s1.u, trace := s1.trace ++ [Call.environInstances ids] } s2 ∧
              ∃ new2, s2.trace = s1.trace ++ [Call.environInstances ids] ++ new2 ∧
                ∀ ev ∈ new2, ∀ ids2 : List InstanceId, ev ≠ Call.environInstances ids2
          | .error _ s2 =>
            SlotsFrame ids 0 (c.environInstances s1.trace ids).1
                { u := s1.u, trace := s1.trace ++ [Call.environInstances ids] } s2 ∧
              ∃ new2, s2.trace = s1.trace ++ [Call.environInstances ids] ++ new2 ∧
                ∀ ev ∈ new2, ∀ ids2 : List InstanceId, ev ≠ Call.environInstances ids2
          | .panic => True) ∧
        (Reachable c k s → DistinctInstanceIds c →
          ∀ tp ∈ s.u.pollGroup g, ∀ e, s.u.heap[tp.2]? = some e →
            ¬ Candidate g (c.clockNow s.trace) e →
            (∀ info, ¬ SlotTarget s1.u ids 0 (c.environInstances s1.trace ids).1 tp.2 info) ∧
            ∀ s2, (pollGroupMembers c k g s).state? = some s2 →
              s2.u.heap[tp.2]? = some e ∧
                mapLookup (s2.u.pollGroup g) tp.1 = some tp.2) := by
  rcases pollGroupMembers_selection c k g s hwf with
    ⟨err, s1, hfail, hrun, herr⟩ | ⟨ids, s1, fates, hloop, hids, hsel⟩
  · left
    obtain ⟨new, htr, hnew⟩ := selectionFrame_calls g _ _ _ _ herr.frame
    refine ⟨err, s1, hrun, herr, ⟨Call.clockNow :: new, ?_, ?_⟩, ?_⟩
    · rw [htr]
      simp
    rotate_left
    · intro tp _ e he hskip
      exact collectInstanceIDs_notDue c k g (c.clockNow s.trace) (s.u.pollGroup g) []
        { u := s.u, trace := s.trace ++ [Call.clockNow] } s1 (by rw [hfail]; rfl) tp.2 e he
        hskip
    · intro ev hev ids heq
      rcases List.mem_cons.1 hev with h | h
      · rw [heq] at h
        cases h
      · rcases hnew ev h with h1 | ⟨m, h1⟩
        · rw [heq] at h1
          cases h1
        · rw [heq] at h1
          cases h1
  · right
    refine ⟨ids, s1, fates, hloop, hids, hsel, ?_, ?_, ?_, hsel.frame.calls, ?_, ?_, ?_⟩
    · intro tp hmem e he hskip
      exact selection_notDue c k g _ _ fates _ s1 hsel tp hmem e he hskip
    · intro hg e hcon
      rw [hg] at hcon
      cases hcon.1
    · intro hall
      rw [hids]
      exact selection_all_resolved c k g _ _ _ _ _ _ fates hsel.fate hall
    · intro hempty
      rw [pollGroupMembers_apply c k g s s1 ids hloop, if_pos hempty]
    · intro hne
      have h := pollGroupMembers_slots c k g s s1 ids hloop hne
      revert h
      cases pollGroupMembers c k g s with
      | ok a s2 => exact fun h => ⟨h, slotsFrame_no_query _ _ _ _ _ h⟩
      | error err s2 => exact fun h => ⟨h, slotsFrame_no_query _ _ _ _ _ h⟩
      | panic => exact fun _ => trivial
    · intro hreach hd tp hmem e he hskip
      exact ⟨fun info =>
          notDue_not_target c k g hd s s1 ids hreach hloop tp.2 e he hskip 0 _ info,
        pollGroupMembers_notDue c k g hd s s1 ids hreach hloop tp hmem e he hskip⟩

theorem batch_selection_witness :
    ∃ fates,
      Selection partialWorld defaultConsts pollGroupType.shortPollGroup
        (partialWorld.clockNow pairQueued.trace)
        (pairQueued.u.pollGroup pollGroupType.shortPollGroup) fates
        { u := pairQueued.u, trace := pairQueued.trace ++ [Call.clockNow] } pairSelected ∧
      fates.reduceOption = ["i-2", "i-1"] := by
  rcases batch_selection partialWorld defaultConsts pollGroupType.shortPollGroup pairQueued
      (reachable_wellFormed partialWorld defaultConsts pairQueued pairQueued_reachable) with
    ⟨err, s1, hrun, _⟩ | ⟨ids, s1, fates, hloop, hids, hsel, _⟩
  · rw [pairPolled_run] at hrun
    cases hrun
  · rw [pairSelected_run] at hloop
    injection hloop with h1 h2
    subst h1
    subst h2
    exact ⟨fates, hsel, hids.symm⟩

/-! ## Reset -/

/-- C21 (reset).  For every entry `e` and clock reading `now` the reset entry has
`shortPollInterval = ShortPoll` and `shortPollAt = now + ShortPoll`, and its machine, tag
and instance id are those of `e`.  A reset of a reset entry, at whatever reading, has
`shortPollInterval = ShortPoll` and is the entry reset once at the later reading; at the
same reading the second reset changes nothing.  The method `resetShortPollInterval`, for
an entry `e` at `p`, reads the clock once and stores `e` reset at that reading; called
twice in a row it reads the clock twice and leaves `e` reset at the second reading. -/
theorem reset_postcondition (c : Collaborators) (k : PollConsts) (s : State) (p : Ptr)
    (e : pollGroupEntry) (now now1 : Time) (hheap : s.u.heap[p]? = some e) :
    (e.resetShortPollInterval k now).shortPollInterval = k.ShortPoll ∧
    (e.resetShortPollInterval k now).shortPollAt = now + k.ShortPoll ∧
    (e.resetShortPollInterval k now).m = e.m ∧
    (e.resetShortPollInterval k now).tag = e.tag ∧
    (e.resetShortPollInterval k now).instanceID = e.instanceID ∧
    ((e.resetShortPollInterval k now).resetShortPollInterval k now1).shortPollInterval =
      k.ShortPoll ∧
    (e.resetShortPollInterval k now).resetShortPollInterval k now1 =
      e.resetShortPollInterval k now1 ∧
    (e.resetShortPollInterval k now).resetShortPollInterval k now =
      e.resetShortPollInterval k now ∧
    resetShortPollInterval c k p s =
      Outcome.ok ()
        { u := { s.u with
                   heap := s.u.heap.set p (e.resetShortPollInterval k (c.clockNow s.trace)) },
          trace := s.trace ++ [Call.clockNow] } ∧
    (resetShortPollInterval c k p >>= fun _ => resetShortPollInterval c k p) s =
      Outcome.ok ()
        { u := { s.u with
                   heap := s.u.heap.set p
                     (e.resetShortPollInterval k (c.clockNow (s.trace ++ [Call.clockNow]))) },
          trace := s.trace ++ [Call.clockNow] ++ [Call.clockNow] } := by
  have hlt : p < s.u.heap.length := (List.getElem?_eq_some_iff.1 hheap).1
  refine ⟨rfl, rfl, rfl, rfl, rfl, rfl, rfl, rfl,
    resetShortPollInterval_apply c k p s e hheap, ?_⟩
  rw [M.bind_apply, resetShortPollInterval_apply c k p s e hheap]
  simp only
  rw [resetShortPollInterval_apply c k p _ (e.resetShortPollInterval k (c.clockNow s.trace))
    (by exact List.getElem?_set_self hlt)]
  simp only [List.set_set]
  rfl

theorem reset_postcondition_witness :
    (resetShortPollInterval demoWorld defaultConsts 2 >>=
        fun _ => resetShortPollInterval demoWorld defaultConsts 2) demoThreePolled =
      Outcome.ok ()
        { u := { demoThreePolled.u with
                   heap := demoThreePolled.u.heap.set 2
                     { m := 0, tag := "0", instanceID := "", shortPollInterval := 1000000000,
                       shortPollAt := 33000000000 } },
          trace := demoThreePolled.trace ++ [Call.clockNow] ++ [Call.clockNow] } :=
  (reset_postcondition demoWorld defaultConsts demoThreePolled 2
    { m := 0, tag := "0", instanceID := "", shortPollInterval := 2000000000,
      shortPollAt := 23000000000 } 0 0 (by rfl)).2.2.2.2.2.2.2.2.2

/-! ## Address comparison on lists without repeated addresses -/

/-- C29 (`addressesEqual` without repeated addresses).  For address lists `a` and `b`
that hold no address twice, `addressesEqual a b` is true exactly when the two have the
same length and the same elements, which is to say when `b` is `a` in some order; and on
such lists the comparison is reflexive, symmetric and transitive (for transitivity the
third list `d` may be any list). -/
theorem addressesEqual_exact_of_nodup (a b d : List ProviderAddress)
    (ha : a.Nodup) (hb : b.Nodup) :
    (addressesEqual a b = true ↔ a.length = b.length ∧ ∀ x, x ∈ a ↔ x ∈ b) ∧
    (addressesEqual a b = true ↔ b.Perm a) ∧
    addressesEqual a a = true ∧
    addressesEqual a b = addressesEqual b a ∧
    (addressesEqual a b = true → addressesEqual b d = true → addressesEqual a d = true) := by
  have hperm := addressesEqual_iff_perm_of_nodup a b ha
  refine ⟨?_, hperm, ?_, addressesEqual_comm_of_nodup a b ha hb, ?_⟩
  · rw [hperm]
    constructor
    · intro h
      exact ⟨h.length_eq.symm, fun x => h.mem_iff.symm⟩
    · rintro ⟨hlen, hmem⟩
      exact ((addressesEqual_iff_perm_of_nodup a b ha).1
        ((addressesEqual_iff a b).2 ⟨hlen, fun x hx => (hmem x).1 hx⟩))
  · exact (addressesEqual_iff_perm_of_nodup a a ha).2 (List.Perm.refl a)
  · intro h1 h2
    rw [addressesEqual_iff_perm_of_nodup a b ha] at h1
    rw [addressesEqual_iff_perm_of_nodup b d hb] at h2
    exact (addressesEqual_iff_perm_of_nodup a d ha).2 (h2.trans h1)

theorem addressesEqual_exact_of_nodup_witness :
    (addressesEqual [demoAddress, otherAddress] [otherAddress, demoAddress] = true ↔
      List.Perm [otherAddress, demoAddress] [demoAddress, otherAddress]) ∧
    addressesEqual [demoAddress, otherAddress] [otherAddress, demoAddress] =
      addressesEqual [otherAddress, demoAddress] [demoAddress, otherAddress] :=
  have h := addressesEqual_exact_of_nodup [demoAddress, otherAddress]
    [otherAddress, demoAddress] [demoAddress] (by decide) (by decide)
  ⟨h.2.1, h.2.2.2.1⟩

/-! ## Construction of the worker -/

/-- C25 (`Config.Validate` and `NewWorker`).  `Validate` returns nil exactly when none of
the five fields is nil; every error it returns is a NotValid error, and it returns one
exactly when at least one of `Clock`, `Facade`, `Environ`, `Logger`, `CredentialAPI` is
nil.  When `Validate` returns an error, `NewWorker` returns that error and a nil worker
without having called `catacomb.Invoke`, so that no loop is started; otherwise it calls
`catacomb.Invoke`. -/
theorem config_validation (config : Config) (catacombInvoke : Option Error) :
    (config.Validate = none ↔
      config.Clock ≠ none ∧ config.Facade ≠ none ∧ config.Environ ≠ none ∧
        config.Logger ≠ none ∧ config.CredentialAPI ≠ none) ∧
    ((∃ what, config.Validate = some (Error.NotValid what)) ↔
      config.Clock = none ∨ config.Facade = none ∨ config.Environ = none ∨
        config.Logger = none ∨ config.CredentialAPI = none) ∧
    (∀ err, config.Validate = some err → ∃ what, err = Error.NotValid what) ∧
    (∀ err, config.Validate = some err →
      NewWorker catacombInvoke config = { worker := none, err := some err, invoked := false }) ∧
    (config.Validate = none → (NewWorker catacombInvoke config).invoked = true) := by
  obtain ⟨a, b, c, d, e⟩ := config
  unfold NewWorker Config.Validate
  cases a <;> cases b <;> cases c <;> cases d <;> cases e <;> cases catacombInvoke <;> simp

theorem config_validation_witness :
    NewWorker none { Clock := some 0, Facade := some 1, Environ := none, Logger := some 3,
                     CredentialAPI := some 4 } =
      { worker := none, err := some (Error.NotValid "nil Environ"), invoked := false } :=
  (config_validation { Clock := some 0, Facade := some 1, Environ := none, Logger := some 3,
                       CredentialAPI := some 4 } none).2.2.2.1
    (Error.NotValid "nil Environ") (by rfl)

/-! ## Bump -/

/-- C22, as stated, fails: with `ShortPollBackoff = 1.0` and `LongPoll = 2 ^ 53 + 1` ns, an
entry whose interval `d` is `2 ^ 53 + 1` ns is bumped to `2 ^ 53` ns, which is neither
`min(d * ShortPollBackoff, LongPoll) = 2 ^ 53 + 1` nor at least `d`: the interval is
converted to `float64` before it is multiplied. -/
theorem bump_rounds_interval :
    1 ≤ bigConsts.ShortPollBackoff ∧
      (9007199254740993 : Int) ≤ bigConsts.LongPoll ∧
      (pollGroupEntry.bumpShortPollInterval bigConsts 0
        { m := 0, tag := "0", instanceID := "", shortPollInterval := 9007199254740993,
          shortPollAt := 0 }).shortPollInterval = 9007199254740992 ∧
      min ⌊((9007199254740993 : Int) : ℚ) * bigConsts.ShortPollBackoff⌋ bigConsts.LongPoll =
        9007199254740993 := by
  refine ⟨?_, by decide, by rfl, ?_⟩
  · norm_num [PollConsts.ShortPollBackoff, bigConsts]
  · norm_num [PollConsts.ShortPollBackoff, bigConsts]

theorem bumpShortPollInterval_at (k : PollConsts) (now : Time) (e : pollGroupEntry) :
    (e.bumpShortPollInterval k now).shortPollAt =
      now + (e.bumpShortPollInterval k now).shortPollInterval := rfl

/-- C22, amended (bump).  For every entry `e` with interval `d` and clock reading `now`,
the bumped entry has `shortPollInterval = min(time.Duration(float64(d) *
ShortPollBackoff), LongPoll)`, never more than `LongPoll`, and `shortPollAt = now +` the
new interval; its machine, tag and instance id are those of `e`.  The product is
`d * ShortPollBackoff` truncated to a whole number of nanoseconds whenever `d ≥ 0`, `d`
times the mantissa of the factor has at most 53 bits and the result is an `int64`.  For
`ShortPollBackoff ≥ 1`, `0 < d ≤ LongPoll`, `d ≤ 2 ^ 53` and
`d * ShortPollBackoff ≤ 2 ^ 62` the new interval is not smaller than `d`.  The method
`bumpShortPollInterval`, for an entry `e` at `p`, reads the clock once and stores `e`
bumped at that reading. -/
theorem bump_postcondition (c : Collaborators) (k : PollConsts) (s : State) (p : Ptr)
    (e : pollGroupEntry) (now : Time) (hheap : s.u.heap[p]? = some e) :
    (e.bumpShortPollInterval k now).shortPollInterval =
      min (scaleDuration k e.shortPollInterval) k.LongPoll ∧
    (e.bumpShortPollInterval k now).shortPollInterval ≤ k.LongPoll ∧
    (e.bumpShortPollInterval k now).shortPollAt =
      now + (e.bumpShortPollInterval k now).shortPollInterval ∧
    (e.bumpShortPollInterval k now).m = e.m ∧
    (e.bumpShortPollInterval k now).tag = e.tag ∧
    (e.bumpShortPollInterval k now).instanceID = e.instanceID ∧
    (0 ≤ e.shortPollInterval → 0 ≤ k.backoffMant →
      e.shortPollInterval * k.backoffMant ≤ 2 ^ 53 →
      ⌊(e.shortPollInterval : ℚ) * k.ShortPollBackoff⌋ < 2 ^ 63 →
      (e.bumpShortPollInterval k now).shortPollInterval =
        min ⌊(e.shortPollInterval : ℚ) * k.ShortPollBackoff⌋ k.LongPoll) ∧
    (1 ≤ k.ShortPollBackoff → 0 < e.shortPollInterval → e.shortPollInterval ≤ k.LongPoll →
      e.shortPollInterval ≤ 2 ^ 53 →
      (e.shortPollInterval : ℚ) * k.ShortPollBackoff ≤ 2 ^ 62 →
      e.shortPollInterval ≤ (e.bumpShortPollInterval k now).shortPollInterval) ∧
    bumpShortPollInterval c k p s =
      Outcome.ok ()
        { u := { s.u with
                   heap := s.u.heap.set p (e.bumpShortPollInterval k (c.clockNow s.trace)) },
          trace := s.trace ++ [Call.clockNow] } := by
  have hint := bumpShortPollInterval_interval k now e
  refine ⟨hint, ?_, rfl, rfl, rfl, rfl, ?_, ?_, bumpShortPollInterval_apply c k p s e hheap⟩
  · rw [hint]
    exact min_le_right _ _
  · intro h0 hm hda hrange
    rw [hint, scaleDuration_exact k _ h0 hm hda hrange]
  · intro hb h0 hle h53 hprod
    rw [hint]
    exact le_min (scaleDuration_ge k _ h0 h53 hb hprod) hle

theorem bump_postcondition_witness :
    bumpShortPollInterval demoWorld defaultConsts 2 demoThreePolled =
      Outcome.ok ()
        { u := { demoThreePolled.u with
                   heap := demoThreePolled.u.heap.set 2
                     { m := 0, tag := "0", instanceID := "", shortPollInterval := 4000000000,
                       shortPollAt := 35000000000 } },
          trace := demoThreePolled.trace ++ [Call.clockNow] } :=
  (bump_postcondition demoWorld defaultConsts demoThreePolled 2
    { m := 0, tag := "0", instanceID := "", shortPollInterval := 2000000000,
      shortPollAt := 23000000000 } 0 (by rfl)).2.2.2.2.2.2.2.2

/-- With an integer factor `b = backoffMant * 2 ^ backoffExp`, for an interval `d` with
`0 < d ≤ LongPoll < 2 ^ 53` and `LongPoll * b ≤ 2 ^ 62`, capping the `float64` product at
`LongPoll` is capping the exact product `d * b`. -/
theorem min_scaleDuration (k : PollConsts) (a x : Nat) (hmant : k.backoffMant = a)
    (hexp : k.backoffExp = x) (ha : 1 ≤ a) (h53 : k.LongPoll < 2 ^ 53)
    (hprod : k.LongPoll * ((a : Int) * 2 ^ x) ≤ 2 ^ 62)
    (d : Duration) (hd0 : 0 < d) (hd : d ≤ k.LongPoll) :
    min (scaleDuration k d) k.LongPoll = min (d * ((a : Int) * 2 ^ x)) k.LongPoll := by
  obtain ⟨n, hn⟩ := Int.eq_ofNat_of_zero_le (le_of_lt hd0)
  subst hn
  have hn53 : n ≤ 2 ^ 53 := by
    have h1 : (n : Int) < 2 ^ 53 := lt_of_le_of_lt hd h53
    have h2 : n < 2 ^ 53 := by exact_mod_cast h1
    exact le_of_lt h2
  have hback : k.ShortPollBackoff = ((a * 2 ^ x : Nat) : ℚ) := by
    unfold PollConsts.ShortPollBackoff
    rw [hmant, hexp, zpow_natCast]
    push_cast
    ring
  have hb1 : 1 ≤ a * 2 ^ x := Nat.one_le_iff_ne_zero.2 (by positivity)
  have hb : 1 ≤ k.ShortPollBackoff := by
    rw [hback]
    exact_mod_cast hb1
  have hnb : (n : Int) * ((a : Int) * 2 ^ x) ≤ 2 ^ 62 :=
    le_trans (mul_le_mul_of_nonneg_right hd (by positivity)) hprod
  have hq : (n : ℚ) * k.ShortPollBackoff ≤ 2 ^ 62 := by
    rw [hback]
    have h1 : (((n : Int) * ((a : Int) * 2 ^ x) : Int) : ℚ) ≤ ((2 ^ 62 : Int) : ℚ) :=
      Int.cast_le.2 hnb
    push_cast at h1 ⊢
    exact h1
  have hbound := scaledMagnitude_bounds k n a hmant hn53 hb hq
  have hscale : scaleDuration k (n : Int) = (scaledMagnitude k (n : Int) : Int) :=
    scaleDuration_of_nonneg k n a hmant
      (lt_of_le_of_lt hbound.2 (by norm_num))
  have hmag : scaledMagnitude k (n : Int) = roundFloat64 (n * a) * 2 ^ x := by
    unfold scaledMagnitude
    simp only [hmant, hexp, Int.natAbs_ofNat, roundFloat64_exact n hn53]
    rw [if_pos (Int.ofNat_nonneg x)]
    simp
  rw [hscale, hmag]
  by_cases hna : n * a ≤ 2 ^ 53
  · rw [roundFloat64_exact _ hna]
    push_cast
    rw [mul_assoc]
  · have hgt : 2 ^ 53 ≤ n * a := le_of_lt (not_le.1 hna)
    have h1 := le_roundFloat64 (n * a) (2 ^ 53) 0 (le_refl _) (by simpa using hgt)
    simp only [pow_zero, Nat.mul_one] at h1
    have hx : 1 ≤ 2 ^ x := Nat.one_le_two_pow
    have h2 : 2 ^ 53 ≤ roundFloat64 (n * a) * 2 ^ x :=
      le_trans h1 (Nat.le_mul_of_pos_right _ hx)
    have h3 : 2 ^ 53 ≤ n * a * 2 ^ x := le_trans hgt (Nat.le_mul_of_pos_right _ hx)
    have hlp : k.LongPoll ≤ ((2 ^ 53 : Nat) : Int) := by
      push_cast
      exact le_of_lt h53
    have h4 : k.LongPoll ≤ ((roundFloat64 (n * a) * 2 ^ x : Nat) : Int) :=
      le_trans hlp (Int.ofNat_le.2 h2)
    have h5 : k.LongPoll ≤ (n : Int) * ((a : Int) * 2 ^ x) := by
      have h6 : k.LongPoll ≤ ((n * a * 2 ^ x : Nat) : Int) :=
        le_trans hlp (Int.ofNat_le.2 h3)
      push_cast at h6
      rw [← mul_assoc]
      exact h6
    rw [min_eq_right h4, min_eq_right h5]

/-- One more bump of an interval that is the capped product after `j` bumps. -/
theorem min_mul_succ (sp lp b : Int) (j : Nat) (hsp : 0 < sp) (hb : 1 ≤ b) (hlp : 0 < lp) :
    min (min (sp * b ^ j) lp * b) lp = min (sp * b ^ (j + 1)) lp := by
  have hbj : 1 ≤ b ^ j := one_le_pow₀ hb
  by_cases h : sp * b ^ j ≤ lp
  · rw [min_eq_left h, pow_succ, mul_assoc]
  · have h1 : lp < sp * b ^ j := not_le.1 h
    rw [min_eq_right (le_of_lt h1)]
    have h2 : lp ≤ lp * b := le_mul_of_one_le_right (le_of_lt hlp) hb
    have h3 : sp * b ^ j ≤ sp * b ^ (j + 1) := by
      rw [pow_succ, ← mul_assoc]
      exact le_mul_of_one_le_right (by positivity) hb
    rw [min_eq_right h2, min_eq_right (le_trans (le_of_lt h1) h3)]

/-- The interval after a list of bumps, from an entry whose interval is the capped
product after `j` bumps. -/
theorem foldl_bump_interval (k : PollConsts) (a x : Nat) (hmant : k.backoffMant = a)
    (hexp : k.backoffExp = x) (ha : 1 ≤ a) (hpos : 0 < k.ShortPoll)
    (hle : k.ShortPoll ≤ k.LongPoll) (h53 : k.LongPoll < 2 ^ 53)
    (hprod : k.LongPoll * ((a : Int) * 2 ^ x) ≤ 2 ^ 62) (nows : List Time) :
    ∀ (e : pollGroupEntry) (j : Nat),
      e.shortPollInterval = min (k.ShortPoll * ((a : Int) * 2 ^ x) ^ j) k.LongPoll →
      (nows.foldl (fun e1 now => e1.bumpShortPollInterval k now) e).shortPollInterval =
        min (k.ShortPoll * ((a : Int) * 2 ^ x) ^ (j + nows.length)) k.LongPoll := by
  have hb : (1 : Int) ≤ (a : Int) * 2 ^ x := by
    have h1 : 1 ≤ a * 2 ^ x := Nat.one_le_iff_ne_zero.2 (by positivity)
    exact_mod_cast h1
  have hlp : 0 < k.LongPoll := lt_of_lt_of_le hpos hle
  induction nows with
  | nil =>
    intro e j he
    exact he
  | cons now rest ih =>
    intro e j he
    rw [List.foldl_cons, List.length_cons, ← Nat.add_assoc, Nat.add_right_comm]
    refine ih (e.bumpShortPollInterval k now) (j + 1) ?_
    have hd0 : 0 < e.shortPollInterval := by
      rw [he]
      exact lt_min (mul_pos hpos (pow_pos (lt_of_lt_of_le one_pos hb) j)) hlp
    have hd : e.shortPollInterval ≤ k.LongPoll := by
      rw [he]
      exact min_le_right _ _
    rw [bumpShortPollInterval_interval,
      min_scaleDuration k a x hmant hexp ha h53 hprod _ hd0 hd, he]
    exact min_mul_succ _ _ _ j hpos hb hlp

/-- C23, as stated, fails: with `ShortPoll = 1 s`, `LongPoll = 15 min` and the integer
backoff factor `2 ^ 40`, one bump of a freshly reset entry leaves, on amd64, the interval
`-2 ^ 63` ns and not `min(ShortPoll * 2 ^ 40, LongPoll) = LongPoll`: the product is no
`int64`, and the conversion of such a `float64` yields the least `int64` there. -/
theorem bump_overflows :
    0 < steepConsts.ShortPoll ∧ steepConsts.ShortPoll ≤ steepConsts.LongPoll ∧
      steepConsts.LongPoll < 2 ^ 53 ∧
      steepConsts.ShortPollBackoff = 2 ^ 40 ∧
      ((pollGroupEntry.resetShortPollInterval steepConsts 0
        { m := 0, tag := "0", instanceID := "", shortPollInterval := 0,
          shortPollAt := 0 }).bumpShortPollInterval steepConsts 0).shortPollInterval =
        -9223372036854775808 ∧
      min (steepConsts.ShortPoll * 2 ^ 40) steepConsts.LongPoll = 900000000000 := by
  refine ⟨by decide, by decide, by decide, ?_, by rfl, by decide⟩
  norm_num [PollConsts.ShortPollBackoff, steepConsts]

/-- C23, amended (bump law).  Let the backoff factor be the integer
`b = backoffMant * 2 ^ backoffExp ≥ 1` (mantissa at least 1, exponent at least 0), and let
`0 < ShortPoll ≤ LongPoll < 2 ^ 53` ns with `LongPoll * b ≤ 2 ^ 62` ns, so that every
product is an `int64`.  Then an entry that is reset and then bumped `N` times, at
whatever clock readings, has `shortPollInterval = min(ShortPoll * b ^ N, LongPoll)`; with
the defaults (1 s, 2, 15 min) that is `min(2 ^ N s, 900 s)`. -/
theorem bump_law (k : PollConsts) (hpos : 0 < k.ShortPoll) (hle : k.ShortPoll ≤ k.LongPoll)
    (h53 : k.LongPoll < 2 ^ 53) (hmant : 1 ≤ k.backoffMant) (hexp : 0 ≤ k.backoffExp)
    (hprod : k.LongPoll * (k.backoffMant * 2 ^ k.backoffExp.toNat) ≤ 2 ^ 62)
    (e : pollGroupEntry) (now0 : Time) (nows : List Time) :
    k.ShortPollBackoff = ((k.backoffMant * 2 ^ k.backoffExp.toNat : Int) : ℚ) ∧
    (nows.foldl (fun e1 now => e1.bumpShortPollInterval k now)
        (e.resetShortPollInterval k now0)).shortPollInterval =
      min (k.ShortPoll * (k.backoffMant * 2 ^ k.backoffExp.toNat) ^ nows.length) k.LongPoll ∧
    (nows.foldl (fun e1 now => e1.bumpShortPollInterval defaultConsts now)
        (e.resetShortPollInterval defaultConsts now0)).shortPollInterval =
      min (2 ^ nows.length * 1000000000) (900 * 1000000000) := by
  obtain ⟨a, ha⟩ := Int.eq_ofNat_of_zero_le (le_trans zero_le_one hmant)
  obtain ⟨x, hx⟩ := Int.eq_ofNat_of_zero_le hexp
  have ha1 : 1 ≤ a := by
    rw [ha] at hmant
    exact_mod_cast hmant
  refine ⟨?_, ?_, ?_⟩
  · unfold PollConsts.ShortPollBackoff
    rw [ha, hx, zpow_natCast]
    simp
  · rw [ha, hx] at hprod ⊢
    simp only [Int.toNat_ofNat] at hprod ⊢
    have h := foldl_bump_interval k a x ha hx ha1 hpos hle h53 hprod nows
      (e.resetShortPollInterval k now0) 0 (by
        rw [pow_zero, mul_one, min_eq_left hle]
        rfl)
    rw [Nat.zero_add] at h
    exact h
  · have h := foldl_bump_interval defaultConsts 1 1 rfl rfl (le_refl 1) (by decide)
      (by decide) (by decide) (by decide) nows
      (e.resetShortPollInterval defaultConsts now0) 0 (by rfl)
    rw [Nat.zero_add] at h
    rw [h]
    have h1 : defaultConsts.ShortPoll = 1000000000 := rfl
    have h2 : defaultConsts.LongPoll = 900 * 1000000000 := rfl
    rw [h1, h2]
    norm_num
    ring_nf

theorem bump_law_witness :
    ([1, 2, 3].foldl (fun e1 now => e1.bumpShortPollInterval defaultConsts now)
        (pollGroupEntry.resetShortPollInterval defaultConsts 0
          { m := 0, tag := "0", instanceID := "", shortPollInterval := 0,
            shortPollAt := 0 })).shortPollInterval =
      min (2 ^ 3 * 1000000000) (900 * 1000000000) :=
  (bump_law defaultConsts (by decide) (by decide) (by decide) (by decide) (by decide)
    (by decide)
    { m := 0, tag := "0", instanceID := "", shortPollInterval := 0, shortPollAt := 0 } 0
    [1, 2, 3]).2.2

/-! ## A model status that cannot be read -/

/-- The turn of a slot whose entry has an instance status that cannot be read: no error,
no write, and the group policy is applied with the provider status Unknown and the
machine status read next. -/
theorem pollGroupMembersSlot_unread (c : Collaborators) (k : PollConsts) (g : pollGroupType)
    (p : Ptr) (info : InstHandle) (s : State) (e : pollGroupEntry) (err : Error)
    (ms : StatusResult) (hheap : s.u.heap[p]? = some e)
    (hcur : c.instanceStatus s.trace e.m = Except.error err)
    (hms : c.status (s.trace ++ [Call.instanceStatus e.m]) e.m = Except.ok ms) :
    pollGroupMembersSlot c k g p info s =
      maybeSwitchPollGroup c k g p Status.Unknown ms.Status
        { u := s.u, trace := s.trace ++ [Call.instanceStatus e.m] ++ [Call.status e.m] } := by
  unfold pollGroupMembersSlot
  simp only [M.bind_apply, processProviderInfo_unread c k p info s e err hheap hcur]
  rw [deref_apply p _ e (by exact hheap)]
  simp only []
  rw [invokeOrReturn_apply_ok (Call.status e.m) (fun tr => c.status tr e.m)
    { u := s.u, trace := s.trace ++ [Call.instanceStatus e.m] } ms hms]

theorem unreadableQueued_reachable : Reachable unreadableWorld defaultConsts demoQueued :=
  Reachable.queue State.init demoQueued "1" Reachable.init (by rfl)

theorem unreadableSelected_run :
    collectInstanceIDs unreadableWorld defaultConsts pollGroupType.shortPollGroup
        (unreadableWorld.clockNow demoQueued.trace)
        (demoQueued.u.pollGroup pollGroupType.shortPollGroup) []
        { u := demoQueued.u, trace := demoQueued.trace ++ [Call.clockNow] } =
      Outcome.ok ["i-1"] unreadableSelected := by
  rfl

theorem unreadablePolled_loop :
    processInfoList unreadableWorld defaultConsts pollGroupType.shortPollGroup ["i-1"] 0
        (unreadableWorld.environInstances unreadableSelected.trace ["i-1"]).1
        { u := unreadableSelected.u,
          trace := unreadableSelected.trace ++ [Call.environInstances ["i-1"]] } =
      Outcome.ok () unreadablePolled := by
  rfl

/-- C26, counterexample.  Machine "1" is
reported by the watcher and is in the short group; at the short poll that follows its
instance id resolves, `InstanceStatus()` fails, the model records one address and the
machine status is Started.  The poll returns no error and makes no write, and after it
machine "1" is in the long group and not in the short group. -/
theorem unreadable_status_promoted :
    Reachable unreadableWorld defaultConsts demoQueued ∧
      mapLookup demoQueued.u.shortGroup "1" = some 0 ∧
      unreadableWorld.instanceStatus
        (unreadableSelected.trace ++ [Call.environInstances ["i-1"]]) 1 =
          Except.error (Error.other "no instance status") ∧
      pollGroupMembers unreadableWorld defaultConsts pollGroupType.shortPollGroup demoQueued =
        Outcome.ok () unreadablePolled ∧
      unreadablePolled.trace = demoQueued.trace ++ [Call.clockNow, Call.instanceId 1,
        Call.environInstances ["i-1"], Call.instanceStatus 1, Call.status 1,
        Call.providerAddresses 1] ∧
      mapLookup unreadablePolled.u.shortGroup "1" = none ∧
      mapLookup unreadablePolled.u.longGroup "1" = some 0 := by
  refine ⟨unreadableQueued_reachable, by rfl, by rfl, ?_, by rfl, by rfl, by rfl⟩
  rw [pollGroupMembers_apply unreadableWorld defaultConsts pollGroupType.shortPollGroup
    demoQueued unreadableSelected ["i-1"] unreadableSelected_run, if_neg (by decide)]
  exact unreadablePolled_loop

/-! ## A machine of the long group that loses its addresses -/

/-- A short poll of the worker that tracks one unresolved machine, when the machine is
not due: one clock reading and nothing else. -/
theorem scenario_fire_notDue (c : Collaborators) (k : PollConsts) (m : Handle)
    (d : Duration) (due : Time) (tr : List Call) (hdue : c.clockNow tr < due) :
    pollGroupMembers c k pollGroupType.shortPollGroup (scenarioState m d due tr) =
      Outcome.ok () (scenarioState m d due (tr ++ [Call.clockNow])) := by
  have hloop : collectInstanceIDs c k pollGroupType.shortPollGroup
      (c.clockNow (scenarioState m d due tr).trace)
      ((scenarioState m d due tr).u.pollGroup pollGroupType.shortPollGroup) []
      { u := (scenarioState m d due tr).u,
        trace := (scenarioState m d due tr).trace ++ [Call.clockNow] } =
      Outcome.ok [] (scenarioState m d due (tr ++ [Call.clockNow])) := by
    show collectInstanceIDs c k pollGroupType.shortPollGroup (c.clockNow tr) [("0", 0)] [] _ = _
    rw [collectInstanceIDs_skip c k _ _ "0" 0 [] [] _
      { m := m, tag := "0", instanceID := "", shortPollInterval := d, shortPollAt := due }
      (by rfl) (fun h => h ⟨rfl, hdue⟩), collectInstanceIDs]
    rfl
  rw [pollGroupMembers_apply c k _ _ _ [] hloop, if_pos rfl]

/-- A short poll of the worker that tracks one unresolved machine, when the machine is
due and not provisioned: the clock is read, `InstanceId()` is called, and the entry is
bumped at a second clock reading. -/
theorem scenario_fire_due (c : Collaborators) (k : PollConsts) (m : Handle)
    (d : Duration) (due : Time) (tr : List Call) (hdue : ¬ c.clockNow tr < due)
    (hnp : c.instanceId (tr ++ [Call.clockNow]) m = Except.error Error.NotProvisioned) :
    pollGroupMembers c k pollGroupType.shortPollGroup (scenarioState m d due tr) =
      Outcome.ok ()
        (scenarioState m
          (min (scaleDuration k d) k.LongPoll)
          (c.clockNow (tr ++ [Call.clockNow] ++ [Call.instanceId m]) +
            min (scaleDuration k d) k.LongPoll)
          (tr ++ [Call.clockNow] ++ [Call.instanceId m] ++ [Call.clockNow])) := by
  have hbump : ∀ now : Time,
      pollGroupEntry.bumpShortPollInterval k now
        { m := m, tag := "0", instanceID := "", shortPollInterval := d, shortPollAt := due } =
      { m := m, tag := "0", instanceID := "",
        shortPollInterval := min (scaleDuration k d) k.LongPoll,
        shortPollAt := now + min (scaleDuration k d) k.LongPoll } := by
    intro now
    have h1 := bumpShortPollInterval_interval k now
      { m := m, tag := "0", instanceID := "", shortPollInterval := d, shortPollAt := due }
    have h2 := bumpShortPollInterval_at k now
      { m := m, tag := "0", instanceID := "", shortPollInterval := d, shortPollAt := due }
    rw [h1] at h2
    cases hx : pollGroupEntry.bumpShortPollInterval k now
      { m := m, tag := "0", instanceID := "", shortPollInterval := d, shortPollAt := due } with
    | mk m1 t1 i1 d1 a1 =>
      rw [hx] at h1 h2
      have h3 : m1 = m := by
        have := congrArg pollGroupEntry.m hx
        exact this.symm
      have h4 : t1 = "0" := by
        have := congrArg pollGroupEntry.tag hx
        exact this.symm
      have h5 : i1 = "" := by
        have := congrArg pollGroupEntry.instanceID hx
        exact this.symm
      have h1 : d1 = min (scaleDuration k d) k.LongPoll := h1
      have h2 : a1 = now + min (scaleDuration k d) k.LongPoll := h2
      rw [h3, h4, h5, h1, h2]
  have hloop : collectInstanceIDs c k pollGroupType.shortPollGroup
      (c.clockNow (scenarioState m d due tr).trace)
      ((scenarioState m d due tr).u.pollGroup pollGroupType.shortPollGroup) []
      { u := (scenarioState m d due tr).u,
        trace := (scenarioState m d due tr).trace ++ [Call.clockNow] } =
      Outcome.ok []
        (scenarioState m
          (min (scaleDuration k d) k.LongPoll)
          (c.clockNow (tr ++ [Call.clockNow] ++ [Call.instanceId m]) +
            min (scaleDuration k d) k.LongPoll)
          (tr ++ [Call.clockNow] ++ [Call.instanceId m] ++ [Call.clockNow])) := by
    show collectInstanceIDs c k pollGroupType.shortPollGroup (c.clockNow tr) [("0", 0)] [] _ = _
    rw [collectInstanceIDs_unprovisioned c k _ _ "0" 0 [] [] _
      { m := m, tag := "0", instanceID := "", shortPollInterval := d, shortPollAt := due }
      (by rfl) (fun h => hdue h.2) rfl hnp, collectInstanceIDs, hbump]
    rfl
  rw [pollGroupMembers_apply c k _ _ _ [] hloop, if_pos rfl]

theorem scaleDuration_default_one : scaleDuration defaultConsts 1000000000 = 2000000000 := by
  rfl

theorem scaleDuration_default_two : scaleDuration defaultConsts 2000000000 = 4000000000 := by
  rfl

/-- C27, as stated, fails: in scenario 1 with `t0 = 0`, the second fire of the short
ticker, one second after the first, finds the entry not due (the first fire has put
`shortPollAt` two seconds ahead) and leaves its interval at 2 s, not 4 s. -/
theorem second_fire_not_due :
    queueMachineForPolling (scenarioWorld 0) defaultConsts "0" State.init =
        Outcome.ok () (scenarioState 0 1000000000 1000000000
          [Call.facadeMachine "0", Call.isManual 0, Call.clockNow]) ∧
      (scenarioWorld 0).clockNow [Call.facadeMachine "0", Call.isManual 0, Call.clockNow] =
        1000000000 ∧
      pollGroupMembers (scenarioWorld 0) defaultConsts pollGroupType.shortPollGroup
          (scenarioState 0 1000000000 1000000000
            [Call.facadeMachine "0", Call.isManual 0, Call.clockNow]) =
        Outcome.ok () (scenarioState 0 2000000000 3000000000
          [Call.facadeMachine "0", Call.isManual 0, Call.clockNow, Call.clockNow,
            Call.instanceId 0, Call.clockNow]) ∧
      (scenarioWorld 0).clockNow [Call.facadeMachine "0", Call.isManual 0, Call.clockNow,
          Call.clockNow, Call.instanceId 0, Call.clockNow] = 2000000000 ∧
      pollGroupMembers (scenarioWorld 0) defaultConsts pollGroupType.shortPollGroup
          (scenarioState 0 2000000000 3000000000
            [Call.facadeMachine "0", Call.isManual 0, Call.clockNow, Call.clockNow,
              Call.instanceId 0, Call.clockNow]) =
        Outcome.ok () (scenarioState 0 2000000000 3000000000
          [Call.facadeMachine "0", Call.isManual 0, Call.clockNow, Call.clockNow,
            Call.instanceId 0, Call.clockNow, Call.clockNow]) := by
  refine ⟨by rfl, by rfl, by rfl, by rfl, by rfl⟩

/-- C27, amended (scenario 1).  `ShortPoll = 1 s`, `ShortPollBackoff = 2`,
`LongPoll = 15 min`.  The watcher reports machine "0" to the worker just built, at `t0`;
the machine is not manual and `InstanceId()` always returns NotProvisioned.  The short
ticker then fires five times, at `t0 + 1 s`, ..., `t0 + 5 s`, each fire running
`pollGroupMembers(short)`, which returns nil.  The entry is due at the first and at the
third fire only; its `shortPollInterval` after the first to fifth fire is 2 s, 2 s, 4 s,
4 s and 4 s, its `shortPollAt` is `t0 + 3 s` after the first two fires and `t0 + 7 s`
after the others; the entry is in the short group throughout, and `Environ.Instances`
is never called: the calls made are those on `Facade.Machine`, `IsManual`, the clock and
`InstanceId`. -/
theorem scenario_unprovisioned (c : Collaborators) (m : Handle) (t0 : Time)
    (hfacade : c.facadeMachine [] "0" = Except.ok m)
    (hmanual : c.isManual [Call.facadeMachine "0"] m = Except.ok false)
    (hnp : ∀ tr, c.instanceId tr m = Except.error Error.NotProvisioned)
    (hclock : ∀ tr, c.clockNow tr = t0 + 1000000000 * scenarioFire tr.length) :
    ∃ tr0 tr1 tr2 tr3 tr4 tr5,
      queueMachineForPolling c defaultConsts "0" State.init =
        Outcome.ok () (scenarioState m 1000000000 (t0 + 1000000000) tr0) ∧
      c.clockNow tr0 = t0 + 1000000000 ∧
      pollGroupMembers c defaultConsts pollGroupType.shortPollGroup
          (scenarioState m 1000000000 (t0 + 1000000000) tr0) =
        Outcome.ok () (scenarioState m 2000000000 (t0 + 3000000000) tr1) ∧
      c.clockNow tr1 = t0 + 2000000000 ∧
      pollGroupMembers c defaultConsts pollGroupType.shortPollGroup
          (scenarioState m 2000000000 (t0 + 3000000000) tr1) =
        Outcome.ok () (scenarioState m 2000000000 (t0 + 3000000000) tr2) ∧
      c.clockNow tr2 = t0 + 3000000000 ∧
      pollGroupMembers c defaultConsts pollGroupType.shortPollGroup
          (scenarioState m 2000000000 (t0 + 3000000000) tr2) =
        Outcome.ok () (scenarioState m 4000000000 (t0 + 7000000000) tr3) ∧
      c.clockNow tr3 = t0 + 4000000000 ∧
      pollGroupMembers c defaultConsts pollGroupType.shortPollGroup
          (scenarioState m 4000000000 (t0 + 7000000000) tr3) =
        Outcome.ok () (scenarioState m 4000000000 (t0 + 7000000000) tr4) ∧
      c.clockNow tr4 = t0 + 5000000000 ∧
      pollGroupMembers c defaultConsts pollGroupType.shortPollGroup
          (scenarioState m 4000000000 (t0 + 7000000000) tr4) =
        Outcome.ok () (scenarioState m 4000000000 (t0 + 7000000000) tr5) ∧
      tr5 = [Call.facadeMachine "0", Call.isManual m, Call.clockNow,
        Call.clockNow, Call.instanceId m, Call.clockNow,
        Call.clockNow,
        Call.clockNow, Call.instanceId m, Call.clockNow,
        Call.clockNow,
        Call.clockNow] ∧
      ∀ ev ∈ tr5, ∀ ids : List InstanceId, ev ≠ Call.environInstances ids := by
  have hd1 : min (scaleDuration defaultConsts 1000000000) defaultConsts.LongPoll =
      2000000000 := by
    rw [scaleDuration_default_one]
    rfl
  have hd2 : min (scaleDuration defaultConsts 2000000000) defaultConsts.LongPoll =
      4000000000 := by
    rw [scaleDuration_default_two]
    rfl
  have hc : ∀ (tr : List Call) (n : Int), scenarioFire tr.length = n →
      c.clockNow tr = t0 + 1000000000 * n := by
    intro tr n h
    rw [hclock, h]
  refine ⟨[Call.facadeMachine "0", Call.isManual m, Call.clockNow],
    [Call.facadeMachine "0", Call.isManual m, Call.clockNow] ++ [Call.clockNow] ++
      [Call.instanceId m] ++ [Call.clockNow],
    [Call.facadeMachine "0", Call.isManual m, Call.clockNow] ++ [Call.clockNow] ++
      [Call.instanceId m] ++ [Call.clockNow] ++ [Call.clockNow],
    [Call.facadeMachine "0", Call.isManual m, Call.clockNow] ++ [Call.clockNow] ++
      [Call.instanceId m] ++ [Call.clockNow] ++ [Call.clockNow] ++ [Call.clockNow] ++
      [Call.instanceId m] ++ [Call.clockNow],
    [Call.facadeMachine "0", Call.isManual m, Call.clockNow] ++ [Call.clockNow] ++
      [Call.instanceId m] ++ [Call.clockNow] ++ [Call.clockNow] ++ [Call.clockNow] ++
      [Call.instanceId m] ++ [Call.clockNow] ++ [Call.clockNow],
    [Call.facadeMachine "0", Call.isManual m, Call.clockNow] ++ [Call.clockNow] ++
      [Call.instanceId m] ++ [Call.clockNow] ++ [Call.clockNow] ++ [Call.clockNow] ++
      [Call.instanceId m] ++ [Call.clockNow] ++ [Call.clockNow] ++ [Call.clockNow],
    ?_, ?_, ?_, ?_, ?_, ?_, ?_, ?_, ?_, ?_, ?_, rfl, ?_⟩
  · rw [queueMachineForPolling_fresh c defaultConsts "0" State.init m (by rfl) hfacade
      hmanual, appendToShortPollGroup_apply]
    have h0 : c.clockNow ([] ++ [Call.facadeMachine "0"] ++ [Call.isManual m]) = t0 := by
      rw [hc _ 0 (by rfl)]
      ring
    show Outcome.ok ()
      { u := { heap := [] ++ [freshEntry defaultConsts "0" m
                 (c.clockNow ([] ++ [Call.facadeMachine "0"] ++ [Call.isManual m]))],
               shortGroup := [("0", 0)], longGroup := [], instanceIDToGroupEntry := [] },
        trace := [] ++ [Call.facadeMachine "0"] ++ [Call.isManual m] ++ [Call.clockNow] } = _
    rw [h0]
    rfl
  · rw [hc _ 1 (by rfl)]
    ring
  · rw [scenario_fire_due c defaultConsts m _ _ _
      (by rw [hc _ 1 (by rfl)]; exact not_lt.2 (by linarith)) (hnp _), hd1, hc _ 1 (by rfl)]
    have h : t0 + 1000000000 * 1 + 2000000000 = t0 + 3000000000 := by ring
    rw [h]
  · rw [hc _ 2 (by rfl)]
    ring
  · rw [scenario_fire_notDue c defaultConsts m _ _ _ (by rw [hc _ 2 (by rfl)]; linarith)]
  · rw [hc _ 3 (by rfl)]
    ring
  · rw [scenario_fire_due c defaultConsts m _ _ _
      (by rw [hc _ 3 (by rfl)]; exact not_lt.2 (by linarith)) (hnp _), hd2, hc _ 3 (by rfl)]
    have h : t0 + 1000000000 * 3 + 4000000000 = t0 + 7000000000 := by ring
    rw [h]
  · rw [hc _ 4 (by rfl)]
    ring
  · rw [scenario_fire_notDue c defaultConsts m _ _ _ (by rw [hc _ 4 (by rfl)]; linarith)]
  · rw [hc _ 5 (by rfl)]
    ring
  · rw [scenario_fire_notDue c defaultConsts m _ _ _ (by rw [hc _ 5 (by rfl)]; linarith)]
  · intro ev hev ids heq
    subst heq
    simp at hev

theorem scenario_unprovisioned_witness :
    ∃ tr4 tr5,
      pollGroupMembers (scenarioWorld 0) defaultConsts pollGroupType.shortPollGroup
          (scenarioState 0 4000000000 7000000000 tr4) =
        Outcome.ok () (scenarioState 0 4000000000 7000000000 tr5) ∧
      ∀ ev ∈ tr5, ∀ ids : List InstanceId, ev ≠ Call.environInstances ids := by
  obtain ⟨tr0, tr1, tr2, tr3, tr4, tr5, _, _, _, _, _, _, _, _, _, _, h5, _, hno⟩ :=
    scenario_unprovisioned (scenarioWorld 0) 0 0 (by rfl) (by rfl) (fun _ => rfl)
      (fun _ => rfl)
  exact ⟨tr4, tr5, h5, hno⟩

/-! ## The lookup of a slot's entry -/

/-- The elements related to some value, in order, are related to the values. -/
theorem forall₂_reduceOption {α β : Type} {R : α → Option β → Prop} :
    ∀ (l1 : List α) (l2 : List (Option β)), List.Forall₂ R l1 l2 →
      ∃ owners : List α, owners.Sublist l1 ∧
        List.Forall₂ (fun a b => R a (some b)) owners l2.reduceOption := by
  intro l1 l2 h
  induction h with
  | nil => exact ⟨[], List.Sublist.slnil, List.Forall₂.nil⟩
  | @cons a f l1 l2 hab _ ih =>
    obtain ⟨owners, hsub, hall⟩ := ih
    cases f with
    | none =>
      refine ⟨owners, List.Sublist.cons a hsub, ?_⟩
      rw [List.reduceOption_cons_of_none]
      exact hall
    | some b =>
      refine ⟨a :: owners, List.Sublist.cons₂ a hsub, ?_⟩
      rw [List.reduceOption_cons_of_some]
      exact List.Forall₂.cons hab hall

theorem forall₂_getElem? {α β : Type} {R : α → β → Prop} :
    ∀ (l1 : List α) (l2 : List β), List.Forall₂ R l1 l2 →
      ∀ (j : Nat) (b : β), l2[j]? = some b → ∃ a, l1[j]? = some a ∧ R a b := by
  intro l1 l2 h
  induction h with
  | nil =>
    intro j b hb
    cases hb
  | @cons a b0 l1 l2 hab _ ih =>
    intro j b hb
    cases j with
    | zero =>
      rw [List.getElem?_cons_zero] at hb
      injection hb with hb
      subst hb
      exact ⟨a, List.getElem?_cons_zero, hab⟩
    | succ j =>
      rw [List.getElem?_cons_succ] at hb
      obtain ⟨a1, h1, h2⟩ := ih j b hb
      exact ⟨a1, by rw [List.getElem?_cons_succ]; exact h1, h2⟩

/-- Values related to elements that differ under `f` differ. -/
theorem nodup_of_forall₂ {α β γ : Type} {R : α → β → Prop} (f : α → γ)
    (hf : ∀ a a1 b, R a b → R a1 b → f a = f a1) :
    ∀ (l1 : List α) (l2 : List β), List.Forall₂ R l1 l2 → (l1.map f).Nodup → l2.Nodup := by
  intro l1 l2 h
  induction h with
  | nil => exact fun _ => List.nodup_nil
  | @cons a b l1 l2 hab hrest ih =>
    intro hnd
    rw [List.map_cons, List.nodup_cons] at hnd
    refine List.nodup_cons.2 ⟨?_, ih hnd.2⟩
    intro hb
    obtain ⟨a1, ha1, hr⟩ := forall₂_of_mem_right _ _ hrest b hb
    exact hnd.1 (by rw [hf a a1 b hab hr]; exact List.mem_map_of_mem f ha1)

/-- The second loop does not panic when every slot has a position in the batch, the id
at the position of a slot that holds an instance is a key of `instanceIDToGroupEntry`,
and the values of `instanceIDToGroupEntry` address entries. -/
theorem processInfoList_total (c : Collaborators) (k : PollConsts) (g : pollGroupType)
    (instList : List InstanceId) (infoList : List (Option InstHandle)) :
    ∀ (idx : Nat) (s : State),
      (∀ j : Nat, j < infoList.length → ∃ id, instList[idx + j]? = some id) →
      (∀ (j : Nat) (info : InstHandle) (id : InstanceId),
        infoList[j]? = some (some info) → instList[idx + j]? = some id →
        ∃ p, mapLookup s.u.instanceIDToGroupEntry id = some p) →
      (∀ (id : InstanceId) (p : Ptr), mapLookup s.u.instanceIDToGroupEntry id = some p →
        ∃ e, s.u.heap[p]? = some e) →
      processInfoList c k g instList idx infoList s ≠ Outcome.panic := by
  induction infoList with
  | nil =>
    intro idx s _ _ _
    rw [processInfoList]
    exact fun h => by cases h
  | cons slot rest ih =>
    intro idx s hrange hkey hvalid
    obtain ⟨id, hid⟩ := hrange 0 (by simp)
    rw [Nat.add_zero] at hid
    have hrange1 : ∀ j : Nat, j < rest.length → ∃ id, instList[idx + 1 + j]? = some id := by
      intro j hj
      have h := hrange (j + 1) (by simp; omega)
      rw [show idx + (j + 1) = idx + 1 + j by omega] at h
      exact h
    have hkey1 : ∀ (s1 : State),
        s1.u.instanceIDToGroupEntry = s.u.instanceIDToGroupEntry →
        ∀ (j : Nat) (info : InstHandle) (id : InstanceId),
          rest[j]? = some (some info) → instList[idx + 1 + j]? = some id →
          ∃ p, mapLookup s1.u.instanceIDToGroupEntry id = some p := by
      intro s1 hs1 j info id1 hj hid1
      rw [hs1]
      refine hkey (j + 1) info id1 (by rw [List.getElem?_cons_succ]; exact hj) ?_
      rw [show idx + (j + 1) = idx + 1 + j by omega]
      exact hid1
    cases slot with
    | none =>
      rw [processInfoList_absent c k g instList idx rest s id hid]
      exact ih (idx + 1) s hrange1 (hkey1 s rfl) hvalid
    | some info =>
      obtain ⟨p, hp⟩ := hkey 0 info id List.getElem?_cons_zero
        (by rw [Nat.add_zero]; exact hid)
      obtain ⟨e, he⟩ := hvalid id p hp
      rw [processInfoList_present c k g instList idx info rest s id p hid hp]
      obtain ⟨s1, hs1, hfr⟩ := pollGroupMembersSlot_frame c k g p info s e he
      revert hs1
      cases pollGroupMembersSlot c k g p info s with
      | ok a s2 =>
        intro hs1
        injection hs1 with hs1
        subst hs1
        refine ih (idx + 1) s2 hrange1 (hkey1 s2 hfr.index) ?_
        intro id1 q hq
        rw [hfr.index] at hq
        obtain ⟨e1, he1⟩ := hvalid id1 q hq
        by_cases hqp : q = p
        · obtain ⟨e2, he2, _⟩ := hfr.entry
          exact ⟨e2, by rw [hqp]; exact he2⟩
        · exact ⟨e1, by rw [hfr.others q hqp]; exact he1⟩
      | error err s2 =>
        intro _ h
        cases h
      | panic =>
        intro hs1
        cases hs1

/-- With instance ids that identify machines, the batch of a poll made in a reachable
state has an owner for each of its ids: a member of the polled group, the owners being
in the order in which the group is visited, whose entry holds that id under the
member's tag and which is the value of `instanceIDToGroupEntry` at that id. -/
theorem batch_owners (c : Collaborators) (k : PollConsts) (g : pollGroupType)
    (hd : DistinctInstanceIds c) (s s1 : State) (ids : List InstanceId)
    (hreach : Reachable c k s)
    (hloop : collectInstanceIDs c k g (c.clockNow s.trace) (s.u.pollGroup g) []
      { u := s.u, trace := s.trace ++ [Call.clockNow] } = Outcome.ok ids s1) :
    ∃ owners : List (MachineTag × Ptr), owners.Sublist (s.u.pollGroup g) ∧
      List.Forall₂
        (fun tp id => mapLookup s1.u.instanceIDToGroupEntry id = some tp.2 ∧
          ∃ e1, s1.u.heap[tp.2]? = some e1 ∧ e1.instanceID = id ∧ e1.tag = tp.1)
        owners ids := by
  obtain ⟨hwf, _⟩ := reachable_indexInv c k hd s hreach
  obtain ⟨hwf1, _, hic1⟩ := selected_invariants c k g hd s s1 ids hreach hloop
  rcases pollGroupMembers_selection c k g s hwf with
    ⟨err, s1a, h, _⟩ | ⟨ids1, s1a, fates, hloop1, hids, hsel⟩
  · rw [hloop] at h
    cases h
  · rw [hloop] at hloop1
    injection hloop1 with h1 h2
    subst h1
    subst h2
    obtain ⟨owners, hsub, hall⟩ := forall₂_reduceOption _ _ hsel.fate
    refine ⟨owners, hsub, ?_⟩
    rw [hids]
    refine forall₂_imp_of_mem owners fates.reduceOption ?_ hall
    rintro tp id hmem ⟨e, e1, _, he1, hf⟩
    have hgrp : s1.u.pollGroup g = s.u.pollGroup g := by
      cases g with
      | shortPollGroup => exact hsel.frame.short
      | longPollGroup => exact hsel.frame.long
    have hl : mapLookup (s1.u.pollGroup g) tp.1 = some tp.2 := by
      rw [hgrp]
      exact mapLookup_of_mem _ tp.1 tp.2 (nodup_pollGroup s.u hwf g) (hsub.subset hmem)
    obtain ⟨e2, he2, htag⟩ := hwf1.groupEntry g tp.1 tp.2 hl
    rw [he1] at he2
    injection he2 with he2
    subst he2
    have hid : e1.instanceID = id ∧ id ≠ "" := by
      cases hf with
      | resolved _ hne heq => exact ⟨by rw [heq], hne⟩
      | resolves tr _ _ _ _ _ hres heq => exact ⟨by rw [heq], hd.nonEmpty tr e.m id hres⟩
    have hx := hic1.entryIndexed g tp.1 tp.2 e1 hl he1 (by rw [hid.1]; exact hid.2)
    rw [hid.1] at hx
    exact ⟨hx, e1, he1, hid.1, htag⟩

/-- C30 (the lookup of a slot's entry).  A poll is made in a reachable state, with
instance ids that identify machines (`InstanceId()` never returns the empty id, and
machines of different tags never return the same id); its first loop returns the batch
`ids` in state `s1`, and `Environ.Instances` returns a slice no longer than the batch.
Then the batch holds no id twice, and each of its ids has an owner, a member of the
polled group (the owners being in the order in which the group is visited), whose entry
holds that id under the owner's tag and is the value of `instanceIDToGroupEntry` at that
id.  So for every slot `j` that holds an instance, position `j` of the batch is in range
and the lookup finds the entry of the owner of that position.  `pollGroupMembers` does
not panic; and however it ends, `instanceIDToGroupEntry` is then what it was when the
batch was made, and every call made since, but for the query itself, is a call of a slot
that holds an instance, made for the entry of the owner of that slot's position. -/
theorem slot_lookup_cannot_miss (c : Collaborators) (k : PollConsts) (g : pollGroupType)
    (hd : DistinctInstanceIds c) (s s1 : State) (ids : List InstanceId)
    (hreach : Reachable c k s)
    (hloop : collectInstanceIDs c k g (c.clockNow s.trace) (s.u.pollGroup g) []
      { u := s.u, trace := s.trace ++ [Call.clockNow] } = Outcome.ok ids s1)
    (hlen : (c.environInstances s1.trace ids).1.length ≤ ids.length) :
    ids.Nodup ∧
    ∃ owners : List (MachineTag × Ptr), owners.Sublist (s.u.pollGroup g) ∧
      List.Forall₂
        (fun tp id => mapLookup s1.u.instanceIDToGroupEntry id = some tp.2 ∧
          ∃ e1, s1.u.heap[tp.2]? = some e1 ∧ e1.instanceID = id ∧ e1.tag = tp.1)
        owners ids ∧
      (∀ (j : Nat) (info : InstHandle),
        (c.environInstances s1.trace ids).1[j]? = some (some info) →
        ∃ id tp e1, ids[j]? = some id ∧ owners[j]? = some tp ∧
          mapLookup s1.u.instanceIDToGroupEntry id = some tp.2 ∧
          s1.u.heap[tp.2]? = some e1 ∧ e1.instanceID = id ∧ e1.tag = tp.1) ∧
      pollGroupMembers c k g s ≠ Outcome.panic ∧
      ∀ s2, (pollGroupMembers c k g s).state? = some s2 →
        s2.u.instanceIDToGroupEntry = s1.u.instanceIDToGroupEntry ∧
        ∃ new, s2.trace = s1.trace ++ new ∧
          ∀ ev ∈ new, ev = Call.environInstances ids ∨
            ∃ (j : Nat) (info : InstHandle) (tp : MachineTag × Ptr) (e1 : pollGroupEntry),
              (c.environInstances s1.trace ids).1[j]? = some (some info) ∧
              owners[j]? = some tp ∧ s1.u.heap[tp.2]? = some e1 ∧
              Call.ofSlot e1.m info ev = true := by
  obtain ⟨hwf, _⟩ := reachable_indexInv c k hd s hreach
  obtain ⟨hwf1, _, _⟩ := selected_invariants c k g hd s s1 ids hreach hloop
  obtain ⟨owners, hsub, hall⟩ := batch_owners c k g hd s s1 ids hreach hloop
  have hndm := (wellFormed_members s.u hwf g).1
  have hndo : (owners.map Prod.snd).Nodup := (hsub.map Prod.snd).nodup hndm
  have hnd : ids.Nodup := by
    refine nodup_of_forall₂ Prod.snd ?_ owners ids hall hndo
    rintro tp tq id ⟨h1, _⟩ ⟨h2, _⟩
    rw [h1] at h2
    injection h2
  have hslot : ∀ (j : Nat) (id : InstanceId), ids[j]? = some id →
      ∃ tp e1, owners[j]? = some tp ∧
        mapLookup s1.u.instanceIDToGroupEntry id = some tp.2 ∧
        s1.u.heap[tp.2]? = some e1 ∧ e1.instanceID = id ∧ e1.tag = tp.1 := by
    intro j id hj
    obtain ⟨tp, htp, hidx, e1, he1, hid, htag⟩ := forall₂_getElem? _ _ hall j id hj
    exact ⟨tp, e1, htp, hidx, he1, hid, htag⟩
  have hrange : ∀ j : Nat, j < (c.environInstances s1.trace ids).1.length →
      ∃ id, ids[0 + j]? = some id := by
    intro j hj
    have hlt : j < ids.length := lt_of_lt_of_le hj hlen
    exact ⟨ids[j], by rw [Nat.zero_add]; exact List.getElem?_eq_getElem hlt⟩
  have htarget : ∀ (q : Ptr) (info : InstHandle),
      SlotTarget s1.u ids 0 (c.environInstances s1.trace ids).1 q info →
      ∃ (j : Nat) (tp : MachineTag × Ptr) (e1 : pollGroupEntry),
        (c.environInstances s1.trace ids).1[j]? = some (some info) ∧
        owners[j]? = some tp ∧ tp.2 = q ∧ s1.u.heap[tp.2]? = some e1 := by
    rintro q info ⟨j, id, h1, h2, h3⟩
    rw [Nat.zero_add] at h2
    obtain ⟨tp, e1, htp, hidx, he1, _, _⟩ := hslot j id h2
    rw [h3] at hidx
    injection hidx with hidx
    exact ⟨j, tp, e1, h1, htp, hidx.symm, he1⟩
  refine ⟨hnd, owners, hsub, hall, ?_, ?_, ?_⟩
  · intro j info hj
    have hlt : j < (c.environInstances s1.trace ids).1.length :=
      (List.getElem?_eq_some_iff.1 hj).1
    obtain ⟨id, hid⟩ := hrange j hlt
    rw [Nat.zero_add] at hid
    obtain ⟨tp, e1, htp, hidx, he1, hi, ht⟩ := hslot j id hid
    exact ⟨id, tp, e1, hid, htp, hidx, he1, hi, ht⟩
  · rw [pollGroupMembers_apply c k g s s1 ids hloop]
    by_cases hids : ids = []
    · rw [if_pos hids]
      exact fun h => by cases h
    · rw [if_neg hids]
      have htotal := processInfoList_total c k g ids (c.environInstances s1.trace ids).1 0
        { u := s1.u, trace := s1.trace ++ [Call.environInstances ids] } hrange
        (fun j info id _ hid => by
          rw [Nat.zero_add] at hid
          obtain ⟨tp, _, _, hidx, _⟩ := hslot j id hid
          exact ⟨tp.2, hidx⟩)
        hwf1.indexEntry
      cases hres : (c.environInstances s1.trace ids).2 with
      | none => exact htotal
      | some err =>
        simp only []
        by_cases herr : err ≠ Error.ErrPartialInstances
        · rw [if_pos herr]
          exact fun h => by cases h
        · rw [if_neg herr]
          exact htotal
  · intro s2 hs2
    by_cases hids : ids = []
    · rw [pollGroupMembers_apply c k g s s1 ids hloop, if_pos hids] at hs2
      have hs2 : some s1 = some s2 := hs2
      injection hs2 with hs2
      rw [← hs2]
      exact ⟨rfl, [], by simp, fun ev hev => by cases hev⟩
    · have hslots := pollGroupMembers_slots c k g s s1 ids hloop hids
      have hfr : SlotsFrame ids 0 (c.environInstances s1.trace ids).1
          { u := s1.u, trace := s1.trace ++ [Call.environInstances ids] } s2 := by
        revert hs2 hslots
        cases pollGroupMembers c k g s with
        | ok a s3 =>
          intro hs2 hslots
          injection hs2 with hs2
          rw [← hs2]
          exact hslots
        | error err s3 =>
          intro hs2 hslots
          injection hs2 with hs2
          rw [← hs2]
          exact hslots
        | panic =>
          intro hs2
          cases hs2
      obtain ⟨new, htr, hnew⟩ := hfr.calls
      refine ⟨hfr.index, Call.environInstances ids :: new, ?_, ?_⟩
      · rw [htr]
        simp
      · intro ev hev
        rcases List.mem_cons.1 hev with h | h
        · exact Or.inl h
        · obtain ⟨q, info, e, hq, he, hc⟩ := hnew ev h
          obtain ⟨j, tp, e1, h1, h2, h3, h4⟩ := htarget q info hq
          have he : s1.u.heap[q]? = some e := he
          rw [← h3, h4] at he
          injection he with he
          subst he
          exact Or.inr ⟨j, info, tp, e1, h1, h2, h4, hc⟩

theorem slot_lookup_cannot_miss_witness :
    ["i-2", "i-1"].Nodup ∧
      pollGroupMembers partialWorld defaultConsts pollGroupType.shortPollGroup pairQueued ≠
        Outcome.panic ∧
      pairPolled.u.instanceIDToGroupEntry = pairSelected.u.instanceIDToGroupEntry := by
  have h := slot_lookup_cannot_miss partialWorld defaultConsts pollGroupType.shortPollGroup
    partialWorld_distinctInstanceIds pairQueued pairSelected ["i-2", "i-1"]
    pairQueued_reachable pairSelected_run (by decide)
  obtain ⟨hnd, owners, _, _, _, hpanic, hend⟩ := h
  exact ⟨hnd, hpanic, (hend pairPolled (by rw [pairPolled_run]; rfl)).1⟩

/-! ## The order in which a poll visits its group -/

theorem outcomeRel_ok_left {β : Type} (E : β → State → β → State → Prop)
    (o o1 : Outcome β) (h : OutcomeRel E o o1) (b : β) (s : State) (ho : o = Outcome.ok b s) :
    ∃ b1 s1, o1 = Outcome.ok b1 s1 ∧ E b s b1 s1 := by
  subst ho
  cases o1 with
  | ok b1 s1 => exact ⟨b1, s1, rfl, h⟩
  | error e1 s1 => exact h.elim
  | panic => exact h.elim

theorem outcomeRel_trans {β : Type} (E : β → State → β → State → Prop)
    (htrans : ∀ b s b1 s1 b2 s2, E b s b1 s1 → E b1 s1 b2 s2 → E b s b2 s2)
    (o o1 o2 : Outcome β) (h : OutcomeRel E o o1) (h1 : OutcomeRel E o1 o2) :
    OutcomeRel E o o2 := by
  cases o with
  | ok b s =>
    cases o1 with
    | ok b1 s1 =>
      cases o2 with
      | ok b2 s2 => exact htrans b s b1 s1 b2 s2 h h1
      | error e2 s2 => exact h1.elim
      | panic => exact h1.elim
    | error e1 s1 => exact h.elim
    | panic => exact h.elim
  | error e s =>
    cases o1 with
    | ok b1 s1 => exact h.elim
    | error e1 s1 =>
      cases o2 with
      | ok b2 s2 => exact h1.elim
      | error e2 s2 => exact trivial
      | panic => exact h1.elim
    | panic => exact h.elim
  | panic => cases o1 <;> exact h.elim

theorem runSteps_cons {ι β : Type} (step : ι → β → M β) (x : ι) (rest : List ι) (b : β)
    (s : State) :
    runSteps step (x :: rest) b s =
      match step x b s with
      | .ok b1 s1 => runSteps step rest b1 s1
      | .error e s1 => .error e s1
      | .panic => .panic := rfl

/-- A loop whose steps respect `E` ends the same way from two starts related by `E`. -/
theorem runSteps_congr {ι β : Type} (step : ι → β → M β)
    (E : β → State → β → State → Prop) (I : List ι → State → Prop)
    (htail : ∀ x L b s b1 s1, I (x :: L) s → step x b s = Outcome.ok b1 s1 → I L s1)
    (hcong : ∀ x L b s b1 s1, I (x :: L) s → E b s b1 s1 →
      OutcomeRel E (step x b s) (step x b1 s1)) :
    ∀ (L : List ι) (b : β) (s : State) (b1 : β) (s1 : State), I L s → E b s b1 s1 →
      OutcomeRel E (runSteps step L b s) (runSteps step L b1 s1) := by
  intro L
  induction L with
  | nil =>
    intro b s b1 s1 _ hE
    exact hE
  | cons x rest ih =>
    intro b s b1 s1 hI hE
    rw [runSteps_cons, runSteps_cons]
    have h := hcong x rest b s b1 s1 hI hE
    cases hx : step x b s with
    | ok b2 s2 =>
      rw [hx] at h
      cases hy : step x b1 s1 with
      | ok b3 s3 =>
        rw [hy] at h
        exact ih b2 s2 b3 s3 (htail x rest b s b2 s2 hI hx) h
      | error e3 s3 =>
        rw [hy] at h
        exact h.elim
      | panic =>
        rw [hy] at h
        exact h.elim
    | error e2 s2 =>
      rw [hx] at h
      cases hy : step x b1 s1 with
      | ok b3 s3 =>
        rw [hy] at h
        exact h.elim
      | error e3 s3 => exact trivial
      | panic =>
        rw [hy] at h
        exact h.elim
    | panic =>
      rw [hx] at h
      cases hy : step x b1 s1 <;> rw [hy] at h <;> exact h.elim

/-- A loop whose steps respect `E` and commute up to `E` ends the same way whatever the
order of its list. -/
theorem runSteps_perm {ι β : Type} (step : ι → β → M β)
    (E : β → State → β → State → Prop) (I : List ι → State → Prop)
    (htrans : ∀ b s b1 s1 b2 s2, E b s b1 s1 → E b1 s1 b2 s2 → E b s b2 s2)
    (hrefl : ∀ L b s, I L s → E b s b s)
    (hperm : ∀ L L1 s, List.Perm L L1 → I L s → I L1 s)
    (htail : ∀ x L b s b1 s1, I (x :: L) s → step x b s = Outcome.ok b1 s1 → I L s1)
    (hcong : ∀ x L b s b1 s1, I (x :: L) s → E b s b1 s1 →
      OutcomeRel E (step x b s) (step x b1 s1))
    (hcomm : ∀ x y L b s b1 s1, I (x :: y :: L) s → E b s b1 s1 →
      OutcomeRel E ((step x b >>= step y) s) ((step y b1 >>= step x) s1)) :
    ∀ (L L1 : List ι), List.Perm L L1 →
      ∀ (b : β) (s : State) (b1 : β) (s1 : State), I L s → E b s b1 s1 →
        OutcomeRel E (runSteps step L b s) (runSteps step L1 b1 s1) := by
  intro L L1 hp
  induction hp with
  | nil =>
    intro b s b1 s1 _ hE
    exact hE
  | @cons x L L1 hp1 ih =>
    intro b s b1 s1 hI hE
    rw [runSteps_cons, runSteps_cons]
    have h := hcong x L b s b1 s1 hI hE
    cases hx : step x b s with
    | ok b2 s2 =>
      obtain ⟨b3, s3, hy, hE2⟩ := outcomeRel_ok_left E _ _ h b2 s2 hx
      rw [hy]
      exact ih b2 s2 b3 s3 (htail x L b s b2 s2 hI hx) hE2
    | error e2 s2 =>
      rw [hx] at h
      cases hy : step x b1 s1 with
      | ok b3 s3 =>
        rw [hy] at h
        exact h.elim
      | error e3 s3 => exact trivial
      | panic =>
        rw [hy] at h
        exact h.elim
    | panic =>
      rw [hx] at h
      cases hy : step x b1 s1 <;> rw [hy] at h <;> exact h.elim
  | swap x y L =>
    intro b s b1 s1 hI hE
    have h := hcomm y x L b s b1 s1 hI hE
    rw [M.bind_apply, M.bind_apply] at h
    rw [runSteps_cons, runSteps_cons]
    cases hy : step y b s with
    | ok b2 s2 =>
      rw [hy] at h
      simp only [] at h ⊢
      rw [runSteps_cons]
      cases hx : step x b2 s2 with
      | ok b3 s3 =>
        rw [hx] at h
        obtain ⟨b4, s4, h4, hE4⟩ := outcomeRel_ok_left E _ _ h b3 s3 rfl
        have hI3 : I L s3 :=
          htail x L b2 s2 b3 s3 (htail y (x :: L) b s b2 s2 hI hy) hx
        cases hx1 : step x b1 s1 with
        | ok b5 s5 =>
          rw [hx1] at h4
          simp only [] at h4 ⊢
          rw [runSteps_cons, h4]
          exact runSteps_congr step E I htail hcong L b3 s3 b4 s4 hI3 hE4
        | error e5 s5 =>
          rw [hx1] at h4
          cases h4
        | panic =>
          rw [hx1] at h4
          cases h4
      | error e3 s3 =>
        rw [hx] at h
        cases hx1 : step x b1 s1 with
        | ok b5 s5 =>
          rw [hx1] at h
          simp only [] at h ⊢
          rw [runSteps_cons]
          cases hy1 : step y b5 s5 with
          | ok b6 s6 =>
            rw [hy1] at h
            exact h.elim
          | error e6 s6 => exact trivial
          | panic =>
            rw [hy1] at h
            exact h.elim
        | error e5 s5 => exact trivial
        | panic =>
          rw [hx1] at h
          exact h.elim
      | panic =>
        rw [hx] at h
        cases hx1 : step x b1 s1 with
        | ok b5 s5 =>
          rw [hx1] at h
          simp only [] at h
          cases hy1 : step y b5 s5 <;> rw [hy1] at h <;> exact h.elim
        | error e5 s5 =>
          rw [hx1] at h
          exact h.elim
        | panic =>
          rw [hx1] at h
          exact h.elim
    | error e2 s2 =>
      rw [hy] at h
      cases hx1 : step x b1 s1 with
      | ok b5 s5 =>
        rw [hx1] at h
        simp only [] at h ⊢
        rw [runSteps_cons]
        cases hy1 : step y b5 s5 with
        | ok b6 s6 =>
          rw [hy1] at h
          exact h.elim
        | error e6 s6 => exact trivial
        | panic =>
          rw [hy1] at h
          exact h.elim
      | error e5 s5 => exact trivial
      | panic =>
        rw [hx1] at h
        exact h.elim
    | panic =>
      rw [hy] at h
      cases hx1 : step x b1 s1 with
      | ok b5 s5 =>
        rw [hx1] at h
        simp only [] at h
        cases hy1 : step y b5 s5 <;> rw [hy1] at h <;> exact h.elim
      | error e5 s5 =>
        rw [hx1] at h
        exact h.elim
      | panic =>
        rw [hx1] at h
        exact h.elim
  | @trans L L1 L2 h1 _ ih1 ih2 =>
    intro b s b1 s1 hI hE
    exact outcomeRel_trans E htrans _ _ _ (ih1 b s b s hI (hrefl _ b s hI))
      (ih2 b s b1 s1 (hperm _ _ s h1 hI) hE)

/-! ## Two runs of a handler from states that agree on what it reads -/

theorem det2_pure {α : Type} (R : State → State → Prop) (a : α) (Q : α → Prop) (h : Q a) :
    Det2 R (pure a : M α) Q := by
  intro s s1 hR
  exact ⟨rfl, h, hR⟩

theorem det2_bind {α β : Type} {R : State → State → Prop} {x : M α} {Q : α → Prop}
    {f : α → M β} {Q1 : β → Prop}
    (hx : Det2 R x Q) (hf : ∀ a, Q a → Det2 R (f a) Q1) : Det2 R (x >>= f) Q1 := by
  intro s s1 hR
  have h := hx s s1 hR
  rw [M.bind_apply, M.bind_apply]
  cases hxs : x s with
  | ok a s2 =>
    cases hxs1 : x s1 with
    | ok a1 s3 =>
      rw [hxs, hxs1] at h
      obtain ⟨ha, hq, hR2⟩ := h
      subst ha
      exact hf a1 hq s2 s3 hR2
    | error e1 s3 =>
      rw [hxs, hxs1] at h
      exact h.elim
    | panic =>
      rw [hxs, hxs1] at h
      exact h.elim
  | error e s2 =>
    cases hxs1 : x s1 with
    | ok a1 s3 =>
      rw [hxs, hxs1] at h
      exact h.elim
    | error e1 s3 =>
      rw [hxs, hxs1] at h
      exact h
    | panic =>
      rw [hxs, hxs1] at h
      exact h.elim
  | panic =>
    rw [hxs] at h
    exact h.elim

theorem det2_weaken {α : Type} {R : State → State → Prop} {x : M α} {Q Q1 : α → Prop}
    (hx : Det2 R x Q) (hq : ∀ a, Q a → Q1 a) : Det2 R x Q1 := by
  intro s s1 hR
  have h := hx s s1 hR
  cases hxs : x s with
  | ok a s2 =>
    cases hxs1 : x s1 with
    | ok a1 s3 =>
      rw [hxs, hxs1] at h
      exact ⟨h.1, hq a h.2.1, h.2.2⟩
    | error e1 s3 =>
      rw [hxs, hxs1] at h
      exact h.elim
    | panic =>
      rw [hxs, hxs1] at h
      exact h.elim
  | error e s2 =>
    cases hxs1 : x s1 with
    | ok a1 s3 =>
      rw [hxs, hxs1] at h
      exact h.elim
    | error e1 s3 =>
      rw [hxs, hxs1] at h
      exact h
    | panic =>
      rw [hxs, hxs1] at h
      exact h.elim
  | panic =>
    rw [hxs] at h
    exact h.elim

theorem det2_modifyU {R : State → State → Prop} (f : updaterWorker → updaterWorker)
    (h : ∀ s s1, R s s1 → R { s with u := f s.u } { s1 with u := f s1.u }) :
    Det2 R (modifyU f) (fun _ => True) := by
  intro s s1 hR
  exact ⟨rfl, trivial, h s s1 hR⟩

theorem det2_invoke {ρ : Type} {R : State → State → Prop} (ev : Call)
    (answer : List Call → ρ)
    (hans : ∀ s s1, R s s1 → answer s1.trace = answer s.trace)
    (hcall : ∀ s s1, R s s1 →
      R { s with trace := s.trace ++ [ev] } { s1 with trace := s1.trace ++ [ev] }) :
    Det2 R (invoke ev answer) (fun _ => True) := by
  intro s s1 hR
  exact ⟨hans s s1 hR, trivial, hcall s s1 hR⟩

theorem det2_invokeOrReturn {ρ : Type} {R : State → State → Prop} (ev : Call)
    (answer : List Call → Except Error ρ)
    (hans : ∀ s s1, R s s1 → answer s1.trace = answer s.trace)
    (hcall : ∀ s s1, R s s1 →
      R { s with trace := s.trace ++ [ev] } { s1 with trace := s1.trace ++ [ev] }) :
    Det2 R (invokeOrReturn ev answer) (fun _ => True) := by
  intro s s1 hR
  unfold invokeOrReturn
  rw [hans s s1 hR]
  cases answer s.trace with
  | ok a => exact ⟨rfl, trivial, hcall s s1 hR⟩
  | error e => exact ⟨rfl, hcall s s1 hR⟩

theorem det2_invokeCheck {R : State → State → Prop} (ev : Call)
    (answer : List Call → Option Error)
    (hans : ∀ s s1, R s s1 → answer s1.trace = answer s.trace)
    (hcall : ∀ s s1, R s s1 →
      R { s with trace := s.trace ++ [ev] } { s1 with trace := s1.trace ++ [ev] }) :
    Det2 R (invokeCheck ev answer) (fun _ => True) := by
  intro s s1 hR
  unfold invokeCheck
  rw [hans s s1 hR]
  cases answer s.trace with
  | none => exact ⟨rfl, trivial, hcall s s1 hR⟩
  | some e => exact ⟨rfl, hcall s s1 hR⟩

theorem callsOn_append (m : Handle) (tr tr1 : List Call) :
    callsOn m (tr ++ tr1) = callsOn m tr ++ callsOn m tr1 := by
  unfold callsOn
  rw [List.filter_append]

theorem agreeAt_call (tr0 : List Call) (p : Ptr) (m : Handle) (t : MachineTag)
    (ev : Call) (s s1 : State) (h : AgreeAt tr0 p m t s s1) :
    AgreeAt tr0 p m t { s with trace := s.trace ++ [ev] }
      { s1 with trace := s1.trace ++ [ev] } where
  pre := h.pre.trans (List.prefix_append _ _)
  pre1 := h.pre1.trans (List.prefix_append _ _)
  valid := h.valid
  entry := h.entry
  short := h.short
  long := h.long
  calls := by
    show callsOn m (s1.trace ++ [ev]) = callsOn m (s.trace ++ [ev])
    rw [callsOn_append, callsOn_append, h.calls]

theorem agreeAt_set (tr0 : List Call) (p : Ptr) (m : Handle) (t : MachineTag)
    (e1 : pollGroupEntry) (hm : e1.m = m) (ht : e1.tag = t) (s s1 : State)
    (h : AgreeAt tr0 p m t s s1) :
    AgreeAt tr0 p m t { s with u := { s.u with heap := s.u.heap.set p e1 } }
      { s1 with u := { s1.u with heap := s1.u.heap.set p e1 } } := by
  obtain ⟨e, he, _, _⟩ := h.valid
  have he1 : s1.u.heap[p]? = some e := by rw [h.entry, he]
  have hlt : p < s.u.heap.length := (List.getElem?_eq_some_iff.1 he).1
  have hlt1 : p < s1.u.heap.length := (List.getElem?_eq_some_iff.1 he1).1
  have hset : (s.u.heap.set p e1)[p]? = some e1 := by
    rw [List.getElem?_set_self hlt]
  have hset1 : (s1.u.heap.set p e1)[p]? = some e1 := by
    rw [List.getElem?_set_self hlt1]
  exact
    { pre := h.pre
      pre1 := h.pre1
      valid := ⟨e1, hset, hm, ht⟩
      entry := by
        show (s1.u.heap.set p e1)[p]? = (s.u.heap.set p e1)[p]?
        rw [hset, hset1]
      short := h.short
      long := h.long
      calls := h.calls }

theorem agreeAt_delete (tr0 : List Call) (p : Ptr) (m : Handle) (t : MachineTag)
    (g : pollGroupType) (s s1 : State) (h : AgreeAt tr0 p m t s s1) :
    AgreeAt tr0 p m t { s with u := s.u.deleteFromGroup g t }
      { s1 with u := s1.u.deleteFromGroup g t } := by
  cases g with
  | shortPollGroup =>
    exact
      { pre := h.pre
        pre1 := h.pre1
        valid := h.valid
        entry := h.entry
        short := by
          show mapLookup (mapDelete s1.u.shortGroup t) t = mapLookup (mapDelete s.u.shortGroup t) t
          rw [mapLookup_mapDelete, mapLookup_mapDelete, if_pos rfl, if_pos rfl]
        long := h.long
        calls := h.calls }
  | longPollGroup =>
    exact
      { pre := h.pre
        pre1 := h.pre1
        valid := h.valid
        entry := h.entry
        short := h.short
        long := by
          show mapLookup (mapDelete s1.u.longGroup t) t = mapLookup (mapDelete s.u.longGroup t) t
          rw [mapLookup_mapDelete, mapLookup_mapDelete, if_pos rfl, if_pos rfl]
        calls := h.calls }

theorem agreeAt_insert (tr0 : List Call) (p : Ptr) (m : Handle) (t : MachineTag)
    (g : pollGroupType) (q : Ptr) (s s1 : State) (h : AgreeAt tr0 p m t s s1) :
    AgreeAt tr0 p m t { s with u := s.u.insertIntoGroup g t q }
      { s1 with u := s1.u.insertIntoGroup g t q } := by
  cases g with
  | shortPollGroup =>
    exact
      { pre := h.pre
        pre1 := h.pre1
        valid := h.valid
        entry := h.entry
        short := by
          show mapLookup (mapInsert s1.u.shortGroup t q) t =
            mapLookup (mapInsert s.u.shortGroup t q) t
          rw [mapLookup_mapInsert, mapLookup_mapInsert, if_pos rfl, if_pos rfl]
        long := h.long
        calls := h.calls }
  | longPollGroup =>
    exact
      { pre := h.pre
        pre1 := h.pre1
        valid := h.valid
        entry := h.entry
        short := h.short
        long := by
          show mapLookup (mapInsert s1.u.longGroup t q) t =
            mapLookup (mapInsert s.u.longGroup t q) t
          rw [mapLookup_mapInsert, mapLookup_mapInsert, if_pos rfl, if_pos rfl]
        calls := h.calls }

theorem det2_deref (tr0 : List Call) (p : Ptr) (m : Handle) (t : MachineTag) :
    Det2 (AgreeAt tr0 p m t) (deref p) (fun e => e.m = m ∧ e.tag = t) := by
  intro s s1 hR
  obtain ⟨e, he, hm, ht⟩ := hR.valid
  have he1 : s1.u.heap[p]? = some e := by rw [hR.entry, he]
  rw [deref_apply p s e he, deref_apply p s1 e he1]
  exact ⟨rfl, ⟨hm, ht⟩, hR⟩

theorem agreeAt_clock (c : Collaborators) (tr0 : List Call) (hlocal : PollLocal c tr0)
    (p : Ptr) (m : Handle) (t : MachineTag) (s s1 : State) (h : AgreeAt tr0 p m t s s1) :
    c.clockNow s1.trace = c.clockNow s.trace := by
  rw [hlocal.clock s1.trace h.pre1, hlocal.clock s.trace h.pre]

theorem resetShortPollInterval_det2 (c : Collaborators) (k : PollConsts) (tr0 : List Call)
    (hlocal : PollLocal c tr0) (p : Ptr) (m : Handle) (t : MachineTag) :
    Det2 (AgreeAt tr0 p m t) (resetShortPollInterval c k p) (fun _ => True) := by
  unfold resetShortPollInterval
  apply det2_bind (det2_deref tr0 p m t)
  intro e he
  apply det2_bind
    (det2_invoke Call.clockNow c.clockNow (agreeAt_clock c tr0 hlocal p m t)
      (agreeAt_call tr0 p m t _))
  intro now _
  exact det2_modifyU _ (agreeAt_set tr0 p m t _ he.1 he.2)

theorem bumpShortPollInterval_det2 (c : Collaborators) (k : PollConsts) (tr0 : List Call)
    (hlocal : PollLocal c tr0) (p : Ptr) (m : Handle) (t : MachineTag) :
    Det2 (AgreeAt tr0 p m t) (bumpShortPollInterval c k p) (fun _ => True) := by
  unfold bumpShortPollInterval
  apply det2_bind (det2_deref tr0 p m t)
  intro e he
  apply det2_bind
    (det2_invoke Call.clockNow c.clockNow (agreeAt_clock c tr0 hlocal p m t)
      (agreeAt_call tr0 p m t _))
  intro now _
  exact det2_modifyU _ (agreeAt_set tr0 p m t _ he.1 he.2)

theorem processProviderInfo_det2 (c : Collaborators) (k : PollConsts) (tr0 : List Call)
    (hlocal : PollLocal c tr0) (p : Ptr) (m : Handle) (t : MachineTag) (info : InstHandle) :
    Det2 (AgreeAt tr0 p m t) (processProviderInfo c k p info) (fun _ => True) := by
  unfold processProviderInfo
  apply det2_bind (det2_deref tr0 p m t)
  rintro entry ⟨hm, ht⟩
  subst hm
  apply det2_bind
    (det2_invoke _ _
      (fun s s1 h => hlocal.instanceStatus s.trace s1.trace entry.m h.pre h.pre1 h.calls)
      (agreeAt_call tr0 p entry.m t _))
  intro r _
  split
  · exact det2_pure _ _ _ trivial
  · apply det2_bind
      (det2_invoke _ _
        (fun s s1 h => hlocal.instStatus s.trace s1.trace info h.pre h.pre1)
        (agreeAt_call tr0 p entry.m t _))
    intro providerStatus _
    apply det2_bind (Q := fun _ => True)
    · split
      · apply det2_bind
          (det2_invokeCheck _ _
            (fun s s1 h => hlocal.setInstanceStatus s.trace s1.trace entry.m _ _
              h.pre h.pre1 h.calls)
            (agreeAt_call tr0 p entry.m t _))
        intro _ _
        split
        · exact resetShortPollInterval_det2 c k tr0 hlocal p entry.m t
        · exact det2_pure _ _ _ trivial
      · exact det2_pure _ _ _ trivial
    · intro _ _
      apply det2_bind
        (det2_invoke _ _
          (fun s s1 h => hlocal.life s.trace s1.trace entry.m h.pre h.pre1 h.calls)
          (agreeAt_call tr0 p entry.m t _))
      intro life _
      split
      · exact det2_pure _ _ _ trivial
      · apply det2_bind
          (det2_invokeOrReturn _ _
            (fun s s1 h => hlocal.providerAddresses s.trace s1.trace entry.m
              h.pre h.pre1 h.calls)
            (agreeAt_call tr0 p entry.m t _))
        intro curAddresses _
        apply det2_bind
          (det2_invokeOrReturn _ _
            (fun s s1 h => hlocal.instAddresses s.trace s1.trace info h.pre h.pre1)
            (agreeAt_call tr0 p entry.m t _))
        intro providerAddresses _
        apply det2_bind (Q := fun _ => True)
        · split
          · exact det2_invokeCheck _ _
              (fun s s1 h => hlocal.setProviderAddresses s.trace s1.trace entry.m _
                h.pre h.pre1 h.calls)
              (agreeAt_call tr0 p entry.m t _)
          · exact det2_pure _ _ _ trivial
        · intro _ _
          exact det2_pure _ _ _ trivial

theorem maybeSwitchPollGroup_det2 (c : Collaborators) (k : PollConsts) (tr0 : List Call)
    (hlocal : PollLocal c tr0) (g : pollGroupType) (p : Ptr) (m : Handle) (t : MachineTag)
    (ps ms : Status) :
    Det2 (AgreeAt tr0 p m t) (maybeSwitchPollGroup c k g p ps ms) (fun _ => True) := by
  unfold maybeSwitchPollGroup
  split
  · exact bumpShortPollInterval_det2 c k tr0 hlocal p m t
  · apply det2_bind (det2_deref tr0 p m t)
    rintro entry ⟨hm, ht⟩
    subst hm
    subst ht
    apply det2_bind
      (det2_invoke _ _
        (fun s s1 h => by
          unfold Collaborators.addressesReturned
          rw [hlocal.providerAddresses s.trace s1.trace entry.m h.pre h.pre1 h.calls,
            hlocal.providerAddressesOnError s.trace s1.trace entry.m h.pre h.pre1 h.calls])
        (agreeAt_call tr0 p entry.m entry.tag _))
    intro r _
    dsimp only
    split
    · apply det2_bind
        (det2_modifyU _ (agreeAt_delete tr0 p entry.m entry.tag pollGroupType.longPollGroup))
      intro _ _
      apply det2_bind
        (det2_modifyU _
          (agreeAt_insert tr0 p entry.m entry.tag pollGroupType.shortPollGroup p))
      intro _ _
      exact resetShortPollInterval_det2 c k tr0 hlocal p entry.m entry.tag
    · split
      · split
        · exact det2_pure _ _ _ trivial
        · apply det2_bind
            (det2_modifyU _
              (agreeAt_delete tr0 p entry.m entry.tag pollGroupType.shortPollGroup))
          intro _ _
          exact det2_modifyU _
            (agreeAt_insert tr0 p entry.m entry.tag pollGroupType.longPollGroup p)
      · split
        · exact bumpShortPollInterval_det2 c k tr0 hlocal p entry.m entry.tag
        · exact det2_pure _ _ _ trivial

/-- Handling a slot from two states that agree on the slot's entry, on the groups its
tag is in and on the calls made on its machine ends the same way, in states that agree
in the same way. -/
theorem pollGroupMembersSlot_det2 (c : Collaborators) (k : PollConsts) (tr0 : List Call)
    (hlocal : PollLocal c tr0) (g : pollGroupType) (p : Ptr) (m : Handle) (t : MachineTag)
    (info : InstHandle) :
    Det2 (AgreeAt tr0 p m t) (pollGroupMembersSlot c k g p info) (fun _ => True) := by
  unfold pollGroupMembersSlot
  apply det2_bind (processProviderInfo_det2 c k tr0 hlocal p m t info)
  intro providerStatus _
  apply det2_bind (det2_deref tr0 p m t)
  rintro entry ⟨hm, ht⟩
  subst hm
  apply det2_bind
    (det2_invokeOrReturn _ _
      (fun s s1 h => hlocal.status s.trace s1.trace entry.m h.pre h.pre1 h.calls)
      (agreeAt_call tr0 p entry.m t _))
  intro machineStatus _
  exact maybeSwitchPollGroup_det2 c k tr0 hlocal g p entry.m t _ _

/-! ## Slots of a batch handled in another order -/

theorem det2_cases {α : Type} {R : State → State → Prop} {x : M α} {Q : α → Prop}
    (hx : Det2 R x Q) (s s1 : State) (hR : R s s1) :
    (∃ a s2 s3, x s = Outcome.ok a s2 ∧ x s1 = Outcome.ok a s3 ∧ R s2 s3) ∨
      (∃ e s2 s3, x s = Outcome.error e s2 ∧ x s1 = Outcome.error e s3 ∧ R s2 s3) := by
  have h := hx s s1 hR
  cases hxs : x s with
  | ok a s2 =>
    cases hxs1 : x s1 with
    | ok a1 s3 =>
      rw [hxs, hxs1] at h
      obtain ⟨ha, _, hR2⟩ := h
      subst ha
      exact Or.inl ⟨_, _, _, rfl, rfl, hR2⟩
    | error e1 s3 =>
      rw [hxs, hxs1] at h
      exact h.elim
    | panic =>
      rw [hxs, hxs1] at h
      exact h.elim
  | error e s2 =>
    cases hxs1 : x s1 with
    | ok a1 s3 =>
      rw [hxs, hxs1] at h
      exact h.elim
    | error e1 s3 =>
      rw [hxs, hxs1] at h
      obtain ⟨he, hR2⟩ := h
      subst he
      exact Or.inr ⟨_, _, _, rfl, rfl, hR2⟩
    | panic =>
      rw [hxs, hxs1] at h
      exact h.elim
  | panic =>
    rw [hxs] at h
    exact h.elim

theorem pollEquiv_refl (tr0 : List Call) (s : State) (h : tr0 <+: s.trace) :
    PollEquiv tr0 s s :=
  ⟨h, h, fun _ => rfl, fun _ => rfl, fun _ => rfl, fun _ => rfl, fun _ => rfl⟩

theorem pollEquiv_symm (tr0 : List Call) (s s1 : State) (h : PollEquiv tr0 s s1) :
    PollEquiv tr0 s1 s :=
  ⟨h.pre1, h.pre, fun p => (h.heap p).symm, fun t => (h.short t).symm,
    fun t => (h.long t).symm, fun id => (h.index id).symm, fun m => (h.calls m).symm⟩

theorem pollEquiv_trans (tr0 : List Call) (s s1 s2 : State) (h : PollEquiv tr0 s s1)
    (h1 : PollEquiv tr0 s1 s2) : PollEquiv tr0 s s2 :=
  ⟨h.pre, h1.pre1, fun p => (h1.heap p).trans (h.heap p),
    fun t => (h1.short t).trans (h.short t), fun t => (h1.long t).trans (h.long t),
    fun id => (h1.index id).trans (h.index id), fun m => (h1.calls m).trans (h.calls m)⟩

theorem agreeAt_of_pollEquiv (tr0 : List Call) (s s1 : State) (h : PollEquiv tr0 s s1)
    (p : Ptr) (e : pollGroupEntry) (hp : s.u.heap[p]? = some e) :
    AgreeAt tr0 p e.m e.tag s s1 :=
  ⟨h.pre, h.pre1, ⟨e, hp, rfl, rfl⟩, h.heap p, h.short _, h.long _, h.calls _⟩

theorem ofSlot_machine (m m1 : Handle) (i : InstHandle) (ev : Call)
    (h : Call.ofSlot m i ev = true) (h1 : ev.machine? = some m1) : m1 = m := by
  cases ev <;> simp only [Call.ofSlot, Call.machine?, decide_eq_true_eq] at h h1 <;>
    first
    | (injection h1 with h1; rw [← h1]; exact h)
    | exact Bool.noConfusion h
    | cases h1

theorem callsOn_eq_nil (m : Handle) (tr : List Call)
    (h : ∀ ev ∈ tr, ev.machine? ≠ some m) : callsOn m tr = [] := by
  unfold callsOn
  rw [List.filter_eq_nil_iff]
  intro ev hev
  simpa using h ev hev

theorem slotFrame_callsOn (p : Ptr) (e : pollGroupEntry) (info : InstHandle) (s s1 : State)
    (h : SlotFrame p e info s s1) (m1 : Handle) (hm : m1 ≠ e.m) :
    callsOn m1 s1.trace = callsOn m1 s.trace := by
  obtain ⟨new, htr, hnew⟩ := h.calls
  rw [htr, callsOn_append, callsOn_eq_nil m1 new, List.append_nil]
  intro ev hev hmach
  exact hm (ofSlot_machine e.m m1 info ev (hnew ev hev) hmach)

theorem slotFrame_extends (p : Ptr) (e : pollGroupEntry) (info : InstHandle) (s s1 : State)
    (h : SlotFrame p e info s s1) : s.trace <+: s1.trace := by
  obtain ⟨new, htr, _⟩ := h.calls
  rw [htr]
  exact List.prefix_append _ _

/-- Agreement on the footprint of one slot survives the handling of another slot in the
second state. -/
theorem agreeAt_frame_right (tr0 : List Call) (p q : Ptr) (m : Handle) (t : MachineTag)
    (e1 : pollGroupEntry) (info : InstHandle) (s t0 t1 : State)
    (h : AgreeAt tr0 p m t s t0) (hf : SlotFrame q e1 info t0 t1)
    (hpq : p ≠ q) (hm : m ≠ e1.m) (ht : t ≠ e1.tag) : AgreeAt tr0 p m t s t1 where
  pre := h.pre
  pre1 := h.pre1.trans (slotFrame_extends q e1 info t0 t1 hf)
  valid := h.valid
  entry := (hf.others p hpq).trans h.entry
  short := ((hf.groups t ht).1).trans h.short
  long := ((hf.groups t ht).2).trans h.long
  calls := (slotFrame_callsOn q e1 info t0 t1 hf m hm).trans h.calls

/-- Agreement on the footprint of one slot survives the handling of another slot in the
first state. -/
theorem agreeAt_frame_left (tr0 : List Call) (p q : Ptr) (m : Handle) (t : MachineTag)
    (e1 : pollGroupEntry) (info : InstHandle) (s s1 t0 : State)
    (h : AgreeAt tr0 p m t s t0) (hf : SlotFrame q e1 info s s1)
    (hpq : p ≠ q) (hm : m ≠ e1.m) (ht : t ≠ e1.tag) : AgreeAt tr0 p m t s1 t0 where
  pre := h.pre.trans (slotFrame_extends q e1 info s s1 hf)
  pre1 := h.pre1
  valid := by
    obtain ⟨e, he, h1, h2⟩ := h.valid
    exact ⟨e, by rw [hf.others p hpq, he], h1, h2⟩
  entry := h.entry.trans (hf.others p hpq).symm
  short := h.short.trans ((hf.groups t ht).1).symm
  long := h.long.trans ((hf.groups t ht).2).symm
  calls := h.calls.trans (slotFrame_callsOn q e1 info s s1 hf m hm).symm

/-- Two equivalent states in which the same slot has been handled, with results that
agree on the footprint of the slot, are equivalent. -/
theorem pollEquiv_slot (tr0 : List Call) (p : Ptr) (e : pollGroupEntry) (info : InstHandle)
    (s s1 t0 t1 : State) (h : PollEquiv tr0 s t0)
    (hs : SlotFrame p e info s s1) (ht : SlotFrame p e info t0 t1)
    (ha : AgreeAt tr0 p e.m e.tag s1 t1) : PollEquiv tr0 s1 t1 where
  pre := ha.pre
  pre1 := ha.pre1
  heap := by
    intro q
    by_cases hq : q = p
    · rw [hq]
      exact ha.entry
    · rw [ht.others q hq, hs.others q hq]
      exact h.heap q
  short := by
    intro t
    by_cases htag : t = e.tag
    · rw [htag]
      exact ha.short
    · rw [(ht.groups t htag).1, (hs.groups t htag).1]
      exact h.short t
  long := by
    intro t
    by_cases htag : t = e.tag
    · rw [htag]
      exact ha.long
    · rw [(ht.groups t htag).2, (hs.groups t htag).2]
      exact h.long t
  index := by
    intro id
    rw [ht.index, hs.index]
    exact h.index id
  calls := by
    intro m
    by_cases hm : m = e.m
    · rw [hm]
      exact ha.calls
    · rw [slotFrame_callsOn p e info t0 t1 ht m hm, slotFrame_callsOn p e info s s1 hs m hm]
      exact h.calls m

/-- Two equivalent states in which the same two slots have been handled, in the one
order and in the other, with results that agree on the footprint of each slot, are
equivalent. -/
theorem pollEquiv_swap (tr0 : List Call) (p q : Ptr) (e e1 : pollGroupEntry)
    (info info1 : InstHandle) (s s1 s2 t0 t1 t2 : State) (h : PollEquiv tr0 s t0)
    (hs1 : SlotFrame p e info s s1) (hs2 : SlotFrame q e1 info1 s1 s2)
    (ht1 : SlotFrame q e1 info1 t0 t1) (ht2 : SlotFrame p e info t1 t2)
    (hap : AgreeAt tr0 p e.m e.tag s1 t2) (haq : AgreeAt tr0 q e1.m e1.tag t1 s2)
    (hpq : p ≠ q) (hm : e.m ≠ e1.m) (htag : e.tag ≠ e1.tag) : PollEquiv tr0 s2 t2 where
  pre := haq.pre1
  pre1 := hap.pre1
  heap := by
    intro r
    by_cases hr : r = p
    · rw [hr, hs2.others p hpq]
      exact hap.entry
    · by_cases hr1 : r = q
      · rw [hr1, ht2.others q (fun h => hpq h.symm)]
        exact haq.entry.symm
      · rw [ht2.others r hr, ht1.others r hr1, hs2.others r hr1, hs1.others r hr]
        exact h.heap r
  short := by
    intro t
    by_cases hr : t = e.tag
    · rw [hr, (hs2.groups e.tag htag).1]
      exact hap.short
    · by_cases hr1 : t = e1.tag
      · rw [hr1, (ht2.groups e1.tag (fun h => htag h.symm)).1]
        exact haq.short.symm
      · rw [(ht2.groups t hr).1, (ht1.groups t hr1).1, (hs2.groups t hr1).1,
          (hs1.groups t hr).1]
        exact h.short t
  long := by
    intro t
    by_cases hr : t = e.tag
    · rw [hr, (hs2.groups e.tag htag).2]
      exact hap.long
    · by_cases hr1 : t = e1.tag
      · rw [hr1, (ht2.groups e1.tag (fun h => htag h.symm)).2]
        exact haq.long.symm
      · rw [(ht2.groups t hr).2, (ht1.groups t hr1).2, (hs2.groups t hr1).2,
          (hs1.groups t hr).2]
        exact h.long t
  index := by
    intro id
    rw [ht2.index, ht1.index, hs2.index, hs1.index]
    exact h.index id
  calls := by
    intro m
    by_cases hr : m = e.m
    · rw [hr, slotFrame_callsOn q e1 info1 s1 s2 hs2 e.m hm]
      exact hap.calls
    · by_cases hr1 : m = e1.m
      · rw [hr1, slotFrame_callsOn p e info t1 t2 ht2 e1.m (fun h => hm h.symm)]
        exact haq.calls.symm
      · rw [slotFrame_callsOn p e info t1 t2 ht2 m hr,
          slotFrame_callsOn q e1 info1 t0 t1 ht1 m hr1,
          slotFrame_callsOn q e1 info1 s1 s2 hs2 m hr1,
          slotFrame_callsOn p e info s s1 hs1 m hr]
        exact h.calls m

theorem slotFrame_of_ok (c : Collaborators) (k : PollConsts) (g : pollGroupType)
    (p : Ptr) (info : InstHandle) (s s1 : State) (e : pollGroupEntry)
    (hp : s.u.heap[p]? = some e)
    (hrun : (pollGroupMembersSlot c k g p info s).state? = some s1) :
    SlotFrame p e info s s1 := by
  obtain ⟨s2, hst, hfr⟩ := pollGroupMembersSlot_frame c k g p info s e hp
  rw [hrun] at hst
  injection hst with hst
  rw [hst]
  exact hfr

/-- Handling a slot from two equivalent states ends the same way, in equivalent
states. -/
theorem pollGroupMembersSlot_congr (c : Collaborators) (k : PollConsts) (tr0 : List Call)
    (hlocal : PollLocal c tr0) (g : pollGroupType) (p : Ptr) (info : InstHandle)
    (e : pollGroupEntry) (s t0 : State) (h : PollEquiv tr0 s t0)
    (hp : s.u.heap[p]? = some e) :
    OutcomeRel (fun (_ : Unit) s1 (_ : Unit) t1 => PollEquiv tr0 s1 t1)
      (pollGroupMembersSlot c k g p info s) (pollGroupMembersSlot c k g p info t0) := by
  have hpt : t0.u.heap[p]? = some e := by rw [h.heap p, hp]
  rcases det2_cases (pollGroupMembersSlot_det2 c k tr0 hlocal g p e.m e.tag info) s t0
      (agreeAt_of_pollEquiv tr0 s t0 h p e hp) with
    ⟨a, s1, t1, h1, h2, ha⟩ | ⟨err, s1, t1, h1, h2, _⟩
  · rw [h1, h2]
    exact pollEquiv_slot tr0 p e info s s1 t0 t1 h
      (slotFrame_of_ok c k g p info s s1 e hp (by rw [h1]; rfl))
      (slotFrame_of_ok c k g p info t0 t1 e hpt (by rw [h2]; rfl)) ha
  · rw [h1, h2]
    exact trivial

/-- Handling two slots of different entries, machines and tags in the one order and in
the other, from two equivalent states, ends the same way, in equivalent states. -/
theorem pollGroupMembersSlot_comm (c : Collaborators) (k : PollConsts) (tr0 : List Call)
    (hlocal : PollLocal c tr0) (g : pollGroupType) (p q : Ptr) (info info1 : InstHandle)
    (e e1 : pollGroupEntry) (s t0 : State) (h : PollEquiv tr0 s t0)
    (hp : s.u.heap[p]? = some e) (hq : s.u.heap[q]? = some e1)
    (hpq : p ≠ q) (hm : e.m ≠ e1.m) (htag : e.tag ≠ e1.tag) :
    OutcomeRel (fun (_ : Unit) s1 (_ : Unit) t1 => PollEquiv tr0 s1 t1)
      ((pollGroupMembersSlot c k g p info >>= fun _ => pollGroupMembersSlot c k g q info1) s)
      ((pollGroupMembersSlot c k g q info1 >>= fun _ => pollGroupMembersSlot c k g p info)
        t0) := by
  rw [M.bind_apply, M.bind_apply]
  have hqt : t0.u.heap[q]? = some e1 := by rw [h.heap q, hq]
  obtain ⟨s1, hs1, fs1⟩ := pollGroupMembersSlot_frame c k g p info s e hp
  obtain ⟨t1, ht1, ft1⟩ := pollGroupMembersSlot_frame c k g q info1 t0 e1 hqt
  have hap : AgreeAt tr0 p e.m e.tag s t1 :=
    agreeAt_frame_right tr0 p q e.m e.tag e1 info1 s t0 t1
      (agreeAt_of_pollEquiv tr0 s t0 h p e hp) ft1 hpq hm htag
  have haq : AgreeAt tr0 q e1.m e1.tag t0 s1 :=
    agreeAt_frame_right tr0 q p e1.m e1.tag e info t0 s s1
      (agreeAt_of_pollEquiv tr0 t0 s (pollEquiv_symm tr0 s t0 h) q e1 hqt) fs1
      (fun h => hpq h.symm) (fun h => hm h.symm) (fun h => htag h.symm)
  have hq1 : s1.u.heap[q]? = some e1 := by
    rw [fs1.others q (fun h => hpq h.symm), hq]
  have hp1 : t1.u.heap[p]? = some e := by
    rw [ft1.others p hpq, h.heap p, hp]
  rcases det2_cases (pollGroupMembersSlot_det2 c k tr0 hlocal g p e.m e.tag info) s t1 hap with
    ⟨a, s1a, t2, h1, h2, ha2⟩ | ⟨err, s1a, t2, h1, h2, _⟩
  · rw [h1] at hs1
    injection hs1 with hs1
    subst hs1
    rcases det2_cases (pollGroupMembersSlot_det2 c k tr0 hlocal g q e1.m e1.tag info1) t0 s1a
        haq with
      ⟨b, t1a, s2, h3, h4, hb2⟩ | ⟨err1, t1a, s2, h3, h4, _⟩
    · rw [h3] at ht1
      injection ht1 with ht1
      subst ht1
      rw [h1, h3]
      simp only []
      rw [h4, h2]
      exact pollEquiv_swap tr0 p q e e1 info info1 s s1a s2 t0 t1a t2 h fs1
        (slotFrame_of_ok c k g q info1 s1a s2 e1 hq1 (by rw [h4]; rfl)) ft1
        (slotFrame_of_ok c k g p info t1a t2 e hp1 (by rw [h2]; rfl)) ha2 hb2 hpq hm htag
    · rw [h1, h3]
      simp only []
      rw [h4]
      exact trivial
  · rw [h1]
    cases h3 : pollGroupMembersSlot c k g q info1 t0 with
    | ok b t1a =>
      rw [h3] at ht1
      injection ht1 with ht1
      subst ht1
      simp only []
      rw [h2]
      exact trivial
    | error err1 t1a => exact trivial
    | panic =>
      rw [h3] at ht1
      cases ht1

/-! ## The second loop over a batch in another order -/

theorem slotStep_none (c : Collaborators) (k : PollConsts) (g : pollGroupType)
    (f : InstanceId → Option InstHandle) (id : InstanceId) (b : Unit) (s : State)
    (hf : f id = none) : slotStep c k g f id b s = Outcome.ok () s := by
  simp only [slotStep, hf]
  rfl

theorem slotStep_some (c : Collaborators) (k : PollConsts) (g : pollGroupType)
    (f : InstanceId → Option InstHandle) (id : InstanceId) (b : Unit) (s : State)
    (info : InstHandle) (p : Ptr) (hf : f id = some info)
    (hp : mapLookup s.u.instanceIDToGroupEntry id = some p) :
    slotStep c k g f id b s = pollGroupMembersSlot c k g p info s := by
  simp only [slotStep, hf, M.bind_apply, getU, hp]

theorem slotStep_unindexed (c : Collaborators) (k : PollConsts) (g : pollGroupType)
    (f : InstanceId → Option InstHandle) (id : InstanceId) (b : Unit) (s : State)
    (info : InstHandle) (hf : f id = some info)
    (hp : mapLookup s.u.instanceIDToGroupEntry id = none) :
    slotStep c k g f id b s = Outcome.panic := by
  simp only [slotStep, hf, M.bind_apply, getU, hp]
  rfl

theorem processInfoList_runSteps (c : Collaborators) (k : PollConsts) (g : pollGroupType)
    (f : InstanceId → Option InstHandle) (L : List InstanceId) :
    ∀ (pre : List InstanceId) (s : State),
      processInfoList c k g (pre ++ L) pre.length (L.map f) s =
        runSteps (slotStep c k g f) L () s := by
  induction L with
  | nil =>
    intro pre s
    rfl
  | cons x rest ih =>
    intro pre s
    have hid : (pre ++ x :: rest)[pre.length]? = some x := by
      rw [List.getElem?_append_right (Nat.le_refl _), Nat.sub_self, List.getElem?_cons_zero]
    have hnext : ∀ s1 : State,
        processInfoList c k g (pre ++ x :: rest) (pre.length + 1) (rest.map f) s1 =
          runSteps (slotStep c k g f) rest () s1 := by
      intro s1
      have h := ih (pre ++ [x]) s1
      rw [List.append_assoc, List.singleton_append, List.length_append,
        List.length_singleton] at h
      exact h
    rw [List.map_cons, runSteps_cons]
    cases hf : f x with
    | none =>
      rw [processInfoList_absent c k g _ _ _ s x hid, slotStep_none c k g f x () s hf]
      exact hnext s
    | some info =>
      cases hp : mapLookup s.u.instanceIDToGroupEntry x with
      | none =>
        rw [slotStep_unindexed c k g f x () s info hf hp]
        exact processInfoList_unindexed c k g _ _ info _ s x hid hp
      | some p =>
        rw [processInfoList_present c k g _ _ info _ s x p hid hp,
          slotStep_some c k g f x () s info p hf hp]
        cases pollGroupMembersSlot c k g p info s with
        | ok a s1 => exact hnext s1
        | error err s1 => rfl
        | panic => rfl

theorem batchInv_perm (tr0 : List Call) (L L1 : List InstanceId) (s : State)
    (hp : List.Perm L L1) (h : BatchInv tr0 L s) : BatchInv tr0 L1 s where
  pre := h.pre
  nodup := hp.nodup_iff.1 h.nodup
  owner := fun id hid => h.owner id (hp.mem_iff.2 hid)
  apart := fun id id1 p p1 e e1 hid hid1 =>
    h.apart id id1 p p1 e e1 (hp.mem_iff.2 hid) (hp.mem_iff.2 hid1)

theorem batchInv_tail (tr0 : List Call) (x : InstanceId) (L : List InstanceId) (s : State)
    (h : BatchInv tr0 (x :: L) s) : BatchInv tr0 L s where
  pre := h.pre
  nodup := (List.nodup_cons.1 h.nodup).2
  owner := fun id hid => h.owner id (List.mem_cons_of_mem _ hid)
  apart := fun id id1 p p1 e e1 hid hid1 =>
    h.apart id id1 p p1 e e1 (List.mem_cons_of_mem _ hid) (List.mem_cons_of_mem _ hid1)

theorem slotFrame_back (p : Ptr) (e : pollGroupEntry) (info : InstHandle) (s s1 : State)
    (h : SlotFrame p e info s s1) (hp : s.u.heap[p]? = some e) (r : Ptr)
    (e1 : pollGroupEntry) (hr : s1.u.heap[r]? = some e1) :
    ∃ e0, s.u.heap[r]? = some e0 ∧ e0.m = e1.m ∧ e0.tag = e1.tag := by
  by_cases hrp : r = p
  · subst hrp
    obtain ⟨e2, he2, hm, ht, _⟩ := h.entry
    rw [hr] at he2
    injection he2 with he2
    subst he2
    exact ⟨e, hp, hm.symm, ht.symm⟩
  · rw [h.others r hrp] at hr
    exact ⟨e1, hr, rfl, rfl⟩

theorem batchInv_frame (tr0 : List Call) (L : List InstanceId) (p : Ptr)
    (e : pollGroupEntry) (info : InstHandle) (s s1 : State)
    (h : BatchInv tr0 L s) (hf : SlotFrame p e info s s1) (hp : s.u.heap[p]? = some e) :
    BatchInv tr0 L s1 where
  pre := h.pre.trans (slotFrame_extends p e info s s1 hf)
  nodup := h.nodup
  owner := by
    intro id hid
    obtain ⟨q, e1, hl, hh⟩ := h.owner id hid
    by_cases hq : q = p
    · subst hq
      obtain ⟨e2, he2, _⟩ := hf.entry
      exact ⟨q, e2, by rw [hf.index, hl], he2⟩
    · exact ⟨q, e1, by rw [hf.index, hl], by rw [hf.others q hq, hh]⟩
  apart := by
    intro id id1 q q1 e1 e2 hid hid1 hne hl hl1 hh hh1
    rw [hf.index] at hl hl1
    obtain ⟨e3, he3, hm3, ht3⟩ := slotFrame_back p e info s s1 hf hp q e1 hh
    obtain ⟨e4, he4, hm4, ht4⟩ := slotFrame_back p e info s s1 hf hp q1 e2 hh1
    have hx := h.apart id id1 q q1 e3 e4 hid hid1 hne hl hl1 he3 he4
    rw [hm3, hm4, ht3, ht4] at hx
    exact hx

theorem slotStep_tail (c : Collaborators) (k : PollConsts) (g : pollGroupType)
    (f : InstanceId → Option InstHandle) (tr0 : List Call) (x : InstanceId)
    (L : List InstanceId) (b : Unit) (s : State) (b1 : Unit) (s1 : State)
    (h : BatchInv tr0 (x :: L) s) (hrun : slotStep c k g f x b s = Outcome.ok b1 s1) :
    BatchInv tr0 L s1 := by
  cases hf : f x with
  | none =>
    rw [slotStep_none c k g f x b s hf] at hrun
    injection hrun with _ hs
    rw [← hs]
    exact batchInv_tail tr0 x L s h
  | some info =>
    obtain ⟨p, e, hl, hh⟩ := h.owner x (List.mem_cons_self _ _)
    rw [slotStep_some c k g f x b s info p hf hl] at hrun
    exact batchInv_frame tr0 L p e info s s1 (batchInv_tail tr0 x L s h)
      (slotFrame_of_ok c k g p info s s1 e hh (by rw [hrun]; rfl)) hh

theorem slotStep_congr (c : Collaborators) (k : PollConsts) (g : pollGroupType)
    (f : InstanceId → Option InstHandle) (tr0 : List Call) (hlocal : PollLocal c tr0)
    (x : InstanceId) (L : List InstanceId) (b : Unit) (s : State) (b1 : Unit) (t0 : State)
    (h : BatchInv tr0 (x :: L) s) (hE : PollEquiv tr0 s t0) :
    OutcomeRel (fun (_ : Unit) s1 (_ : Unit) t1 => PollEquiv tr0 s1 t1)
      (slotStep c k g f x b s) (slotStep c k g f x b1 t0) := by
  cases hf : f x with
  | none =>
    rw [slotStep_none c k g f x b s hf, slotStep_none c k g f x b1 t0 hf]
    exact hE
  | some info =>
    obtain ⟨p, e, hl, hh⟩ := h.owner x (List.mem_cons_self _ _)
    rw [slotStep_some c k g f x b s info p hf hl,
      slotStep_some c k g f x b1 t0 info p hf (by rw [hE.index, hl])]
    exact pollGroupMembersSlot_congr c k tr0 hlocal g p info e s t0 hE hh

theorem slotStep_comm (c : Collaborators) (k : PollConsts) (g : pollGroupType)
    (f : InstanceId → Option InstHandle) (tr0 : List Call) (hlocal : PollLocal c tr0)
    (x y : InstanceId) (L : List InstanceId) (b : Unit) (s : State) (b1 : Unit) (t0 : State)
    (h : BatchInv tr0 (x :: y :: L) s) (hE : PollEquiv tr0 s t0) :
    OutcomeRel (fun (_ : Unit) s1 (_ : Unit) t1 => PollEquiv tr0 s1 t1)
      ((slotStep c k g f x b >>= slotStep c k g f y) s)
      ((slotStep c k g f y b1 >>= slotStep c k g f x) t0) := by
  rw [M.bind_apply, M.bind_apply]
  have hy : BatchInv tr0 (y :: L) s := batchInv_tail tr0 x (y :: L) s h
  have hx : BatchInv tr0 (x :: L) s :=
    batchInv_tail tr0 y (x :: L) s (batchInv_perm tr0 _ _ s (List.Perm.swap y x L) h)
  cases hfx : f x with
  | none =>
    rw [slotStep_none c k g f x b s hfx]
    simp only []
    have h1 := slotStep_congr c k g f tr0 hlocal y L () s b1 t0 hy hE
    cases hrun : slotStep c k g f y b1 t0 with
    | ok b2 t1 =>
      rw [hrun] at h1
      simp only []
      rw [slotStep_none c k g f x b2 t1 hfx]
      exact h1
    | error e t1 =>
      rw [hrun] at h1
      exact h1
    | panic =>
      rw [hrun] at h1
      exact h1
  | some info =>
    cases hfy : f y with
    | none =>
      rw [slotStep_none c k g f y b1 t0 hfy]
      simp only []
      have h1 := slotStep_congr c k g f tr0 hlocal x L b s () t0 hx hE
      cases hrun : slotStep c k g f x b s with
      | ok b2 s1 =>
        rw [hrun] at h1
        simp only []
        rw [slotStep_none c k g f y b2 s1 hfy]
        exact h1
      | error e s1 =>
        rw [hrun] at h1
        exact h1
      | panic =>
        rw [hrun] at h1
        exact h1
    | some info1 =>
      obtain ⟨p, e, hl, hh⟩ := h.owner x (List.mem_cons_self _ _)
      obtain ⟨q, e1, hl1, hh1⟩ := h.owner y (List.mem_cons_of_mem _ (List.mem_cons_self _ _))
      have hne : x ≠ y := by
        intro hxy
        exact (List.nodup_cons.1 h.nodup).1 (by rw [hxy]; exact List.mem_cons_self _ _)
      obtain ⟨hpq, hm, htag⟩ := h.apart x y p q e e1 (List.mem_cons_self _ _)
        (List.mem_cons_of_mem _ (List.mem_cons_self _ _)) hne hl hl1 hh hh1
      have hcomm := pollGroupMembersSlot_comm c k tr0 hlocal g p q info info1 e e1 s t0 hE
        hh hh1 hpq hm htag
      rw [M.bind_apply, M.bind_apply] at hcomm
      rw [slotStep_some c k g f x b s info p hfx hl,
        slotStep_some c k g f y b1 t0 info1 q hfy (by rw [hE.index, hl1])]
      have hleft : ∀ (b2 : Unit) (s2 : State),
          pollGroupMembersSlot c k g p info s = Outcome.ok b2 s2 →
          slotStep c k g f y b2 s2 = pollGroupMembersSlot c k g q info1 s2 := by
        intro b2 s2 hrun
        have hfr := slotFrame_of_ok c k g p info s s2 e hh (by rw [hrun]; rfl)
        exact slotStep_some c k g f y b2 s2 info1 q hfy (by rw [hfr.index, hl1])
      have hright : ∀ (b2 : Unit) (t1 : State),
          pollGroupMembersSlot c k g q info1 t0 = Outcome.ok b2 t1 →
          slotStep c k g f x b2 t1 = pollGroupMembersSlot c k g p info t1 := by
        intro b2 t1 hrun
        have hfr := slotFrame_of_ok c k g q info1 t0 t1 e1 (by rw [hE.heap q, hh1])
          (by rw [hrun]; rfl)
        exact slotStep_some c k g f x b2 t1 info p hfx (by rw [hfr.index, hE.index, hl])
      cases hrun : pollGroupMembersSlot c k g p info s with
      | ok b2 s2 =>
        rw [hrun] at hcomm
        simp only [] at hcomm ⊢
        rw [hleft b2 s2 hrun]
        cases hrun1 : pollGroupMembersSlot c k g q info1 t0 with
        | ok b3 t1 =>
          rw [hrun1] at hcomm
          simp only [] at hcomm ⊢
          rw [hright b3 t1 hrun1]
          exact hcomm
        | error e3 t1 =>
          rw [hrun1] at hcomm
          exact hcomm
        | panic =>
          rw [hrun1] at hcomm
          exact hcomm
      | error e2 s2 =>
        rw [hrun] at hcomm
        cases hrun1 : pollGroupMembersSlot c k g q info1 t0 with
        | ok b3 t1 =>
          rw [hrun1] at hcomm
          simp only [] at hcomm ⊢
          rw [hright b3 t1 hrun1]
          exact hcomm
        | error e3 t1 => exact trivial
        | panic =>
          rw [hrun1] at hcomm
          exact hcomm
      | panic =>
        rw [hrun] at hcomm
        cases hrun1 : pollGroupMembersSlot c k g q info1 t0 with
        | ok b3 t1 =>
          rw [hrun1] at hcomm
          simp only [] at hcomm
          cases hrun2 : pollGroupMembersSlot c k g p info t1 <;> rw [hrun2] at hcomm <;>
            exact hcomm.elim
        | error e3 t1 =>
          rw [hrun1] at hcomm
          exact hcomm.elim
        | panic =>
          rw [hrun1] at hcomm
          exact hcomm.elim

/-- The second loop of `pollGroupMembers` over a batch and over the same batch in
another order, from two equivalent states, ends the same way, in equivalent states. -/
theorem processInfoList_perm (c : Collaborators) (k : PollConsts) (g : pollGroupType)
    (f : InstanceId → Option InstHandle) (tr0 : List Call) (hlocal : PollLocal c tr0)
    (ids ids1 : List InstanceId) (hp : List.Perm ids ids1) (s t0 : State)
    (h : BatchInv tr0 ids s) (hE : PollEquiv tr0 s t0) :
    OutcomeRel (fun (_ : Unit) s1 (_ : Unit) t1 => PollEquiv tr0 s1 t1)
      (processInfoList c k g ids 0 (ids.map f) s)
      (processInfoList c k g ids1 0 (ids1.map f) t0) := by
  have h1 := processInfoList_runSteps c k g f ids [] s
  have h2 := processInfoList_runSteps c k g f ids1 [] t0
  rw [List.nil_append, List.length_nil] at h1 h2
  rw [h1, h2]
  exact runSteps_perm (slotStep c k g f)
    (fun (_ : Unit) s1 (_ : Unit) t1 => PollEquiv tr0 s1 t1) (BatchInv tr0)
    (fun _ s1 _ s2 _ s3 h12 h23 => pollEquiv_trans tr0 s1 s2 s3 h12 h23)
    (fun L _ s1 hI => pollEquiv_refl tr0 s1 hI.pre)
    (fun L L1 s1 hperm hI => batchInv_perm tr0 L L1 s1 hperm hI)
    (fun x L b s1 b1 s2 hI hrun => slotStep_tail c k g f tr0 x L b s1 b1 s2 hI hrun)
    (fun x L b s1 b1 s2 hI hE1 => slotStep_congr c k g f tr0 hlocal x L b s1 b1 s2 hI hE1)
    (fun x y L b s1 b1 s2 hI hE1 => slotStep_comm c k g f tr0 hlocal x y L b s1 b1 s2 hI hE1)
    ids ids1 hp () s () t0 h hE

/-! ## The first loop over a group in another order -/

theorem memberEffect_entry (k : PollConsts) (g : pollGroupType) (now : Time)
    (e : pollGroupEntry) (r : Except Error InstanceId) (clk : Time) :
    (memberEffect k g now e r clk).entry.m = e.m ∧
      (memberEffect k g now e r clk).entry.tag = e.tag := by
  unfold memberEffect
  split
  · exact ⟨rfl, rfl⟩
  · split
    · exact ⟨rfl, rfl⟩
    · split
      · exact ⟨rfl, rfl⟩
      · split
        · exact ⟨rfl, rfl⟩
        · exact ⟨rfl, rfl⟩

theorem memberEffect_calls (k : PollConsts) (g : pollGroupType) (now : Time)
    (e : pollGroupEntry) (r : Except Error InstanceId) (clk : Time) :
    ∀ ev ∈ (memberEffect k g now e r clk).calls,
      ev = Call.clockNow ∨ ev = Call.instanceId e.m := by
  unfold memberEffect
  split
  · intro ev hev
    cases hev
  · split
    · intro ev hev
      cases hev
    · split
      · intro ev hev
        rw [List.mem_singleton] at hev
        exact Or.inr hev
      · split
        · intro ev hev
          simp only [List.mem_cons, List.mem_singleton, List.not_mem_nil, or_false] at hev
          rcases hev with h | h
          · exact Or.inr h
          · exact Or.inl h
        · intro ev hev
          rw [List.mem_singleton] at hev
          exact Or.inr hev

theorem memberEffect_index (k : PollConsts) (g : pollGroupType) (now : Time)
    (e : pollGroupEntry) (r : Except Error InstanceId) (clk : Time) (id : InstanceId)
    (h : (memberEffect k g now e r clk).index = some id) : r = Except.ok id := by
  unfold memberEffect at h
  split at h
  · cases h
  · split at h
    · cases h
    · split at h
      · injection h with h
        rw [h]
      · split at h
        · cases h
        · cases h

theorem memberEffectAt_local (c : Collaborators) (k : PollConsts) (g : pollGroupType)
    (now : Time) (tr0 : List Call) (hlocal : PollLocal c tr0) (e : pollGroupEntry)
    (tr tr1 : List Call) (h : tr0 <+: tr) (h1 : tr0 <+: tr1)
    (hcalls : callsOn e.m tr1 = callsOn e.m tr) :
    memberEffectAt c k g now e tr1 = memberEffectAt c k g now e tr := by
  unfold memberEffectAt
  rw [hlocal.instanceId tr tr1 e.m h h1 hcalls,
    hlocal.clock (tr1 ++ [Call.instanceId e.m]) (h1.trans (List.prefix_append _ _)),
    hlocal.clock (tr ++ [Call.instanceId e.m]) (h.trans (List.prefix_append _ _))]

theorem set_self_of_getElem? {α : Type} (l : List α) (i : Nat) (a : α)
    (h : l[i]? = some a) : l.set i a = l := by
  apply List.ext_getElem?
  intro n
  by_cases hn : n = i
  · rw [hn, List.getElem?_set_self (List.getElem?_eq_some_iff.1 h).1, h]
  · rw [List.getElem?_set_ne (fun h1 => hn h1.symm)]

theorem collectInstanceIDs_nil (c : Collaborators) (k : PollConsts) (g : pollGroupType)
    (now : Time) (acc : List InstanceId) (s : State) :
    collectInstanceIDs c k g now [] acc s = Outcome.ok acc s := rfl

/-- The first loop of `pollGroupMembers` for one member is the effect of that member. -/
theorem collectInstanceIDs_member (c : Collaborators) (k : PollConsts) (g : pollGroupType)
    (now : Time) (t : MachineTag) (p : Ptr) (acc : List InstanceId) (s : State)
    (e : pollGroupEntry) (hheap : s.u.heap[p]? = some e) :
    collectInstanceIDs c k g now [(t, p)] acc s =
      (memberEffectAt c k g now e s.trace).apply p acc s := by
  have hset : s.u.heap.set p e = s.u.heap := set_self_of_getElem? _ _ _ hheap
  unfold memberEffectAt memberEffect
  by_cases hdue : g = pollGroupType.shortPollGroup ∧ now < e.shortPollAt
  · rw [if_pos hdue, collectInstanceIDs_skip c k g now t p [] acc s e hheap
      (fun h => h hdue), collectInstanceIDs_nil]
    simp only [MemberEffect.apply, MemberEffect.state, hset, List.append_nil]
  · rw [if_neg hdue]
    by_cases hid : e.instanceID ≠ ""
    · rw [if_pos hid, collectInstanceIDs_resolved c k g now t p [] acc s e hheap hdue hid,
        collectInstanceIDs_nil]
      simp only [MemberEffect.apply, MemberEffect.state, hset, List.append_nil]
    · rw [if_neg hid]
      have hid1 : e.instanceID = "" := not_not.1 hid
      cases hres : c.instanceId s.trace e.m with
      | ok id =>
        rw [collectInstanceIDs_resolves c k g now t p [] acc s e id hheap hdue hid1 hres,
          collectInstanceIDs_nil]
        rfl
      | error err =>
        by_cases herr : err = Error.NotProvisioned
        · subst herr
          rw [collectInstanceIDs_unprovisioned c k g now t p [] acc s e hheap hdue hid1 hres,
            collectInstanceIDs_nil]
          simp only [MemberEffect.apply, MemberEffect.state, if_true, List.append_nil,
            List.append_assoc, List.singleton_append]
        · rw [collectInstanceIDs_error c k g now t p [] acc s e err hheap hdue hid1 hres herr]
          simp only [MemberEffect.apply, MemberEffect.state, if_neg herr, hset]

theorem collectInstanceIDs_runSteps (c : Collaborators) (k : PollConsts) (g : pollGroupType)
    (now : Time) (L : List (MachineTag × Ptr)) :
    ∀ (acc : List InstanceId) (s : State),
      collectInstanceIDs c k g now L acc s =
        runSteps (fun tp acc1 => collectInstanceIDs c k g now [tp] acc1) L acc s := by
  induction L with
  | nil =>
    intro acc s
    rfl
  | cons x rest ih =>
    intro acc s
    have h := collectInstanceIDs_append c k g now [x] rest acc s
    rw [List.singleton_append] at h
    rw [h, runSteps_cons]
    cases collectInstanceIDs c k g now [x] acc s with
    | ok acc1 s1 => exact ih acc1 s1
    | error err s1 => rfl
    | panic => rfl

theorem memberState_trace (eff : MemberEffect) (p : Ptr) (s : State) :
    (eff.state p s).trace = s.trace ++ eff.calls := rfl

theorem memberState_short (eff : MemberEffect) (p : Ptr) (s : State) :
    (eff.state p s).u.shortGroup = s.u.shortGroup := by
  unfold MemberEffect.state
  cases eff.index <;> rfl

theorem memberState_long (eff : MemberEffect) (p : Ptr) (s : State) :
    (eff.state p s).u.longGroup = s.u.longGroup := by
  unfold MemberEffect.state
  cases eff.index <;> rfl

theorem memberState_heap (eff : MemberEffect) (p : Ptr) (s : State) :
    (eff.state p s).u.heap = s.u.heap.set p eff.entry := by
  unfold MemberEffect.state
  cases eff.index <;> rfl

theorem memberState_other (eff : MemberEffect) (p q : Ptr) (s : State) (h : q ≠ p) :
    (eff.state p s).u.heap[q]? = s.u.heap[q]? := by
  rw [memberState_heap, List.getElem?_set_ne (fun h1 => h h1.symm)]

theorem memberState_self (eff : MemberEffect) (p : Ptr) (s : State) (e : pollGroupEntry)
    (h : s.u.heap[p]? = some e) : (eff.state p s).u.heap[p]? = some eff.entry := by
  rw [memberState_heap, List.getElem?_set_self (List.getElem?_eq_some_iff.1 h).1]

theorem memberState_index (eff : MemberEffect) (p : Ptr) (s : State) (id : InstanceId) :
    mapLookup (eff.state p s).u.instanceIDToGroupEntry id =
      if eff.index = some id then some p else mapLookup s.u.instanceIDToGroupEntry id := by
  unfold MemberEffect.state
  cases h : eff.index with
  | none => simp
  | some id1 =>
    show mapLookup (mapInsert s.u.instanceIDToGroupEntry id1 p) id = _
    rw [mapLookup_mapInsert]
    by_cases h1 : id1 = id
    · simp [h1]
    · simp [h1]

/-- The same effect on two equivalent states leaves equivalent states. -/
theorem pollEquiv_member (tr0 : List Call) (eff : MemberEffect) (p : Ptr)
    (e : pollGroupEntry) (s t0 : State) (h : PollEquiv tr0 s t0)
    (hp : s.u.heap[p]? = some e) : PollEquiv tr0 (eff.state p s) (eff.state p t0) where
  pre := h.pre.trans (List.prefix_append _ _)
  pre1 := h.pre1.trans (List.prefix_append _ _)
  heap := by
    intro q
    by_cases hq : q = p
    · rw [hq, memberState_self eff p s e hp,
        memberState_self eff p t0 e (by rw [h.heap p, hp])]
    · rw [memberState_other eff p q s hq, memberState_other eff p q t0 hq]
      exact h.heap q
  short := by
    intro t
    rw [memberState_short, memberState_short]
    exact h.short t
  long := by
    intro t
    rw [memberState_long, memberState_long]
    exact h.long t
  index := by
    intro id
    rw [memberState_index, memberState_index, h.index id]
  calls := by
    intro m
    rw [memberState_trace, memberState_trace, callsOn_append, callsOn_append, h.calls m]

/-- Two effects on different entries, filing under different ids and calling different
machines, leave equivalent states in either order. -/
theorem pollEquiv_member_swap (tr0 : List Call) (eff eff1 : MemberEffect) (p q : Ptr)
    (e e1 : pollGroupEntry) (s t0 : State) (h : PollEquiv tr0 s t0)
    (hp : s.u.heap[p]? = some e) (hq : s.u.heap[q]? = some e1) (hpq : p ≠ q)
    (hidx : ∀ id id1, eff.index = some id → eff1.index = some id1 → id ≠ id1)
    (hcalls : ∀ m, callsOn m eff.calls = [] ∨ callsOn m eff1.calls = []) :
    PollEquiv tr0 (eff1.state q (eff.state p s)) (eff.state p (eff1.state q t0)) where
  pre := (h.pre.trans (List.prefix_append _ _)).trans (List.prefix_append _ _)
  pre1 := (h.pre1.trans (List.prefix_append _ _)).trans (List.prefix_append _ _)
  heap := by
    intro r
    have hqt : t0.u.heap[q]? = some e1 := by rw [h.heap q, hq]
    have hpt : t0.u.heap[p]? = some e := by rw [h.heap p, hp]
    by_cases hr : r = p
    · rw [hr, memberState_other eff1 q p _ hpq, memberState_self eff p s e hp,
        memberState_self eff p (eff1.state q t0) e
          (by rw [memberState_other eff1 q p t0 hpq, hpt])]
    · rw [memberState_other eff p r _ hr]
      by_cases hr1 : r = q
      · rw [hr1, memberState_self eff1 q t0 e1 hqt,
          memberState_self eff1 q (eff.state p s) e1
            (by rw [memberState_other eff p q s (fun h => hpq h.symm), hq])]
      · rw [memberState_other eff1 q r _ hr1, memberState_other eff1 q r _ hr1,
          memberState_other eff p r _ hr]
        exact h.heap r
  short := by
    intro t
    rw [memberState_short, memberState_short, memberState_short, memberState_short]
    exact h.short t
  long := by
    intro t
    rw [memberState_long, memberState_long, memberState_long, memberState_long]
    exact h.long t
  index := by
    intro id
    rw [memberState_index, memberState_index, memberState_index, memberState_index,
      h.index id]
    by_cases h1 : eff.index = some id
    · by_cases h2 : eff1.index = some id
      · exact absurd rfl (hidx id id h1 h2)
      · simp only [if_pos h1, if_neg h2]
    · simp only [if_neg h1]
  calls := by
    intro m
    rw [memberState_trace, memberState_trace, memberState_trace, memberState_trace,
      callsOn_append, callsOn_append, callsOn_append, callsOn_append, h.calls m]
    rcases hcalls m with h1 | h1
    · simp only [h1, List.append_nil]
    · simp only [h1, List.append_nil]

theorem memberApply_ok (eff : MemberEffect) (p : Ptr) (acc acc1 : List InstanceId)
    (s s1 : State) (h : eff.apply p acc s = Outcome.ok acc1 s1) : s1 = eff.state p s := by
  unfold MemberEffect.apply at h
  cases herr : eff.err with
  | none =>
    rw [herr] at h
    injection h with _ h
    exact h.symm
  | some err =>
    rw [herr] at h
    cases h

theorem memberEffect_callsOn (k : PollConsts) (g : pollGroupType) (now : Time)
    (e : pollGroupEntry) (r : Except Error InstanceId) (clk : Time) (m : Handle)
    (hm : m ≠ e.m) : callsOn m (memberEffect k g now e r clk).calls = [] := by
  apply callsOn_eq_nil
  intro ev hev hmach
  rcases memberEffect_calls k g now e r clk ev hev with h | h
  · rw [h] at hmach
    cases hmach
  · rw [h] at hmach
    injection hmach with hmach
    exact hm hmach.symm

/-- The first loop for one member, from a state in which the member's machine has seen
the calls it has seen by `tr`, is the effect of the member after `tr`. -/
theorem collectInstanceIDs_member_at (c : Collaborators) (k : PollConsts)
    (g : pollGroupType) (now : Time) (tr0 : List Call) (hlocal : PollLocal c tr0)
    (t : MachineTag) (p : Ptr) (acc : List InstanceId) (s : State) (e : pollGroupEntry)
    (tr : List Call) (hheap : s.u.heap[p]? = some e) (hpre : tr0 <+: s.trace)
    (hpre1 : tr0 <+: tr) (hcalls : callsOn e.m s.trace = callsOn e.m tr) :
    collectInstanceIDs c k g now [(t, p)] acc s =
      (memberEffectAt c k g now e tr).apply p acc s := by
  rw [collectInstanceIDs_member c k g now t p acc s e hheap,
    memberEffectAt_local c k g now tr0 hlocal e tr s.trace hpre1 hpre hcalls]

theorem membersInv_perm (c : Collaborators) (tr0 : List Call)
    (L L1 : List (MachineTag × Ptr)) (s : State) (hp : List.Perm L L1)
    (h : MembersInv c tr0 L s) : MembersInv c tr0 L1 s where
  pre := h.pre
  nodup := (hp.map Prod.fst).nodup_iff.1 h.nodup
  entry := fun tp htp => h.entry tp (hp.mem_iff.2 htp)

theorem membersInv_apart (c : Collaborators) (tr0 : List Call) (x y : MachineTag × Ptr)
    (L : List (MachineTag × Ptr)) (s : State) (e e1 : pollGroupEntry)
    (hfresh : FreshHandles c) (h : MembersInv c tr0 (x :: L) s) (hy : y ∈ L)
    (hx : s.u.heap[x.2]? = some e) (hy1 : s.u.heap[y.2]? = some e1) :
    x.1 ≠ y.1 ∧ x.2 ≠ y.2 ∧ e.m ≠ e1.m := by
  have hnd := h.nodup
  rw [List.map_cons, List.nodup_cons] at hnd
  have htag : x.1 ≠ y.1 := by
    intro hxy
    exact hnd.1 (by rw [hxy]; exact List.mem_map_of_mem Prod.fst hy)
  obtain ⟨e2, he2, ht2, tr2, hf2⟩ := h.entry x (List.mem_cons_self _ _)
  obtain ⟨e3, he3, ht3, tr3, hf3⟩ := h.entry y (List.mem_cons_of_mem _ hy)
  rw [hx] at he2
  injection he2 with he2
  subst he2
  rw [hy1] at he3
  injection he3 with he3
  subst he3
  refine ⟨htag, ?_, ?_⟩
  · intro hxy
    rw [hxy, hy1] at hx
    injection hx with hx
    rw [hx] at ht3
    exact htag (ht2.symm.trans ht3)
  · intro hm
    rw [hm] at hf2
    exact htag (hfresh tr2 tr3 x.1 y.1 e1.m hf2 hf3)

theorem memberStep_tail (c : Collaborators) (k : PollConsts) (g : pollGroupType)
    (now : Time) (tr0 : List Call) (hfresh : FreshHandles c) (x : MachineTag × Ptr)
    (L : List (MachineTag × Ptr)) (acc : List InstanceId) (s : State)
    (acc1 : List InstanceId) (s1 : State) (h : MembersInv c tr0 (x :: L) s)
    (hrun : collectInstanceIDs c k g now [x] acc s = Outcome.ok acc1 s1) :
    MembersInv c tr0 L s1 := by
  obtain ⟨e, he, _, _⟩ := h.entry x (List.mem_cons_self _ _)
  obtain ⟨t, p⟩ := x
  rw [collectInstanceIDs_member c k g now t p acc s e he] at hrun
  have hs1 := memberApply_ok _ p acc acc1 s s1 hrun
  subst hs1
  refine ⟨h.pre.trans (List.prefix_append _ _), (List.nodup_cons.1 h.nodup).2, ?_⟩
  intro tp htp
  obtain ⟨e1, he1, ht1, hf1⟩ := h.entry tp (List.mem_cons_of_mem _ htp)
  have hne := (membersInv_apart c tr0 (t, p) tp L s e e1 hfresh h htp he he1).2.1
  exact ⟨e1, by rw [memberState_other _ p tp.2 s (fun h => hne h.symm), he1], ht1, hf1⟩

theorem memberStep_congr (c : Collaborators) (k : PollConsts) (g : pollGroupType)
    (now : Time) (tr0 : List Call) (hlocal : PollLocal c tr0) (x : MachineTag × Ptr)
    (L : List (MachineTag × Ptr)) (acc : List InstanceId) (s : State)
    (acc1 : List InstanceId) (t0 : State) (h : MembersInv c tr0 (x :: L) s)
    (hE : acc1.Perm acc ∧ PollEquiv tr0 s t0) :
    OutcomeRel (fun a s1 a1 t1 => a1.Perm a ∧ PollEquiv tr0 s1 t1)
      (collectInstanceIDs c k g now [x] acc s) (collectInstanceIDs c k g now [x] acc1 t0) := by
  obtain ⟨e, he, _, _⟩ := h.entry x (List.mem_cons_self _ _)
  obtain ⟨t, p⟩ := x
  rw [collectInstanceIDs_member c k g now t p acc s e he,
    collectInstanceIDs_member_at c k g now tr0 hlocal t p acc1 t0 e s.trace
      (by rw [hE.2.heap p, he]) hE.2.pre1 hE.2.pre (hE.2.calls e.m)]
  unfold MemberEffect.apply
  cases (memberEffectAt c k g now e s.trace).err with
  | none => exact ⟨hE.1.append_right _, pollEquiv_member tr0 _ p e s t0 hE.2 he⟩
  | some err => exact trivial

theorem memberStep_comm (c : Collaborators) (k : PollConsts) (g : pollGroupType)
    (now : Time) (tr0 : List Call) (hd : DistinctInstanceIds c) (hfresh : FreshHandles c)
    (hlocal : PollLocal c tr0) (x y : MachineTag × Ptr)
    (L : List (MachineTag × Ptr)) (acc : List InstanceId) (s : State)
    (acc1 : List InstanceId) (t0 : State) (h : MembersInv c tr0 (x :: y :: L) s)
    (hE : acc1.Perm acc ∧ PollEquiv tr0 s t0) :
    OutcomeRel (fun a s1 a1 t1 => a1.Perm a ∧ PollEquiv tr0 s1 t1)
      (((fun tp a => collectInstanceIDs c k g now [tp] a) x acc >>=
        (fun tp a => collectInstanceIDs c k g now [tp] a) y) s)
      (((fun tp a => collectInstanceIDs c k g now [tp] a) y acc1 >>=
        (fun tp a => collectInstanceIDs c k g now [tp] a) x) t0) := by
  obtain ⟨e, he, hte, trx, hfx⟩ := h.entry x (List.mem_cons_self _ _)
  obtain ⟨e1, he1, hte1, try1, hfy⟩ :=
    h.entry y (List.mem_cons_of_mem _ (List.mem_cons_self _ _))
  obtain ⟨htag, hpq, hm⟩ := membersInv_apart c tr0 x y (y :: L) s e e1 hfresh h
    (List.mem_cons_self _ _) he he1
  obtain ⟨t, p⟩ := x
  obtain ⟨t1, q⟩ := y
  have hpq1 : p ≠ q := hpq
  have hcx : ∀ m, m ≠ e.m → callsOn m (memberEffectAt c k g now e s.trace).calls = [] :=
    fun m hm1 => memberEffect_callsOn k g now e _ _ m hm1
  have hcy : ∀ m, m ≠ e1.m → callsOn m (memberEffectAt c k g now e1 s.trace).calls = [] :=
    fun m hm1 => memberEffect_callsOn k g now e1 _ _ m hm1
  have hidx : ∀ id id1, (memberEffectAt c k g now e s.trace).index = some id →
      (memberEffectAt c k g now e1 s.trace).index = some id1 → id ≠ id1 := by
    intro id id1 h1 h2 hid
    have h3 := memberEffect_index k g now e _ _ id h1
    have h4 := memberEffect_index k g now e1 _ _ id1 h2
    rw [← hid] at h4
    exact htag (hd.distinct trx try1 s.trace s.trace t t1 e.m e1.m id hfx hfy h3 h4)
  have hcalls : ∀ m, callsOn m (memberEffectAt c k g now e s.trace).calls = [] ∨
      callsOn m (memberEffectAt c k g now e1 s.trace).calls = [] := by
    intro m
    by_cases hm1 : m = e.m
    · exact Or.inr (hcy m (by rw [hm1]; exact hm))
    · exact Or.inl (hcx m hm1)
  have hxs : ∀ a, collectInstanceIDs c k g now [(t, p)] a s =
      (memberEffectAt c k g now e s.trace).apply p a s :=
    fun a => collectInstanceIDs_member c k g now t p a s e he
  have hyt : ∀ a, collectInstanceIDs c k g now [(t1, q)] a t0 =
      (memberEffectAt c k g now e1 s.trace).apply q a t0 :=
    fun a => collectInstanceIDs_member_at c k g now tr0 hlocal t1 q a t0 e1 s.trace
      (by rw [hE.2.heap q]; exact he1) hE.2.pre1 hE.2.pre (hE.2.calls e1.m)
  have hys : ∀ a, collectInstanceIDs c k g now [(t1, q)] a
        ((memberEffectAt c k g now e s.trace).state p s) =
      (memberEffectAt c k g now e1 s.trace).apply q a
        ((memberEffectAt c k g now e s.trace).state p s) := by
    intro a
    refine collectInstanceIDs_member_at c k g now tr0 hlocal t1 q a _ e1 s.trace ?_ ?_
      hE.2.pre ?_
    · rw [memberState_other _ p q s (fun h => hpq1 h.symm)]
      exact he1
    · exact hE.2.pre.trans (List.prefix_append _ _)
    · rw [memberState_trace, callsOn_append, hcx e1.m (fun h => hm h.symm), List.append_nil]
  have hxt : ∀ a, collectInstanceIDs c k g now [(t, p)] a
        ((memberEffectAt c k g now e1 s.trace).state q t0) =
      (memberEffectAt c k g now e s.trace).apply p a
        ((memberEffectAt c k g now e1 s.trace).state q t0) := by
    intro a
    refine collectInstanceIDs_member_at c k g now tr0 hlocal t p a _ e s.trace ?_ ?_
      hE.2.pre ?_
    · rw [memberState_other _ q p t0 hpq1, hE.2.heap p]
      exact he
    · exact hE.2.pre1.trans (List.prefix_append _ _)
    · rw [memberState_trace, callsOn_append, hcy e.m hm, List.append_nil, hE.2.calls e.m]
  have hswap := pollEquiv_member_swap tr0 (memberEffectAt c k g now e s.trace)
    (memberEffectAt c k g now e1 s.trace) p q e e1 s t0 hE.2 he he1 hpq1 hidx hcalls
  rw [M.bind_apply, M.bind_apply]
  simp only []
  rw [hxs, hyt]
  generalize memberEffectAt c k g now e s.trace = effX at *
  generalize memberEffectAt c k g now e1 s.trace = effY at *
  cases hX : effX.err with
  | none =>
    cases hY : effY.err with
    | none =>
      simp only [MemberEffect.apply, hX, hY]
      rw [hys, hxt]
      simp only [MemberEffect.apply, hX, hY]
      refine ⟨?_, hswap⟩
      rw [List.append_assoc, List.append_assoc]
      exact hE.1.append List.perm_append_comm
    | some err1 =>
      simp only [MemberEffect.apply, hX, hY]
      rw [hys]
      simp only [MemberEffect.apply, hY]
      exact trivial
  | some err =>
    cases hY : effY.err with
    | none =>
      simp only [MemberEffect.apply, hX, hY]
      rw [hxt]
      simp only [MemberEffect.apply, hX]
      exact trivial
    | some err1 =>
      simp only [MemberEffect.apply, hX, hY]
      exact trivial

/-- The first loop of `pollGroupMembers` over a group and over the same group in another
order, from two equivalent states, ends the same way: with the same ids in the batch, in
equivalent states. -/
theorem collectInstanceIDs_perm (c : Collaborators) (k : PollConsts) (g : pollGroupType)
    (now : Time) (tr0 : List Call) (hd : DistinctInstanceIds c) (hfresh : FreshHandles c)
    (hlocal : PollLocal c tr0) (L L1 : List (MachineTag × Ptr)) (hp : List.Perm L L1)
    (acc : List InstanceId) (s : State) (acc1 : List InstanceId) (t0 : State)
    (h : MembersInv c tr0 L s) (hE : acc1.Perm acc ∧ PollEquiv tr0 s t0) :
    OutcomeRel (fun a s1 a1 t1 => a1.Perm a ∧ PollEquiv tr0 s1 t1)
      (collectInstanceIDs c k g now L acc s) (collectInstanceIDs c k g now L1 acc1 t0) := by
  rw [collectInstanceIDs_runSteps c k g now L acc s,
    collectInstanceIDs_runSteps c k g now L1 acc1 t0]
  exact runSteps_perm (fun tp a => collectInstanceIDs c k g now [tp] a)
    (fun a s1 a1 t1 => a1.Perm a ∧ PollEquiv tr0 s1 t1) (MembersInv c tr0)
    (fun _ s1 _ s2 _ s3 h12 h23 =>
      ⟨h23.1.trans h12.1, pollEquiv_trans tr0 s1 s2 s3 h12.2 h23.2⟩)
    (fun _ a s1 hI => ⟨List.Perm.refl a, pollEquiv_refl tr0 s1 hI.pre⟩)
    (fun L2 L3 s1 hperm hI => membersInv_perm c tr0 L2 L3 s1 hperm hI)
    (fun x L2 a s1 a1 s2 hI hrun => memberStep_tail c k g now tr0 hfresh x L2 a s1 a1 s2 hI hrun)
    (fun x L2 a s1 a1 s2 hI hE1 => memberStep_congr c k g now tr0 hlocal x L2 a s1 a1 s2 hI hE1)
    (fun x y L2 a s1 a1 s2 hI hE1 =>
      memberStep_comm c k g now tr0 hd hfresh hlocal x y L2 a s1 a1 s2 hI hE1)
    L L1 hp acc s acc1 t0 h hE

/-! ## A poll with its group visited in another order -/

theorem membersInv_start (c : Collaborators) (k : PollConsts) (g : pollGroupType)
    (hd : DistinctInstanceIds c) (s : State) (hreach : Reachable c k s) :
    MembersInv c s.trace (s.u.pollGroup g)
      { u := s.u, trace := s.trace ++ [Call.clockNow] } := by
  obtain ⟨hwf, hinv⟩ := reachable_indexInv c k hd s hreach
  refine ⟨List.prefix_append _ _, nodup_pollGroup s.u hwf g, ?_⟩
  intro tp htp
  have hl : mapLookup (s.u.pollGroup g) tp.1 = some tp.2 :=
    mapLookup_of_mem _ tp.1 tp.2 (nodup_pollGroup s.u hwf g) htp
  obtain ⟨e, he, ht⟩ := hwf.groupEntry g tp.1 tp.2 hl
  exact ⟨e, he, ht, (hinv.origin g tp.1 tp.2 e hl he).1⟩

theorem batchInv_selected (c : Collaborators) (k : PollConsts) (g : pollGroupType)
    (hd : DistinctInstanceIds c) (hfresh : FreshHandles c) (s s1 : State)
    (ids : List InstanceId) (tr : List Call) (hreach : Reachable c k s)
    (hloop : collectInstanceIDs c k g (c.clockNow s.trace) (s.u.pollGroup g) []
      { u := s.u, trace := s.trace ++ [Call.clockNow] } = Outcome.ok ids s1)
    (hpre : s.trace <+: tr) : BatchInv s.trace ids { u := s1.u, trace := tr } := by
  obtain ⟨hwf, _⟩ := reachable_indexInv c k hd s hreach
  obtain ⟨hwf1, hinv1, hic1⟩ := selected_invariants c k g hd s s1 ids hreach hloop
  obtain ⟨owners, hsub, hall⟩ := batch_owners c k g hd s s1 ids hreach hloop
  have hndm := (wellFormed_members s.u hwf g).1
  have hndo : (owners.map Prod.snd).Nodup := (hsub.map Prod.snd).nodup hndm
  have hnd : ids.Nodup := by
    refine nodup_of_forall₂ Prod.snd ?_ owners ids hall hndo
    rintro tp tq id ⟨h1, _⟩ ⟨h2, _⟩
    rw [h1] at h2
    injection h2
  refine ⟨hpre, hnd, ?_, ?_⟩
  · intro id hid
    obtain ⟨tp, _, hl, e1, he1, _⟩ := forall₂_of_mem_right _ _ hall id hid
    exact ⟨tp.2, e1, hl, he1⟩
  · intro id id1 p p1 e e1 _ _ hne hl hl1 he he1
    have hl0 : mapLookup s1.u.instanceIDToGroupEntry id = some p := hl
    have hl2 : mapLookup s1.u.instanceIDToGroupEntry id1 = some p1 := hl1
    have he0 : s1.u.heap[p]? = some e := he
    have he2 : s1.u.heap[p1]? = some e1 := he1
    obtain ⟨_, e3, he3, hid3, hg3⟩ := hic1.keyOfEntry id p hl0
    obtain ⟨_, e4, he4, hid4, hg4⟩ := hic1.keyOfEntry id1 p1 hl2
    rw [he0] at he3
    injection he3 with he3
    subst he3
    rw [he2] at he4
    injection he4 with he4
    subst he4
    have hpp : p ≠ p1 := by
      intro h
      rw [h, he2] at he0
      injection he0 with he0
      rw [he0] at hid4
      exact hne (hid3.symm.trans hid4)
    have htag : e.tag ≠ e1.tag := by
      intro ht
      rw [ht] at hg3
      rcases hg3 with ⟨a, b⟩ | ⟨a, b⟩ <;> rcases hg4 with ⟨a1, b1⟩ | ⟨a1, b1⟩
      · rw [a] at a1
        injection a1 with a1
        exact hpp a1
      · rw [a] at b1
        cases b1
      · rw [a1] at b
        cases b
      · rw [a] at a1
        injection a1 with a1
        exact hpp a1
    refine ⟨hpp, ?_, htag⟩
    intro hm
    obtain ⟨_, e5, he5, _, g5, hg5⟩ := hinv1.keyOfEntry id p hl0
    obtain ⟨_, e6, he6, _, g6, hg6⟩ := hinv1.keyOfEntry id1 p1 hl2
    rw [he0] at he5
    injection he5 with he5
    subst he5
    rw [he2] at he6
    injection he6 with he6
    subst he6
    obtain ⟨tr5, h5⟩ := (hinv1.origin g5 e.tag p e hg5 he0).1
    obtain ⟨tr6, h6⟩ := (hinv1.origin g6 e1.tag p1 e1 hg6 he2).1
    rw [hm] at h5
    exact htag (hfresh tr5 tr6 e.tag e1.tag e1.m h5 h6)

/-- A poll and the same poll with the two poll groups listed in another order end the
same way, in equivalent states. -/
theorem pollGroupMembers_perm (c : Collaborators) (k : PollConsts) (g : pollGroupType)
    (s : State) (short long : List (MachineTag × Ptr))
    (hd : DistinctInstanceIds c) (hfresh : FreshHandles c) (hreach : Reachable c k s)
    (hlocal : PollLocal c s.trace)
    (hs : short.Perm s.u.shortGroup) (hl : long.Perm s.u.longGroup) :
    OutcomeRel (fun (_ : Unit) s2 (_ : Unit) s3 => PollEquiv s.trace s2 s3)
      (pollGroupMembers c k g s)
      (pollGroupMembers c k g { u := s.u.reorder short long, trace := s.trace }) := by
  obtain ⟨hwf, _⟩ := reachable_indexInv c k hd s hreach
  have hP : (s.u.pollGroup g).Perm ((s.u.reorder short long).pollGroup g) := by
    cases g with
    | shortPollGroup => exact hs.symm
    | longPollGroup => exact hl.symm
  have hE0 : PollEquiv s.trace { u := s.u, trace := s.trace ++ [Call.clockNow] }
      { u := s.u.reorder short long, trace := s.trace ++ [Call.clockNow] } :=
    ⟨List.prefix_append _ _, List.prefix_append _ _, fun _ => rfl,
      fun t => pollGroup_reorder s.u hwf short long hs hl pollGroupType.shortPollGroup t,
      fun t => pollGroup_reorder s.u hwf short long hs hl pollGroupType.longPollGroup t,
      fun _ => rfl, fun _ => rfl⟩
  have hloop := collectInstanceIDs_perm c k g (c.clockNow s.trace) s.trace hd hfresh hlocal
    (s.u.pollGroup g) ((s.u.reorder short long).pollGroup g) hP []
    { u := s.u, trace := s.trace ++ [Call.clockNow] } []
    { u := s.u.reorder short long, trace := s.trace ++ [Call.clockNow] }
    (membersInv_start c k g hd s hreach) ⟨List.Perm.refl _, hE0⟩
  cases h1 : collectInstanceIDs c k g (c.clockNow s.trace) (s.u.pollGroup g) []
      { u := s.u, trace := s.trace ++ [Call.clockNow] } with
  | ok ids s1 =>
    rw [h1] at hloop
    cases h2 : collectInstanceIDs c k g (c.clockNow s.trace)
        ((s.u.reorder short long).pollGroup g) []
        { u := s.u.reorder short long, trace := s.trace ++ [Call.clockNow] } with
    | ok ids1 t1 =>
      rw [h2] at hloop
      obtain ⟨hperm, hE1⟩ := hloop
      rw [pollGroupMembers_apply c k g s s1 ids h1,
        pollGroupMembers_apply c k g { u := s.u.reorder short long, trace := s.trace } t1
          ids1 h2]
      by_cases hids : ids = []
      · have hids1 : ids1 = [] := by
          rw [hids] at hperm
          exact List.Perm.eq_nil hperm
        rw [if_pos hids, if_pos hids1]
        exact hE1
      · have hids1 : ¬ ids1 = [] := by
          intro h0
          rw [h0] at hperm
          exact hids (List.Perm.eq_nil hperm.symm)
        rw [if_neg hids, if_neg hids1]
        obtain ⟨f, hf⟩ := hlocal.instances
        have hE2 : PollEquiv s.trace
            { u := s1.u, trace := s1.trace ++ [Call.environInstances ids] }
            { u := t1.u, trace := t1.trace ++ [Call.environInstances ids1] } :=
          ⟨hE1.pre.trans (List.prefix_append _ _), hE1.pre1.trans (List.prefix_append _ _),
            hE1.heap, hE1.short, hE1.long, hE1.index,
            fun m => by
              show callsOn m (t1.trace ++ [Call.environInstances ids1]) =
                callsOn m (s1.trace ++ [Call.environInstances ids])
              rw [callsOn_append, callsOn_append, hE1.calls m]
              rfl⟩
        have hB := batchInv_selected c k g hd hfresh s s1 ids
          (s1.trace ++ [Call.environInstances ids]) hreach h1
          (hE1.pre.trans (List.prefix_append _ _))
        have hloop2 := processInfoList_perm c k g f s.trace hlocal ids ids1 hperm.symm _ _
          hB hE2
        rw [hlocal.instancesError s1.trace t1.trace ids ids1 hE1.pre hE1.pre1 hperm,
          hf s1.trace ids hE1.pre, hf t1.trace ids1 hE1.pre1]
        cases (c.environInstances s1.trace ids).2 with
        | none => exact hloop2
        | some err =>
          by_cases herr : err ≠ Error.ErrPartialInstances
          · simp only [if_pos herr]
            exact trivial
          · simp only [if_neg herr]
            exact hloop2
    | error err1 t1 =>
      rw [h2] at hloop
      exact hloop.elim
    | panic =>
      rw [h2] at hloop
      exact hloop.elim
  | error err s1 =>
    rw [h1] at hloop
    cases h2 : collectInstanceIDs c k g (c.clockNow s.trace)
        ((s.u.reorder short long).pollGroup g) []
        { u := s.u.reorder short long, trace := s.trace ++ [Call.clockNow] } with
    | ok ids1 t1 =>
      rw [h2] at hloop
      exact hloop.elim
    | error err1 t1 =>
      rw [pollGroupMembers_apply_error c k g s s1 err h1,
        pollGroupMembers_apply_error c k g { u := s.u.reorder short long, trace := s.trace }
          t1 err1 h2]
      exact trivial
    | panic =>
      rw [h2] at hloop
      exact hloop.elim
  | panic =>
    rw [h1] at hloop
    cases h2 : collectInstanceIDs c k g (c.clockNow s.trace)
        ((s.u.reorder short long).pollGroup g) []
        { u := s.u.reorder short long, trace := s.trace ++ [Call.clockNow] } <;>
      rw [h2] at hloop <;> exact hloop.elim

/-- C24 (iteration-order independence of a poll).  Let the collaborators give different
ids to the machines of different tags and a machine to one tag only, let `s` be a
reachable state, and let the collaborators be such that, from the calls made in `s` on,
the clock reads the same time, a machine answers as the calls made on that machine
determine, an instance answers the same whatever the calls made, and the provider
answers with the instance of the id at each position (`PollLocal`).  Then
`pollGroupMembers` on `s` and on `s` with its two poll groups listed in any other order
both return without an error or both return an error, and neither panics; when they
return without an error they leave the same entries, the same lookups in the two poll
groups and in the reverse index, and have made the same calls on every machine, in the
same order (`PollEquiv`). -/
theorem poll_order_independent (c : Collaborators) (k : PollConsts) (g : pollGroupType)
    (s : State) (short long : List (MachineTag × Ptr))
    (hd : DistinctInstanceIds c) (hfresh : FreshHandles c) (hreach : Reachable c k s)
    (hlocal : PollLocal c s.trace)
    (hs : short.Perm s.u.shortGroup) (hl : long.Perm s.u.longGroup) :
    (∃ s2 s3, pollGroupMembers c k g s = Outcome.ok () s2 ∧
        pollGroupMembers c k g { u := s.u.reorder short long, trace := s.trace } =
          Outcome.ok () s3 ∧
        PollEquiv s.trace s2 s3) ∨
      (∃ err err1 s2 s3, pollGroupMembers c k g s = Outcome.error err s2 ∧
        pollGroupMembers c k g { u := s.u.reorder short long, trace := s.trace } =
          Outcome.error err1 s3) := by
  have h := pollGroupMembers_perm c k g s short long hd hfresh hreach hlocal hs hl
  cases h1 : pollGroupMembers c k g s with
  | ok a s2 =>
    rw [h1] at h
    cases h2 : pollGroupMembers c k g { u := s.u.reorder short long, trace := s.trace } with
    | ok a1 s3 =>
      rw [h2] at h
      exact Or.inl ⟨s2, s3, rfl, rfl, h⟩
    | error err1 s3 =>
      rw [h2] at h
      exact h.elim
    | panic =>
      rw [h2] at h
      exact h.elim
  | error err s2 =>
    rw [h1] at h
    cases h2 : pollGroupMembers c k g { u := s.u.reorder short long, trace := s.trace } with
    | ok a1 s3 =>
      rw [h2] at h
      exact h.elim
    | error err1 s3 => exact Or.inr ⟨err, err1, s2, s3, rfl, rfl⟩
    | panic =>
      rw [h2] at h
      exact h.elim
  | panic =>
    rw [h1] at h
    cases h2 : pollGroupMembers c k g { u := s.u.reorder short long, trace := s.trace } <;>
      rw [h2] at h <;> exact h.elim

/-! ## Two machines polled in either order -/

theorem orderWorld_distinctInstanceIds (clock : List Call → Time) (failing : Handle → Bool) :
    DistinctInstanceIds (orderWorld clock failing) := by
  have hid : ∀ (tr : List Call) (m : Handle) (id : InstanceId),
      (orderWorld clock failing).instanceId tr m = Except.ok id →
      (m = 1 ∧ id = "i-1") ∨ (m = 2 ∧ id = "i-2") := by
    intro tr m id h
    simp only [orderWorld] at h
    by_cases h1 : m = 1
    · rw [if_pos h1] at h
      injection h with h
      exact Or.inl ⟨h1, h.symm⟩
    · rw [if_neg h1] at h
      by_cases h2 : m = 2
      · rw [if_pos h2] at h
        injection h with h
        exact Or.inr ⟨h2, h.symm⟩
      · rw [if_neg h2] at h
        cases h
  have hfac : ∀ (tr : List Call) (tag : MachineTag) (m : Handle),
      (orderWorld clock failing).facadeMachine tr tag = Except.ok m →
      (tag = "1" ∧ m = 1) ∨ (tag = "2" ∧ m = 2) := by
    intro tr tag m h
    simp only [orderWorld] at h
    by_cases h1 : tag = "1"
    · rw [if_pos h1] at h
      injection h with h
      exact Or.inl ⟨h1, h.symm⟩
    · rw [if_neg h1] at h
      by_cases h2 : tag = "2"
      · rw [if_pos h2] at h
        injection h with h
        exact Or.inr ⟨h2, h.symm⟩
      · rw [if_neg h2] at h
        cases h
  refine ⟨?_, ?_⟩
  · intro tr m id h
    rcases hid tr m id h with ⟨_, h1⟩ | ⟨_, h1⟩ <;> rw [h1] <;> decide
  · intro tr1 tr2 tr3 tr4 tag1 tag2 m1 m2 id hf1 hf2 hi1 hi2
    rcases hfac tr1 tag1 m1 hf1 with ⟨ht1, hm1⟩ | ⟨ht1, hm1⟩ <;>
      rcases hfac tr2 tag2 m2 hf2 with ⟨ht2, hm2⟩ | ⟨ht2, hm2⟩ <;>
      rcases hid tr3 m1 id hi1 with ⟨hx1, hy1⟩ | ⟨hx1, hy1⟩ <;>
      rcases hid tr4 m2 id hi2 with ⟨hx2, hy2⟩ | ⟨hx2, hy2⟩ <;>
      first
      | (rw [hm1] at hx1; exact absurd hx1 (by decide))
      | (rw [hm2] at hx2; exact absurd hx2 (by decide))
      | (rw [hy1] at hy2; exact absurd hy2 (by decide))
      | (rw [ht1, ht2])

theorem orderWorld_freshHandles (clock : List Call → Time) (failing : Handle → Bool) :
    FreshHandles (orderWorld clock failing) := by
  have hfac : ∀ (tr : List Call) (tag : MachineTag) (m : Handle),
      (orderWorld clock failing).facadeMachine tr tag = Except.ok m →
      (tag = "1" ∧ m = 1) ∨ (tag = "2" ∧ m = 2) := by
    intro tr tag m h
    simp only [orderWorld] at h
    by_cases h1 : tag = "1"
    · rw [if_pos h1] at h
      injection h with h
      exact Or.inl ⟨h1, h.symm⟩
    · rw [if_neg h1] at h
      by_cases h2 : tag = "2"
      · rw [if_pos h2] at h
        injection h with h
        exact Or.inr ⟨h2, h.symm⟩
      · rw [if_neg h2] at h
        cases h
  intro tr tr1 tag tag1 m h h1
  rcases hfac tr tag m h with ⟨ht, hm⟩ | ⟨ht, hm⟩ <;>
    rcases hfac tr1 tag1 m h1 with ⟨ht1, hm1⟩ | ⟨ht1, hm1⟩ <;>
    first
    | (rw [hm] at hm1; exact absurd hm1 (by decide))
    | (rw [ht, ht1])

theorem stoppedClock_frozen (tr : List Call) (h : pairQueued.trace <+: tr) :
    stoppedClock tr = stoppedClock pairQueued.trace := by
  have hlen : 6 ≤ tr.length := h.length_le
  unfold stoppedClock
  rw [Nat.min_eq_right hlen]
  rfl

theorem orderWorld_pollLocal (failing : Handle → Bool) :
    PollLocal (orderWorld stoppedClock failing) pairQueued.trace where
  clock := fun tr h => stoppedClock_frozen tr h
  instanceId := fun _ _ _ _ _ _ => rfl
  instanceStatus := fun _ _ _ _ _ _ => rfl
  setInstanceStatus := fun _ _ _ _ _ _ _ _ => rfl
  life := fun _ _ _ _ _ _ => rfl
  providerAddresses := fun _ _ _ _ _ _ => rfl
  providerAddressesOnError := fun _ _ _ _ _ _ => rfl
  setProviderAddresses := fun _ _ _ _ _ _ _ => rfl
  status := fun _ _ _ _ _ _ => rfl
  instStatus := fun _ _ _ _ _ => rfl
  instAddresses := fun _ _ _ _ _ => rfl
  instances := ⟨fun id => if id = "i-1" then some 1 else if id = "i-2" then some 2 else none,
    fun _ _ _ => rfl⟩
  instancesError := fun _ _ _ _ _ _ _ => rfl

theorem stoppedQueued_reachable :
    Reachable (orderWorld stoppedClock (fun _ => false)) defaultConsts pairQueued :=
  Reachable.queue _ pairQueued "2"
    (Reachable.queue State.init
      { u := { heap := [{ m := 1, tag := "1", instanceID := "",
                          shortPollInterval := 1000000000, shortPollAt := 3000000000 }],
               shortGroup := [("1", 0)], longGroup := [], instanceIDToGroupEntry := [] },
        trace := [Call.facadeMachine "1", Call.isManual 1, Call.clockNow] }
      "1" Reachable.init (by rfl))
    (by rfl)

theorem tickQueued_reachable :
    Reachable (orderWorld tickClock (fun _ => false)) defaultConsts pairQueued :=
  Reachable.queue _ pairQueued "2"
    (Reachable.queue State.init
      { u := { heap := [{ m := 1, tag := "1", instanceID := "",
                          shortPollInterval := 1000000000, shortPollAt := 3000000000 }],
               shortGroup := [("1", 0)], longGroup := [], instanceIDToGroupEntry := [] },
        trace := [Call.facadeMachine "1", Call.isManual 1, Call.clockNow] }
      "1" Reachable.init (by rfl))
    (by rfl)

theorem failingQueued_reachable :
    Reachable (orderWorld stoppedClock (fun m => decide (m = 1))) defaultConsts pairQueued :=
  Reachable.queue _ pairQueued "2"
    (Reachable.queue State.init
      { u := { heap := [{ m := 1, tag := "1", instanceID := "",
                          shortPollInterval := 1000000000, shortPollAt := 3000000000 }],
               shortGroup := [("1", 0)], longGroup := [], instanceIDToGroupEntry := [] },
        trace := [Call.facadeMachine "1", Call.isManual 1, Call.clockNow] }
      "1" Reachable.init (by rfl))
    (by rfl)

/-- The second loop over a batch of two ids whose slots both hold an instance, when the
first slot is handled without error: the loop ends as the handling of the second slot
does. -/
theorem processInfoList_pair (c : Collaborators) (k : PollConsts) (g : pollGroupType)
    (id1 id2 : InstanceId) (i1 i2 : InstHandle) (p1 p2 : Ptr) (s0 s1 : State)
    (h1 : mapLookup s0.u.instanceIDToGroupEntry id1 = some p1)
    (hrun1 : pollGroupMembersSlot c k g p1 i1 s0 = Outcome.ok () s1)
    (h2 : mapLookup s1.u.instanceIDToGroupEntry id2 = some p2) :
    processInfoList c k g [id1, id2] 0 [some i1, some i2] s0 =
      pollGroupMembersSlot c k g p2 i2 s1 := by
  rw [processInfoList_present c k g [id1, id2] 0 i1 [some i2] s0 id1 p1 rfl h1, hrun1]
  simp only []
  rw [processInfoList_present c k g [id1, id2] (0 + 1) i2 [] s1 id2 p2 rfl h2]
  cases pollGroupMembersSlot c k g p2 i2 s1 with
  | ok a s2 => rfl
  | error err s2 => rfl
  | panic => rfl

theorem tickPolled_run :
    pollGroupMembers (orderWorld tickClock (fun _ => false)) defaultConsts
        pollGroupType.shortPollGroup pairQueued = Outcome.ok () tickPolled := by
  rw [pollGroupMembers_apply _ defaultConsts pollGroupType.shortPollGroup pairQueued
    pairSelected ["i-2", "i-1"] (by rfl), if_neg (by decide)]
  exact (processInfoList_pair _ defaultConsts pollGroupType.shortPollGroup "i-2" "i-1" 2 1
    1 0 _ tickHalf (by rfl) (by rfl) (by rfl)).trans (by rfl)

theorem tickPolledSwapped_run :
    pollGroupMembers (orderWorld tickClock (fun _ => false)) defaultConsts
        pollGroupType.shortPollGroup pairSwapped = Outcome.ok () tickPolledSwapped := by
  rw [pollGroupMembers_apply _ defaultConsts pollGroupType.shortPollGroup pairSwapped
    pairSelectedSwapped ["i-1", "i-2"] (by rfl), if_neg (by decide)]
  exact (processInfoList_pair _ defaultConsts pollGroupType.shortPollGroup "i-1" "i-2" 1 2
    0 1 _ tickHalfSwapped (by rfl) (by rfl) (by rfl)).trans (by rfl)

theorem failedPolled_run :
    pollGroupMembers (orderWorld stoppedClock (fun m => decide (m = 1))) defaultConsts
        pollGroupType.shortPollGroup pairQueued =
      Outcome.error (Error.other "cannot set instance status") failedPolled := by
  rw [pollGroupMembers_apply _ defaultConsts pollGroupType.shortPollGroup pairQueued
    pairSelected ["i-2", "i-1"] (by rfl), if_neg (by decide)]
  exact (processInfoList_pair _ defaultConsts pollGroupType.shortPollGroup "i-2" "i-1" 2 1
    1 0 _ stoppedHalf (by rfl) (by rfl) (by rfl)).trans (by rfl)

theorem failedPolledSwapped_run :
    pollGroupMembers (orderWorld stoppedClock (fun m => decide (m = 1))) defaultConsts
        pollGroupType.shortPollGroup pairSwapped =
      Outcome.error (Error.other "cannot set instance status") failedPolledSwapped := by
  rw [pollGroupMembers_apply _ defaultConsts pollGroupType.shortPollGroup pairSwapped
    pairSelectedSwapped ["i-1", "i-2"] (by rfl), if_neg (by decide)]
  rfl

theorem stoppedPolled_run :
    pollGroupMembers (orderWorld stoppedClock (fun _ => false)) defaultConsts
        pollGroupType.shortPollGroup pairQueued = Outcome.ok () stoppedPolled := by
  rw [pollGroupMembers_apply _ defaultConsts pollGroupType.shortPollGroup pairQueued
    pairSelected ["i-2", "i-1"] (by rfl), if_neg (by decide)]
  exact (processInfoList_pair _ defaultConsts pollGroupType.shortPollGroup "i-2" "i-1" 2 1
    1 0 _ stoppedHalf (by rfl) (by rfl) (by rfl)).trans (by rfl)

/-- C24, counterexample.  The state `pairQueued` is reachable and `pairSwapped` is the
same state with the short poll group listed in the other order; the provider answers
with the instance of the id at each position.  With a clock that advances at every call
both short polls return without error, but the entry of machine "1" ends with
`shortPollAt` at 23 s when machine "2" is handled first and at 14 s when it is handled
second.  With collaborators that do not depend on the order of the calls at all, but
where `SetInstanceStatus` fails on machine "1", both short polls return the error, but
the status of machine "2" has been written, and the machine moved to the long group,
only when it is handled first. -/
theorem poll_depends_on_order :
    pairSwapped =
        { u := pairQueued.u.reorder [("1", 0), ("2", 1)] [], trace := pairQueued.trace } ∧
      List.Perm [("1", 0), ("2", 1)] pairQueued.u.shortGroup ∧
      (Reachable (orderWorld tickClock (fun _ => false)) defaultConsts pairQueued ∧
        (∀ tr ids, (orderWorld tickClock (fun _ => false)).environInstances tr ids =
          (ids.map (fun id =>
            if id = "i-1" then some 1 else if id = "i-2" then some 2 else none), none)) ∧
        pollGroupMembers (orderWorld tickClock (fun _ => false)) defaultConsts
          pollGroupType.shortPollGroup pairQueued = Outcome.ok () tickPolled ∧
        pollGroupMembers (orderWorld tickClock (fun _ => false)) defaultConsts
          pollGroupType.shortPollGroup pairSwapped = Outcome.ok () tickPolledSwapped ∧
        tickPolled.u.heap[0]? =
          some { m := 1, tag := "1", instanceID := "i-1", shortPollInterval := 1000000000,
                 shortPollAt := 23000000000 } ∧
        tickPolledSwapped.u.heap[0]? =
          some { m := 1, tag := "1", instanceID := "i-1", shortPollInterval := 1000000000,
                 shortPollAt := 14000000000 }) ∧
      (Reachable (orderWorld stoppedClock (fun m => decide (m = 1))) defaultConsts
          pairQueued ∧
        PollLocal (orderWorld stoppedClock (fun m => decide (m = 1))) pairQueued.trace ∧
        pollGroupMembers (orderWorld stoppedClock (fun m => decide (m = 1))) defaultConsts
          pollGroupType.shortPollGroup pairQueued =
            Outcome.error (Error.other "cannot set instance status") failedPolled ∧
        pollGroupMembers (orderWorld stoppedClock (fun m => decide (m = 1))) defaultConsts
          pollGroupType.shortPollGroup pairSwapped =
            Outcome.error (Error.other "cannot set instance status") failedPolledSwapped ∧
        Call.setInstanceStatus 2 Status.Running "" ∈ failedPolled.trace ∧
        Call.setInstanceStatus 2 Status.Running "" ∉ failedPolledSwapped.trace ∧
        mapLookup failedPolled.u.longGroup "2" = some 1 ∧
        mapLookup failedPolledSwapped.u.longGroup "2" = none) :=
  ⟨rfl, List.Perm.swap _ _ _,
    ⟨tickQueued_reachable, fun _ _ => rfl, tickPolled_run, tickPolledSwapped_run, rfl, rfl⟩,
    ⟨failingQueued_reachable, orderWorld_pollLocal _, failedPolled_run,
      failedPolledSwapped_run,
      by simp [failedPolled, stoppedHalf],
      by simp [failedPolledSwapped, pairSelectedSwapped, pairQueued], rfl, rfl⟩⟩

theorem poll_order_independent_witness :
    ∃ s3, pollGroupMembers (orderWorld stoppedClock (fun _ => false)) defaultConsts
        pollGroupType.shortPollGroup pairSwapped = Outcome.ok () s3 ∧
      PollEquiv pairQueued.trace stoppedPolled s3 := by
  have h := poll_order_independent (orderWorld stoppedClock (fun _ => false)) defaultConsts
    pollGroupType.shortPollGroup pairQueued [("1", 0), ("2", 1)] []
    (orderWorld_distinctInstanceIds stoppedClock (fun _ => false))
    (orderWorld_freshHandles stoppedClock (fun _ => false))
    stoppedQueued_reachable (orderWorld_pollLocal (fun _ => false)) (List.Perm.swap _ _ _)
    (List.Perm.refl _)
  rcases h with ⟨s2, s3, h2, h3, hE⟩ | ⟨err, err1, s2, s3, h2, _⟩
  · rw [stoppedPolled_run] at h2
    injection h2 with _ h2
    rw [h2]
    exact ⟨s3, h3, hE⟩
  · rw [stoppedPolled_run] at h2
    cases h2

/-! ## Machines that share an instance id, and an empty instance id -/

theorem sharedQueued_reachable
    (instances : List InstanceId → List (Option InstHandle) × Option Error) :
    Reachable (sharedWorld instances) defaultConsts pairQueued :=
  Reachable.queue _ pairQueued "2"
    (Reachable.queue State.init
      { u := { heap := [{ m := 1, tag := "1", instanceID := "",
                          shortPollInterval := 1000000000, shortPollAt := 3000000000 }],
               shortGroup := [("1", 0)], longGroup := [], instanceIDToGroupEntry := [] },
        trace := [Call.facadeMachine "1", Call.isManual 1, Call.clockNow] }
      "1" Reachable.init (by rfl))
    (by rfl)

theorem sharedSelected_run
    (instances : List InstanceId → List (Option InstHandle) × Option Error) :
    collectInstanceIDs (sharedWorld instances) defaultConsts pollGroupType.shortPollGroup
        ((sharedWorld instances).clockNow pairQueued.trace)
        (pairQueued.u.pollGroup pollGroupType.shortPollGroup) []
        { u := pairQueued.u, trace := pairQueued.trace ++ [Call.clockNow] } =
      Outcome.ok ["i-x", "i-x"] sharedSelected := by
  rfl

theorem sharedHalf_run
    (instances : List InstanceId → List (Option InstHandle) × Option Error) :
    pollGroupMembersSlot (sharedWorld instances) defaultConsts pollGroupType.shortPollGroup
        0 7
        { u := sharedSelected.u,
          trace := sharedSelected.trace ++ [Call.environInstances ["i-x", "i-x"]] } =
      Outcome.ok () sharedHalf := by
  rfl

theorem sharedPolled_run :
    pollGroupMembers (sharedWorld knownEverywhere) defaultConsts
        pollGroupType.shortPollGroup pairQueued = Outcome.ok () sharedPolled := by
  rw [pollGroupMembers_apply _ defaultConsts pollGroupType.shortPollGroup pairQueued
    sharedSelected ["i-x", "i-x"] (sharedSelected_run knownEverywhere), if_neg (by decide)]
  exact (processInfoList_pair _ defaultConsts pollGroupType.shortPollGroup "i-x" "i-x" 7 7
    0 0 _ sharedHalf (by rfl) (sharedHalf_run knownEverywhere) (by rfl)).trans (by rfl)

theorem sharedPolledAgain_run :
    pollGroupMembers (sharedWorld knownEverywhere) defaultConsts
        pollGroupType.shortPollGroup sharedPolled = Outcome.ok () sharedPolledAgain := by
  rw [pollGroupMembers_apply _ defaultConsts pollGroupType.shortPollGroup sharedPolled
    { u := sharedPolled.u, trace := sharedPolled.trace ++ [Call.clockNow] } ["i-x"] (by rfl),
    if_neg (by decide)]
  rfl

theorem blankQueued_reachable : Reachable blankIdWorld defaultConsts demoQueued :=
  Reachable.queue State.init demoQueued "1" Reachable.init (by rfl)

theorem blankPolled_run :
    pollGroupMembers blankIdWorld defaultConsts pollGroupType.shortPollGroup demoQueued =
      Outcome.ok () blankPolled := by
  rw [pollGroupMembers_apply _ defaultConsts pollGroupType.shortPollGroup demoQueued
    { u := blankPolled.u, trace := demoQueued.trace ++ [Call.clockNow, Call.instanceId 1] }
    [""] (by rfl), if_neg (by decide)]
  rfl

theorem blankBumped_run :
    pollGroupMembers blankIdWorld defaultConsts pollGroupType.shortPollGroup blankPolled =
      Outcome.ok () blankBumped := by
  rw [pollGroupMembers_apply _ defaultConsts pollGroupType.shortPollGroup blankPolled
    blankBumped [] (by rfl), if_pos rfl]

/-- C12, counterexample.  With two machines that report the same instance id, known to
the provider at every position, the state `sharedPolled` is reachable; in it machine "1"
is in the short group and not due at the next short poll, which starts at 26 s while its
`shortPollAt` is 29 s.  That poll selects machine "2" only, and the batch is its id; the
reverse index files the id under the entry of machine "1", so the slot is handled for
that entry: `InstanceStatus()`, `Life()`, `ProviderAddresses()` and `Status()` are
called on machine "1", and its entry is bumped, to an interval of 8 s due at 43 s. -/
theorem not_due_entry_polled :
    Reachable (sharedWorld knownEverywhere) defaultConsts sharedPolled ∧
      mapLookup sharedPolled.u.shortGroup "1" = some 0 ∧
      sharedPolled.u.heap[0]? =
        some { m := 1, tag := "1", instanceID := "i-x", shortPollInterval := 4000000000,
               shortPollAt := 29000000000 } ∧
      (sharedWorld knownEverywhere).clockNow sharedPolled.trace = 26000000000 ∧
      pollGroupMembers (sharedWorld knownEverywhere) defaultConsts
        pollGroupType.shortPollGroup sharedPolled = Outcome.ok () sharedPolledAgain ∧
      sharedPolledAgain.u.heap[0]? =
        some { m := 1, tag := "1", instanceID := "i-x", shortPollInterval := 8000000000,
               shortPollAt := 43000000000 } ∧
      sharedPolledAgain.trace = sharedPolled.trace ++ [Call.clockNow,
        Call.environInstances ["i-x"], Call.instanceStatus 1, Call.instStatus 7, Call.life 1,
        Call.providerAddresses 1, Call.instAddresses 7, Call.status 1,
        Call.providerAddresses 1, Call.clockNow] :=
  ⟨Reachable.poll pairQueued sharedPolled pollGroupType.shortPollGroup
      (sharedQueued_reachable knownEverywhere) sharedPolled_run,
    rfl, rfl, rfl, sharedPolledAgain_run, rfl, rfl⟩

/-- C13, counterexample.  With a machine whose `InstanceId()` returns the empty id
without an error at first, the state `blankPolled` is reachable; in it the entry of
machine "1" is in the short group, has no instance id and is due at the next short poll,
at 6 s, and the reverse index files the empty id under it.  At that poll `InstanceId()`
returns the NotProvisioned error; the poll returns without error and the entry is
bumped, still without an id, and is still a value of `instanceIDToGroupEntry`. -/
theorem unprovisioned_entry_indexed :
    Reachable blankIdWorld defaultConsts blankPolled ∧
      mapLookup blankPolled.u.shortGroup "1" = some 0 ∧
      blankPolled.u.heap[0]? =
        some { m := 1, tag := "1", instanceID := "", shortPollInterval := 1000000000,
               shortPollAt := 3000000000 } ∧
      blankIdWorld.clockNow blankPolled.trace = 6000000000 ∧
      blankIdWorld.instanceId (blankPolled.trace ++ [Call.clockNow]) 1 =
        Except.error Error.NotProvisioned ∧
      pollGroupMembers blankIdWorld defaultConsts pollGroupType.shortPollGroup blankPolled =
        Outcome.ok () blankBumped ∧
      blankBumped.u.heap[0]? =
        some { m := 1, tag := "1", instanceID := "", shortPollInterval := 2000000000,
               shortPollAt := 10000000000 } ∧
      mapLookup blankBumped.u.instanceIDToGroupEntry "" = some 0 :=
  ⟨Reachable.poll demoQueued blankPolled pollGroupType.shortPollGroup blankQueued_reachable
      blankPolled_run,
    rfl, rfl, rfl, rfl, blankBumped_run, rfl, rfl⟩

/-! ## A provider address list that comes with an error -/

/-- C5, counterexample.  Machine "1" is in the long group; its `ProviderAddresses()`
fails, returning the address `10.0.0.1` together with the error.  With the provider
status Running, `maybeSwitchPollGroup` for the long group ignores the error, finds one
address, and leaves the worker as it was: the entry is still in the long group, although
the address list could not be read. -/
theorem unreadable_addresses_not_demoted :
    leakyWorld.providerAddresses demoPromoted.trace 1 =
        Except.error (Error.other "cannot read addresses") ∧
      mapLookup demoPromoted.u.longGroup "1" = some 0 ∧
      mapLookup demoPromoted.u.shortGroup "1" = none ∧
      demoPromoted.u.heap[0]? =
        some { m := 1, tag := "1", instanceID := "i-1", shortPollInterval := 1000000000,
               shortPollAt := 3000000000 } ∧
      maybeSwitchPollGroup leakyWorld defaultConsts pollGroupType.longPollGroup 0
          Status.Running Status.Started demoPromoted =
        Outcome.ok ()
          { u := demoPromoted.u, trace := demoPromoted.trace ++ [Call.providerAddresses 1] } :=
  ⟨rfl, rfl, rfl, rfl, rfl⟩

/-! ## The group of an entry whose model status cannot be read -/

/-- C26 (a model status that cannot be read).  When `InstanceStatus()` fails for the
entry `e` at `p`, `processProviderInfo` returns Unknown without an error, its only call
being that read.  With the machine status `ms` read next, handling the slot returns
without error, and the calls it makes are that read, `Status()`, `ProviderAddresses()`
and at most one clock reading, none of them a write.  An entry polled from the long
group is afterwards in the short group and out of the long group, and reset.  An entry
polled from the short group is afterwards in the short group and out of the long group
unless `ProviderAddresses()` returns at least one address and the machine status is
Started; in that case it is in the long group and out of the short group. -/
theorem unreadable_status_policy (c : Collaborators) (k : PollConsts) (p : Ptr)
    (info : InstHandle) (s : State) (e : pollGroupEntry) (err : Error) (ms : StatusResult)
    (hheap : s.u.heap[p]? = some e)
    (hcur : c.instanceStatus s.trace e.m = Except.error err)
    (hms : c.status (s.trace ++ [Call.instanceStatus e.m]) e.m = Except.ok ms) :
    processProviderInfo c k p info s =
        Outcome.ok Status.Unknown
          { u := s.u, trace := s.trace ++ [Call.instanceStatus e.m] } ∧
      (∀ g, ∃ s1 new, pollGroupMembersSlot c k g p info s = Outcome.ok () s1 ∧
        s1.trace = s.trace ++ [Call.instanceStatus e.m, Call.status e.m,
          Call.providerAddresses e.m] ++ new ∧ (new = [] ∨ new = [Call.clockNow])) ∧
      (∃ s1, pollGroupMembersSlot c k pollGroupType.longPollGroup p info s =
          Outcome.ok () s1 ∧
        mapLookup s1.u.shortGroup e.tag = some p ∧ mapLookup s1.u.longGroup e.tag = none ∧
        s1.u.heap[p]? = some (e.resetShortPollInterval k
          (c.clockNow (s.trace ++ [Call.instanceStatus e.m, Call.status e.m,
            Call.providerAddresses e.m])))) ∧
      (mapLookup s.u.shortGroup e.tag = some p → mapLookup s.u.longGroup e.tag = none →
        ∃ s1, pollGroupMembersSlot c k pollGroupType.shortPollGroup p info s =
            Outcome.ok () s1 ∧
          ((c.addressesReturned (s.trace ++ [Call.instanceStatus e.m, Call.status e.m]) e.m
                ≠ [] ∧ ms.Status = Status.Started) →
            mapLookup s1.u.longGroup e.tag = some p ∧
              mapLookup s1.u.shortGroup e.tag = none) ∧
          (¬ (c.addressesReturned (s.trace ++ [Call.instanceStatus e.m, Call.status e.m])
                e.m ≠ [] ∧ ms.Status = Status.Started) →
            mapLookup s1.u.shortGroup e.tag = some p ∧
              mapLookup s1.u.longGroup e.tag = none)) := by
  have hlt : p < s.u.heap.length := (List.getElem?_eq_some_iff.1 hheap).1
  have hunk : ¬ (Status.Unknown = Status.Allocating ∨ Status.Unknown = Status.Pending) := by
    decide
  have hheap1 : ({ u := s.u, trace := s.trace ++ [Call.instanceStatus e.m] ++
      [Call.status e.m] } : State).u.heap[p]? = some e := hheap
  have htr : s.trace ++ [Call.instanceStatus e.m] ++ [Call.status e.m] =
      s.trace ++ [Call.instanceStatus e.m, Call.status e.m] := by
    rw [List.append_assoc]
    rfl
  have hlong := maybeSwitchPollGroup_demote c k p Status.Unknown ms.Status
    { u := s.u, trace := s.trace ++ [Call.instanceStatus e.m] ++ [Call.status e.m] } e
    hheap1 hunk (Or.inl rfl)
  refine ⟨processProviderInfo_unread c k p info s e err hheap hcur, ?_, ?_, ?_⟩
  · intro g
    rw [pollGroupMembersSlot_unread c k g p info s e err ms hheap hcur hms]
    cases g with
    | longPollGroup =>
      rw [hlong]
      exact ⟨_, [Call.clockNow], rfl, by simp, Or.inr rfl⟩
    | shortPollGroup =>
      by_cases hp : c.addressesReturned
          (s.trace ++ [Call.instanceStatus e.m] ++ [Call.status e.m]) e.m ≠ [] ∧
          ms.Status = Status.Started
      · rw [maybeSwitchPollGroup_promote c k p Status.Unknown ms.Status _ e hheap1 hunk
          hp.1 hp.2]
        exact ⟨_, [], rfl, by simp, Or.inl rfl⟩
      · have hb : c.addressesReturned
            (s.trace ++ [Call.instanceStatus e.m] ++ [Call.status e.m]) e.m = [] ∨
            ms.Status ≠ Status.Started := by
          by_cases h3 : c.addressesReturned
              (s.trace ++ [Call.instanceStatus e.m] ++ [Call.status e.m]) e.m = []
          · exact Or.inl h3
          · exact Or.inr (fun h4 => hp ⟨h3, h4⟩)
        rw [maybeSwitchPollGroup_backoff c k p Status.Unknown ms.Status _ e hheap1 hunk hb]
        exact ⟨_, [Call.clockNow], rfl, by simp, Or.inr rfl⟩
  · rw [pollGroupMembersSlot_unread c k _ p info s e err ms hheap hcur hms, hlong]
    refine ⟨_, rfl, ?_, ?_, ?_⟩
    · show mapLookup (mapInsert s.u.shortGroup e.tag p) e.tag = some p
      rw [mapLookup_mapInsert, if_pos rfl]
    · show mapLookup (mapDelete s.u.longGroup e.tag) e.tag = none
      rw [mapLookup_mapDelete, if_pos rfl]
    · show (s.u.heap.set p _)[p]? = _
      rw [List.getElem?_set_self hlt]
      simp
  · intro hshort hlongNone
    rw [pollGroupMembersSlot_unread c k _ p info s e err ms hheap hcur hms, ← htr]
    by_cases hp : c.addressesReturned
        (s.trace ++ [Call.instanceStatus e.m] ++ [Call.status e.m]) e.m ≠ [] ∧
        ms.Status = Status.Started
    · rw [maybeSwitchPollGroup_promote c k p Status.Unknown ms.Status _ e hheap1 hunk
        hp.1 hp.2]
      refine ⟨_, rfl, fun _ => ⟨?_, ?_⟩, fun h => absurd hp h⟩
      · show mapLookup (mapInsert s.u.longGroup e.tag p) e.tag = some p
        rw [mapLookup_mapInsert, if_pos rfl]
      · show mapLookup (mapDelete s.u.shortGroup e.tag) e.tag = none
        rw [mapLookup_mapDelete, if_pos rfl]
    · have hb : c.addressesReturned
          (s.trace ++ [Call.instanceStatus e.m] ++ [Call.status e.m]) e.m = [] ∨
          ms.Status ≠ Status.Started := by
        by_cases h3 : c.addressesReturned
            (s.trace ++ [Call.instanceStatus e.m] ++ [Call.status e.m]) e.m = []
        · exact Or.inl h3
        · exact Or.inr (fun h4 => hp ⟨h3, h4⟩)
      rw [maybeSwitchPollGroup_backoff c k p Status.Unknown ms.Status _ e hheap1 hunk hb]
      exact ⟨_, rfl, fun h => absurd h hp, fun _ => ⟨hshort, hlongNone⟩⟩

theorem unreadable_status_policy_witness :
    ∃ s1, pollGroupMembersSlot unreadableWorld defaultConsts pollGroupType.longPollGroup 0 1
        unreadablePolled = Outcome.ok () s1 ∧
      mapLookup s1.u.shortGroup "1" = some 0 ∧ mapLookup s1.u.longGroup "1" = none := by
  obtain ⟨_, _, ⟨s1, hrun, hs, hl, _⟩, _⟩ :=
    unreadable_status_policy unreadableWorld defaultConsts 0 1 unreadablePolled
      { m := 1, tag := "1", instanceID := "i-1", shortPollInterval := 1000000000,
        shortPollAt := 3000000000 }
      (Error.other "no instance status") { Status := Status.Started, Info := "" }
      (by rfl) (by rfl) (by rfl)
  exact ⟨s1, hrun, hs, hl⟩

end instancepoller
